import Mathlib

/-!
# Marvin: verification development for `marvin.hpp`

A shallow embedding of the tensor file format (`Tensor<T>::read`, `Tensor<T>::write`,
`readTensors`, `writeTensors`), of `Response::Malloc`, and of the `Net` scheduling loops
(`Net::Malloc`, `Net::forward`, `Net::backward`), together with theorems about them.

Conventions of the embedding.

* Machine integers are `Nat`/`Int` with explicit wrap-around: `size_t` is a `Nat` reduced
  modulo `2^64`, `int` is an `Int` in `[-2^31, 2^31)`, `unsigned` is a `Nat` modulo `2^32`.
* A byte is a `Nat` below `256`; a file is a list of bytes; the host is little-endian.
* An element of a `Tensor<T>` is its object representation, read as a little-endian number
  below `256 ^ sizeof(T)`.
* A call either returns (`Outcome.ok`), terminates the process (`Outcome.fatal`: `FatalError`,
  or an exception nobody catches), or has undefined behaviour (`Outcome.undefined`: a null or
  out-of-bounds access, a division by zero, a signed overflow).
-/

namespace marvin

/-! ## Outcomes -/

/-- Result of running a piece of the program. -/
inductive Outcome (α : Type) where
  | ok (a : α)
  | fatal
  | undefined
  deriving DecidableEq, Repr

/-- Sequencing of calls: the first abnormal outcome wins. -/
def Outcome.bind {α β : Type} (o : Outcome α) (f : α → Outcome β) : Outcome β :=
  match o with
  | .ok a => f a
  | .fatal => .fatal
  | .undefined => .undefined

/-! ## Machine integers and bytes -/

/-- Smallest value of `int`. -/
def INT_MIN : Int := -2147483648

/-- Largest value of `int`. -/
def INT_MAX : Int := 2147483647

/-- Largest value of `size_t`. -/
def SIZE_MAX : Nat := 2 ^ 64 - 1

/-- Conversion `(size_t)(d)` of an `int`. -/
def toSizeT (d : Int) : Nat := (d % (2 ^ 64 : Int)).toNat

/-- Conversion of an unsigned quantity to `int` (two's complement wrap-around). -/
def toInt32 (n : Nat) : Int :=
  if n % 2 ^ 32 < 2 ^ 31 then ((n % 2 ^ 32 : Nat) : Int) else ((n % 2 ^ 32 : Nat) : Int) - 2 ^ 32

/-- The `w` little-endian bytes of the object representation `v`. -/
def toBytes : Nat → Nat → List Nat
  | 0, _ => []
  | w + 1, v => v % 256 :: toBytes w (v / 256)

/-- The number whose little-endian bytes are `bs`. -/
def fromBytes : List Nat → Nat
  | [] => 0
  | b :: bs => b + 256 * fromBytes bs

/-- The four bytes of an `int` in memory. -/
def int2bytes (x : Int) : List Nat := toBytes 4 (x % (2 ^ 32 : Int)).toNat

/-- The `int` stored in four bytes of memory. -/
def bytes2int (bs : List Nat) : Int := toInt32 (fromBytes bs)

/-- Cut a buffer into `count` items of `w` bytes each. -/
def splitItems (w : Nat) : Nat → List Nat → List (List Nat)
  | 0, _ => []
  | c + 1, buf => buf.take w :: splitItems w c (buf.drop w)

/-- The effect of `std::vector::resize(n)` / `std::string::resize(n)`: keep the first `n`
entries, fill up with `fill`. -/
def resize {α : Type} (xs : List α) (n : Nat) (fill : α) : List α :=
  (xs ++ List.replicate n fill).take n

/-- Storing `src` at the start of the memory block `dst`. -/
def overwrite {α : Type} (dst src : List α) : List α :=
  src ++ dst.drop src.length

/-! ## `numel`, `sizeofitem`, `same_dim` -/

/-- Embedding of `numel`: the product of the dimensions, computed in `size_t`. -/
def numel (dim : List Int) : Nat :=
  dim.foldl (fun res d => (res * toSizeT d) % 2 ^ 64) 1

/-- Embedding of `sizeofitem`: the product of the dimensions after the first. -/
def sizeofitem (dim : List Int) : Nat :=
  (dim.drop 1).foldl (fun res d => (res * toSizeT d) % 2 ^ 64) 1

/-- Embedding of `same_dim`: same rank and the same entry at every position. -/
def same_dim : List Int → List Int → Bool
  | [], [] => true
  | a :: as, b :: bs => if a ≠ b then false else same_dim as bs
  | _, _ => false

/-! ## Half precision conversion -/

/-- Embedding of `ishnan` on the bit pattern of a `half`. -/
def ishnan (h : Nat) : Bool :=
  ((h &&& 0x7c00) == 0x7c00) && ((h &&& 0x03ff) != 0)

/-- Embedding of `cpu_float2half`: bit pattern of a `float` to bit pattern of a `half`. -/
def cpu_float2half (f : Nat) : Nat :=
  let x := f % 2 ^ 32
  let u := x &&& 0x7fffffff
  if u > 0x7f800000 then 0x7fff
  else
    let sign := (x >>> 16) &&& 0x8000
    if u > 0x477fefff then sign ||| 0x7c00
    else if u < 0x33000001 then sign ||| 0x0000
    else
      let exponent0 := (u >>> 23) &&& 0xff
      let mantissa0 := u &&& 0x7fffff
      let shift := if exponent0 > 0x70 then 13 else 0x7e - exponent0
      let exponent := if exponent0 > 0x70 then exponent0 - 0x70 else 0
      let mantissa1 := if exponent0 > 0x70 then mantissa0 else mantissa0 ||| 0x800000
      let lsb := (1 <<< shift) % 2 ^ 32
      let lsb_s1 := lsb >>> 1
      let lsb_m1 := lsb - 1
      let remainder := mantissa1 &&& lsb_m1
      let mantissa := mantissa1 >>> shift
      if remainder > lsb_s1 ∨ (remainder = lsb_s1 ∧ (mantissa &&& 0x1) ≠ 0) then
        if ((mantissa + 1) &&& 0x3ff) = 0 then
          (sign ||| ((exponent + 1) <<< 10) ||| 0) % 2 ^ 16
        else
          (sign ||| (exponent <<< 10) ||| (mantissa + 1)) % 2 ^ 16
      else
        (sign ||| (exponent <<< 10) ||| mantissa) % 2 ^ 16

/-- The normalisation loop of `cpu_half2float` (`do ... while (!msb)`), which shifts the
mantissa left until its bit 22 has been shifted out; `fuel` bounds the number of rounds. -/
def half2floatNormalize : Nat → Nat → Nat → Nat × Nat
  | 0, mantissa, exponent => (mantissa, exponent)
  | fuel + 1, mantissa, exponent =>
    let msb := mantissa &&& 0x400000
    let mantissa1 := (mantissa <<< 1) % 2 ^ 32
    let exponent1 := (exponent + (2 ^ 32 - 1)) % 2 ^ 32
    if msb = 0 then half2floatNormalize fuel mantissa1 exponent1 else (mantissa1, exponent1)

/-- Embedding of `cpu_half2float`: bit pattern of a `half` to bit pattern of a `float`. -/
def cpu_half2float (h : Nat) : Nat :=
  let x := h % 2 ^ 16
  let sign := (x >>> 15) &&& 1
  let exponent := (x >>> 10) &&& 0x1f
  let mantissa := (x &&& 0x3ff) <<< 13
  if exponent = 0x1f then
    if mantissa ≠ 0 then ((0 <<< 31) ||| (0xff <<< 23) ||| 0x7fffff) % 2 ^ 32
    else ((sign <<< 31) ||| (0xff <<< 23) ||| 0) % 2 ^ 32
  else if exponent = 0 then
    if mantissa ≠ 0 then
      let r := half2floatNormalize 32 mantissa 0x71
      ((sign <<< 31) ||| (r.2 <<< 23) ||| (r.1 &&& 0x7fffff)) % 2 ^ 32
    else ((sign <<< 31) ||| (exponent <<< 23) ||| mantissa) % 2 ^ 32
  else ((sign <<< 31) ||| ((exponent + 0x70) <<< 23) ||| mantissa) % 2 ^ 32

/-- The two conversions between `float` and `double` are done by the hardware; they are
taken as given functions on bit patterns. -/
structure Casts where
  /-- The conversion `double(f)` of a `float`. -/
  f2d : Nat → Nat
  /-- The conversion `float(d)` of a `double`. -/
  d2f : Nat → Nat

/-! ## Element kinds -/

/-- The element types `T` for which `typeID` is defined. -/
inductive Kind where
  | half | float | double
  | uint8_t | uint16_t | uint32_t | uint64_t
  | int8_t | int16_t | int32_t | int64_t
  | char | bool
  deriving DecidableEq, Repr

/-- Embedding of `typeID`. -/
def typeID : Kind → Nat
  | .half => 0
  | .float => 1
  | .double => 2
  | .uint8_t => 3
  | .uint16_t => 4
  | .uint32_t => 5
  | .uint64_t => 6
  | .int8_t => 7
  | .int16_t => 8
  | .int32_t => 9
  | .int64_t => 10
  | .char => 11
  | .bool => 12

/-- The value of `sizeof(T)`. -/
def sizeofT : Kind → Nat
  | .half => 2
  | .float => 4
  | .double => 8
  | .uint8_t => 1
  | .uint16_t => 2
  | .uint32_t => 4
  | .uint64_t => 8
  | .int8_t => 1
  | .int16_t => 2
  | .int32_t => 4
  | .int64_t => 8
  | .char => 1
  | .bool => 1

/-! ## Files -/

/-- A stream opened for reading: the bytes from the current position on, and the
end-of-file indicator tested by `feof`. -/
structure FILE where
  bytes : List Nat
  eof : Bool
  deriving DecidableEq, Repr

/-- What one `fread` call produced: the bytes stored in the buffer, the returned item count,
and the stream afterwards. -/
structure FreadResult where
  buf : List Nat
  read_cnt : Nat
  fp : FILE
  deriving DecidableEq, Repr

/-- Embedding of `fread(buf, size, count, fp)`: when `size * count` bytes are left they are
all delivered; otherwise everything left is consumed, the number of complete items is
returned and the end-of-file indicator is set. -/
def fread (size count : Nat) (fp : FILE) : FreadResult :=
  if size * count ≤ fp.bytes.length then
    { buf := fp.bytes.take (size * count), read_cnt := count,
      fp := { bytes := fp.bytes.drop (size * count), eof := fp.eof } }
  else
    { buf := fp.bytes, read_cnt := fp.bytes.length / size,
      fp := { bytes := [], eof := true } }

/-! ## Tensor -/

/-- Embedding of `Tensor<T>`: `CPUmem = none` is the null pointer; otherwise it holds the
elements of the allocated block. -/
structure Tensor where
  dim : List Int := []
  CPUmem : Option (List Nat) := none
  name : List Nat := []
  deriving DecidableEq, Repr

/-- Embedding of `Tensor::numel`. -/
def Tensor.numel (self : Tensor) : Nat := marvin.numel self.dim

/-- Embedding of `Tensor::Malloc(batch_size)`: the number of elements of the block that is
allocated (`numel()`, or the size rounded up to whole batches, the excess being zeroed). The
host is taken to provide the block: `new T[n]` ends the process with an exception when the
size is beyond what the implementation or the machine can give, which the statements about
`read` keep out by reading a record that holds its data or by a bound on the record. -/
def Tensor.Malloc (dim : List Int) (batch_size : Int) : Outcome Nat :=
  let n := marvin.numel dim
  if batch_size = 1 then .ok n
  else
    match dim with
    | [] => .undefined
    | d0 :: _ =>
      if batch_size = 0 ∨ (d0 = INT_MIN ∧ batch_size = -1) then .undefined
      else if d0.tmod batch_size = 0 then .ok n
      else if INT_MAX < d0.tdiv batch_size + 1 then .undefined
      else
        let dim0 := (d0.tdiv batch_size + 1) * batch_size
        if dim0 < INT_MIN ∨ INT_MAX < dim0 then .undefined
        else
          let oversize := (n / toSizeT d0 * toSizeT dim0) % 2 ^ 64
          if oversize < n then .undefined else .ok oversize

/-- Embedding of `Tensor::readHeader`: every short read and every kind mismatch is fatal;
returns the number of header bytes. -/
def Tensor.readHeader (T : Kind) (self : Tensor) (fp : FILE) : Outcome (Nat × Tensor × FILE) :=
  let myTypeid := typeID T
  let myTypesizeof := sizeofT T
  let r1 := fread 1 1 fp
  if r1.read_cnt ≠ 1 then .fatal else
  let fpTypeid := fromBytes r1.buf
  let r2 := fread 4 1 r1.fp
  if r2.read_cnt ≠ 1 then .fatal else
  let fpTypesizeof := fromBytes r2.buf
  let r3 := fread 4 1 r2.fp
  if r3.read_cnt ≠ 1 then .fatal else
  let lenName := bytes2int r3.buf
  if lenName < 0 then .fatal else
  let name1 := resize self.name lenName.toNat 0
  let r4 := if lenName > 0 then fread 1 lenName.toNat r3.fp else { buf := [], read_cnt := lenName.toNat, fp := r3.fp }
  if r4.read_cnt ≠ lenName.toNat then .fatal else
  let name2 := overwrite name1 r4.buf
  let r5 := fread 4 1 r4.fp
  if r5.read_cnt ≠ 1 then .fatal else
  let nbDims := bytes2int r5.buf
  if nbDims < 0 then .fatal else
  let dim1 := resize self.dim nbDims.toNat 0
  let r6 := if nbDims > 0 then fread 4 nbDims.toNat r5.fp else { buf := [], read_cnt := nbDims.toNat, fp := r5.fp }
  if r6.read_cnt ≠ nbDims.toNat then .fatal else
  let dim2 := overwrite dim1 ((splitItems 4 r6.read_cnt r6.buf).map bytes2int)
  let headerBytes := (1 + 4 + 4 + lenName.toNat * 1 + 4 + nbDims.toNat * 4) % 2 ^ 64
  if myTypeid ≠ fpTypeid ∨ myTypesizeof ≠ fpTypesizeof then .fatal
  else .ok (headerBytes, { self with name := name2, dim := dim2 }, r6.fp)

/-- The branch of `Tensor::read` taken when the stored kind is the kind of the tensor
(the `else` branch, lines 1960 to 1984): every short read returns `NULL`. A short `fread` has
stored the bytes it got: in the name, and in the object representation of `dim`, where the
last dimension it reached may be written in part. -/
def Tensor.readBody (T : Kind) (self : Tensor) (fp : FILE) (batch_size : Int) :
    Outcome (Tensor × FILE) :=
  let r3 := fread 4 1 fp
  if r3.read_cnt ≠ 1 then .ok (self, r3.fp) else
  let lenName := bytes2int r3.buf
  if lenName < 0 then .fatal else
  let name1 := resize self.name lenName.toNat 0
  let r4 := if lenName > 0 then fread 1 lenName.toNat r3.fp else { buf := [], read_cnt := lenName.toNat, fp := r3.fp }
  let name2 := overwrite name1 r4.buf
  if r4.read_cnt ≠ lenName.toNat then .ok ({ self with name := name2 }, r4.fp) else
  let r5 := fread 4 1 r4.fp
  if r5.read_cnt ≠ 1 then .ok ({ self with name := name2 }, r5.fp) else
  let nbDims := bytes2int r5.buf
  if nbDims < 0 then .fatal else
  let dim1 := resize self.dim nbDims.toNat 0
  let r6 := if nbDims > 0 then fread 4 nbDims.toNat r5.fp else { buf := [], read_cnt := nbDims.toNat, fp := r5.fp }
  let dim2 := (splitItems 4 nbDims.toNat (overwrite (dim1.flatMap int2bytes) r6.buf)).map bytes2int
  if r6.read_cnt ≠ nbDims.toNat then .ok ({ self with name := name2, dim := dim2 }, r6.fp) else
  let n := marvin.numel dim2
  match Tensor.Malloc dim2 batch_size with
  | .fatal => .fatal
  | .undefined => .undefined
  | .ok len =>
    let r7 := fread (sizeofT T) n r6.fp
    if r7.read_cnt ≠ n then .ok ({ self with name := name2, dim := dim2, CPUmem := none }, r7.fp)
    else
      .ok ({ name := name2, dim := dim2,
             CPUmem := some ((splitItems (sizeofT T) n r7.buf).map fromBytes
                              ++ List.replicate (len - n) 0) }, r7.fp)

/-- The common shape of the conversion branches of `Tensor::read`: seek back to the start of
the record, build a `Tensor<K>` from the stream, take over its shape and name, allocate, and
convert element by element. `ctor K fp` stands for `new Tensor<K>(fp)`. -/
def Tensor.convertFrom (ctor : Kind → FILE → Outcome (Tensor × FILE)) (K : Kind)
    (conv : Nat → Nat) (fp : FILE) (batch_size : Int) :
    Outcome (Tensor × FILE) :=
  match ctor K { bytes := fp.bytes, eof := false } with
  | .fatal => .fatal
  | .undefined => .undefined
  | .ok (src, fp1) =>
    let n := marvin.numel src.dim
    match Tensor.Malloc src.dim batch_size with
    | .fatal => .fatal
    | .undefined => .undefined
    | .ok len =>
      if n = 0 then .ok ({ dim := src.dim, name := src.name, CPUmem := some (List.replicate len 0) }, fp1)
      else
        match src.CPUmem with
        | none => .undefined
        | some m =>
          if m.length < n then .undefined
          else .ok ({ dim := src.dim, name := src.name,
                      CPUmem := some ((m.take n).map conv ++ List.replicate (len - n) 0) }, fp1)

/-- Body of `Tensor::read(FILE*, int)`, with the nested constructor call `new Tensor<K>(fp)`
of the conversion branches as the argument `ctor`. -/
def Tensor.readFrom (ctor : Kind → FILE → Outcome (Tensor × FILE)) (cv : Casts) (T : Kind)
    (self : Tensor) (fp : FILE) (batch_size : Int) : Outcome (Tensor × FILE) :=
  let self0 : Tensor := { self with CPUmem := none }
  let myTypeid := typeID T
  let myTypesizeof := sizeofT T
  let r1 := fread 1 1 fp
  if r1.read_cnt ≠ 1 then .ok (self0, r1.fp) else
  let fpTypeid := fromBytes r1.buf
  let r2 := fread 4 1 r1.fp
  if r2.read_cnt ≠ 1 then .ok (self0, r2.fp) else
  let fpTypesizeof := fromBytes r2.buf
  if myTypeid ≠ fpTypeid ∨ myTypesizeof ≠ fpTypesizeof then
    if myTypeid = fpTypeid ∧ myTypesizeof ≠ fpTypesizeof then .fatal
    else if myTypeid = typeID .half ∧ fpTypeid = typeID .float then
      Tensor.convertFrom ctor .float cpu_float2half fp batch_size
    else if myTypeid = typeID .float ∧ fpTypeid = typeID .half then
      Tensor.convertFrom ctor .half cpu_half2float fp batch_size
    else if myTypeid = typeID .double ∧ fpTypeid = typeID .float then
      Tensor.convertFrom ctor .float cv.f2d fp batch_size
    else if myTypeid = typeID .float ∧ fpTypeid = typeID .double then
      Tensor.convertFrom ctor .double cv.d2f fp batch_size
    else if myTypeid = typeID .half ∧ fpTypeid = typeID .double then
      Tensor.convertFrom ctor .double (fun d => cpu_float2half (cv.d2f d)) fp batch_size
    else if myTypeid = typeID .float ∧ fpTypeid = typeID .half then
      Tensor.convertFrom ctor .half (fun h => cv.f2d (cpu_half2float h)) fp batch_size
    else .fatal
  else Tensor.readBody T self0 r2.fp batch_size

/-- The constructor `Tensor<K>(FILE* fp)` as it runs inside a conversion branch: there the
stream stands at a record whose kind tag is that of `K`, so this inner `read` can only take
the same-kind branch or stop; it has no nested constructor call of its own. -/
def Tensor.nested (cv : Casts) (K : Kind) (fp : FILE) : Outcome (Tensor × FILE) :=
  Tensor.readFrom (fun _ _ => .undefined) cv K {} fp 1

/-- Embedding of `Tensor::read(FILE* fp, int batch_size)`. The returned pointer is `CPUmem`
of the resulting tensor (`NULL` exactly when that is `none`). -/
def Tensor.read (cv : Casts) (T : Kind) (self : Tensor) (fp : FILE) (batch_size : Int) :
    Outcome (Tensor × FILE) :=
  Tensor.readFrom (Tensor.nested cv) cv T self fp batch_size

/-- Embedding of the constructor `Tensor(FILE* fp)`: a fresh tensor, then `read(fp)` with the
default `batch_size = 1`. -/
def Tensor.ofFILE (cv : Casts) (T : Kind) (fp : FILE) : Outcome (Tensor × FILE) :=
  Tensor.read cv T {} fp 1

/-- Embedding of `Tensor::writeHeader(fp, dim2write)`; the stream written so far is a list of
bytes, and writing appends to it. -/
def Tensor.writeHeader (T : Kind) (self : Tensor) (fp : List Nat) (dim2write : List Int) :
    List Nat :=
  let fp1 := fp ++ toBytes 1 (typeID T)
  let fp2 := fp1 ++ toBytes 4 (sizeofT T)
  let lenName := toInt32 self.name.length
  let fp3 := fp2 ++ int2bytes lenName
  let fp4 := if lenName > 0 then fp3 ++ self.name.take lenName.toNat else fp3
  let nbDims := toInt32 dim2write.length
  let fp5 := fp4 ++ int2bytes nbDims
  if nbDims > 0 then fp5 ++ (dim2write.take nbDims.toNat).flatMap int2bytes else fp5

/-- Embedding of `Tensor::writeData(fp)` with the default `max_size = 0`: the first `numel()`
elements of `CPUmem`. -/
def Tensor.writeData (T : Kind) (self : Tensor) (fp : List Nat) : Outcome (List Nat) :=
  let n := self.numel
  if n > 0 then
    match self.CPUmem with
    | none => .undefined
    | some m =>
      if m.length < n then .undefined
      else .ok (fp ++ (m.take n).flatMap (toBytes (sizeofT T)))
  else .ok fp

/-- Embedding of `Tensor::write(FILE* fp)`. -/
def Tensor.write (T : Kind) (self : Tensor) (fp : List Nat) : Outcome (List Nat) :=
  Tensor.writeData T self (Tensor.writeHeader T self fp self.dim)

/-- The loop of `writeTensors`: `tensors[i]->write(fp)` for every `i` in order. -/
def writeTensorsLoop (T : Kind) : List Tensor → List Nat → Outcome (List Nat)
  | [], fp => .ok fp
  | t :: ts, fp => (Tensor.write T t fp).bind (writeTensorsLoop T ts)

/-- Embedding of `writeTensors`: the content of the file that is produced. -/
def writeTensors (T : Kind) (tensors : List Tensor) : Outcome (List Nat) :=
  writeTensorsLoop T tensors []

/-- The loop of `readTensors` (`while (feof(fp)==0) ...`). Every round either consumes bytes
or sets the end-of-file indicator, so `fuel` rounds are enough when `fuel` exceeds the number
of bytes left. -/
def readTensorsLoop (cv : Casts) (T : Kind) (max_count : Nat) :
    Nat → FILE → List Tensor → Nat → Outcome (List Tensor)
  | 0, _, _, _ => .undefined
  | fuel + 1, fp, tensors, count =>
    if fp.eof then .ok tensors
    else
      match Tensor.ofFILE cv T fp with
      | .fatal => .fatal
      | .undefined => .undefined
      | .ok (t, fp1) =>
        if (count + 1) % 2 ^ 64 ≥ max_count then .ok (tensors ++ [t])
        else readTensorsLoop cv T max_count fuel fp1 (tensors ++ [t]) ((count + 1) % 2 ^ 64)

/-- Embedding of `readTensors(filename, max_count)` on the content `file` of the file: run the
loop, then drop the last tensor when its `CPUmem` is `NULL`. -/
def readTensors (cv : Casts) (T : Kind) (file : List Nat) (max_count : Nat) :
    Outcome (List Tensor) :=
  match readTensorsLoop cv T max_count (file.length + 2) { bytes := file, eof := false } [] 0 with
  | .fatal => .fatal
  | .undefined => .undefined
  | .ok tensors =>
    match tensors.getLast? with
    | none => .undefined
    | some t => if t.CPUmem = none then .ok tensors.dropLast else .ok tensors

/-- The record layout of the buffer-stream format, in the words of the format description:
`[kind_tag: 1 byte][kind_bytewidth: 4 bytes][name_length: 4 bytes][name bytes]`
`[dims_count: 4 bytes][dims: 4 bytes x count][payload]`. -/
def recordLayout (kind_tag kind_bytewidth : Nat) (name : List Nat) (dims : List Int)
    (payload : List Nat) : List Nat :=
  [kind_tag] ++ (toBytes 4 kind_bytewidth ++ (toBytes 4 name.length ++ (name ++
    (toBytes 4 dims.length ++ (dims.flatMap int2bytes ++ payload)))))

/-- A `Tensor<T>` as the program can hold one: name length and rank fit an `int`, every
dimension is an `int`, `CPUmem` points to at least `numel()` elements, each an object
representation of `T`. -/
def Tensor.WF (T : Kind) (t : Tensor) : Prop :=
  t.name.length < 2 ^ 31 ∧ t.dim.length < 2 ^ 31 ∧
  (∀ d ∈ t.dim, INT_MIN ≤ d ∧ d ≤ INT_MAX) ∧
  match t.CPUmem with
  | none => False
  | some m => t.numel ≤ m.length ∧ ∀ v ∈ m, v < 256 ^ sizeofT T

/-- The elements a tensor holds: the first `numel()` entries of `CPUmem`. -/
def Tensor.values (t : Tensor) : List Nat :=
  match t.CPUmem with
  | none => []
  | some m => m.take t.numel

/-- The tensor with `CPUmem` cut down to its `numel()` elements, as `read` with
`batch_size = 1` allocates it. -/
def Tensor.exact (t : Tensor) : Tensor :=
  { dim := t.dim, CPUmem := some t.values, name := t.name }

/-- A small `Tensor<float>`: name `"ab"`, shape `[2, 1]`, two elements. -/
def exampleTensor : Tensor :=
  { dim := [2, 1], CPUmem := some [5, 70000], name := [97, 98] }

/-- The identity in place of the hardware casts, for concrete evaluation. -/
def exampleCasts : Casts := { f2d := id, d2f := id }

/-- The record `Tensor::write` produces for a tensor of kind `T`. -/
def Tensor.record (T : Kind) (t : Tensor) : List Nat :=
  recordLayout (typeID T) (sizeofT T) t.name t.dim (t.values.flatMap (toBytes (sizeofT T)))


/-! ## Device memory and library calls -/

/-- The value of the macro `sizeofStorageT` for the configuration that is compiled
(`DATATYPE 0`: `StorageT` is `half`). -/
def sizeofStorageT : Nat := 2

/-- What the embedding takes from the device and its libraries. `V` is the type of the
values of `StorageT`; `zero` is the value whose bytes are all zero, `add a b` and `mul a b`
are `GPUCompute2StorageT(GPUStorage2ComputeT(a) + GPUStorage2ComputeT(b))` and the same with
`*`; `garbage i` is the content of cell `i` of a freshly allocated block. The two library
calls of `Response::Malloc` are given by their success. -/
structure Device (V : Type) where
  zero : V
  /-- The value `CPUCompute2StorageT(1)`. -/
  one : V
  add : V → V → V
  mul : V → V → V
  garbage : Nat → V
  /-- Whether `cudnnSetTensorNdDescriptor(desc, CUDNNStorageT, dim.size(), dim, stride)`
  returns `CUDNN_STATUS_SUCCESS`. -/
  cudnnSetTensorNdDescriptor : List Int → List Int → Bool
  /-- Whether `cudaMalloc(&p, bytes)` returns `cudaSuccess` (the pointer is then non-null). -/
  cudaMalloc : Nat → Bool
  /-- The gradient `cudnnActivationBackward` computes from `y`, `dy` and `x`. -/
  cudnnActivationBackward : List V → List V → List V → List V
  /-- The gradient `cudnnSoftmaxBackward` computes from `y` and `dy`. -/
  cudnnSoftmaxBackward : List V → List V → List V

/-- The content of a freshly allocated block of `n` elements. -/
def Device.fresh {V : Type} (dev : Device V) (n : Nat) : List V :=
  (List.range n).map dev.garbage

/-- Embedding of `cudaMemset(p, 0, sizeofStorageT * n)`: the first `n` elements of the block
become zero. -/
def cudaMemset0 {V : Type} (dev : Device V) (buf : List V) (n : Nat) : List V :=
  List.replicate (min n buf.length) dev.zero ++ buf.drop n

/-! ## Response -/

/-- The phases. -/
inductive Phase where
  | Training | Testing | TrainingTesting
  deriving DecidableEq, Repr

/-- Embedding of `Response`: `dataGPU` and `diffGPU` are `none` for the null pointer and
hold the content of the device block otherwise. The descriptor handles and the receptive
field bookkeeping (printing only) are left out. -/
structure Response (V : Type) where
  name : String
  dataGPU : Option (List V) := none
  diffGPU : Option (List V) := none
  need_diff : Bool := false
  dim : List Int := []
  stride : List Int := []
  deriving DecidableEq, Repr

/-- The strides `Response::Malloc` computes: `stride[last] = 1`,
`stride[d] = stride[d+1] * dim[d+1]`. -/
def strideOf : List Int → List Int
  | [] => []
  | [_] => [1]
  | _ :: d1 :: ds =>
    match strideOf (d1 :: ds) with
    | [] => []
    | s1 :: ss => (s1 * d1) :: s1 :: ss

/-- Embedding of `Response::Malloc(dim_)`. Returns the number of bytes reserved and the
response afterwards. An empty `dim_` makes the store `stride[dim.size()-1] = 1` go out of
bounds, and a stride product outside `int` is a signed overflow. -/
def Response.Malloc {V : Type} (dev : Device V) (self : Response V) (dim_ : List Int) :
    Outcome (Nat × Response V) :=
  match self.dataGPU with
  | none =>
    if dim_ = [] then .undefined
    else if ¬ (∀ s ∈ strideOf dim_, INT_MIN ≤ s ∧ s ≤ INT_MAX) then .undefined
    else if dev.cudnnSetTensorNdDescriptor dim_ (strideOf dim_) = false then .fatal
    else if dev.cudaMalloc ((numel dim_ * sizeofStorageT) % 2 ^ 64) = false then .fatal
    else
      if self.need_diff then
        .ok (((numel dim_ * sizeofStorageT) % 2 ^ 64 + (numel dim_ * sizeofStorageT) % 2 ^ 64)
              % 2 ^ 64,
            { self with dim := dim_, stride := strideOf dim_,
                        dataGPU := some (dev.fresh (numel dim_)),
                        diffGPU := some (dev.fresh (numel dim_)) })
      else
        .ok ((numel dim_ * sizeofStorageT) % 2 ^ 64,
            { self with dim := dim_, stride := strideOf dim_,
                        dataGPU := some (dev.fresh (numel dim_)) })
  | some _ =>
    if same_dim self.dim dim_ = false then .fatal else .ok (0, self)

/-- Embedding of `Response::clearDiff`. -/
def Response.clearDiff {V : Type} (dev : Device V) (self : Response V) : Response V :=
  match self.diffGPU with
  | none => self
  | some buf => { self with diffGPU := some (cudaMemset0 dev buf (numel self.dim)) }

/-- The library calls of `Response::Malloc(dim_)` succeed and its index and stride
computations are defined. -/
def Response.allocatable {V : Type} (dev : Device V) (dim_ : List Int) : Prop :=
  dim_ ≠ [] ∧ (∀ s ∈ strideOf dim_, INT_MIN ≤ s ∧ s ≤ INT_MAX) ∧
  dev.cudnnSetTensorNdDescriptor dim_ (strideOf dim_) = true ∧
  dev.cudaMalloc ((numel dim_ * sizeofStorageT) % 2 ^ 64) = true

/-! ## Net: the scheduling loops -/

/-- The virtual interface of `Layer` as `Net::forward` and `Net::backward` use it: the
`phase` field and the methods `forward` and `backward`. A method acts on the layer object
itself and on the responses of the net (a layer holds pointers to some of them). -/
structure Methods (L V : Type) where
  phase : L → Phase
  forward : L → Phase → List (Response V) → Outcome (L × List (Response V))
  backward : L → Phase → List (Response V) → Outcome (L × List (Response V))

/-- Embedding of `Net`: the phase, the layers in construction order, and the responses. -/
structure Net (L V : Type) where
  phase : Phase
  layers : List L
  responses : List (Response V)

/-- The loop of `Net::Malloc` (`memoryBytes += layers[l]->Malloc(phase)` for every layer in
construction order), from the layers still to come, the responses and the count so far to the
final count, the layers as their `Malloc` left them, and the responses. The argument `m` is the
virtual method `Layer::Malloc`. -/
def Net.MallocLoop {L V : Type}
    (m : L → Phase → List (Response V) → Outcome (Nat × L × List (Response V)))
    (phase : Phase) : List L → List (Response V) → Nat → Outcome (Nat × List L × List (Response V))
  | [], rs, memoryBytes => .ok (memoryBytes, [], rs)
  | layer :: rest, rs, memoryBytes =>
    (m layer phase rs).bind fun r =>
      (Net.MallocLoop m phase rest r.2.2 ((memoryBytes + r.1) % 2 ^ 64)).bind fun q =>
        .ok (q.1, r.2.1 :: q.2.1, q.2.2)

/-- Embedding of `Net::Malloc(phase_)`: sets the phase, then calls `Malloc` on every layer in
construction order and adds up the returned byte counts. -/
def Net.Malloc {L V : Type}
    (m : L → Phase → List (Response V) → Outcome (Nat × L × List (Response V)))
    (net : Net L V) (phase_ : Phase) : Outcome (Nat × Net L V) :=
  (Net.MallocLoop m phase_ net.layers net.responses 0).bind fun q =>
    .ok (q.1, { phase := phase_, layers := q.2.1, responses := q.2.2 })

/-- One round of the loop of `Net::forward`. The second component records the indices `l`
for which `layers[l]->forward(phase)` has been called. -/
def Net.forwardStep {L V : Type} (m : Methods L V) (st : Outcome (Net L V × List Nat))
    (l : Nat) : Outcome (Net L V × List Nat) :=
  st.bind fun p =>
    match p.1.layers[l]? with
    | none => .undefined
    | some layer =>
      if m.phase layer = p.1.phase ∨ m.phase layer = .TrainingTesting then
        (m.forward layer p.1.phase p.1.responses).bind fun r =>
          .ok ({ p.1 with layers := p.1.layers.set l r.1, responses := r.2 }, p.2 ++ [l])
      else .ok p

/-- Embedding of `Net::forward` (`for (l = 0; l < layers.size(); ++l)`), with the record of the
calls made. -/
def Net.forward {L V : Type} (m : Methods L V) (net : Net L V) : Outcome (Net L V × List Nat) :=
  (List.range net.layers.length).foldl (Net.forwardStep m) (.ok (net, []))

/-- One round of the second loop of `Net::backward`. -/
def Net.backwardStep {L V : Type} (m : Methods L V) (st : Outcome (Net L V × List Nat))
    (l : Nat) : Outcome (Net L V × List Nat) :=
  st.bind fun p =>
    match p.1.layers[l]? with
    | none => .undefined
    | some layer =>
      if m.phase layer = p.1.phase ∨ m.phase layer = .TrainingTesting then
        (m.backward layer p.1.phase p.1.responses).bind fun r =>
          .ok ({ p.1 with layers := p.1.layers.set l r.1, responses := r.2 }, p.2 ++ [l])
      else .ok p

/-- The first loop of `Net::backward`: `responses[r]->clearDiff()` for every `r`. -/
def Net.clearDiffs {L V : Type} (dev : Device V) (net : Net L V) : Net L V :=
  { net with responses := net.responses.map (Response.clearDiff dev) }

/-- The second loop of `Net::backward` (`for (l = layers.size()-1; l >= 0; --l)`), with the
record of the calls made. -/
def Net.backwardLayers {L V : Type} (m : Methods L V) (net : Net L V) :
    Outcome (Net L V × List Nat) :=
  (List.range net.layers.length).reverse.foldl (Net.backwardStep m) (.ok (net, []))

/-- Embedding of `Net::backward`: clear every response gradient, then run the layers in
reverse order. -/
def Net.backward {L V : Type} (dev : Device V) (m : Methods L V) (net : Net L V) :
    Outcome (Net L V × List Nat) :=
  Net.backwardLayers m (Net.clearDiffs dev net)

/-- The indices of the layers whose phase tag is the phase of the net or `TrainingTesting`. -/
def Net.activeLayers {L V : Type} (m : Methods L V) (net : Net L V) : List Nat :=
  (List.range net.layers.length).filter fun l =>
    match net.layers[l]? with
    | none => false
    | some layer => decide (m.phase layer = net.phase ∨ m.phase layer = .TrainingTesting)

/-- Every gradient block of the net holds exactly `numel(dim)` elements, as `Response::Malloc`
allocates it. -/
def Net.diffSized {L V : Type} (net : Net L V) : Prop :=
  ∀ r ∈ net.responses, ∀ buf, r.diffGPU = some buf → buf.length = numel r.dim

/-- Two responses that differ at most in the content of their gradient block. -/
def Response.sameUpToDiff {V : Type} (r1 r2 : Response V) : Prop :=
  r1.name = r2.name ∧ r1.dataGPU = r2.dataGPU ∧ r1.need_diff = r2.need_diff ∧
  r1.dim = r2.dim ∧ r1.stride = r2.stride ∧
  (r1.diffGPU.map List.length = r2.diffGPU.map List.length)

/-- A device over the integers on which every library call succeeds, for concrete
evaluation. -/
def exampleDevice : Device Int :=
  { zero := 0, one := 1, add := fun a b => a + b, mul := fun a b => a * b,
    garbage := fun _ => 0,
    cudnnSetTensorNdDescriptor := fun _ _ => true, cudaMalloc := fun _ => true,
    cudnnActivationBackward := fun _ dy _ => dy,
    cudnnSoftmaxBackward := fun _ dy => dy }

/-- A not yet allocated response that needs a gradient. -/
def exampleResponse : Response Int :=
  { name := "conv1", need_diff := true }

/-- Layers that are nothing but their phase tag, with methods that do nothing: enough to
watch the scheduling loops of `Net`. -/
def tagMethods : Methods Phase Int :=
  { phase := fun layer => layer,
    forward := fun layer _ rs => .ok (layer, rs),
    backward := fun layer _ rs => .ok (layer, rs) }

/-- A net in the training phase with a training layer, a testing layer and a layer for both
phases. -/
def tagNet : Net Phase Int :=
  { phase := .Training, layers := [.Training, .Testing, .TrainingTesting], responses := [] }

/-- A net with one allocated response whose gradient block holds `[5, 7]`. -/
def gradNet : Net Phase Int :=
  { phase := .Training, layers := [.Training, .Testing],
    responses := [{ name := "fc", dataGPU := some [1, 2], diffGPU := some [5, 7],
                    need_diff := true, dim := [2, 1], stride := [1, 1] },
                  { name := "label", dataGPU := some [0, 1], dim := [2, 1], stride := [1, 1] }] }

/-- The same net with other gradient values. -/
def gradNet2 : Net Phase Int :=
  { phase := .Training, layers := [.Training, .Testing],
    responses := [{ name := "fc", dataGPU := some [1, 2], diffGPU := some [9, 9],
                    need_diff := true, dim := [2, 1], stride := [1, 1] },
                  { name := "label", dataGPU := some [0, 1], dim := [2, 1], stride := [1, 1] }] }

/-! ## The partition of kernel work -/

/-- The result of an `int` operation: a value outside `int` is a signed overflow. -/
def intResult (x : Int) : Outcome Int :=
  if INT_MIN ≤ x ∧ x ≤ INT_MAX then .ok x else .undefined

/-- The macro `CUDA_NUM_THREADS`. -/
def CUDA_NUM_THREADS : Nat := 512

/-- The macro `MAX_NUM_BLOCKS`. -/
def MAX_NUM_BLOCKS : Int := 2880

/-- Embedding of `CUDA_GET_BLOCKS(N)`: the quotient is computed in `size_t` and converted to
`int`. -/
def CUDA_GET_BLOCKS (N : Nat) : Int :=
  min MAX_NUM_BLOCKS (toInt32 (((N + CUDA_NUM_THREADS - 1) % 2 ^ 64) / CUDA_NUM_THREADS))

/-- Embedding of `CUDA_GET_LOOPS(N)`: the product `CUDA_GET_BLOCKS(N)*CUDA_NUM_THREADS` is
computed in `int` and converted to `size_t`; the division by it is undefined when it is zero. -/
def CUDA_GET_LOOPS (N : Nat) : Outcome Nat :=
  (intResult (CUDA_GET_BLOCKS N * (CUDA_NUM_THREADS : Int))).bind fun p =>
    let total_threads := toSizeT p
    if total_threads = 0 then .undefined
    else .ok (((N + total_threads - 1) % 2 ^ 64) / total_threads)

/-- The indices that the thread with number `t = CUDA_NUM_THREADS * blockIdx.x + threadIdx.x`
handles in a kernel: `idxBase = CUDA_NUM_LOOPS * t`, nothing when `idxBase >= N`, and otherwise
`idx = idxBase, ..., min(N, idxBase + CUDA_NUM_LOOPS) - 1`, all computed in `size_t`. -/
def threadIndices (CUDA_NUM_LOOPS N t : Nat) : List Nat :=
  let idxBase := (CUDA_NUM_LOOPS * (t % 2 ^ 64)) % 2 ^ 64
  if idxBase ≥ N then []
  else List.range' idxBase (min N ((idxBase + CUDA_NUM_LOOPS) % 2 ^ 64) - idxBase)

/-- Embedding of `Kernel_set_value` as launched with `blocks` blocks of `CUDA_NUM_THREADS`
threads: every thread stores `value` at its indices. Returns the content of the block
`GPUdst` afterwards; a store outside the block is undefined. -/
def Kernel_set_value {V : Type} (blocks : Nat) (CUDA_NUM_LOOPS N : Nat) (GPUdst : List V)
    (value : V) : Outcome (List V) :=
  (List.range (CUDA_NUM_THREADS * blocks)).foldl
    (fun (st : Outcome (List V)) t =>
      (threadIndices CUDA_NUM_LOOPS N t).foldl
        (fun (st : Outcome (List V)) idx => st.bind fun dst =>
          if idx < dst.length then .ok (dst.set idx value) else .undefined)
        st)
    (.ok GPUdst)

/-- Embedding of `GPU_set_value(N, GPUdst, value)`: the launch with `CUDA_GET_BLOCKS(N)` blocks
and `CUDA_GET_LOOPS(N)` loops, then `checkCUDA(cudaGetLastError())`, which ends the process
when the launch was refused (`launched` is false, as it is for a grid without blocks). -/
def GPU_set_value {V : Type} (launched : Bool) (N : Nat) (GPUdst : List V) (value : V) :
    Outcome (List V) :=
  (CUDA_GET_LOOPS N).bind fun loops =>
    if CUDA_GET_BLOCKS N ≤ 0 ∨ launched = false then .fatal
    else Kernel_set_value (CUDA_GET_BLOCKS N).toNat loops N GPUdst value

/-! ## Kernels -/

/-- Embedding of `Kernel_elementwise_multiplication` as launched with `blocks` blocks of
`CUDA_NUM_THREADS` threads: every thread stores `GPUsrcA[idx] * GPUsrcB[idx]` in `GPUdst[idx]`
for its indices. Returns the content of the block `GPUdst` afterwards; an access outside a
block is undefined. -/
def Kernel_elementwise_multiplication {V : Type} (dev : Device V)
    (blocks CUDA_NUM_LOOPS N : Nat) (GPUdst GPUsrcA GPUsrcB : List V) : Outcome (List V) :=
  (List.range (CUDA_NUM_THREADS * blocks)).foldl
    (fun (st : Outcome (List V)) t =>
      (threadIndices CUDA_NUM_LOOPS N t).foldl
        (fun (st : Outcome (List V)) idx => st.bind fun dst =>
          match GPUsrcA[idx]?, GPUsrcB[idx]? with
          | some a, some b =>
            if idx < dst.length then .ok (dst.set idx (dev.mul a b)) else .undefined
          | _, _ => .undefined)
        st)
    (.ok GPUdst)

/-- Embedding of `GPU_elementwise_multiplication(N, dst, A, B)`: the launch with
`CUDA_GET_BLOCKS(N)` blocks and `CUDA_GET_LOOPS(N)` loops (a division by zero for `N = 0`),
then `checkCUDA(cudaGetLastError())`, which ends the process when the launch was refused
(`launched` is false, as it is for a grid without blocks). A null block is read or written
through the null pointer. Returns the content of the block `dst` afterwards. -/
def GPU_elementwise_multiplication {V : Type} (dev : Device V) (launched : Bool) (N : Nat)
    (dst A B : Option (List V)) : Outcome (Option (List V)) :=
  (CUDA_GET_LOOPS N).bind fun loops =>
    if CUDA_GET_BLOCKS N ≤ 0 ∨ launched = false then .fatal
    else
      match dst, A, B with
      | some d, some a, some b =>
        (Kernel_elementwise_multiplication dev (CUDA_GET_BLOCKS N).toNat loops N d a b).bind
          fun r => .ok (some r)
      | _, _, _ => .undefined

/-- Embedding of `Kernel_xpy` as launched with `blocks` blocks of `CUDA_NUM_THREADS` threads:
every thread stores `y[idx] + x[idx]` in `y[idx]` for its indices. Returns the content of the
block `y` afterwards. -/
def Kernel_xpy {V : Type} (dev : Device V) (blocks CUDA_NUM_LOOPS N : Nat) (x y : List V) :
    Outcome (List V) :=
  (List.range (CUDA_NUM_THREADS * blocks)).foldl
    (fun (st : Outcome (List V)) t =>
      (threadIndices CUDA_NUM_LOOPS N t).foldl
        (fun (st : Outcome (List V)) idx => st.bind fun ys =>
          match ys[idx]?, x[idx]? with
          | some b, some a => .ok (ys.set idx (dev.add b a))
          | _, _ => .undefined)
        st)
    (.ok y)

/-- Embedding of `xpy(N, x, y)`: the launch of `Kernel_xpy` with `CUDA_GET_BLOCKS(N)` blocks
and `CUDA_GET_LOOPS(N)` loops (a division by zero for `N = 0`), then
`checkCUDA(cudaGetLastError())`, whose result is `launched`. Returns the content of the block
`y` afterwards. -/
def xpy {V : Type} (dev : Device V) (launched : Bool) (N : Nat) (x y : Option (List V)) :
    Outcome (Option (List V)) :=
  (CUDA_GET_LOOPS N).bind fun loops =>
    if CUDA_GET_BLOCKS N ≤ 0 ∨ launched = false then .fatal
    else
      match x, y with
      | some xs, some ys =>
        (Kernel_xpy dev (CUDA_GET_BLOCKS N).toNat loops N xs ys).bind fun r => .ok (some r)
      | _, _ => .undefined

/-- Embedding of `cudaMemcpy(dst, src, count * sizeofStorageT, cudaMemcpyDeviceToDevice)` under
`checkCUDA`: a null or too short block makes the call fail, which is fatal. -/
def cudaMemcpy {V : Type} (count : Nat) (dst src : Option (List V)) :
    Outcome (Option (List V)) :=
  if count = 0 then .ok dst
  else
    match dst, src with
    | some d, some s =>
      if d.length < count ∨ s.length < count then .fatal
      else .ok (some (s.take count ++ d.drop count))
    | _, _ => .fatal

/-! ## Layers -/

/-- Embedding of the fields of the base class `Layer`. The lists `in_` and `out` hold, for
every pointer in `in` and `out`, the index of that response in `Net::responses`. -/
structure Layer (V : Type) where
  name : String
  phase : Phase := .TrainingTesting
  train_me : Bool := false
  in_ : List Nat := []
  out : List Nat := []
  weight_dataGPU : Option (List V) := none
  weight_diffGPU : Option (List V) := none
  weight_histGPU : Option (List V) := none
  bias_dataGPU : Option (List V) := none
  bias_diffGPU : Option (List V) := none
  bias_histGPU : Option (List V) := none
  weight_dim : List Int := []
  bias_dim : List Int := []
  weight_numel : Nat := 0
  bias_numel : Nat := 0
  deriving DecidableEq, Repr

/-- Embedding of `DropoutLayer`: the two sets of masks on the device, the flag that says which
set is current, and the sizes. -/
structure DropoutLayer (V : Type) extends Layer V where
  current_mask : Bool := true
  GPUmask0 : List (Option (List V)) := []
  GPUmask1 : List (Option (List V)) := []
  BYTESmask : List Int := []
  SIZEmask : List Int := []
  deriving DecidableEq, Repr

/-- One round of the loop of `DropoutLayer::backward(phase_)`; `launched` is the result of the
`checkCUDA` after the launch. -/
def DropoutLayer.backwardAt {V : Type} (dev : Device V) (launched : Bool)
    (self : DropoutLayer V) (phase_ : Phase) (rs : List (Response V)) (i : Nat) :
    Outcome (List (Response V)) :=
  match self.in_[i]?, self.out[i]? with
  | some ii, some oi =>
    match rs[ii]?, rs[oi]? with
    | some inR, some outR =>
      if phase_ = .Training then
        if inR.need_diff then
          match self.SIZEmask[i]?, (if self.current_mask then self.GPUmask1 else self.GPUmask0)[i]? with
          | some size, some mask =>
            (GPU_elementwise_multiplication dev launched (toSizeT size) inR.diffGPU mask
                outR.diffGPU).bind
              fun g => .ok (rs.set ii { inR with diffGPU := g })
          | _, _ => .undefined
        else .ok rs
      else
        if oi ≠ ii then
          match self.BYTESmask[i]? with
          | some bytes =>
            (cudaMemcpy (toSizeT bytes / sizeofStorageT) inR.diffGPU outR.diffGPU).bind
              fun g => .ok (rs.set ii { inR with diffGPU := g })
          | none => .undefined
        else .ok rs
    | _, _ => .undefined
  | _, _ => .undefined

/-- Embedding of `DropoutLayer::backward(phase_)`. -/
def DropoutLayer.backward {V : Type} (dev : Device V) (launched : Bool)
    (self : DropoutLayer V) (phase_ : Phase) (rs : List (Response V)) :
    Outcome (List (Response V)) :=
  (List.range self.in_.length).foldl
    (fun st i => st.bind fun rs1 => DropoutLayer.backwardAt dev launched self phase_ rs1 i)
    (.ok rs)

/-- Embedding of `SoftmaxLayer`. -/
structure SoftmaxLayer (V : Type) extends Layer V where
  stable_gradient : Bool := true
  deriving DecidableEq, Repr

/-- One round of the loop of `SoftmaxLayer::backward`. The two gradient pointers are equal
when `in[i]` and `out[i]` are the same response, or when both are null; `launched` is the
result of the `checkCUDA` in `xpy`. -/
def SoftmaxLayer.backwardAt {V : Type} (dev : Device V) (launched : Bool)
    (self : SoftmaxLayer V) (rs : List (Response V)) (i : Nat) : Outcome (List (Response V)) :=
  match self.in_[i]?, self.out[i]? with
  | some ii, some oi =>
    match rs[ii]?, rs[oi]? with
    | some inR, some outR =>
      if inR.need_diff then
        if self.stable_gradient then
          if ¬ (ii = oi ∨ (inR.diffGPU.isNone = true ∧ outR.diffGPU.isNone = true)) then
            (xpy dev launched (numel inR.dim) outR.diffGPU inR.diffGPU).bind
              fun g => .ok (rs.set ii { inR with diffGPU := g })
          else .ok rs
        else
          match outR.dataGPU, outR.diffGPU, inR.diffGPU with
          | some y, some dy, some _ =>
            .ok (rs.set ii { inR with diffGPU := some (dev.cudnnSoftmaxBackward y dy) })
          | _, _, _ => .fatal
      else .ok rs
    | _, _ => .undefined
  | _, _ => .undefined

/-- Embedding of `SoftmaxLayer::backward`. -/
def SoftmaxLayer.backward {V : Type} (dev : Device V) (launched : Bool)
    (self : SoftmaxLayer V) (rs : List (Response V)) : Outcome (List (Response V)) :=
  (List.range self.in_.length).foldl
    (fun st i => st.bind fun rs1 => SoftmaxLayer.backwardAt dev launched self rs1 i) (.ok rs)

/-- Embedding of `ActivationLayer` (the activation mode is part of the library call). -/
structure ActivationLayer (V : Type) extends Layer V where
  deriving DecidableEq, Repr

/-- One round of the loop of `ActivationLayer::backward`: `cudnnActivationBackward` is called
with `beta = zero`, so its result replaces the content of `in[i]->diffGPU`. -/
def ActivationLayer.backwardAt {V : Type} (dev : Device V) (self : ActivationLayer V)
    (rs : List (Response V)) (i : Nat) : Outcome (List (Response V)) :=
  match self.in_[i]?, self.out[i]? with
  | some ii, some oi =>
    match rs[ii]?, rs[oi]? with
    | some inR, some outR =>
      if inR.need_diff then
        match outR.dataGPU, outR.diffGPU, inR.dataGPU, inR.diffGPU with
        | some y, some dy, some x, some _ =>
          .ok (rs.set ii { inR with diffGPU := some (dev.cudnnActivationBackward y dy x) })
        | _, _, _, _ => .fatal
      else .ok rs
    | _, _ => .undefined
  | _, _ => .undefined

/-- Embedding of `ActivationLayer::backward`. -/
def ActivationLayer.backward {V : Type} (dev : Device V) (self : ActivationLayer V)
    (rs : List (Response V)) : Outcome (List (Response V)) :=
  (List.range self.in_.length).foldl
    (fun st i => st.bind fun rs1 => ActivationLayer.backwardAt dev self rs1 i) (.ok rs)

/-- Embedding of `ReshapeLayer`. -/
structure ReshapeLayer (V : Type) extends Layer V where
  shape : List Int := []
  deriving DecidableEq, Repr

/-- Embedding of `Kernel_elementwise_acc` as launched with `blocks` blocks of
`CUDA_NUM_THREADS` threads: every thread stores `GPUdst[idx] + GPUsrc[idx]` in `GPUdst[idx]`
for its indices. Returns the content of the block `GPUdst` afterwards. -/
def Kernel_elementwise_acc {V : Type} (dev : Device V) (blocks CUDA_NUM_LOOPS N : Nat)
    (GPUdst GPUsrc : List V) : Outcome (List V) :=
  (List.range (CUDA_NUM_THREADS * blocks)).foldl
    (fun (st : Outcome (List V)) t =>
      (threadIndices CUDA_NUM_LOOPS N t).foldl
        (fun (st : Outcome (List V)) idx => st.bind fun dst =>
          match dst[idx]?, GPUsrc[idx]? with
          | some d, some s => .ok (dst.set idx (dev.add d s))
          | _, _ => .undefined)
        st)
    (.ok GPUdst)

/-- One round of the loop of `ReshapeLayer::backward`: the launch of `Kernel_elementwise_acc`
with `CUDA_GET_BLOCKS(N)` blocks and `CUDA_GET_LOOPS(N)` loops for `N = numel(in[i]->dim)` (a
division by zero for `N = 0`). No `checkCUDA` follows: when the launch is refused (`launched`
is false, as it is for a grid without blocks) the gradient stays as it is. -/
def ReshapeLayer.backwardAt {V : Type} (dev : Device V) (launched : Bool)
    (self : ReshapeLayer V) (rs : List (Response V)) (i : Nat) : Outcome (List (Response V)) :=
  match self.in_[i]?, self.out[i]? with
  | some ii, some oi =>
    match rs[ii]?, rs[oi]? with
    | some inR, some outR =>
      if inR.need_diff then
        (CUDA_GET_LOOPS (numel inR.dim)).bind fun loops =>
          if CUDA_GET_BLOCKS (numel inR.dim) ≤ 0 ∨ launched = false then .ok rs
          else
            match inR.diffGPU, outR.diffGPU with
            | some d, some s =>
              (Kernel_elementwise_acc dev (CUDA_GET_BLOCKS (numel inR.dim)).toNat loops
                  (numel inR.dim) d s).bind
                fun g => .ok (rs.set ii { inR with diffGPU := some g })
            | _, _ => .undefined
      else .ok rs
    | _, _ => .undefined
  | _, _ => .undefined

/-- Embedding of `ReshapeLayer::backward`. -/
def ReshapeLayer.backward {V : Type} (dev : Device V) (launched : Bool)
    (self : ReshapeLayer V) (rs : List (Response V)) : Outcome (List (Response V)) :=
  (List.range self.in_.length).foldl
    (fun st i => st.bind fun rs1 => ReshapeLayer.backwardAt dev launched self rs1 i) (.ok rs)

/-! ## `Malloc` of the layers -/

/-- The two statements `out->need_diff = nd; memoryBytes += out->Malloc(dim)` that every
layer's `Malloc` runs for each of its outputs, on the response with index `oi`: returns the
bytes reserved and the responses afterwards. -/
def outMalloc {V : Type} (dev : Device V) (rs : List (Response V)) (oi : Nat) (nd : Bool)
    (dim : List Int) : Outcome (Nat × List (Response V)) :=
  match rs[oi]? with
  | none => .undefined
  | some r =>
    (Response.Malloc dev { r with need_diff := nd } dim).bind fun p => .ok (p.1, rs.set oi p.2)

/-- The output loop of a layer's `Malloc`: in round `i` the layer works out, from the
responses as they are then, which output to allocate, with which `need_diff` and which
shape (`req`), and runs `outMalloc` for it, adding the bytes to `memoryBytes`. -/
def outLoop {V : Type} (dev : Device V)
    (req : List (Response V) → Nat → Outcome (Nat × Bool × List Int)) (idx : List Nat)
    (st : Nat × List (Response V)) : Outcome (Nat × List (Response V)) :=
  idx.foldl (fun st i => st.bind fun p => (req p.2 i).bind fun r =>
    (outMalloc dev p.2 r.1 r.2.1 r.2.2).bind fun q => .ok ((p.1 + q.1) % 2 ^ 64, q.2)) (.ok st)

/-- Round `i` of the output loop of `ActivationLayer::Malloc` and `SoftmaxLayer::Malloc`:
`out[i]->need_diff = in[i]->need_diff; out[i]->Malloc(in[i]->dim)`. -/
def passRequest {V : Type} (self : Layer V) (rs : List (Response V)) (i : Nat) :
    Outcome (Nat × Bool × List Int) :=
  match self.in_[i]?, self.out[i]? with
  | some ii, some oi =>
    match rs[ii]? with
    | some inR => .ok (oi, inR.need_diff, inR.dim)
    | none => .undefined
  | _, _ => .undefined

/-- Embedding of `ActivationLayer::Malloc`. -/
def ActivationLayer.Malloc {V : Type} (dev : Device V) (self : ActivationLayer V)
    (_phase : Phase) (rs : List (Response V)) :
    Outcome (Nat × ActivationLayer V × List (Response V)) :=
  if self.in_.length = 0 then .fatal
  else if self.in_.length ≠ self.out.length then .fatal
  else
    (outLoop dev (passRequest self.toLayer) (List.range self.out.length) (0, rs)).bind fun p =>
      .ok (p.1, self, p.2)

/-- Embedding of `SoftmaxLayer::Malloc`. -/
def SoftmaxLayer.Malloc {V : Type} (dev : Device V) (self : SoftmaxLayer V)
    (_phase : Phase) (rs : List (Response V)) :
    Outcome (Nat × SoftmaxLayer V × List (Response V)) :=
  if self.in_.length = 0 then .fatal
  else if self.in_.length ≠ self.out.length then .fatal
  else
    (outLoop dev (passRequest self.toLayer) (List.range self.out.length) (0, rs)).bind fun p =>
      .ok (p.1, self, p.2)

/-- Embedding of `MemoryDataLayer`: `dataDim` and `labelDim` are `dataCPU->dim` and
`labelCPU->dim` as the constructor left them. -/
structure MemoryDataLayer (V : Type) extends Layer V where
  dataDim : List Int := []
  labelDim : List Int := []
  batch_size : Int := 64
  counter : Int := 0
  epoch : Int := 0
  deriving DecidableEq, Repr

/-- The two output allocations of `MemoryDataLayer::Malloc`, as rounds 0 and 1:
`out[0]` with `data_dim` and `out[1]` with `label_dim`, both with `need_diff = false` and with
`batch_size` as first dimension. Resizing `receptive_field` to `data_dim.size()-2` throws when
the data has fewer than two dimensions. -/
def MemoryDataLayer.outRequest {V : Type} (self : MemoryDataLayer V)
    (_rs : List (Response V)) (i : Nat) : Outcome (Nat × Bool × List Int) :=
  match i with
  | 0 =>
    match self.out[0]?, self.dataDim with
    | some o0, _ :: drest =>
      if drest.length + 1 < 2 then .fatal else .ok (o0, false, self.batch_size :: drest)
    | _, _ => .undefined
  | _ =>
    match self.out[1]?, self.labelDim with
    | some o1, _ :: lrest => .ok (o1, false, self.batch_size :: lrest)
    | _, _ => .undefined

/-- Embedding of `MemoryDataLayer::Malloc`. -/
def MemoryDataLayer.Malloc {V : Type} (dev : Device V) (self : MemoryDataLayer V)
    (phase_ : Phase) (rs : List (Response V)) :
    Outcome (Nat × MemoryDataLayer V × List (Response V)) :=
  if self.phase = .Training ∧ phase_ = .Testing then .ok (0, self, rs)
  else
    (outLoop dev (MemoryDataLayer.outRequest self) [0, 1] (0, rs)).bind fun p =>
      .ok (p.1, self, p.2)

/-- Embedding of `InnerProductLayer`. -/
structure InnerProductLayer (V : Type) extends Layer V where
  num_input : Int := 0
  num_items : Int := 0
  num_output : Int := 0
  bias_multGPU : Option (List V) := none
  deriving DecidableEq, Repr

/-- Round `i` of the output loop of `InnerProductLayer::Malloc`:
`out[i]->need_diff = train_me || in[i]->need_diff`, and the shape `dimOut` with the batch size
of `in[i]`, `num_output` channels and ones after that. Writing `dimOut[0]` and `dimOut[1]`
needs an input of rank two at least. -/
def InnerProductLayer.outRequest {V : Type} (self : InnerProductLayer V)
    (rs : List (Response V)) (i : Nat) : Outcome (Nat × Bool × List Int) :=
  match self.in_[i]?, self.out[i]? with
  | some ii, some oi =>
    match rs[ii]? with
    | some inR =>
      match inR.dim with
      | d0 :: _ :: rest =>
        .ok (oi, self.train_me || inR.need_diff,
             d0 :: self.num_output :: List.replicate rest.length 1)
      | _ => .undefined
    | none => .undefined
  | _, _ => .undefined

/-- The bytes `InnerProductLayer::Malloc` reserves for the blocks of the layer itself: the
weights, the bias, and the vector of ones `bias_multGPU`. -/
def InnerProductLayer.ownBytes {V : Type} (self : InnerProductLayer V) : Nat :=
  let b1 := if self.weight_numel > 0 then (0 + (self.weight_numel * sizeofStorageT) % 2 ^ 64) % 2 ^ 64
            else 0
  if self.bias_numel > 0 then
    ((b1 + (self.bias_numel * sizeofStorageT) % 2 ^ 64) % 2 ^ 64
      + toSizeT (self.num_items * (sizeofStorageT : Int))) % 2 ^ 64
  else b1

/-- The part of `InnerProductLayer::Malloc` before the output loop: the arity checks, the
sizes, and the allocation of the layer's own blocks. Returns the layer afterwards. -/
def InnerProductLayer.MallocOwn {V : Type} (dev : Device V) (self : InnerProductLayer V)
    (phase_ : Phase) (rs : List (Response V)) : Outcome (InnerProductLayer V) :=
  if self.in_.length = 0 then .fatal
  else if self.in_.length ≠ self.out.length then .fatal
  else
    match self.in_[0]? with
    | none => .undefined
    | some i0 =>
      match rs[i0]? with
      | none => .undefined
      | some in0 =>
        match in0.dim with
        | [] => .undefined
        | d0 :: _ =>
          let num_input := toInt32 (sizeofitem in0.dim)
          let weight_dim := [self.num_output, num_input]
          let bias_dim := [self.num_output]
          let weight_numel := numel weight_dim
          let bias_numel := numel bias_dim
          if weight_numel > 0 ∧ dev.cudaMalloc ((weight_numel * sizeofStorageT) % 2 ^ 64) = false
          then .fatal
          else if bias_numel > 0 ∧ dev.cudaMalloc ((bias_numel * sizeofStorageT) % 2 ^ 64) = false
          then .fatal
          else if bias_numel > 0 ∧
              (d0 * (sizeofStorageT : Int) < INT_MIN ∨ INT_MAX < d0 * (sizeofStorageT : Int))
          then .undefined
          else if bias_numel > 0 ∧
              dev.cudaMalloc (toSizeT (d0 * (sizeofStorageT : Int))) = false
          then .fatal
          else
            .ok { self with
                  train_me := self.train_me && decide (phase_ ≠ .Testing)
                  num_input := num_input
                  num_items := d0
                  weight_dim := weight_dim
                  bias_dim := bias_dim
                  weight_numel := weight_numel
                  bias_numel := bias_numel
                  weight_dataGPU :=
                    if weight_numel > 0 then some (dev.fresh weight_numel)
                    else self.weight_dataGPU
                  bias_dataGPU :=
                    if bias_numel > 0 then some (dev.fresh bias_numel) else self.bias_dataGPU
                  bias_multGPU :=
                    if bias_numel > 0 then some (List.replicate (toSizeT d0) dev.one)
                    else self.bias_multGPU }

/-- Embedding of `InnerProductLayer::Malloc`. -/
def InnerProductLayer.Malloc {V : Type} (dev : Device V) (self : InnerProductLayer V)
    (phase_ : Phase) (rs : List (Response V)) :
    Outcome (Nat × InnerProductLayer V × List (Response V)) :=
  (InnerProductLayer.MallocOwn dev self phase_ rs).bind fun self1 =>
    (outLoop dev (InnerProductLayer.outRequest self1) (List.range self1.out.length)
        (self1.ownBytes, rs)).bind fun p =>
      .ok (p.1, self1, p.2)

/-- The layer classes whose `Malloc` is embedded here. -/
inductive AnyLayer (V : Type) where
  | memoryData (layer : MemoryDataLayer V)
  | innerProduct (layer : InnerProductLayer V)
  | activation (layer : ActivationLayer V)
  | softmax (layer : SoftmaxLayer V)
  deriving DecidableEq, Repr

/-- The virtual call `layer->Malloc(phase_)`. -/
def AnyLayer.Malloc {V : Type} (dev : Device V) (layer : AnyLayer V) (phase_ : Phase)
    (rs : List (Response V)) : Outcome (Nat × AnyLayer V × List (Response V)) :=
  match layer with
  | .memoryData l =>
    (MemoryDataLayer.Malloc dev l phase_ rs).bind fun r => .ok (r.1, .memoryData r.2.1, r.2.2)
  | .innerProduct l =>
    (InnerProductLayer.Malloc dev l phase_ rs).bind fun r => .ok (r.1, .innerProduct r.2.1, r.2.2)
  | .activation l =>
    (ActivationLayer.Malloc dev l phase_ rs).bind fun r => .ok (r.1, .activation r.2.1, r.2.2)
  | .softmax l =>
    (SoftmaxLayer.Malloc dev l phase_ rs).bind fun r => .ok (r.1, .softmax r.2.1, r.2.2)

/-- The bytes a layer's `Malloc` reserves for the blocks of the layer itself. -/
def AnyLayer.ownBytes {V : Type} : AnyLayer V → Nat
  | .innerProduct l => l.ownBytes
  | _ => 0

/-- A response without its `need_diff` flag: name, shape, strides and both blocks. -/
def Response.buffers {V : Type} (r : Response V) : Response V :=
  { r with need_diff := false }

/-- A response is allocated exactly when it has a shape. This holds for the responses of a
net that has just been built (no block, empty shape) and `Response::Malloc` keeps it. -/
def shapedWhenAllocated {V : Type} (rs : List (Response V)) : Prop :=
  ∀ r ∈ rs, (r.dataGPU.isSome = true ↔ r.dim ≠ [])

/-- The net `data -> fc`: a memory data layer with 100 items of shape `[3, 4, 4]`, batches of
10, and a fully connected layer with 5 outputs that is trained. Responses: `data`, `label`,
`fc`. -/
def exampleNet : Net (AnyLayer Int) Int :=
  { phase := .Testing,
    layers := [.memoryData { name := "data", phase := .Training, out := [0, 1],
                             dataDim := [100, 3, 4, 4], labelDim := [100, 1, 1, 1],
                             batch_size := 10 },
               .innerProduct { name := "fc", in_ := [0], out := [2], train_me := true,
                               num_output := 5 }],
    responses := [{ name := "data" }, { name := "label" }, { name := "fc" }] }

/-- Every allocated response of `rs` is still at its place in `t`, with the same name, shape,
strides and blocks. -/
def keepsAllocated {V : Type} (rs t : List (Response V)) : Prop :=
  rs.length = t.length ∧
  ∀ (i : Nat) (r : Response V), rs[i]? = some r → r.dataGPU.isSome = true →
    ∃ r1 : Response V, t[i]? = some r1 ∧ r1.buffers = r.buffers

/-- A request function of an output loop asks for the same output and the same shape again
once the responses it has looked at are allocated, whatever else has been allocated since. -/
def ReqStable {V : Type} (req : List (Response V) → Nat → Outcome (Nat × Bool × List Int)) :
    Prop :=
  ∀ rs i oi nd s, shapedWhenAllocated rs → req rs i = .ok (oi, nd, s) → s ≠ [] →
    ∀ t, keepsAllocated rs t → ∃ nd1, req t i = .ok (oi, nd1, s)

/-- A layer that has been through its `Malloc` is settled on the responses `rs1`: called again,
on `rs1` or on any later state of it, `Malloc` returns the bytes of the layer's own blocks,
leaves the layer as it is, and changes nothing in the responses but `need_diff` flags. -/
def MallocSettled {L V : Type}
    (m : L → Phase → List (Response V) → Outcome (Nat × L × List (Response V)))
    (own : L → Nat) (phase_ : Phase) (layer : L) (rs1 : List (Response V)) : Prop :=
  ∀ t, keepsAllocated rs1 t →
    ∃ t1, m layer phase_ t = .ok (own layer, layer, t1) ∧
      t1.map Response.buffers = t.map Response.buffers

/-! ## The optimizer step -/

/-- The arithmetic of `ComputeT` as the kernels use it, with the conversions between
`StorageT` (values `V`) and `ComputeT` (values `C`). -/
structure Compute (V C : Type) where
  GPUStorage2ComputeT : V → C
  GPUCompute2StorageT : C → V
  add : C → C → C
  sub : C → C → C
  mul : C → C → C

/-- Embedding of `bsa2b(N, a, b)`: `b[idx] = b[idx] - a[idx]` for `idx < N`; returns the content
of the block `b` afterwards. The launch evaluates `CUDA_GET_LOOPS(N)`, which divides by zero
for `N = 0`; for `N >= 1` the kernel is taken as the loop over `idx < N` that its threads carry
out together (the grid of `CUDA_GET_BLOCKS(N)` blocks with `CUDA_GET_LOOPS(N)` loops covers
these indices as long as `(N + 511) / 512` fits an `int`). -/
def bsa2b {V C : Type} (A : Compute V C) (N : Nat) (a b : Option (List V)) :
    Outcome (Option (List V)) :=
  if N = 0 then .undefined
  else
    match a, b with
    | some as, some bs =>
      if as.length < N ∨ bs.length < N then .undefined
      else
        .ok (some (List.zipWith
          (fun bv av => A.GPUCompute2StorageT
            (A.sub (A.GPUStorage2ComputeT bv) (A.GPUStorage2ComputeT av)))
          (bs.take N) (as.take N) ++ bs.drop N))
    | _, _ => .undefined

/-- The body of the loop of `Kernel_update_SGDL2` for one `idx`, on the current content of the
block `gradients`: `g = decay * w`, then `g += gradients[N*k+idx]` for `k = 1, ..., nNets`, then
`gradients[idx] = momentum * h + lr * g`. The index `N*k+idx` is computed in `size_t`. -/
def Kernel_update_SGDL2_idx {V C : Type} (A : Compute V C) (N : Nat) (nNets : Int)
    (decay momentum lr : C) (weights gradients : List V) (idx : Nat) : Outcome (List V) :=
  match weights[idx]?, gradients[idx]? with
  | some w0, some h0 =>
    let w := A.GPUStorage2ComputeT w0
    let h := A.GPUStorage2ComputeT h0
    ((List.range' 1 nNets.toNat).foldl
      (fun (g : Outcome C) k => g.bind fun gv =>
        match gradients[(N * k + idx) % 2 ^ 64]? with
        | some x => .ok (A.add gv (A.GPUStorage2ComputeT x))
        | none => .undefined)
      (.ok (A.mul decay w))).bind fun g =>
        .ok (gradients.set idx (A.GPUCompute2StorageT (A.add (A.mul momentum h) (A.mul lr g))))
  | _, _ => .undefined

/-- Embedding of `update_SGDL2(N, nNets, decay, momentum, lr, weights, gradients)`: the kernel
body for every `idx < N`, then `checkCUDA(cudaGetLastError())`, whose result is `launched`.
Returns the content of the block `gradients` afterwards. The launch evaluates
`CUDA_GET_LOOPS(N)`, which divides by zero for `N = 0`; for `N >= 1` the kernel is taken as the
loop over `idx < N` that its threads carry out together (the grid of `CUDA_GET_BLOCKS(N)`
blocks with `CUDA_GET_LOOPS(N)` loops covers these indices as long as `(N + 511) / 512` fits
an `int`). -/
def update_SGDL2 {V C : Type} (A : Compute V C) (launched : Bool) (N : Nat) (nNets : Int)
    (decay momentum lr : C) (weights gradients : Option (List V)) :
    Outcome (Option (List V)) :=
  if N = 0 then .undefined
  else if INT_MAX ≤ nNets then .undefined
  else
    match weights, gradients with
    | some ws, some gs =>
      ((List.range N).foldl
        (fun (st : Outcome (List V)) idx => st.bind fun g =>
          Kernel_update_SGDL2_idx A N nNets decay momentum lr ws g idx)
        (.ok gs)).bind fun g => if launched then .ok (some g) else .fatal
    | _, _ => .undefined

/-- Embedding of `Layer::update`. -/
def Layer.update {V C : Type} (A : Compute V C) (self : Layer V) : Outcome (Layer V) :=
  if self.train_me then
    (if self.weight_numel > 0 ∧ self.weight_histGPU.isSome then
        bsa2b A self.weight_numel self.weight_histGPU self.weight_dataGPU
      else .ok self.weight_dataGPU).bind fun wd =>
    (if self.bias_numel > 0 ∧ self.bias_histGPU.isSome then
        bsa2b A self.bias_numel self.bias_histGPU self.bias_dataGPU
      else .ok self.bias_dataGPU).bind fun bd =>
    .ok { self with weight_dataGPU := wd, bias_dataGPU := bd }
  else .ok self

/-- The regularized SGD rule for one element, in the order the spec gives it:
`g = decay * w + (sum of the replica gradients)`, `hist = momentum * hist + lr * g`. -/
def sgdl2Rule {V C : Type} (A : Compute V C) (decay momentum lr : C) (w hist : V)
    (grads : List V) : V :=
  A.GPUCompute2StorageT
    (A.add (A.mul momentum (A.GPUStorage2ComputeT hist))
      (A.mul lr (grads.foldl (fun g x => A.add g (A.GPUStorage2ComputeT x))
        (A.mul decay (A.GPUStorage2ComputeT w)))))

/-- Slot `k` of the shared region of a parameter with `N` elements: slot 0 is the history,
slot `k` for `k = 1, ..., nNets` is the gradient of replica `k - 1`. -/
def slot {V : Type} (N : Nat) (region : List V) (k : Nat) : List V :=
  (region.drop (N * k)).take N

/-- Integer arithmetic on `Int` values as `ComputeT`, with `StorageT = ComputeT`. -/
def intCompute : Compute Int Int :=
  { GPUStorage2ComputeT := id, GPUCompute2StorageT := id,
    add := fun a b => a + b, sub := fun a b => a - b, mul := fun a b => a * b }

/-! ## Solver: the shared parameter regions -/

/-- The block that `Solver::Malloc` reserves for one parameter (weight or bias) of one layer,
and the pointers into it that it stores in the replicas: `histGPU[n]` and `diffGPU[n]` are
`nets[n]->layers[l]->weight_histGPU` and `...->weight_diffGPU` (or the `bias_` ones), as offsets
in elements from the start of the block. `bytes` is the size given to `cudaMalloc`. -/
structure ParamRegion (V : Type) where
  bytes : Nat
  content : List V
  histGPU : List Nat
  diffGPU : List Nat
  deriving DecidableEq, Repr

/-- The block `if (weight_numel>0) { ... }` of `Solver::Malloc` (the same for the bias), with
the effect of the `clearHist()` that follows on the new block: the first `numel` elements are
set to zero. Returns the bytes added to `memoryBytes[GPU_solver]` and the region. -/
def Solver.MallocParam {V : Type} (dev : Device V) (nNets numel : Nat) :
    Outcome (Nat × Option (ParamRegion V)) :=
  if numel > 0 then
    let bytes := ((1 + nNets) * numel * sizeofStorageT) % 2 ^ 64
    if dev.cudaMalloc bytes = false then .fatal
    else
      .ok (bytes,
        some { bytes := bytes,
               content := cudaMemset0 dev (dev.fresh (bytes / sizeofStorageT)) numel,
               histGPU := (List.range nNets).map fun _ => 0,
               diffGPU := (List.range nNets).map fun n => (numel * (n + 1)) % 2 ^ 64 })
  else .ok (0, none)

/-- The regions of one layer: for the weight and for the bias. -/
structure LayerRegions (V : Type) where
  weight : Option (ParamRegion V) := none
  bias : Option (ParamRegion V) := none
  deriving DecidableEq, Repr

/-- The loop over the layers of `nets[0]` in `Solver::Malloc`. `layers` are the base class
parts of the layers of `nets[0]` still to come, `l` counts them, `lens` are the numbers of
layers of all the nets (`nets[n]->layers[l]` has to exist). Returns the bytes added to
`memoryBytes[GPU_solver]` and the regions, one entry per layer. -/
def Solver.MallocRegions {V : Type} (dev : Device V) (nNets : Nat) (lens : List Nat) :
    List (Layer V) → Nat → Nat → Outcome (Nat × List (LayerRegions V))
  | [], _, memoryBytes => .ok (memoryBytes, [])
  | layer :: rest, l, memoryBytes =>
    if layer.train_me then
      if (layer.weight_numel > 0 ∨ layer.bias_numel > 0) ∧ ∃ len ∈ lens, len ≤ l then .undefined
      else
        (Solver.MallocParam dev nNets layer.weight_numel).bind fun w =>
        (Solver.MallocParam dev nNets layer.bias_numel).bind fun b =>
        (Solver.MallocRegions dev nNets lens rest (l + 1)
            ((((memoryBytes + w.1) % 2 ^ 64) + b.1) % 2 ^ 64)).bind fun q =>
          .ok (q.1, { weight := w.2, bias := b.2 } :: q.2)
    else
      (Solver.MallocRegions dev nNets lens rest (l + 1) memoryBytes).bind fun q =>
        .ok (q.1, {} :: q.2)

/-- The first loop of `Solver::Malloc`: `memoryBytes[GPU[n]] += nets[n]->Malloc(phase)`. -/
def Solver.MallocNets {L V : Type}
    (m : L → Phase → List (Response V) → Outcome (Nat × L × List (Response V)))
    (phase_ : Phase) (GPU : List Int) :
    List (Net L V) → Nat → List Nat → Outcome (List Nat × List (Net L V))
  | [], _, memoryBytes => .ok (memoryBytes, [])
  | net :: rest, n, memoryBytes =>
    (Net.Malloc m net phase_).bind fun r =>
      match GPU[n]? with
      | none => .undefined
      | some gpu =>
        if gpu < 0 ∨ (memoryBytes.length : Int) ≤ gpu then .undefined
        else
          (Solver.MallocNets m phase_ GPU rest (n + 1)
              (memoryBytes.set gpu.toNat ((memoryBytes.getD gpu.toNat 0 + r.1) % 2 ^ 64))).bind
            fun q => .ok (q.1, r.2 :: q.2)

/-- Embedding of `Solver::Malloc(phase_)`. `base` gives the base class part of a layer,
`nGPUs` is what `cudaGetDeviceCount` reports. Returns the total number of bytes, the nets after
their `Malloc`, and the regions of the layers (empty when the phase is `Testing`). -/
def Solver.Malloc {L V : Type} (dev : Device V)
    (m : L → Phase → List (Response V) → Outcome (Nat × L × List (Response V)))
    (base : L → Layer V) (nets : List (Net L V)) (GPU : List Int) (GPU_solver : Int)
    (nGPUs : Nat) (phase_ : Phase) :
    Outcome (Nat × List (Net L V) × List (LayerRegions V)) :=
  (Solver.MallocNets m phase_ GPU nets 0 (List.replicate nGPUs 0)).bind fun p =>
    let regions : Outcome (List Nat × List (LayerRegions V)) :=
      if phase_ = .Training ∨ phase_ = .TrainingTesting then
        match p.2 with
        | [] => .undefined
        | net0 :: _ =>
          (Solver.MallocRegions dev nets.length (p.2.map fun (net : Net L V) => net.layers.length)
              (net0.layers.map base) 0 0).bind fun q =>
            if q.2.all (fun r => r.weight.isNone && r.bias.isNone) then .ok (p.1, q.2)
            else if GPU_solver < 0 ∨ (nGPUs : Int) ≤ GPU_solver then .undefined
            else .ok (p.1.set GPU_solver.toNat
                        ((p.1.getD GPU_solver.toNat 0 + q.1) % 2 ^ 64), q.2)
      else .ok (p.1, [])
    regions.bind fun r =>
      if nGPUs = 0 then .undefined
      else .ok (r.1.foldl (fun total b => (total + b) % 2 ^ 64) 0, p.2, r.2)

/-- The layout of a region for `N` replicas of a parameter of `numel` elements, in the words of
the spec: the block has `(N + 1) * numel` elements; every replica's history pointer is the
start of the block, replica `n`'s gradient pointer is `(n + 1) * numel` elements further; the
history slice and the `N` gradient slices, each `numel` long, lie inside the block, do not
overlap one another, and cover the block. -/
def ParamRegion.layout {V : Type} (r : ParamRegion V) (N numel : Nat) : Prop :=
  r.content.length = (N + 1) * numel ∧ r.bytes = r.content.length * sizeofStorageT ∧
  r.histGPU.length = N ∧ r.diffGPU.length = N ∧
  (∀ n : Nat, n < N → r.histGPU[n]? = some 0 ∧ r.diffGPU[n]? = some ((n + 1) * numel)) ∧
  (∀ n d : Nat, r.diffGPU[n]? = some d → 0 + numel ≤ d ∧ d + numel ≤ r.content.length) ∧
  (∀ n1 n2 d1 d2 : Nat, n1 ≠ n2 → r.diffGPU[n1]? = some d1 → r.diffGPU[n2]? = some d2 →
    d1 + numel ≤ d2 ∨ d2 + numel ≤ d1) ∧
  (∀ x : Nat, x < r.content.length →
    x < numel ∨ ∃ n d : Nat, r.diffGPU[n]? = some d ∧ d ≤ x ∧ x < d + numel)

/-- The base class part of a layer of any of the embedded classes. -/
def AnyLayer.toLayer {V : Type} : AnyLayer V → Layer V
  | .memoryData l => l.toLayer
  | .innerProduct l => l.toLayer
  | .activation l => l.toLayer
  | .softmax l => l.toLayer

/-! ## Solver: the learning rate -/

/-- The learning rate policies. -/
inductive LRPolicy where
  | LR_fixed | LR_step | LR_exp | LR_inv | LR_multistep | LR_poly | LR_sigmoid | LR_cyclical
  deriving DecidableEq, Repr

/-- The arithmetic of `ComputeT` on the host as `Solver::learning_rate` uses it: the conversion
of an `int`, the four operations, the unary minus, and the library functions `pow` and `exp`. -/
structure HostCompute (C : Type) where
  ofInt : Int → C
  add : C → C → C
  sub : C → C → C
  mul : C → C → C
  div : C → C → C
  neg : C → C
  pow : C → C → C
  exp : C → C

/-- The fields of `Solver` that `Solver::learning_rate` and the loop of `Solver::train` use. -/
structure Solver (C : Type) where
  iter : Int := 0
  current_step : Int := 0
  base_lr : C
  lr_policy : LRPolicy := .LR_inv
  lr_gamma : C
  lr_power : C
  lr_stepsize : Int := 100000
  stepvalue : List Int := []
  max_iter : Int := 10000

/-- Embedding of `Solver::learning_rate`: returns the rate and the solver afterwards (the
policies `LR_step` and `LR_multistep` store `current_step`). The division `iter / lr_stepsize`
is the division of `int`, which truncates; the comparison `current_step < stepvalue.size()`
is made in `size_t`. -/
def Solver.learning_rate {C : Type} (M : HostCompute C) (self : Solver C) :
    Outcome (C × Solver C) :=
  match self.lr_policy with
  | .LR_fixed => .ok (self.base_lr, self)
  | .LR_step =>
    if self.lr_stepsize = 0 then .undefined
    else if self.iter = INT_MIN ∧ self.lr_stepsize = -1 then .undefined
    else
      let current_step := Int.tdiv self.iter self.lr_stepsize
      .ok (M.mul self.base_lr (M.pow self.lr_gamma (M.ofInt current_step)),
           { self with current_step := current_step })
  | .LR_exp => .ok (M.mul self.base_lr (M.pow self.lr_gamma (M.ofInt self.iter)), self)
  | .LR_inv =>
    .ok (M.mul self.base_lr
          (M.pow (M.add (M.ofInt 1) (M.mul self.lr_gamma (M.ofInt self.iter)))
            (M.neg self.lr_power)), self)
  | .LR_multistep =>
    let current_step :=
      if toSizeT self.current_step < self.stepvalue.length then
        match self.stepvalue[self.current_step.toNat]? with
        | some v => if self.iter ≥ v then self.current_step + 1 else self.current_step
        | none => self.current_step
      else self.current_step
    .ok (M.mul self.base_lr (M.pow self.lr_gamma (M.ofInt current_step)),
         { self with current_step := current_step })
  | .LR_poly =>
    .ok (M.mul self.base_lr
          (M.pow (M.sub (M.ofInt 1) (M.div (M.ofInt self.iter) (M.ofInt self.max_iter)))
            self.lr_power), self)
  | .LR_sigmoid =>
    .ok (M.mul self.base_lr
          (M.div (M.ofInt 1)
            (M.add (M.ofInt 1)
              (M.exp (M.mul (M.neg self.lr_gamma)
                (M.sub (M.ofInt self.iter) (M.ofInt self.lr_stepsize)))))), self)
  | .LR_cyclical => .ok (M.ofInt 0, self)

/-- The arithmetic is exact: `ComputeT` is the field of the real numbers, without rounding. -/
def HostCompute.exact (M : HostCompute ℝ) : Prop :=
  (∀ n, M.ofInt n = (n : ℝ)) ∧ (∀ a b, M.add a b = a + b) ∧ (∀ a b, M.sub a b = a - b) ∧
  (∀ a b, M.mul a b = a * b) ∧ (∀ a b, M.div a b = a / b) ∧ (∀ a, M.neg a = -a) ∧
  (∀ a b, M.pow a b = a ^ b) ∧ (∀ a, M.exp a = Real.exp a)

/-- The loop `for (iter = iter_begin; iter <= max_iter; ++iter)` of `Solver::train`, as far as
the schedule goes: every round calls `learning_rate()` once and hands the rate to `update`;
the list records the iteration and that rate. The steps of the nets, the update itself, the
tests, snapshots and displays are left out: they touch neither `iter` nor `current_step` nor
the configuration of the schedule. -/
def Solver.trainLoop {C : Type} (M : HostCompute C) :
    Nat → Solver C → List (Int × C) → Outcome (Solver C × List (Int × C))
  | 0, self, rates => .ok (self, rates)
  | fuel + 1, self, rates =>
    if self.iter ≤ self.max_iter then
      (Solver.learning_rate M self).bind fun r =>
        if INT_MAX ≤ r.2.iter then .undefined
        else Solver.trainLoop M fuel { r.2 with iter := r.2.iter + 1 }
              (rates ++ [(self.iter, r.1)])
    else .ok (self, rates)

/-- Embedding of the schedule part of `Solver::train(iter_begin)`: `current_step = 0`, then
the loop. -/
def Solver.train {C : Type} (M : HostCompute C) (self : Solver C) (iter_begin : Int) :
    Outcome (Solver C × List (Int × C)) :=
  Solver.trainLoop M (self.max_iter - iter_begin + 1).toNat
    { self with current_step := 0, iter := iter_begin } []

/-- The number of step boundaries that `iter` has reached. -/
def stepsReached (stepvalue : List Int) (iter : Int) : Nat :=
  (stepvalue.filter fun v => v ≤ iter).length

/-! ## Saving and loading the parameters -/

/-- The kind of `StorageT` for the configuration that is compiled (`DATATYPE 0`). -/
def StorageT : Kind := .half

/-- The bytes of a `std::string` that is given as a string of characters below 256. -/
def stringBytes (s : String) : List Nat := s.toList.map Char.toNat

/-- Embedding of `Tensor::writeGPU(GPUmem)`: `cudaMemcpy` of `numel()` elements from `CPUmem` to
the device block (its status is not checked); returns the content of the block afterwards. -/
def Tensor.writeGPU (self : Tensor) (GPUmem : List Nat) : Outcome (List Nat) :=
  if self.numel = 0 then .ok GPUmem
  else
    match self.CPUmem with
    | none => .undefined
    | some m =>
      if m.length < self.numel ∨ GPUmem.length < self.numel then .undefined
      else .ok (m.take self.numel ++ GPUmem.drop self.numel)

/-- Embedding of `Tensor::readGPU(GPUmem)` on a tensor whose `CPUmem` has just been allocated
with `numel()` elements: returns the content of `CPUmem` afterwards. -/
def Tensor.readGPU (self : Tensor) (GPUmem : List Nat) : Outcome (List Nat) :=
  if GPUmem.length < self.numel then .undefined else .ok (GPUmem.take self.numel)

/-- One parameter in one round of the loop of `Layer::setWeights`: the block `GPUmem` with
shape `dim`, the record `t`, and the name `pname` the record has to have. -/
def Layer.setParam (GPUmem : Option (List Nat)) (dim : List Int) (pname : List Nat)
    (t : Tensor) : Outcome (Option (List Nat)) :=
  match GPUmem with
  | none => .ok none
  | some g =>
    if t.name = pname then
      if numel dim = numel t.dim then (t.writeGPU g).bind fun g1 => .ok (some g1)
      else .ok (some g)
    else .ok (some g)

/-- The body of the loop of `Layer::setWeights` for the record `t`. -/
def Layer.setWeightsAt (self : Layer Nat) (t : Tensor) : Outcome (Layer Nat) :=
  (Layer.setParam self.weight_dataGPU self.weight_dim
      (stringBytes (self.name ++ ".weight")) t).bind fun w =>
    (Layer.setParam self.bias_dataGPU self.bias_dim
        (stringBytes (self.name ++ ".bias")) t).bind fun b =>
      .ok { self with weight_dataGPU := w, bias_dataGPU := b }

/-- Embedding of `Layer::setWeights(weights)`. -/
def Layer.setWeights (self : Layer Nat) (weights : List Tensor) : Outcome (Layer Nat) :=
  weights.foldl (fun st t => st.bind fun layer => Layer.setWeightsAt layer t) (.ok self)

/-- One parameter gradient in one round of the loop of `Layer::setDiffs`. -/
def Layer.setDiff (GPUmem : Option (List Nat)) (pname : List Nat) (t : Tensor) :
    Outcome (Option (List Nat)) :=
  match GPUmem with
  | none => .ok none
  | some g =>
    if t.name = pname then (t.writeGPU g).bind fun g1 => .ok (some g1) else .ok (some g)

/-- Embedding of `Layer::setDiffs(weights)`. -/
def Layer.setDiffs (self : Layer Nat) (weights : List Tensor) : Outcome (Layer Nat) :=
  weights.foldl
    (fun st t => st.bind fun layer =>
      (Layer.setDiff layer.weight_diffGPU (stringBytes (layer.name ++ ".weight_diff")) t).bind
        fun w =>
      (Layer.setDiff layer.bias_diffGPU (stringBytes (layer.name ++ ".bias_diff")) t).bind
        fun b => .ok { layer with weight_diffGPU := w, bias_diffGPU := b })
    (.ok self)

/-- Saving one block as a record: `Tensor(pname, dim)`, `readGPU`, `write(fp)`. -/
def Layer.saveParam (GPUmem : Option (List Nat)) (dim : List Int) (pname : List Nat)
    (fp : List Nat) : Outcome (List Nat) :=
  match GPUmem with
  | none => .ok fp
  | some g =>
    (Tensor.readGPU { dim := dim, name := pname } g).bind fun m =>
      Tensor.write StorageT { dim := dim, CPUmem := some m, name := pname } fp

/-- Embedding of `Layer::saveWeights(fp)`. -/
def Layer.saveWeights (self : Layer Nat) (fp : List Nat) : Outcome (List Nat) :=
  (Layer.saveParam self.weight_dataGPU self.weight_dim
      (stringBytes (self.name ++ ".weight")) fp).bind fun fp1 =>
    Layer.saveParam self.bias_dataGPU self.bias_dim (stringBytes (self.name ++ ".bias")) fp1

/-- Embedding of `Layer::saveDiffs(fp)`. -/
def Layer.saveDiffs (self : Layer Nat) (fp : List Nat) : Outcome (List Nat) :=
  (Layer.saveParam self.weight_diffGPU self.weight_dim
      (stringBytes (self.name ++ ".weight_diff")) fp).bind fun fp1 =>
    Layer.saveParam self.bias_diffGPU self.bias_dim
      (stringBytes (self.name ++ ".bias_diff")) fp1

/-- The loop of `Net::loadWeights(weights, diff)` over the layers. -/
def Net.loadWeightsLoop (weights : List Tensor) (diff : Bool) :
    List (Layer Nat) → Outcome (List (Layer Nat))
  | [] => .ok []
  | layer :: rest =>
    (Layer.setWeights layer weights).bind fun l1 =>
      (if diff then Layer.setDiffs l1 weights else .ok l1).bind fun l2 =>
        (Net.loadWeightsLoop weights diff rest).bind fun rest1 => .ok (l2 :: rest1)

/-- Embedding of `Net::loadWeights(weights, diff)`. -/
def Net.loadWeights (net : Net (Layer Nat) Nat) (weights : List Tensor) (diff : Bool) :
    Outcome (Net (Layer Nat) Nat) :=
  (Net.loadWeightsLoop weights diff net.layers).bind fun layers =>
    .ok { net with layers := layers }

/-- Embedding of `Net::loadWeights(filename, diff)` on the content `file` of the file. -/
def Net.loadWeightsFile (cv : Casts) (net : Net (Layer Nat) Nat) (file : List Nat)
    (diff : Bool) : Outcome (Net (Layer Nat) Nat) :=
  (readTensors cv StorageT file SIZE_MAX).bind fun weights => Net.loadWeights net weights diff

/-- The loop of `Net::saveWeights` over the layers. -/
def Net.saveWeightsLoop (diff : Bool) : List (Layer Nat) → List Nat → Outcome (List Nat)
  | [], fp => .ok fp
  | layer :: rest, fp =>
    (Layer.saveWeights layer fp).bind fun fp1 =>
      (if diff then Layer.saveDiffs layer fp1 else .ok fp1).bind fun fp2 =>
        Net.saveWeightsLoop diff rest fp2

/-- Embedding of `Net::saveWeights(filename, diff)`: the content of the file written. -/
def Net.saveWeights (net : Net (Layer Nat) Nat) (diff : Bool) : Outcome (List Nat) :=
  Net.saveWeightsLoop diff net.layers []

/-- The blocks of the parameters of a layer are as large as the shapes say. -/
def Layer.sized (self : Layer Nat) : Prop :=
  (∀ g, self.weight_dataGPU = some g → numel self.weight_dim ≤ g.length) ∧
  (∀ g, self.bias_dataGPU = some g → numel self.bias_dim ≤ g.length)

/-- The record holds its elements: `CPUmem` points to at least `numel()` of them. -/
def Tensor.holds (t : Tensor) : Prop :=
  ∃ m, t.CPUmem = some m ∧ t.numel ≤ m.length

/-- The tensor `Layer::saveWeights` makes of one block: `Tensor(pname, dim)` filled by `readGPU`
with the first `numel(dim)` elements of the block. -/
def paramRecord (g : List Nat) (dim : List Int) (pname : List Nat) : Tensor :=
  { dim := dim, CPUmem := some (g.take (numel dim)), name := pname }

/-- The records `Layer::saveWeights` makes of a layer: one for the weight and one for the
bias, when the block is there, with the shape and the first `numel` elements of the block. -/
def Layer.paramRecords (self : Layer Nat) : List Tensor :=
  (match self.weight_dataGPU with
    | some g => [paramRecord g self.weight_dim (stringBytes (self.name ++ ".weight"))]
    | none => []) ++
  (match self.bias_dataGPU with
    | some g => [paramRecord g self.bias_dim (stringBytes (self.name ++ ".bias"))]
    | none => [])

/-- A block of `StorageT` values with its shape and name can be written as a record: the
block has exactly `numel(dim)` elements, each an object representation of `StorageT`; rank
and name length fit an `int`, and the dimensions are `int`s. -/
def savableParam (GPUmem : Option (List Nat)) (dim : List Int) (pname : List Nat) : Prop :=
  ∀ g, GPUmem = some g →
    g.length = numel dim ∧ (∀ v ∈ g, v < 256 ^ sizeofT StorageT) ∧
    pname.length < 2 ^ 31 ∧ dim.length < 2 ^ 31 ∧ (∀ d ∈ dim, INT_MIN ≤ d ∧ d ≤ INT_MAX)

/-- Both parameters of the layer can be written as records. -/
def Layer.savable (self : Layer Nat) : Prop :=
  savableParam self.weight_dataGPU self.weight_dim (stringBytes (self.name ++ ".weight")) ∧
  savableParam self.bias_dataGPU self.bias_dim (stringBytes (self.name ++ ".bias"))

/-- Two layers of the same architecture: same name, same parameter shapes, and blocks of the
same sizes (or none in both). -/
def Layer.sameShape (a b : Layer Nat) : Prop :=
  a.name = b.name ∧ a.weight_dim = b.weight_dim ∧ a.bias_dim = b.bias_dim ∧
  a.weight_dataGPU.map List.length = b.weight_dataGPU.map List.length ∧
  a.bias_dataGPU.map List.length = b.bias_dataGPU.map List.length

/-- The layer `dst` with the weight and the bias of `src`. -/
def Layer.withParams (src dst : Layer Nat) : Layer Nat :=
  { dst with weight_dataGPU := src.weight_dataGPU, bias_dataGPU := src.bias_dataGPU }

/-! ## The remaining layer classes: `Malloc` -/

/-- The division `a / b` of `int`: it truncates; `b = 0` and `INT_MIN / -1` are undefined. -/
def intDiv (a b : Int) : Outcome Int :=
  if b = 0 ∨ (a = INT_MIN ∧ b = -1) then .undefined else .ok (Int.tdiv a b)

/-- Embedding of `PoolingLayer`. -/
structure PoolingLayer (V : Type) extends Layer V where
  window : List Int := []
  padding : List Int := []
  stride : List Int := []
  deriving DecidableEq, Repr

/-- The expression `1 + (in + 2*padding - window)/stride` of `PoolingLayer::Malloc`, in `int`
arithmetic. -/
def poolSize (x p w s : Int) : Outcome Int :=
  (intResult (2 * p)).bind fun p2 =>
  (intResult (x + p2)).bind fun a =>
  (intResult (a - w)).bind fun b =>
  (intDiv b s).bind fun q => intResult (1 + q)

/-- The loop `for (d = 2; d < in[i]->dim.size(); ++d)` of `PoolingLayer::Malloc` over the
spatial dimensions of the input; `padding[d-2]`, `window[d-2]` and `stride[d-2]` have to
exist. -/
def poolSpatial : List Int → List Int → List Int → List Int → Outcome (List Int)
  | [], _, _, _ => .ok []
  | x :: xs, p :: ps, w :: ws, s :: ss =>
    (poolSize x p w s).bind fun y =>
      (poolSpatial xs ps ws ss).bind fun ys => .ok (y :: ys)
  | _ :: _, _, _, _ => .undefined

/-- The shape `dimOut` that `PoolingLayer::Malloc` computes from the shape of the input.
With fewer than two dimensions the stores `dimOut[0]`, `dimOut[1]` are out of bounds. -/
def PoolingLayer.dimOut {V : Type} (self : PoolingLayer V) (dimIn : List Int) :
    Outcome (List Int) :=
  match dimIn with
  | d0 :: d1 :: spatial =>
    (poolSpatial spatial self.padding self.window self.stride).bind fun ys =>
      .ok (d0 :: d1 :: ys)
  | _ => .undefined

/-- Round `i` of the output loop of `PoolingLayer::Malloc`:
`out[i]->need_diff = in[i]->need_diff`, and the shape `dimOut`. -/
def PoolingLayer.outRequest {V : Type} (self : PoolingLayer V) (rs : List (Response V))
    (i : Nat) : Outcome (Nat × Bool × List Int) :=
  match self.in_[i]?, self.out[i]? with
  | some ii, some oi =>
    match rs[ii]? with
    | some inR => (self.dimOut inR.dim).bind fun dims => .ok (oi, inR.need_diff, dims)
    | none => .undefined
  | _, _ => .undefined

/-- Embedding of `PoolingLayer::Malloc`. -/
def PoolingLayer.Malloc {V : Type} (dev : Device V) (self : PoolingLayer V)
    (_phase : Phase) (rs : List (Response V)) :
    Outcome (Nat × PoolingLayer V × List (Response V)) :=
  if self.in_.length = 0 then .fatal
  else if self.in_.length ≠ self.out.length then .fatal
  else
    (outLoop dev (PoolingLayer.outRequest self) (List.range self.out.length) (0, rs)).bind
      fun p => .ok (p.1, self, p.2)

/-- The pooling output size of the spec: `1 + floor((in + 2*pad - window) / stride)`. -/
def poolSizeSpec (x p w s : Int) : Int :=
  1 + ⌊((x + 2 * p - w : Int) : ℚ) / ((s : Int) : ℚ)⌋

/-- The net `data -> fc` with one more response, `pool`, for the output of a pooling layer. -/
def poolNet : Net (AnyLayer Int) Int :=
  { exampleNet with responses := exampleNet.responses ++ [{ name := "pool" }] }

/-- A pooling layer with window 2 and stride 2 (no padding) from `fc` to `pool`. -/
def examplePooling : PoolingLayer Int :=
  { name := "pool", in_ := [2], out := [3], window := [2, 2], padding := [0, 0],
    stride := [2, 2] }

/-- The shapes of the responses after `Malloc` of the chain `data -> fc -> pool`. -/
def poolChainShapes : Outcome (List (List Int)) :=
  (Net.Malloc (AnyLayer.Malloc exampleDevice) poolNet .Training).bind fun r =>
    (PoolingLayer.Malloc exampleDevice examplePooling .Training r.2.responses).bind fun q =>
      .ok (q.2.2.map fun e => e.dim)

/-! ## Allocation of the remaining layer classes -/

/-- The output loop of a layer in general: round `i` acts on the layer and on the responses
and returns the bytes it reserved, which are added to `memoryBytes`. -/
def roundLoop {L V : Type}
    (round : L → List (Response V) → Nat → Outcome (Nat × L × List (Response V)))
    (idx : List Nat) (st : Nat × L × List (Response V)) :
    Outcome (Nat × L × List (Response V)) :=
  idx.foldl (fun st i => st.bind fun p => (round p.2.1 p.2.2 i).bind fun q =>
    .ok ((p.1 + q.1) % 2 ^ 64, q.2.1, q.2.2)) (.ok st)

/-- Embedding of `LRNLayer`; the parameters of the normalization play no part in `Malloc`. -/
structure LRNLayer (V : Type) extends Layer V where
  local_size : Nat := 5
  deriving DecidableEq, Repr

/-- Embedding of `LRNLayer::Malloc`. -/
def LRNLayer.Malloc {V : Type} (dev : Device V) (self : LRNLayer V)
    (_phase : Phase) (rs : List (Response V)) :
    Outcome (Nat × LRNLayer V × List (Response V)) :=
  if self.in_.length = 0 then .fatal
  else if self.in_.length ≠ self.out.length then .fatal
  else
    (outLoop dev (passRequest self.toLayer) (List.range self.out.length) (0, rs)).bind fun p =>
      .ok (p.1, self, p.2)

/-- Round `i` of the loop of `DropoutLayer::Malloc`: the sizes of the masks (`int` values), the
two device blocks for them, the host block, and then
`out[i]->need_diff = in[i]->need_diff; out[i]->Malloc(in[i]->dim)`. A negative size makes
`new StorageT[SIZEmask[i]]` throw, which ends the process. -/
def DropoutLayer.MallocRound {V : Type} (dev : Device V) (self : DropoutLayer V)
    (rs : List (Response V)) (i : Nat) :
    Outcome (Nat × DropoutLayer V × List (Response V)) :=
  match self.in_[i]?, self.out[i]? with
  | some ii, some oi =>
    match rs[ii]? with
    | some inR =>
      let size := toInt32 (numel inR.dim)
      (intResult ((sizeofStorageT : Int) * size)).bind fun bytes =>
      (intResult (bytes * 2)).bind fun bytes2 =>
        if dev.cudaMalloc (toSizeT bytes) = false then .fatal
        else if size < 0 then .fatal
        else
          (outMalloc dev rs oi inR.need_diff inR.dim).bind fun q =>
            .ok ((toSizeT bytes2 + q.1) % 2 ^ 64,
                 { self with
                   GPUmask0 := self.GPUmask0.set i (some (dev.fresh size.toNat))
                   GPUmask1 := self.GPUmask1.set i (some (dev.fresh size.toNat))
                   BYTESmask := self.BYTESmask.set i bytes
                   SIZEmask := self.SIZEmask.set i size },
                 q.2)
    | none => .undefined
  | _, _ => .undefined

/-- Embedding of `DropoutLayer::Malloc`. The asynchronous `generateMask` that is started at
the end is left out; it fills the masks that are not current. -/
def DropoutLayer.Malloc {V : Type} (dev : Device V) (self : DropoutLayer V)
    (_phase : Phase) (rs : List (Response V)) :
    Outcome (Nat × DropoutLayer V × List (Response V)) :=
  if self.in_.length = 0 then .fatal
  else if self.in_.length ≠ self.out.length then .fatal
  else
    roundLoop (DropoutLayer.MallocRound dev) (List.range self.out.length)
      (0,
       { self with
         GPUmask0 := resize self.GPUmask0 self.out.length none
         GPUmask1 := resize self.GPUmask1 self.out.length none
         BYTESmask := resize self.BYTESmask self.out.length 0
         SIZEmask := resize self.SIZEmask self.out.length 0 },
       rs)

/-- The shape `dim` that `ReshapeLayer::Malloc` computes: an entry `0` of `shape` takes the
dimension of the input at that place, an entry `-1` takes what remains of the number of
elements (when that is not 1). The quotient `remain` is computed in `size_t` and stored in an
`int`. -/
def ReshapeLayer.dimOut {V : Type} (self : ReshapeLayer V) (dimIn : List Int) :
    Outcome (List Int) :=
  if ∃ d, d < self.shape.length ∧ self.shape[d]? = some 0 ∧ dimIn.length ≤ d then .undefined
  else
    let dim := (List.range self.shape.length).map fun d =>
      if self.shape.getD d 0 = 0 then dimIn.getD d 0 else self.shape.getD d 0
    if numel dim = 0 then .undefined
    else
      let remain := toInt32 (numel dimIn / numel dim)
      if remain ≠ 1 then
        if remain = INT_MIN then .undefined
        else .ok (dim.map fun x => if x = -1 then -remain else x)
      else .ok dim

/-- Round `i` of the output loop of `ReshapeLayer::Malloc`. -/
def ReshapeLayer.outRequest {V : Type} (self : ReshapeLayer V) (rs : List (Response V))
    (i : Nat) : Outcome (Nat × Bool × List Int) :=
  match self.in_[i]?, self.out[i]? with
  | some ii, some oi =>
    match rs[ii]? with
    | some inR => (self.dimOut inR.dim).bind fun dims => .ok (oi, inR.need_diff, dims)
    | none => .undefined
  | _, _ => .undefined

/-- Embedding of `ReshapeLayer::Malloc`. -/
def ReshapeLayer.Malloc {V : Type} (dev : Device V) (self : ReshapeLayer V)
    (_phase : Phase) (rs : List (Response V)) :
    Outcome (Nat × ReshapeLayer V × List (Response V)) :=
  if self.in_.length = 0 then .fatal
  else if self.in_.length ≠ self.out.length then .fatal
  else
    (outLoop dev (ReshapeLayer.outRequest self) (List.range self.out.length) (0, rs)).bind
      fun p => .ok (p.1, self, p.2)

/-- Embedding of `ROILayer`. -/
structure ROILayer (V : Type) extends Layer V where
  shape : List Int := []
  deriving DecidableEq, Repr

/-- Round `i` of the output loop of `ROILayer::Malloc`: `out[i]->need_diff = in[i*2]->need_diff`,
the check of `in[i*2+1]`, and the shape: the batch size of `in[i*2]`, then `shape`, an entry
`0` taking the dimension of the input. -/
def ROILayer.outRequest {V : Type} (self : ROILayer V) (rs : List (Response V)) (i : Nat) :
    Outcome (Nat × Bool × List Int) :=
  match self.in_[i * 2]?, self.in_[i * 2 + 1]?, self.out[i]? with
  | some ia, some ib, some oi =>
    match rs[ia]?, rs[ib]? with
    | some inA, some inB =>
      match inA.dim, inB.dim with
      | a0 :: arest, b0 :: _ =>
        if ¬ (b0 = a0 ∧ sizeofitem inB.dim = self.shape.length) then .fatal
        else if ∃ d, d < self.shape.length ∧ self.shape[d]? = some 0 ∧ arest.length ≤ d
        then .undefined
        else
          .ok (oi, inA.need_diff,
            a0 :: (List.range self.shape.length).map fun d =>
              if self.shape.getD d 0 = 0 then arest.getD d 0 else self.shape.getD d 0)
      | _, _ => .undefined
    | _, _ => .undefined
  | _, _, _ => .undefined

/-- Embedding of `ROILayer::Malloc`. -/
def ROILayer.Malloc {V : Type} (dev : Device V) (self : ROILayer V)
    (_phase : Phase) (rs : List (Response V)) :
    Outcome (Nat × ROILayer V × List (Response V)) :=
  if self.in_.length = 0 then .fatal
  else if self.in_.length ≠ 2 * self.out.length then .fatal
  else
    match self.in_[0]? with
    | none => .undefined
    | some i0 =>
      match rs[i0]? with
      | none => .undefined
      | some in0 =>
        if in0.dim.length ≠ self.shape.length + 1 then .fatal
        else
          (outLoop dev (ROILayer.outRequest self) (List.range self.out.length) (0, rs)).bind
            fun p => .ok (p.1, self, p.2)

/-- Embedding of `ROIPoolingLayer`: `GPUIndex[i]` is the number of `size_t` elements of the
block, or `none` for the null pointer. -/
structure ROIPoolingLayer (V : Type) extends Layer V where
  shape : List Int := []
  GPUIndex : List (Option Nat) := []
  deriving DecidableEq, Repr

/-- Round `i` of the loop of `ROIPoolingLayer::Malloc`: `out[i]->need_diff = in[i*2]->need_diff`,
the check of `in[i*2+1]`, the shape (number of boxes, channels, then `shape`),
`out[i]->Malloc(dim)`, and the index block when `in[i*2]` needs a gradient. -/
def ROIPoolingLayer.MallocRound {V : Type} (dev : Device V) (self : ROIPoolingLayer V)
    (rs : List (Response V)) (i : Nat) :
    Outcome (Nat × ROIPoolingLayer V × List (Response V)) :=
  match self.in_[i * 2]?, self.in_[i * 2 + 1]?, self.out[i]? with
  | some ia, some ib, some oi =>
    match rs[ia]?, rs[ib]? with
    | some inA, some inB =>
      if sizeofitem inB.dim ≠ (1 + 2 * self.shape.length) % 2 ^ 64 then .fatal
      else
        match inB.dim, inA.dim with
        | b0 :: _, _ :: a1 :: _ =>
          (outMalloc dev rs oi inA.need_diff (b0 :: a1 :: self.shape)).bind fun q =>
            match q.2[ia]?, q.2[oi]? with
            | some inA1, some outR =>
              if inA1.need_diff then
                if dev.cudaMalloc ((numel outR.dim * 8) % 2 ^ 64) = false then .fatal
                else
                  .ok ((q.1 + (numel outR.dim * 8) % 2 ^ 64) % 2 ^ 64,
                       { self with GPUIndex := self.GPUIndex.set i (some (numel outR.dim)) },
                       q.2)
              else .ok (q.1, self, q.2)
            | _, _ => .undefined
        | _, _ => .undefined
    | _, _ => .undefined
  | _, _, _ => .undefined

/-- Embedding of `ROIPoolingLayer::Malloc`. -/
def ROIPoolingLayer.Malloc {V : Type} (dev : Device V) (self : ROIPoolingLayer V)
    (_phase : Phase) (rs : List (Response V)) :
    Outcome (Nat × ROIPoolingLayer V × List (Response V)) :=
  if self.in_.length = 0 then .fatal
  else if self.in_.length ≠ 2 * self.out.length then .fatal
  else
    match self.in_[0]? with
    | none => .undefined
    | some i0 =>
      match rs[i0]? with
      | none => .undefined
      | some in0 =>
        if in0.dim.length ≠ self.shape.length + 2 then .fatal
        else
          roundLoop (ROIPoolingLayer.MallocRound dev) (List.range self.out.length)
            (0,
             { self with GPUIndex := resize self.GPUIndex self.out.length none },
             rs)

/-- The responses `in[j*in_group], ..., in[(j+1)*in_group - 1]` of an `ElementWiseLayer` or a
`ConcatLayer`. -/
def inGroup {V : Type} (in_ : List Nat) (rs : List (Response V)) (in_group j : Nat) :
    Outcome (List (Response V)) :=
  (List.range in_group).foldr
    (fun k acc =>
      match in_[j * in_group + k]? with
      | none => .undefined
      | some ii =>
        match rs[ii]? with
        | none => .undefined
        | some r => acc.bind fun l => .ok (r :: l))
    (.ok [])

/-- Embedding of `ElementWiseLayer`. -/
structure ElementWiseLayer (V : Type) extends Layer V where
  in_group : Int := 0
  deriving DecidableEq, Repr

/-- Round `j` of the output loop of `ElementWiseLayer::Malloc`: `out[j]->need_diff` is set to
`false` first, then `out[j]` needs a gradient when one of its inputs does, and takes the shape
of the first of them. -/
def ElementWiseLayer.outRequest {V : Type} (self : ElementWiseLayer V)
    (rs : List (Response V)) (j : Nat) : Outcome (Nat × Bool × List Int) :=
  match self.out[j]? with
  | none => .undefined
  | some oj =>
    match rs[oj]? with
    | none => .undefined
    | some outR =>
      (inGroup self.in_ (rs.set oj { outR with need_diff := false }) self.in_group.toNat j).bind
        fun ins =>
          match ins with
          | [] => .undefined
          | first :: _ => .ok (oj, ins.any (fun r => r.need_diff), first.dim)

/-- The first lines of `ElementWiseLayer::Malloc` and `ConcatLayer::Malloc`:
`in_group = in.size()/out.size()` and the check. -/
def groupSize (nIn nOut : Nat) : Outcome Int :=
  if nOut = 0 then .undefined
  else
    let in_group := toInt32 (nIn / nOut)
    if in_group < 2 ∨ nIn ≠ (toSizeT in_group * nOut) % 2 ^ 64 then .fatal else .ok in_group

/-- Embedding of `ElementWiseLayer::Malloc`. -/
def ElementWiseLayer.Malloc {V : Type} (dev : Device V) (self : ElementWiseLayer V)
    (_phase : Phase) (rs : List (Response V)) :
    Outcome (Nat × ElementWiseLayer V × List (Response V)) :=
  (groupSize self.in_.length self.out.length).bind fun g =>
    (outLoop dev (ElementWiseLayer.outRequest { self with in_group := g })
        (List.range self.out.length) (0, rs)).bind fun p =>
      .ok (p.1, { self with in_group := g }, p.2)

/-- Embedding of `ConcatLayer`. -/
structure ConcatLayer (V : Type) extends Layer V where
  in_group : Int := 0
  deriving DecidableEq, Repr

/-- The loop `dim[1] += in[i]->dim[1]` of `ConcatLayer::Malloc` over the other inputs. -/
def concatChannels : Int → List (List Int) → Outcome Int
  | c, [] => .ok c
  | c, (_ :: c1 :: _) :: rest => (intResult (c + c1)).bind fun c2 => concatChannels c2 rest
  | _, _ :: _ => .undefined

/-- Round `j` of the output loop of `ConcatLayer::Malloc`: `out[j]->need_diff` is set to
`false` first, then `out[j]` needs a gradient when one of its inputs does; its shape is that
of the first input with the channels added up. -/
def ConcatLayer.outRequest {V : Type} (self : ConcatLayer V)
    (rs : List (Response V)) (j : Nat) : Outcome (Nat × Bool × List Int) :=
  match self.out[j]? with
  | none => .undefined
  | some oj =>
    match rs[oj]? with
    | none => .undefined
    | some outR =>
      (inGroup self.in_ (rs.set oj { outR with need_diff := false }) self.in_group.toNat j).bind
        fun ins =>
          match ins with
          | [] => .undefined
          | first :: others =>
            match first.dim with
            | d0 :: c :: spatial =>
              (concatChannels c (others.map fun r => r.dim)).bind fun c2 =>
                .ok (oj, ins.any (fun r => r.need_diff), d0 :: c2 :: spatial)
            | _ => if others.isEmpty then .ok (oj, ins.any (fun r => r.need_diff), first.dim)
                   else .undefined

/-- Embedding of `ConcatLayer::Malloc`. -/
def ConcatLayer.Malloc {V : Type} (dev : Device V) (self : ConcatLayer V)
    (_phase : Phase) (rs : List (Response V)) :
    Outcome (Nat × ConcatLayer V × List (Response V)) :=
  (groupSize self.in_.length self.out.length).bind fun g =>
    (outLoop dev (ConcatLayer.outRequest { self with in_group := g })
        (List.range self.out.length) (0, rs)).bind fun p =>
      .ok (p.1, { self with in_group := g }, p.2)

/-- Embedding of `DiskDataLayer<T>`, as its constructor left it: `size_data` are the dimensions
of one item of the data file, `labelDim` is `labelCPU->dim`, `sizeofT` is `sizeof(T)`;
`dataGPU` and `labelGPU` are the sizes in bytes of the two device blocks of the layer, or
`none` for the null pointer. -/
structure DiskDataLayer (V : Type) extends Layer V where
  size_data : List Int := []
  size_crop : List Int := []
  batch_size : Int := 0
  labelDim : List Int := []
  sizeofT : Nat := 1
  numel_batch_all_channel_crop : Nat := 0
  dataGPU : Option Nat := none
  labelGPU : Option Nat := none
  counter : Int := 0
  epoch : Int := 0
  deriving DecidableEq, Repr

/-- The two output allocations of `DiskDataLayer::Malloc`, as rounds 0 and 1: `out[0]` with
`data_dim = [batch_size, size_data[0]] ++ size_crop` and `out[1]` with `labelCPU->dim`, both
with `need_diff = false`. -/
def DiskDataLayer.outRequest {V : Type} (self : DiskDataLayer V)
    (_rs : List (Response V)) (i : Nat) : Outcome (Nat × Bool × List Int) :=
  match i with
  | 0 =>
    match self.out[0]?, self.size_data with
    | some o0, c :: _ => .ok (o0, false, self.batch_size :: c :: self.size_crop)
    | _, _ => .undefined
  | _ =>
    match self.out[1]? with
    | some o1 => .ok (o1, false, self.labelDim)
    | none => .undefined

/-- Embedding of `DiskDataLayer::Malloc`. The asynchronous `prefetch` that is started at the end
is left out: it fills the blocks of the layer, not the responses. -/
def DiskDataLayer.Malloc {V : Type} (dev : Device V) (self : DiskDataLayer V)
    (phase_ : Phase) (rs : List (Response V)) :
    Outcome (Nat × DiskDataLayer V × List (Response V)) :=
  if self.phase = .Training ∧ phase_ = .Testing then .ok (0, self, rs)
  else if ¬ (self.in_.length = 0 ∨ self.in_.length = 1) then .fatal
  else
    (outLoop dev (DiskDataLayer.outRequest self) [0, 1] (0, rs)).bind fun p =>
      let labelBytes := (sizeofStorageT * numel self.labelDim) % 2 ^ 64
      let dataBytes := (self.numel_batch_all_channel_crop * self.sizeofT) % 2 ^ 64
      if dev.cudaMalloc labelBytes = false then .fatal
      else if dev.cudaMalloc dataBytes = false then .fatal
      else
        .ok (((p.1 + labelBytes) % 2 ^ 64 + dataBytes) % 2 ^ 64,
             { self with labelGPU := some labelBytes, dataGPU := some dataBytes }, p.2)

/-- Embedding of `TensorLayer`: `loaded[i]` is what `new Tensor<StorageT>(files[i])` gives, the
shape and the elements read from the file (`none` when the read stopped short); `dim` are the
shapes stored by `Malloc`. -/
structure TensorLayer (V : Type) extends Layer V where
  loaded : List (Outcome (List Int × Option (List V))) := []
  dim : List (List Int) := []
  counter : Int := 0
  epoch : Int := 0

/-- Round `i` of the loop of `TensorLayer::Malloc`: the tensor is read, `out[i]` is allocated
with its shape and `need_diff = false`, and the elements are copied into `out[i]->dataGPU`
under `checkCUDA`. -/
def TensorLayer.MallocRound {V : Type} (dev : Device V) (self : TensorLayer V)
    (rs : List (Response V)) (i : Nat) : Outcome (Nat × TensorLayer V × List (Response V)) :=
  match self.loaded[i]?, self.out[i]? with
  | some file, some oi =>
    file.bind fun t =>
      (outMalloc dev rs oi false t.1).bind fun q =>
        match q.2[oi]? with
        | none => .undefined
        | some outR =>
          let self1 := { self with dim := self.dim.set i t.1 }
          if numel t.1 = 0 then .ok (q.1, self1, q.2)
          else
            match t.2, outR.dataGPU with
            | some m, some g =>
              if m.length < numel t.1 ∨ g.length < numel t.1 then .undefined
              else
                .ok (q.1, self1,
                     q.2.set oi
                       { outR with dataGPU := some (m.take (numel t.1) ++ g.drop (numel t.1)) })
            | _, _ => .fatal
  | _, _ => .undefined

/-- Embedding of `TensorLayer::Malloc`. -/
def TensorLayer.Malloc {V : Type} (dev : Device V) (self : TensorLayer V)
    (_phase : Phase) (rs : List (Response V)) :
    Outcome (Nat × TensorLayer V × List (Response V)) :=
  if self.in_.length ≠ 0 then .fatal
  else if self.out.length = 0 then .fatal
  else if self.out.length ≠ self.loaded.length then .fatal
  else
    roundLoop (TensorLayer.MallocRound dev) (List.range self.loaded.length)
      (0, { self with dim := resize self.dim self.loaded.length [] }, rs)

/-- What the embedding takes from cuDNN for a convolution: whether the three
`cudnnCreate...Descriptor` calls of `ConvolutionLayer::Malloc` succeed, whether
`cudnnCreateTensorDescriptor` of `Response::getDesc` does, whether the filter descriptor can be
set to the given dimensions and the convolution descriptor to the given padding, stride and
upscale, and the output shape `cudnnGetConvolutionNdForwardOutputDim` gives for a convolution
(padding, stride, upscale), an input shape, a filter shape and a number of dimensions (`none`
when the call does not succeed). -/
structure ConvLibrary where
  createDescriptors : Bool
  cudnnCreateTensorDescriptor : Bool
  cudnnSetFilterNdDescriptor : List Int → Bool
  cudnnSetConvolutionNdDescriptor : List Int → List Int → List Int → Bool
  cudnnGetConvolutionNdForwardOutputDim :
    List Int → List Int → List Int → List Int → List Int → Nat → Option (List Int)

/-- Embedding of `Response::getDesc(group)`, as the shape of the descriptor it returns: the
shape of the response for one group, or the shape with `dim[1]/group` channels of a descriptor
that is created and set under `checkCUDNN`. A response that has not been allocated has no
descriptor. -/
def Response.getDesc {V : Type} (dev : Device V) (lib : ConvLibrary) (self : Response V)
    (group : Int) : Outcome (List Int) :=
  if self.dataGPU.isNone then .undefined
  else if group = 1 then .ok self.dim
  else if lib.cudnnCreateTensorDescriptor = false then .fatal
  else
    match self.dim with
    | d0 :: d1 :: rest =>
      (intDiv d1 group).bind fun c =>
        if dev.cudnnSetTensorNdDescriptor (d0 :: c :: rest) self.stride = false then .fatal
        else .ok (d0 :: c :: rest)
    | _ => .undefined

/-- Embedding of `ConvolutionLayer`. -/
structure ConvolutionLayer (V : Type) extends Layer V where
  num_output : Int := 0
  window : List Int := []
  stride : List Int := []
  padding : List Int := []
  upscale : List Int := []
  group : Int := 1
  deriving DecidableEq, Repr

/-- The vector `weight_dim_group` of `ConvolutionLayer::Malloc`: `weight_dim` with
`weight_dim[0]/group` in the first place. -/
def ConvolutionLayer.weight_dim_group {V : Type} (self : ConvolutionLayer V) :
    Outcome (List Int) :=
  match self.weight_dim with
  | w0 :: wrest => (intDiv w0 self.group).bind fun w0g => .ok (w0g :: wrest)
  | [] => .undefined

/-- The part of `ConvolutionLayer::Malloc` before the output loop: `train_me`, the arity
checks, `weight_dim[1] = in[0]->dim[1]/group`, the descriptors, and the blocks of the
weights and the bias. Returns the layer afterwards. -/
def ConvolutionLayer.MallocOwn {V : Type} (dev : Device V) (lib : ConvLibrary)
    (self : ConvolutionLayer V) (phase_ : Phase) (rs : List (Response V)) :
    Outcome (ConvolutionLayer V) :=
  if self.in_.length = 0 then .fatal
  else if self.in_.length ≠ self.out.length then .fatal
  else
    match self.in_[0]? with
    | none => .undefined
    | some i0 =>
      match rs[i0]? with
      | none => .undefined
      | some in0 =>
        match in0.dim, self.weight_dim with
        | _ :: c :: _, w0 :: _ :: wrest =>
          (intDiv c self.group).bind fun c1 =>
            let weight_dim := w0 :: c1 :: wrest
            let weight_numel := numel weight_dim
            let bias_numel := numel self.bias_dim
            if lib.createDescriptors = false then .fatal
            else
              (intDiv w0 self.group).bind fun w0g =>
                if lib.cudnnSetFilterNdDescriptor (w0g :: c1 :: wrest) = false then .fatal
                else if lib.cudnnSetConvolutionNdDescriptor self.padding self.stride
                    self.upscale = false then .fatal
                else if self.bias_dim = [] then .undefined
                else if ¬ (∀ s ∈ strideOf self.bias_dim, INT_MIN ≤ s ∧ s ≤ INT_MAX)
                then .undefined
                else if dev.cudnnSetTensorNdDescriptor self.bias_dim (strideOf self.bias_dim)
                    = false then .fatal
                else if weight_numel > 0 ∧
                    dev.cudaMalloc ((weight_numel * sizeofStorageT) % 2 ^ 64) = false
                then .fatal
                else if bias_numel > 0 ∧
                    dev.cudaMalloc ((bias_numel * sizeofStorageT) % 2 ^ 64) = false
                then .fatal
                else
                  .ok { self with
                        train_me := self.train_me && decide (phase_ ≠ .Testing)
                        weight_dim := weight_dim
                        weight_numel := weight_numel
                        bias_numel := bias_numel
                        weight_dataGPU :=
                          if weight_numel > 0 then some (dev.fresh weight_numel)
                          else self.weight_dataGPU
                        bias_dataGPU :=
                          if bias_numel > 0 then some (dev.fresh bias_numel)
                          else self.bias_dataGPU }
        | _, _ => .undefined

/-- The bytes `ConvolutionLayer::Malloc` reserves for the weights and the bias. -/
def ConvolutionLayer.ownBytes {V : Type} (self : ConvolutionLayer V) : Nat :=
  let b1 := if self.weight_numel > 0 then (0 + (self.weight_numel * sizeofStorageT) % 2 ^ 64) % 2 ^ 64
            else 0
  if self.bias_numel > 0 then (b1 + (self.bias_numel * sizeofStorageT) % 2 ^ 64) % 2 ^ 64
  else b1

/-- Round `i` of the output loop of `ConvolutionLayer::Malloc`:
`out[i]->need_diff = train_me || in[i]->need_diff`, and the shape that cuDNN gives for the
convolution of one group, with `dimOut[1] *= group`. -/
def ConvolutionLayer.outRequest {V : Type} (dev : Device V) (lib : ConvLibrary)
    (self : ConvolutionLayer V) (rs : List (Response V)) (i : Nat) :
    Outcome (Nat × Bool × List Int) :=
  match self.in_[i]?, self.out[i]? with
  | some ii, some oi =>
    match rs[ii]? with
    | some inR =>
      (Response.getDesc dev lib inR self.group).bind fun dimIn =>
      self.weight_dim_group.bind fun filter =>
        match lib.cudnnGetConvolutionNdForwardOutputDim self.padding self.stride self.upscale
            dimIn filter inR.dim.length with
        | none => .fatal
        | some (d0 :: d1 :: rest) =>
          (intResult (d1 * self.group)).bind fun c =>
            .ok (oi, self.train_me || inR.need_diff, d0 :: c :: rest)
        | some _ => .undefined
    | none => .undefined
  | _, _ => .undefined

/-- Embedding of `ConvolutionLayer::Malloc`. -/
def ConvolutionLayer.Malloc {V : Type} (dev : Device V) (lib : ConvLibrary)
    (self : ConvolutionLayer V) (phase_ : Phase) (rs : List (Response V)) :
    Outcome (Nat × ConvolutionLayer V × List (Response V)) :=
  (ConvolutionLayer.MallocOwn dev lib self phase_ rs).bind fun self1 =>
    (outLoop dev (ConvolutionLayer.outRequest dev lib self1) (List.range self1.out.length)
        (self1.ownBytes, rs)).bind fun p =>
      .ok (p.1, self1, p.2)

/-- Embedding of `numspel`: the product of the dimensions after the first two. -/
def numspel (dim : List Int) : Nat :=
  (dim.drop 2).foldl (fun res d => (res * toSizeT d) % 2 ^ 64) 1

/-- Embedding of `same_dim_EC`: same rank, same first entry and the same entries from the
third on. It reads `dimA[0]` and `dimB[0]` once the ranks agree. -/
def same_dim_EC (dimA dimB : List Int) : Outcome Bool :=
  if dimA.length ≠ dimB.length then .ok false
  else
    match dimA, dimB with
    | a :: as, b :: bs => if a ≠ b then .ok false else .ok (same_dim (as.drop 1) (bs.drop 1))
    | _, _ => .undefined

/-- The loss functions. -/
inductive LossObjective where
  | MultinomialLogistic_StableSoftmax | MultinomialLogistic | SmoothL1 | Contrastive
  | EuclideanSSE | HingeL1 | HingeL2 | SigmoidCrossEntropy | Infogain
  deriving DecidableEq, Repr

/-- Embedding of `LossLayer`: `loss_weights` holds `CPUCompute2StorageT(loss_weights[i])`;
`loss_numel` is `none` as long as nothing has been stored in it; `loss_values` and
`loss_weightsGPU` are `none` for the null pointer. -/
structure LossLayer (V : Type) extends Layer V where
  mode : LossObjective := .MultinomialLogistic
  loss_weights : List V := []
  loss_numel : Option Nat := none
  numExamples : Int := 0
  loss_values : Option (List V) := none
  loss_weightsGPU : Option (List V) := none
  deriving DecidableEq, Repr

/-- The `switch (mode)` of `LossLayer::Malloc`: the checks of the inputs and the value of
`loss_numel` afterwards. Five of the modes store nothing in `loss_numel`. -/
def LossLayer.lossNumel {V : Type} (self : LossLayer V) (rs : List (Response V))
    (in0 : Response V) : Outcome (Option Nat) :=
  match self.mode with
  | .MultinomialLogistic_StableSoftmax | .MultinomialLogistic =>
    if ¬ (self.in_.length = 2 ∨ self.in_.length = 3) then .fatal
    else
      match self.in_[1]? with
      | none => .undefined
      | some i1 =>
        match rs[i1]? with
        | none => .undefined
        | some in1 =>
          (same_dim_EC in0.dim in1.dim).bind fun same =>
            if same = false then .fatal
            else
              match in1.dim with
              | _ :: c :: _ =>
                if c ≠ 1 then .fatal
                else
                  let r : Option Nat :=
                    some ((toSizeT self.numExamples * numspel in0.dim) % 2 ^ 64)
                  if self.in_.length = 3 then
                    match self.in_[2]? with
                    | none => .undefined
                    | some i2 =>
                      match rs[i2]? with
                      | none => .undefined
                      | some in2 =>
                        if ¬ (numel in0.dim = numel in2.dim ∨ sizeofitem in0.dim = numel in2.dim)
                        then .fatal
                        else .ok r
                  else .ok r
              | _ => .undefined
  | .SmoothL1 =>
    if ¬ (self.in_.length = 2 ∨ self.in_.length = 3) then .fatal
    else
      match self.in_[1]? with
      | none => .undefined
      | some i1 =>
        match rs[i1]? with
        | none => .undefined
        | some in1 =>
          if same_dim in0.dim in1.dim = false then .fatal
          else if self.in_.length = 3 then
            match self.in_[2]? with
            | none => .undefined
            | some i2 =>
              match rs[i2]? with
              | none => .undefined
              | some in2 =>
                if same_dim in0.dim in2.dim = false then .fatal else .ok (some (numel in0.dim))
          else .ok (some (numel in0.dim))
  | .Contrastive => .ok (some (toSizeT self.numExamples))
  | _ => .ok self.loss_numel

/-- Embedding of `LossLayer::Malloc`. It allocates nothing for the responses. The value of
`loss_numel` is read after the `switch`; reading it before anything was stored in it is
undefined. -/
def LossLayer.Malloc {V : Type} (dev : Device V) (self : LossLayer V)
    (_phase : Phase) (rs : List (Response V)) :
    Outcome (Nat × LossLayer V × List (Response V)) :=
  match self.in_[0]? with
  | none => .undefined
  | some i0 =>
    match rs[i0]? with
    | none => .undefined
    | some in0 =>
      match in0.dim with
      | [] => .undefined
      | n :: _ =>
        (LossLayer.lossNumel { self with numExamples := n } rs in0).bind fun stored =>
          match stored with
          | none => .undefined
          | some loss_numel =>
            let memoryBytes := (0 + (loss_numel * sizeofStorageT) % 2 ^ 64) % 2 ^ 64
            if dev.cudaMalloc memoryBytes = false then .fatal
            else
              let self1 : LossLayer V :=
                { self with numExamples := n, loss_numel := some loss_numel,
                            loss_values := some (dev.fresh loss_numel) }
              if self.loss_weights.length > 0 then
                let newBytes := (self.loss_weights.length * sizeofStorageT) % 2 ^ 64
                if dev.cudaMalloc newBytes = false then .fatal
                else
                  .ok ((memoryBytes + newBytes) % 2 ^ 64,
                       { self1 with loss_weightsGPU := some self.loss_weights }, rs)
              else .ok (memoryBytes, self1, rs)

/-- The layer classes `Net::init` can construct from a description. -/
inductive NetLayer (V : Type) where
  | memoryData (layer : MemoryDataLayer V)
  | diskData (layer : DiskDataLayer V)
  | elementWise (layer : ElementWiseLayer V)
  | concat (layer : ConcatLayer V)
  | convolution (layer : ConvolutionLayer V)
  | reshape (layer : ReshapeLayer V)
  | innerProduct (layer : InnerProductLayer V)
  | pooling (layer : PoolingLayer V)
  | dropout (layer : DropoutLayer V)
  | activation (layer : ActivationLayer V)
  | lrn (layer : LRNLayer V)
  | softmax (layer : SoftmaxLayer V)
  | roi (layer : ROILayer V)
  | roiPooling (layer : ROIPoolingLayer V)
  | tensor (layer : TensorLayer V)
  | loss (layer : LossLayer V)

/-- The fields of the base class `Layer` of a layer. -/
def NetLayer.toLayer {V : Type} : NetLayer V → Layer V
  | .memoryData l => l.toLayer
  | .diskData l => l.toLayer
  | .elementWise l => l.toLayer
  | .concat l => l.toLayer
  | .convolution l => l.toLayer
  | .reshape l => l.toLayer
  | .innerProduct l => l.toLayer
  | .pooling l => l.toLayer
  | .dropout l => l.toLayer
  | .activation l => l.toLayer
  | .lrn l => l.toLayer
  | .softmax l => l.toLayer
  | .roi l => l.toLayer
  | .roiPooling l => l.toLayer
  | .tensor l => l.toLayer
  | .loss l => l.toLayer

/-- The virtual call `layer->Malloc(phase_)` on a layer of any of the classes. -/
def NetLayer.Malloc {V : Type} (dev : Device V) (lib : ConvLibrary) (layer : NetLayer V)
    (phase_ : Phase) (rs : List (Response V)) : Outcome (Nat × NetLayer V × List (Response V)) :=
  match layer with
  | .memoryData l =>
    (MemoryDataLayer.Malloc dev l phase_ rs).bind fun r => .ok (r.1, .memoryData r.2.1, r.2.2)
  | .diskData l =>
    (DiskDataLayer.Malloc dev l phase_ rs).bind fun r => .ok (r.1, .diskData r.2.1, r.2.2)
  | .elementWise l =>
    (ElementWiseLayer.Malloc dev l phase_ rs).bind fun r => .ok (r.1, .elementWise r.2.1, r.2.2)
  | .concat l =>
    (ConcatLayer.Malloc dev l phase_ rs).bind fun r => .ok (r.1, .concat r.2.1, r.2.2)
  | .convolution l =>
    (ConvolutionLayer.Malloc dev lib l phase_ rs).bind fun r =>
      .ok (r.1, .convolution r.2.1, r.2.2)
  | .reshape l =>
    (ReshapeLayer.Malloc dev l phase_ rs).bind fun r => .ok (r.1, .reshape r.2.1, r.2.2)
  | .innerProduct l =>
    (InnerProductLayer.Malloc dev l phase_ rs).bind fun r => .ok (r.1, .innerProduct r.2.1, r.2.2)
  | .pooling l =>
    (PoolingLayer.Malloc dev l phase_ rs).bind fun r => .ok (r.1, .pooling r.2.1, r.2.2)
  | .dropout l =>
    (DropoutLayer.Malloc dev l phase_ rs).bind fun r => .ok (r.1, .dropout r.2.1, r.2.2)
  | .activation l =>
    (ActivationLayer.Malloc dev l phase_ rs).bind fun r => .ok (r.1, .activation r.2.1, r.2.2)
  | .lrn l =>
    (LRNLayer.Malloc dev l phase_ rs).bind fun r => .ok (r.1, .lrn r.2.1, r.2.2)
  | .softmax l =>
    (SoftmaxLayer.Malloc dev l phase_ rs).bind fun r => .ok (r.1, .softmax r.2.1, r.2.2)
  | .roi l =>
    (ROILayer.Malloc dev l phase_ rs).bind fun r => .ok (r.1, .roi r.2.1, r.2.2)
  | .roiPooling l =>
    (ROIPoolingLayer.Malloc dev l phase_ rs).bind fun r => .ok (r.1, .roiPooling r.2.1, r.2.2)
  | .tensor l =>
    (TensorLayer.Malloc dev l phase_ rs).bind fun r => .ok (r.1, .tensor r.2.1, r.2.2)
  | .loss l =>
    (LossLayer.Malloc dev l phase_ rs).bind fun r => .ok (r.1, .loss r.2.1, r.2.2)

/-- What the constructors that read a description leave in `train_me`: only
`ConvolutionLayer(JSON*)` and `InnerProductLayer(JSON*)` read the member `train_me` (default
`true`); in every other class the flag is `false`, from the constructor of `Layer` or from the
constructor of the class. -/
def NetLayer.asConstructed {V : Type} : NetLayer V → Bool
  | .convolution _ => true
  | .innerProduct _ => true
  | layer => ! layer.toLayer.train_me

/-- A response as `Response(name)` constructs it: no blocks, `need_diff` false. -/
def Response.asConstructed {V : Type} (r : Response V) : Bool :=
  r.dataGPU.isNone && r.diffGPU.isNone && ! r.need_diff

/-- A net as `Net::init` leaves it: the layers as their constructors left `train_me`, the
responses as their constructor made them. -/
def Net.asConstructed {V : Type} (net : Net (NetLayer V) V) : Bool :=
  net.layers.all NetLayer.asConstructed && net.responses.all Response.asConstructed

/-- No response needs or owns a gradient block. -/
def noGradient {V : Type} (rs : List (Response V)) : Prop :=
  ∀ r ∈ rs, r.need_diff = false ∧ r.diffGPU = none

/-- What cuDNN computes for the output shape of a convolution, as a library that always
succeeds: the batch size of the input, the number of filters, and
`1 + (x + 2*pad - window)/stride` in each spatial dimension. -/
def exampleLibrary : ConvLibrary :=
  { createDescriptors := true,
    cudnnCreateTensorDescriptor := true,
    cudnnSetFilterNdDescriptor := fun _ => true,
    cudnnSetConvolutionNdDescriptor := fun _ _ _ => true,
    cudnnGetConvolutionNdForwardOutputDim := fun pad stride _ dimIn filter _ =>
      some (dimIn.headD 0 :: filter.headD 0 ::
        List.zipWith (fun xw ps => 1 + (xw.1 + 2 * ps.1 - xw.2) / ps.2)
          (List.zip (dimIn.drop 2) (filter.drop 2)) (List.zip pad stride)) }

/-- The net `data -> conv -> relu (in place) -> pool -> fc -> prob`, with a loss on `prob` and
`label`, as built from a description in which `conv` and `fc` are marked for training. -/
def testingNet : Net (NetLayer Int) Int :=
  { phase := .Training,
    layers := [.memoryData { name := "data", phase := .TrainingTesting, out := [0, 1],
                             dataDim := [100, 3, 6, 6], labelDim := [100, 1, 1, 1],
                             batch_size := 10 },
               .convolution { name := "conv", in_ := [0], out := [2], train_me := true,
                              num_output := 4, window := [3, 3], stride := [1, 1],
                              padding := [0, 0], upscale := [1, 1],
                              weight_dim := [4, 0, 3, 3], bias_dim := [1, 4, 1, 1] },
               .activation { name := "relu", in_ := [2], out := [2] },
               .pooling { name := "pool", in_ := [2], out := [3], window := [2, 2],
                          padding := [0, 0], stride := [2, 2] },
               .innerProduct { name := "fc", in_ := [3], out := [4], train_me := true,
                               num_output := 5 },
               .softmax { name := "prob", in_ := [4], out := [5] },
               .loss { name := "loss", in_ := [5, 1], mode := .MultinomialLogistic }],
    responses := [{ name := "data" }, { name := "label" }, { name := "conv" },
                  { name := "pool" }, { name := "fc" }, { name := "prob" }] }


/-! ## Checks over ranges of bit patterns -/

/-- The check of one pattern: a NaN has to come back as a NaN, every other pattern as
itself. -/
def halfRoundTrip (h : Nat) : Bool :=
  if ishnan h then ishnan (cpu_float2half (cpu_half2float h))
  else cpu_float2half (cpu_half2float h) == h

/-- The conjunction of `p k` for `k = lo, ..., lo + n - 1`. -/
def checkFrom (p : Nat → Bool) (lo : Nat) : Nat → Bool
  | 0 => true
  | n + 1 => p (lo + n) && checkFrom p lo n

/-! ## Dropout masks -/

/-- What `DropoutLayer::init` sets: `distribution` is the parameter of the
`std::bernoulli_distribution` it creates, the probability with which a draw gives `true`. -/
structure DropoutInit (C : Type) where
  current_mask : Bool
  distribution : C
  scale : C
  deriving DecidableEq, Repr

/-- Embedding of `DropoutLayer::init`, in exact arithmetic:
`distribution = new std::bernoulli_distribution(dropout_rate)`,
`scale = 1. / (1. - dropout_rate)`. -/
def DropoutLayer.init {C : Type} [One C] [Sub C] [Div C] (dropout_rate : C) : DropoutInit C :=
  { current_mask := true, distribution := dropout_rate, scale := 1 / (1 - dropout_rate) }

/-- Embedding of the inner loop of `DropoutLayer::generateMask` for one mask: `draws` are the
results of `(*distribution)(rng)` element by element; an element becomes `scaleStorageT` when
the draw is `true` and `zeroStorageT` otherwise. -/
def DropoutLayer.generateMask {V : Type} (scaleStorageT zeroStorageT : V) (draws : List Bool) :
    List V :=
  draws.map fun draw => if draw then scaleStorageT else zeroStorageT

/-- The probability that an element of the mask is kept (set to the scale): the probability
that the draw is `true`, which is the parameter of the distribution. -/
def DropoutInit.keepProbability {C : Type} (s : DropoutInit C) : C := s.distribution

/-- The expected value of an element of the mask: the scale with the probability of `true`,
zero with the probability of `false`. -/
def DropoutInit.expectedMask {C : Type} [One C] [Zero C] [Sub C] [Mul C] [Add C]
    (s : DropoutInit C) : C :=
  s.distribution * s.scale + (1 - s.distribution) * 0

/-! ## Shuffling and serving the data of a `MemoryDataLayer` -/

/-- What the embedding takes from `std::shuffle` with the generator `rng` (state `R`): the
reordered sequence and the state of the generator afterwards; the result is a permutation of
the sequence. -/
structure Shuffler (R : Type) where
  shuffle : List Nat → R → List Nat × R
  perm : ∀ (l : List Nat) (r : R), (shuffle l r).1.Perm l

/-- Embedding of `randperm(n, rng)`: `0, ..., n - 1`, shuffled. -/
def randperm {R : Type} (S : Shuffler R) (n : Nat) (rng : R) : List Nat × R :=
  S.shuffle (List.range n) rng

/-- Item `i` of a tensor: the `sizeofitem()` elements from `CPUmem + i * sizeofitem()` on, the
offset computed in `size_t`. -/
def Tensor.item (self : Tensor) (i : Nat) : List Nat :=
  ((self.CPUmem.getD []).drop ((i * sizeofitem self.dim) % 2 ^ 64)).take (sizeofitem self.dim)

/-- A tensor with `n` items whose block holds them: the first dimension is `n`, and the items
lie inside the block. -/
def Tensor.itemized (t : Tensor) (n : Nat) : Prop :=
  ∃ (d0 : Int) (rest : List Int) (mem : List Nat), t.dim = d0 :: rest ∧ 0 ≤ d0 ∧ d0 ≤ INT_MAX ∧
    d0.toNat = n ∧ t.CPUmem = some mem ∧ n * sizeofitem t.dim ≤ mem.length ∧
    mem.length < 2 ^ 64

/-- Embedding of `Tensor::permute(v)`: a new block of `numel()` elements is filled item by
item, item `i` from item `v[i]` of the old block, for `i < numofitems()`. Reading `v[i]`
beyond the end of `v`, reading beyond the old block and writing beyond the new one are
undefined. -/
def Tensor.permute (self : Tensor) (v : List Nat) : Outcome Tensor :=
  match self.dim, self.CPUmem with
  | d0 :: _, some mem =>
    let nbItems := toSizeT d0
    let sizeofitem_ := sizeofitem self.dim
    if nbItems ≠ 0 ∧ self.numel < nbItems * sizeofitem_ then .undefined
    else if (List.range nbItems).all (fun i =>
        match v[i]? with
        | some s => decide ((s * sizeofitem_) % 2 ^ 64 + sizeofitem_ ≤ mem.length)
        | none => false) then
      .ok { self with
            CPUmem := some ((List.range nbItems).flatMap fun i =>
              (mem.drop ((v.getD i 0 * sizeofitem_) % 2 ^ 64)).take sizeofitem_) }
    else .undefined
  | _, _ => .undefined

/-- The host side of a `MemoryDataLayer`: the two tensors, the batch size, the position
`counter` in the data, the `epoch` counter and the random generator. -/
structure MemoryDataHost (R : Type) where
  phase : Phase := .Training
  dataCPU : Tensor
  labelCPU : Tensor
  batch_size : Int := 64
  counter : Int := 0
  epoch : Int := 0
  rng : R

/-- Embedding of `MemoryDataLayer::shuffle`. -/
def MemoryDataLayer.shuffle {R : Type} (S : Shuffler R) (self : MemoryDataHost R) :
    Outcome (MemoryDataHost R) :=
  match self.dataCPU.dim with
  | [] => .undefined
  | d0 :: _ =>
    let v := randperm S (toSizeT d0) self.rng
    (self.dataCPU.permute v.1).bind fun data =>
    (self.labelCPU.permute v.1).bind fun label =>
      .ok { self with dataCPU := data, labelCPU := label, rng := v.2 }

/-- The elements that one `cudaMemcpy` of `MemoryDataLayer::forward` copies from a tensor:
`batch_size * sizeofitem()` elements from `CPUmem + counter * sizeofitem()` on. Reading beyond
the block is undefined. -/
def MemoryDataLayer.copyBatch (t : Tensor) (counter batch_size : Int) : Outcome (List Nat) :=
  match t.CPUmem with
  | none => .undefined
  | some mem =>
    let offset := (toSizeT counter * sizeofitem t.dim) % 2 ^ 64
    let bytes := (((toSizeT batch_size * sizeofitem t.dim) % 2 ^ 64) * sizeofStorageT) % 2 ^ 64
    if mem.length < offset + bytes / sizeofStorageT then .undefined
    else .ok ((mem.drop offset).take (bytes / sizeofStorageT))

/-- Embedding of `MemoryDataLayer::forward`. Returns the layer afterwards, the value of
`counter` at the two copies (the index of the first item served), and the label and data
elements copied to `out[1]` and `out[0]`. -/
def MemoryDataLayer.forward {R : Type} (S : Shuffler R) (self : MemoryDataHost R) :
    Outcome (MemoryDataHost R × Int × List Nat × List Nat) :=
  match self.dataCPU.dim with
  | [] => .undefined
  | n :: _ =>
    (intResult (self.counter + self.batch_size)).bind fun next =>
    (if next ≥ n then
        (intResult (self.epoch + 1)).bind fun e =>
          if self.phase ≠ .Testing then
            (MemoryDataLayer.shuffle S { self with epoch := e }).bind fun s =>
              .ok { s with counter := 0 }
          else .ok { self with epoch := e }
      else .ok self).bind fun s1 =>
    (MemoryDataLayer.copyBatch s1.labelCPU s1.counter s1.batch_size).bind fun label =>
    (MemoryDataLayer.copyBatch s1.dataCPU s1.counter s1.batch_size).bind fun data =>
    (intResult (s1.counter + s1.batch_size)).bind fun c =>
      match s1.dataCPU.dim with
      | [] => .undefined
      | n1 :: _ => .ok ({ s1 with counter := if c ≥ n1 then 0 else c }, s1.counter, label, data)

/-- The `k` calls of `shuffle` in a row. -/
def MemoryDataLayer.shuffles {R : Type} (S : Shuffler R) :
    Nat → MemoryDataHost R → Outcome (MemoryDataHost R)
  | 0, self => .ok self
  | k + 1, self => (MemoryDataLayer.shuffles S k self).bind (MemoryDataLayer.shuffle S)

/-- The first `k` calls of `forward` in a row: returns the layer afterwards and, for every
call, the index of the first item it served and the value of `epoch` after it. -/
def MemoryDataLayer.forwards {R : Type} (S : Shuffler R) :
    Nat → MemoryDataHost R → Outcome (MemoryDataHost R × List (Int × Int))
  | 0, self => .ok (self, [])
  | k + 1, self =>
    (MemoryDataLayer.forward S self).bind fun r =>
      (MemoryDataLayer.forwards S k r.1).bind fun q =>
        .ok (q.1, (r.2.1, r.1.epoch) :: q.2)

/-- A shuffler for examples: it reverses the sequence. -/
def reverseShuffler : Shuffler Unit :=
  { shuffle := fun l r => (l.reverse, r), perm := fun l _ => List.reverse_perm l }

/-- A memory data layer with four items of two elements each, labels `0, 1, 2, 3`, and
batches of two. -/
def exampleMemoryData (phase : Phase) : MemoryDataHost Unit :=
  { phase := phase,
    dataCPU := { dim := [4, 2], CPUmem := some [10, 11, 20, 21, 30, 31, 40, 41] },
    labelCPU := { dim := [4, 1], CPUmem := some [0, 1, 2, 3] },
    batch_size := 2, rng := () }

/-! ## Building a net from a description -/

/-- One layer object of the architecture description, as far as `Net::init` itself reads it:
the member `type`, and the members `out` and `in` when they are there. The other members are
read by the constructor of the layer. -/
structure LayerDescription where
  type : String
  out : Option (List String) := none
  in_ : Option (List String) := none
  deriving DecidableEq, Repr

/-- The loop of `Net::getResponse(name)` from position `r` on: the index of the first response
with that name, `none` for `NULL`. -/
def Net.getResponseFrom {V : Type} (name : String) : List (Response V) → Nat → Option Nat
  | [], _ => none
  | response :: rest, r =>
    if response.name = name then some r else Net.getResponseFrom name rest (r + 1)

/-- Embedding of `Net::getResponse(name)`. -/
def Net.getResponse {V : Type} (responses : List (Response V)) (name : String) : Option Nat :=
  Net.getResponseFrom name responses 0

/-- The loop over the names of the member `out` (or `in`) in `Net::init`: the response with
that name is looked up, a new one is added to the net when there is none, and the response is
pushed onto the layer's list `refs` (`addOut` or `addIn`). `created` is whether
`cudnnCreateTensorDescriptor` in the constructor of `Response` succeeds. -/
def Net.wire {V : Type} (created : Bool) :
    List String → List (Response V) → List Nat → Outcome (List (Response V) × List Nat)
  | [], responses, refs => .ok (responses, refs)
  | name :: rest, responses, refs =>
    match Net.getResponse responses name with
    | some r => Net.wire created rest responses (refs ++ [r])
    | none =>
      if created then
        Net.wire created rest (responses ++ [{ name := name }]) (refs ++ [responses.length])
      else .fatal

/-- The values of the member `type` for which `Net::init` constructs a layer. -/
def Net.layerTypes : List String :=
  ["MemoryData", "DiskData", "ElementWise", "Concat", "Convolution", "Reshape", "InnerProduct",
   "Pooling", "Dropout", "Activation", "LRN", "Softmax", "ROI", "ROIPooling", "Tensor", "Loss"]

/-- The loop of `Net::init` over the layer objects of the description. `ctor` is the
constructor of the class that belongs to the type, giving the base class part of the new
layer. -/
def Net.initLoop {V : Type} (ctor : LayerDescription → Outcome (Layer V)) (created : Bool) :
    List LayerDescription → Net (Layer V) V → Outcome (Net (Layer V) V)
  | [], net => .ok net
  | p :: rest, net =>
    if p.type ∈ Net.layerTypes then
      (ctor p).bind fun pLayer =>
        (Net.wire created (p.out.getD []) net.responses pLayer.out).bind fun o =>
          (Net.wire created (p.in_.getD []) o.1 pLayer.in_).bind fun i =>
            Net.initLoop ctor created rest
              { net with layers := net.layers ++ [{ pLayer with out := o.2, in_ := i.2 }],
                         responses := i.1 }
    else .fatal

/-- Embedding of `Net::init(architecture_obj)`: the three library calls at the start
(`handles` is whether they succeed), then the loop. `phase` is the value of the member
`phase`, which `init` does not touch. -/
def Net.init {V : Type} (ctor : LayerDescription → Outcome (Layer V)) (handles created : Bool)
    (phase : Phase) (architecture_obj : List LayerDescription) : Outcome (Net (Layer V) V) :=
  if handles = false then .fatal
  else Net.initLoop ctor created architecture_obj { phase := phase, layers := [], responses := [] }

/-- The names that a description refers to, in the order in which `Net::init` meets them:
layer by layer, the names of `out` before the names of `in`. -/
def referencedNames (architecture_obj : List LayerDescription) : List String :=
  architecture_obj.flatMap fun p => p.out.getD [] ++ p.in_.getD []

/-- The names of a list in the order of their first occurrence, each one once. -/
def firstReferences : List String → List String
  | [] => []
  | name :: rest => name :: (firstReferences rest).filter (fun other => other != name)

/-- The names of the responses that the indices `refs` point to. -/
def referredNames {V : Type} (responses : List (Response V)) (refs : List Nat) :
    List (Option String) :=
  refs.map fun r => (responses[r]?).map fun response => response.name

/-- A description for examples: `data -> conv -> relu (in place)`, with a loss on `conv` and
`label`. -/
def exampleDescription : List LayerDescription :=
  [{ type := "MemoryData", out := some ["data", "label"] },
   { type := "Convolution", in_ := some ["data"], out := some ["conv"] },
   { type := "Activation", in_ := some ["conv"], out := some ["conv"] },
   { type := "Loss", in_ := some ["conv", "label"] }]

/-- A constructor for examples: a layer named after its type, with nothing else set. -/
def exampleCtor (p : LayerDescription) : Outcome (Layer Int) := .ok { name := p.type }

/-- The lists `out` and `in_` of a layer point, in the order of the names in the layer object
`p` of the description, to the responses with these names. -/
def wiredAs {V : Type} (responses : List (Response V)) (p : LayerDescription)
    (layer : Layer V) : Prop :=
  referredNames responses layer.out = (p.out.getD []).map some ∧
  referredNames responses layer.in_ = (p.in_.getD []).map some

/-! ## Two layers that write to one response -/

/-- The net built from a description with a data layer and two convolutions `convA` and
`convB` that both read `data` and both name `conv` as their output, so that `Net::init` wires
both to the one response `conv`; `first` and `second` are the members `train_me` of the two
descriptions. -/
def sharedEdgeNet (first second : Bool) : Net (NetLayer Int) Int :=
  { phase := .Training,
    layers := [.memoryData { name := "data", phase := .TrainingTesting, out := [0, 1],
                             dataDim := [100, 3, 6, 6], labelDim := [100, 1, 1, 1],
                             batch_size := 10 },
               .convolution { name := "convA", in_ := [0], out := [2], train_me := first,
                              num_output := 4, window := [3, 3], stride := [1, 1],
                              padding := [0, 0], upscale := [1, 1],
                              weight_dim := [4, 0, 3, 3], bias_dim := [1, 4, 1, 1] },
               .convolution { name := "convB", in_ := [0], out := [2], train_me := second,
                              num_output := 4, window := [3, 3], stride := [1, 1],
                              padding := [0, 0], upscale := [1, 1],
                              weight_dim := [4, 0, 3, 3], bias_dim := [1, 4, 1, 1] }],
    responses := [{ name := "data" }, { name := "label" }, { name := "conv" }] }

/-- What is looked at in a response after `Net::Malloc`: its name, its shape, whether
`dataGPU` is allocated, the flag `need_diff`, and whether `diffGPU` is allocated. -/
def Response.allocation {V : Type} (r : Response V) : String × List Int × Bool × Bool × Bool :=
  (r.name, r.dim, r.dataGPU.isSome, r.need_diff, r.diffGPU.isSome)

/-- The responses of a net after `Net::Malloc`, each reduced to `Response.allocation`. -/
def Net.allocations (net : Net (NetLayer Int) Int) (phase_ : Phase) :
    Outcome (List (String × List Int × Bool × Bool × Bool)) :=
  (Net.Malloc (NetLayer.Malloc exampleDevice exampleLibrary) net phase_).bind fun r =>
    .ok (r.2.responses.map Response.allocation)

/-! ## The ROI pooling kernels -/

/-- The arithmetic of `ComputeT` as the ROI pooling kernels use it: the conversions from and to
`StorageT`, the conversion of a `ComputeT` to `int` (undefined outside the range of `int`),
the conversion of an `int` to `ComputeT`, `round`, `floor`, `ceil`, the operations `+`, `*`,
`/`, the comparison `>`, and the constants `0` and `-FLT_MAX`. -/
structure PoolCompute (V C : Type) where
  GPUStorage2ComputeT : V → C
  GPUCompute2StorageT : C → V
  toInt : C → Outcome Int
  ofInt : Int → C
  round : C → C
  floor : C → C
  ceil : C → C
  add : C → C → C
  mul : C → C → C
  div : C → C → C
  gt : C → C → Bool
  zero : C
  negFLT_MAX : C

/-- The read `p[k]` with an `int` index `k`. -/
def readAt {V : Type} (p : List V) (k : Int) : Outcome V :=
  if k < 0 ∨ INT_MAX < k then .undefined
  else
    match p[k.toNat]? with
    | some v => .ok v
    | none => .undefined

/-- The read `p[k]` with a `size_t` index `k`. -/
def readAtSize {V : Type} (p : List V) (k : Nat) : Outcome V :=
  match p[k]? with
  | some v => .ok v
  | none => .undefined

/-- The expression `x % m` for a `size_t` value `x` and an `int` value `m` (converted to
`size_t`), stored in an `int`. -/
def sizeMod (x : Nat) (m : Int) : Outcome Int :=
  if toSizeT m = 0 then .undefined else .ok (toInt32 (x % toSizeT m))

/-- The expression `x / m` for a `size_t` value `x` and an `int` value `m` (converted to
`size_t`). -/
def sizeDiv (x : Nat) (m : Int) : Outcome Nat :=
  if toSizeT m = 0 then .undefined else .ok (x / toSizeT m)

/-- The statement `int roi_batch_ind = GPUStorage2ComputeT(in_rois[k])`. -/
def roiBatchInd {V C : Type} (A : PoolCompute V C) (in_rois : List V) (k : Int) : Outcome Int :=
  (readAt in_rois k).bind fun v => A.toInt (A.GPUStorage2ComputeT v)

/-- The statement `int roi_start = round(GPUStorage2ComputeT(in_rois[k]) * spatial_scale)`. -/
def roiCoord {V C : Type} (A : PoolCompute V C) (in_rois : List V) (spatial_scale : C)
    (k : Int) : Outcome Int :=
  (readAt in_rois k).bind fun v =>
    A.toInt (A.round (A.mul (A.GPUStorage2ComputeT v) spatial_scale))

/-- The expression `max(roi_end - roi_start + 1, 1)`. -/
def roiExtent (roi_start roi_end : Int) : Outcome Int :=
  (intResult (roi_end - roi_start)).bind fun d =>
    (intResult (d + 1)).bind fun e => .ok (max e 1)

/-- The expression `static_cast<ComputeT>(roi_size) / static_cast<ComputeT>(pooled_size)`. -/
def binSize {V C : Type} (A : PoolCompute V C) (roi_size pooled_size : Int) : C :=
  A.div (A.ofInt roi_size) (A.ofInt pooled_size)

/-- The range of input coordinates of the pooled coordinate `p` in the forward kernels:
`start = floor(p * bin_size)`, `end = ceil((p + 1) * bin_size)`, both moved by `roi_start` and
clipped to `0 ... size`. -/
def poolWindow {V C : Type} (A : PoolCompute V C) (p : Int) (bin_size : C)
    (roi_start size : Int) : Outcome (Int × Int) :=
  (A.toInt (A.floor (A.mul (A.ofInt p) bin_size))).bind fun s =>
  (intResult (p + 1)).bind fun p1 =>
  (A.toInt (A.ceil (A.mul (A.ofInt p1) bin_size))).bind fun e =>
  (intResult (s + roi_start)).bind fun s1 =>
  (intResult (e + roi_start)).bind fun e1 =>
    .ok (min (max s1 0) size, min (max e1 0) size)

/-- The range of pooled coordinates that can have pooled the input coordinate `x` in the
backward kernels: `floor((x - roi_start) / bin_size)` and
`ceil((x - roi_start + 1) / bin_size)`, clipped to `0 ... pooled_size`. -/
def unpoolWindow {V C : Type} (A : PoolCompute V C) (x roi_start : Int) (bin_size : C)
    (pooled_size : Int) : Outcome (Int × Int) :=
  (intResult (x - roi_start)).bind fun a =>
  (A.toInt (A.floor (A.div (A.ofInt a) bin_size))).bind fun s =>
  (intResult (a + 1)).bind fun a1 =>
  (A.toInt (A.ceil (A.div (A.ofInt a1) bin_size))).bind fun e =>
    .ok (min (max s 0) pooled_size, min (max e 0) pooled_size)

/-- The values of a loop variable `for (int x = lo; x < hi; ++x)`. -/
def intRange (lo hi : Int) : List Int :=
  (List.range (hi - lo).toNat).map fun k => lo + (k : Int)

/-- The product `a * b` of two `int` values. -/
def intMul (a b : Int) : Outcome Int := intResult (a * b)

/-- The sum `a + b` of two `int` values. -/
def intAdd (a b : Int) : Outcome Int := intResult (a + b)

/-- One step of the search for the maximum in the forward kernels, at the input index
`in_index`: `v = in_data[in_index]; if (v > maxval) { maxval = v; maxidx = in_index; }`. -/
def maxStep {V C : Type} (A : PoolCompute V C) (in_data : List V) (st : Outcome (C × Nat))
    (in_index : Outcome Nat) : Outcome (C × Nat) :=
  st.bind fun m => in_index.bind fun k => (readAtSize in_data k).bind fun x =>
    if A.gt (A.GPUStorage2ComputeT x) m.1 then .ok (A.GPUStorage2ComputeT x, k) else .ok m

/-- The body of the loop of `Kernel_ROIPoolForward_2D` for one `index`: the value stored in
`out_data[index]` and the index `maxidx` stored in `argmax_data[index]`. -/
def Kernel_ROIPoolForward_2D_idx {V C : Type} (A : PoolCompute V C) (in_data in_rois : List V)
    (spatial_scale : C) (channels height width pooled_height pooled_width : Int)
    (index : Nat) : Outcome (V × Nat) :=
  (sizeMod index pooled_width).bind fun pw =>
  (sizeDiv index pooled_width).bind fun i1 =>
  (sizeMod i1 pooled_height).bind fun ph =>
  (sizeDiv i1 pooled_height).bind fun i2 =>
  (sizeMod i2 channels).bind fun c =>
  (sizeDiv i2 channels).bind fun i3 =>
  (intMul (toInt32 i3) 5).bind fun roi_5n =>
  (roiBatchInd A in_rois (roi_5n + 0)).bind fun roi_batch_ind =>
  (roiCoord A in_rois spatial_scale (roi_5n + 1)).bind fun roi_start_h =>
  (roiCoord A in_rois spatial_scale (roi_5n + 2)).bind fun roi_end_h =>
  (roiCoord A in_rois spatial_scale (roi_5n + 3)).bind fun roi_start_w =>
  (roiCoord A in_rois spatial_scale (roi_5n + 4)).bind fun roi_end_w =>
  (roiExtent roi_start_w roi_end_w).bind fun roi_width =>
  (roiExtent roi_start_h roi_end_h).bind fun roi_height =>
  (poolWindow A ph (binSize A roi_height pooled_height) roi_start_h height).bind fun hs =>
  (poolWindow A pw (binSize A roi_width pooled_width) roi_start_w width).bind fun ws =>
  let is_empty := decide (hs.2 ≤ hs.1) || decide (ws.2 ≤ ws.1)
  (intMul roi_batch_ind channels).bind fun bc =>
  (intAdd bc c).bind fun bcc =>
  (intMul bcc height).bind fun bch =>
  (intMul bch width).bind fun off =>
  let in_offset := toSizeT off
  ((intRange hs.1 hs.2).foldl
    (fun st h => (intRange ws.1 ws.2).foldl
      (fun st w => maxStep A in_data st
        ((intMul h width).bind fun hw =>
          .ok (((in_offset + toSizeT hw) % 2 ^ 64 + toSizeT w) % 2 ^ 64)))
      st)
    (.ok (if is_empty then A.zero else A.negFLT_MAX, SIZE_MAX))).bind fun m =>
  .ok (A.GPUCompute2StorageT m.1, m.2)

/-- The stores `out_data[index] = ...; if (argmax_data!=NULL) argmax_data[index] = maxidx` of the
forward kernels. -/
def storePooled {V : Type} (st : List V × Option (List Nat)) (index : Nat) (r : V × Nat) :
    Outcome (List V × Option (List Nat)) :=
  if index < st.1.length then
    match st.2 with
    | none => .ok (st.1.set index r.1, none)
    | some a =>
      if index < a.length then .ok (st.1.set index r.1, some (a.set index r.2)) else .undefined
  else .undefined

/-- Embedding of `Kernel_ROIPoolForward_2D` as launched with `blocks` blocks of
`CUDA_NUM_THREADS` threads. Returns the content of `out_data` and of `argmax_data` (`none` for
the null pointer) afterwards. -/
def Kernel_ROIPoolForward_2D {V C : Type} (A : PoolCompute V C) (blocks CUDA_NUM_LOOPS N : Nat)
    (in_data in_rois out_data : List V) (argmax_data : Option (List Nat)) (spatial_scale : C)
    (channels height width pooled_height pooled_width : Int) :
    Outcome (List V × Option (List Nat)) :=
  (List.range (CUDA_NUM_THREADS * blocks)).foldl
    (fun st t => (threadIndices CUDA_NUM_LOOPS N t).foldl
      (fun st index => st.bind fun s =>
        (Kernel_ROIPoolForward_2D_idx A in_data in_rois spatial_scale channels height width
          pooled_height pooled_width index).bind fun r => storePooled s index r)
      st)
    (.ok (out_data, argmax_data))

/-- The body of the loop of `Kernel_ROIPoolForward_3D` for one `index`. -/
def Kernel_ROIPoolForward_3D_idx {V C : Type} (A : PoolCompute V C) (in_data in_rois : List V)
    (spatial_scale : C)
    (channels depth height width pooled_depth pooled_height pooled_width : Int)
    (index : Nat) : Outcome (V × Nat) :=
  (sizeMod index pooled_width).bind fun pw =>
  (sizeDiv index pooled_width).bind fun i1 =>
  (sizeMod i1 pooled_height).bind fun ph =>
  (sizeDiv i1 pooled_height).bind fun i2 =>
  (sizeMod i2 pooled_depth).bind fun pd =>
  (sizeDiv i2 pooled_depth).bind fun i3 =>
  (sizeMod i3 channels).bind fun c =>
  (sizeDiv i3 channels).bind fun i4 =>
  (intMul (toInt32 i4) 7).bind fun roi_7n =>
  (roiBatchInd A in_rois (roi_7n + 0)).bind fun roi_batch_ind =>
  (roiCoord A in_rois spatial_scale (roi_7n + 1)).bind fun roi_start_d =>
  (roiCoord A in_rois spatial_scale (roi_7n + 2)).bind fun roi_end_d =>
  (roiCoord A in_rois spatial_scale (roi_7n + 3)).bind fun roi_start_h =>
  (roiCoord A in_rois spatial_scale (roi_7n + 4)).bind fun roi_end_h =>
  (roiCoord A in_rois spatial_scale (roi_7n + 5)).bind fun roi_start_w =>
  (roiCoord A in_rois spatial_scale (roi_7n + 6)).bind fun roi_end_w =>
  (roiExtent roi_start_d roi_end_d).bind fun roi_depth =>
  (roiExtent roi_start_w roi_end_w).bind fun roi_width =>
  (roiExtent roi_start_h roi_end_h).bind fun roi_height =>
  (poolWindow A pd (binSize A roi_depth pooled_depth) roi_start_d depth).bind fun ds =>
  (poolWindow A ph (binSize A roi_height pooled_height) roi_start_h height).bind fun hs =>
  (poolWindow A pw (binSize A roi_width pooled_width) roi_start_w width).bind fun ws =>
  let is_empty := decide (ds.2 ≤ ds.1) || decide (hs.2 ≤ hs.1) || decide (ws.2 ≤ ws.1)
  (intMul roi_batch_ind channels).bind fun bc =>
  (intAdd bc c).bind fun bcc =>
  (intMul bcc depth).bind fun bcd =>
  (intMul bcd height).bind fun bch =>
  (intMul bch width).bind fun off =>
  let in_offset := toSizeT off
  ((intRange ds.1 ds.2).foldl
    (fun st d => (intRange hs.1 hs.2).foldl
      (fun st h => (intRange ws.1 ws.2).foldl
        (fun st w => maxStep A in_data st
          ((intMul d height).bind fun dh => (intMul dh width).bind fun dhw =>
            (intMul h width).bind fun hw =>
              .ok ((((in_offset + toSizeT dhw) % 2 ^ 64 + toSizeT hw) % 2 ^ 64
                + toSizeT w) % 2 ^ 64)))
        st)
      st)
    (.ok (if is_empty then A.zero else A.negFLT_MAX, SIZE_MAX))).bind fun m =>
  .ok (A.GPUCompute2StorageT m.1, m.2)

/-- Embedding of `Kernel_ROIPoolForward_3D` as launched with `blocks` blocks of
`CUDA_NUM_THREADS` threads. -/
def Kernel_ROIPoolForward_3D {V C : Type} (A : PoolCompute V C) (blocks CUDA_NUM_LOOPS N : Nat)
    (in_data in_rois out_data : List V) (argmax_data : Option (List Nat)) (spatial_scale : C)
    (channels depth height width pooled_depth pooled_height pooled_width : Int) :
    Outcome (List V × Option (List Nat)) :=
  (List.range (CUDA_NUM_THREADS * blocks)).foldl
    (fun st t => (threadIndices CUDA_NUM_LOOPS N t).foldl
      (fun st index => st.bind fun s =>
        (Kernel_ROIPoolForward_3D_idx A in_data in_rois spatial_scale channels depth height
          width pooled_depth pooled_height pooled_width index).bind fun r =>
            storePooled s index r)
      st)
    (.ok (out_data, argmax_data))

/-- One step of the accumulation in the backward kernels, for the pooled cell at
`offset + out_index`: `if (argmax_data[offset + out_index] == key)
gradient += out_diff[offset + out_index]`, where `key` is the `int` expression that the
kernel compares with, converted to `size_t`. -/
def gradStep {V C : Type} (A : PoolCompute V C) (out_diff : List V)
    (argmax_data : Option (List Nat)) (offset : Nat) (key : Outcome Int) (st : Outcome C)
    (out_index : Outcome Int) : Outcome C :=
  st.bind fun gradient => out_index.bind fun oi => key.bind fun k =>
    match argmax_data with
    | none => .undefined
    | some a =>
      (readAtSize a ((offset + toSizeT oi) % 2 ^ 64)).bind fun m =>
        if m = toSizeT k then
          (readAtSize out_diff ((offset + toSizeT oi) % 2 ^ 64)).bind fun g =>
            .ok (A.add gradient (A.GPUStorage2ComputeT g))
        else .ok gradient

/-- The body of the loop of `Kernel_ROIPoolBackward_2D` for one `index`: the value stored in
`in_diff[index]`. -/
def Kernel_ROIPoolBackward_2D_idx {V C : Type} (A : PoolCompute V C)
    (in_diff in_rois out_diff : List V) (argmax_data : Option (List Nat)) (spatial_scale : C)
    (num_rois channels height width pooled_height pooled_width : Int) (index : Nat) :
    Outcome V :=
  (sizeMod index width).bind fun w =>
  (sizeDiv index width).bind fun i1 =>
  (sizeMod i1 height).bind fun h =>
  (sizeDiv i1 height).bind fun i2 =>
  (sizeMod i2 channels).bind fun c =>
  (sizeDiv i2 channels).bind fun i3 =>
  let n := toInt32 i3
  (readAtSize in_diff index).bind fun g0 =>
  ((intRange 0 num_rois).foldl
    (fun (st : Outcome C) roi_n => st.bind fun gradient =>
      (intMul roi_n 5).bind fun roi_5n =>
      (roiBatchInd A in_rois (roi_5n + 0)).bind fun roi_batch_ind =>
      if n ≠ roi_batch_ind then .ok gradient
      else
        (roiCoord A in_rois spatial_scale (roi_5n + 1)).bind fun roi_start_h =>
        (roiCoord A in_rois spatial_scale (roi_5n + 2)).bind fun roi_end_h =>
        (roiCoord A in_rois spatial_scale (roi_5n + 3)).bind fun roi_start_w =>
        (roiCoord A in_rois spatial_scale (roi_5n + 4)).bind fun roi_end_w =>
        if ¬ (w ≥ roi_start_w ∧ w ≤ roi_end_w ∧ h ≥ roi_start_h ∧ h ≤ roi_end_h) then
          .ok gradient
        else
          (intMul roi_n channels).bind fun rc =>
          (intAdd rc c).bind fun rcc =>
          (intMul rcc pooled_height).bind fun rch =>
          (intMul rch pooled_width).bind fun off =>
          let offset := toSizeT off
          (roiExtent roi_start_w roi_end_w).bind fun roi_width =>
          (roiExtent roi_start_h roi_end_h).bind fun roi_height =>
          (unpoolWindow A h roi_start_h (binSize A roi_height pooled_height)
            pooled_height).bind fun phs =>
          (unpoolWindow A w roi_start_w (binSize A roi_width pooled_width)
            pooled_width).bind fun pws =>
          (intRange phs.1 phs.2).foldl
            (fun st ph => (intRange pws.1 pws.2).foldl
              (fun st pw => gradStep A out_diff argmax_data offset
                ((intMul h width).bind fun hw => intAdd hw w) st
                ((intMul ph pooled_width).bind fun pp => intAdd pp pw))
              st)
            (.ok gradient))
    (.ok (A.GPUStorage2ComputeT g0))).bind fun gradient =>
  .ok (A.GPUCompute2StorageT gradient)

/-- Embedding of `Kernel_ROIPoolBackward_2D` as launched with `blocks` blocks of
`CUDA_NUM_THREADS` threads. Returns the content of `in_diff` afterwards. -/
def Kernel_ROIPoolBackward_2D {V C : Type} (A : PoolCompute V C) (blocks CUDA_NUM_LOOPS N : Nat)
    (in_diff in_rois out_diff : List V) (argmax_data : Option (List Nat)) (spatial_scale : C)
    (num_rois channels height width pooled_height pooled_width : Int) : Outcome (List V) :=
  (List.range (CUDA_NUM_THREADS * blocks)).foldl
    (fun st t => (threadIndices CUDA_NUM_LOOPS N t).foldl
      (fun st index => st.bind fun diff =>
        (Kernel_ROIPoolBackward_2D_idx A diff in_rois out_diff argmax_data spatial_scale
          num_rois channels height width pooled_height pooled_width index).bind fun g =>
            .ok (diff.set index g))
      st)
    (.ok in_diff)

/-- The body of the loop of `Kernel_ROIPoolBackward_3D` for one `index`. -/
def Kernel_ROIPoolBackward_3D_idx {V C : Type} (A : PoolCompute V C)
    (in_diff in_rois out_diff : List V) (argmax_data : Option (List Nat)) (spatial_scale : C)
    (num_rois channels depth height width pooled_depth pooled_height pooled_width : Int)
    (index : Nat) : Outcome V :=
  (sizeMod index width).bind fun w =>
  (sizeDiv index width).bind fun i1 =>
  (sizeMod i1 height).bind fun h =>
  (sizeDiv i1 height).bind fun i2 =>
  (sizeMod i2 depth).bind fun d =>
  (sizeDiv i2 depth).bind fun i3 =>
  (sizeMod i3 channels).bind fun c =>
  (sizeDiv i3 channels).bind fun i4 =>
  let n := toInt32 i4
  (readAtSize in_diff index).bind fun g0 =>
  ((intRange 0 num_rois).foldl
    (fun (st : Outcome C) roi_n => st.bind fun gradient =>
      (intMul roi_n 7).bind fun roi_7n =>
      (roiBatchInd A in_rois (roi_7n + 0)).bind fun roi_batch_ind =>
      if n ≠ roi_batch_ind then .ok gradient
      else
        (roiCoord A in_rois spatial_scale (roi_7n + 1)).bind fun roi_start_d =>
        (roiCoord A in_rois spatial_scale (roi_7n + 2)).bind fun roi_end_d =>
        (roiCoord A in_rois spatial_scale (roi_7n + 3)).bind fun roi_start_h =>
        (roiCoord A in_rois spatial_scale (roi_7n + 4)).bind fun roi_end_h =>
        (roiCoord A in_rois spatial_scale (roi_7n + 5)).bind fun roi_start_w =>
        (roiCoord A in_rois spatial_scale (roi_7n + 6)).bind fun roi_end_w =>
        if ¬ (w ≥ roi_start_w ∧ w ≤ roi_end_w ∧ h ≥ roi_start_h ∧ h ≤ roi_end_h ∧
              d ≥ roi_start_d ∧ d ≤ roi_end_d) then
          .ok gradient
        else
          (intMul roi_n channels).bind fun rc =>
          (intAdd rc c).bind fun rcc =>
          (intMul rcc pooled_depth).bind fun rcd =>
          (intMul rcd pooled_height).bind fun rch =>
          (intMul rch pooled_width).bind fun off =>
          let offset := toSizeT off
          (roiExtent roi_start_w roi_end_w).bind fun roi_width =>
          (roiExtent roi_start_h roi_end_h).bind fun roi_height =>
          (roiExtent roi_start_d roi_end_d).bind fun roi_depth =>
          (unpoolWindow A d roi_start_d (binSize A roi_depth pooled_depth)
            pooled_depth).bind fun pds =>
          (unpoolWindow A h roi_start_h (binSize A roi_height pooled_height)
            pooled_height).bind fun phs =>
          (unpoolWindow A w roi_start_w (binSize A roi_width pooled_width)
            pooled_width).bind fun pws =>
          (intRange pds.1 pds.2).foldl
            (fun st pd => (intRange phs.1 phs.2).foldl
              (fun st ph => (intRange pws.1 pws.2).foldl
                (fun st pw => gradStep A out_diff argmax_data offset
                  ((intMul d height).bind fun dh => (intAdd dh h).bind fun dhh =>
                    (intMul dhh width).bind fun dhw => intAdd dhw w) st
                  ((intMul pd pooled_height).bind fun pp => (intAdd pp ph).bind fun pph =>
                    (intMul pph pooled_width).bind fun ppw => intAdd ppw pw))
                st)
              st)
            (.ok gradient))
    (.ok (A.GPUStorage2ComputeT g0))).bind fun gradient =>
  .ok (A.GPUCompute2StorageT gradient)

/-- Embedding of `Kernel_ROIPoolBackward_3D` as launched with `blocks` blocks of
`CUDA_NUM_THREADS` threads. Returns the content of `in_diff` afterwards. -/
def Kernel_ROIPoolBackward_3D {V C : Type} (A : PoolCompute V C) (blocks CUDA_NUM_LOOPS N : Nat)
    (in_diff in_rois out_diff : List V) (argmax_data : Option (List Nat)) (spatial_scale : C)
    (num_rois channels depth height width pooled_depth pooled_height pooled_width : Int) :
    Outcome (List V) :=
  (List.range (CUDA_NUM_THREADS * blocks)).foldl
    (fun st t => (threadIndices CUDA_NUM_LOOPS N t).foldl
      (fun st index => st.bind fun diff =>
        (Kernel_ROIPoolBackward_3D_idx A diff in_rois out_diff argmax_data spatial_scale
          num_rois channels depth height width pooled_depth pooled_height pooled_width
          index).bind fun g => .ok (diff.set index g))
      st)
    (.ok in_diff)

/-- The forward and the backward launch of `ROIPoolingLayer` for one output, one after the
other, as `ROIPoolingLayer::forward` and `ROIPoolingLayer::backward` make them: forward with
`N = numel(out->dim)`, the dimensions of `in[2i]` and `shape`; backward with
`N = numel(in[2i]->dim)` and `num_rois = in[2i+1]->dim[0]`; both with `CUDA_GET_BLOCKS(N)`
blocks and `CUDA_GET_LOOPS(N)` loops. Returns `out->dataGPU`, the block `GPUIndex` and
`in[2i]->diffGPU` afterwards. -/
def ROIPoolingLayer.forwardBackward {V C : Type} (A : PoolCompute V C) (spatial_scale : C)
    (shape inDim roiDim outDim : List Int) (in_data in_rois out_data : List V)
    (GPUIndex : Option (List Nat)) (in_diff out_diff : List V) :
    Outcome (List V × Option (List Nat) × List V) :=
  let Nf := numel outDim
  let Nb := numel inDim
  (CUDA_GET_LOOPS Nf).bind fun loopsF =>
  (CUDA_GET_LOOPS Nb).bind fun loopsB =>
  match shape, inDim, roiDim with
  | [s0, s1], _ :: c :: h :: w :: _, num_rois :: _ =>
    (Kernel_ROIPoolForward_2D A (CUDA_GET_BLOCKS Nf).toNat loopsF Nf in_data in_rois out_data
      GPUIndex spatial_scale c h w s0 s1).bind fun f =>
    (Kernel_ROIPoolBackward_2D A (CUDA_GET_BLOCKS Nb).toNat loopsB Nb in_diff in_rois out_diff
      f.2 spatial_scale num_rois c h w s0 s1).bind fun g => .ok (f.1, f.2, g)
  | [s0, s1, s2], _ :: c :: d :: h :: w :: _, num_rois :: _ =>
    (Kernel_ROIPoolForward_3D A (CUDA_GET_BLOCKS Nf).toNat loopsF Nf in_data in_rois out_data
      GPUIndex spatial_scale c d h w s0 s1 s2).bind fun f =>
    (Kernel_ROIPoolBackward_3D A (CUDA_GET_BLOCKS Nb).toNat loopsB Nb in_diff in_rois out_diff
      f.2 spatial_scale num_rois c d h w s0 s1 s2).bind fun g => .ok (f.1, f.2, g)
  | [_, _], _, _ => .undefined
  | [_, _, _], _, _ => .undefined
  | _, _, _ => .fatal

/-- The conversion of a rational to `int`: truncation, undefined outside the range of `int`. -/
def ratToInt (q : ℚ) : Outcome Int :=
  intResult (if 0 ≤ q then Rat.floor q else Rat.ceil q)

/-- The function `round` on the rationals: to the nearest integer, halves away from zero. -/
def ratRound (q : ℚ) : ℚ :=
  if 0 ≤ q then (Rat.floor (q + 1 / 2) : ℚ) else (Rat.ceil (q - 1 / 2) : ℚ)

/-- Exact arithmetic on the rationals as `ComputeT`, with `StorageT = ComputeT`: what the
floating point operations give as long as every value that occurs is a small integer or a
quotient that the format holds. -/
def ratPool : PoolCompute ℚ ℚ :=
  { GPUStorage2ComputeT := id, GPUCompute2StorageT := id,
    toInt := ratToInt, ofInt := fun k => (k : ℚ),
    round := ratRound, floor := fun q => (Rat.floor q : ℚ), ceil := fun q => (Rat.ceil q : ℚ),
    add := fun a b => a + b, mul := fun a b => a * b, div := fun a b => a / b,
    gt := fun a b => decide (a > b), zero := 0,
    negFLT_MAX := -340282346638528859811704183484516925440 }

/-! ## Training: one trainable parameter over the iterations -/

/-- One parameter (the weight of one trainable layer) during training: `weights[n]` is the
block `nets[n]->layers[l]->weight_dataGPU` of replica `n`; `region` is the block that
`Solver::Malloc` reserved for the parameter, to whose start `weight_histGPU` of every replica
points and in which `weight_diffGPU` of replica `n` is slot `n + 1`. -/
structure ParamTrain (V : Type) where
  weights : List (List V)
  region : List V
  deriving DecidableEq, Repr

/-- The members of `Solver` and of the layer that `Solver::update` and the snapshot test of
`Solver::train` read, with the number of elements of the parameter. `launched` is the result
of the `checkCUDA` after the update kernel. -/
structure ParamConfig (C : Type) where
  weight_numel : Nat
  weight_decay : C
  weight_decay_mult : C
  momentum : C
  weight_lr_mult : C
  snapshot_iter : Int
  launched : Bool := true

/-- Embedding of `Net::stepTrain` of replica `n`, as far as the parameter goes: `update()`
(`Layer::update` on the layer, whose `weight_histGPU` is the start of the region), then
`clearDiff()` and the `train_iter` rounds of `forward(); backward()`. The rounds are the
parameter `grad`: `grad n iter w j` is element `j` of `weight_diffGPU` of replica `n` after
the rounds of iteration `iter` with the weights `w` (forward and backward of a layer write
to the responses and to `weight_diffGPU` and `bias_diffGPU` only). -/
def Net.stepTrainParam {V C : Type} (A : Compute V C) (N : Nat)
    (grad : Nat → Int → List V → Nat → V) (iter : Int) (st : ParamTrain V) (n : Nat) :
    Outcome (ParamTrain V) :=
  match st.weights[n]? with
  | none => .undefined
  | some w =>
    (Layer.update A { name := "", train_me := true, weight_numel := N,
                      weight_dataGPU := some w, weight_histGPU := some st.region }).bind
      fun layer =>
        match layer.weight_dataGPU with
        | none => .undefined
        | some w1 =>
          if st.region.length < N * (n + 1) + N then .undefined
          else
            .ok { weights := st.weights.set n w1,
                  region := st.region.take (N * (n + 1)) ++ (List.range N).map (grad n iter w1)
                    ++ st.region.drop (N * (n + 1) + N) }

/-- The calls `nets[t]->stepTrain(...)` for all replicas (one after the other or each in a
thread of its own: a replica writes its own weights and its own slot of the region and reads
the history, which no replica writes). -/
def Solver.stepTrainAll {V C : Type} (A : Compute V C) (N : Nat)
    (grad : Nat → Int → List V → Nat → V) (iter : Int) (st : ParamTrain V) :
    Outcome (ParamTrain V) :=
  (List.range st.weights.length).foldl
    (fun o n => o.bind fun s => Net.stepTrainParam A N grad iter s n) (.ok st)

/-- Embedding of `Solver::update(learning_rate)` for the parameter (solver `SGD`, regularizer
`L2`): `update_SGDL2` with the weights of `nets[0]` and the region. -/
def Solver.updateParam {V C : Type} (M : HostCompute C) (A : Compute V C)
    (cfg : ParamConfig C) (learning_rate : C) (st : ParamTrain V) : Outcome (ParamTrain V) :=
  match st.weights[0]? with
  | none => .undefined
  | some w0 =>
    (update_SGDL2 A cfg.launched cfg.weight_numel (st.weights.length : Int)
      (M.mul cfg.weight_decay cfg.weight_decay_mult) cfg.momentum
      (M.mul learning_rate cfg.weight_lr_mult) (some w0) (some st.region)).bind fun g =>
        match g with
        | some region => .ok { st with region := region }
        | none => .undefined

/-- What one round of the loop of `Solver::train` does to the parameter: `start` is the state
when the round begins, `passes` are the weights of the replicas after their `update()`, with
which the gradient passes of the round run, `lrate` is what `learning_rate()` returned,
`finish` is the state when the round ends, and `snapshot` is what `saveWeights` wrote in the
round (the weights of `nets[0]`), if it was called. -/
structure TrainRecord (V C : Type) where
  iter : Int
  start : ParamTrain V
  passes : List (List V)
  lrate : C
  finish : ParamTrain V
  snapshot : Option (List V)
  deriving DecidableEq, Repr

/-- The statement `if (iter!=iter_begin && iter % snapshot_iter==0) saveWeights(...)`: what is
written, if anything. -/
def Solver.snapshotParam {V : Type} (iter iter_begin snapshot_iter : Int) (st : ParamTrain V) :
    Outcome (Option (List V)) :=
  if iter ≠ iter_begin then
    if snapshot_iter = 0 ∨ (iter = INT_MIN ∧ snapshot_iter = -1) then .undefined
    else if Int.tmod iter snapshot_iter = 0 then
      match st.weights[0]? with
      | some w => .ok (some w)
      | none => .undefined
    else .ok none
  else .ok none

/-- The loop `for (iter = iter_begin; iter <= max_iter; ++iter)` of `Solver::train` for the
parameter: `stepTrain` of the replicas, `learning_rate()`, `update(lrate)`, the snapshot. The
tests and the displays are left out: they do not write to the parameter. -/
def Solver.trainParamLoop {V C : Type} (M : HostCompute C) (A : Compute V C)
    (cfg : ParamConfig C) (grad : Nat → Int → List V → Nat → V) (iter_begin : Int) :
    Nat → Solver C → ParamTrain V → List (TrainRecord V C) →
      Outcome (Solver C × ParamTrain V × List (TrainRecord V C))
  | 0, self, st, log => .ok (self, st, log)
  | fuel + 1, self, st, log =>
    if self.iter ≤ self.max_iter then
      (Solver.stepTrainAll A cfg.weight_numel grad self.iter st).bind fun st1 =>
      (Solver.learning_rate M self).bind fun r =>
      (Solver.updateParam M A cfg r.1 st1).bind fun st2 =>
      (Solver.snapshotParam self.iter iter_begin cfg.snapshot_iter st2).bind fun snap =>
        if INT_MAX ≤ r.2.iter then .undefined
        else
          Solver.trainParamLoop M A cfg grad iter_begin fuel { r.2 with iter := r.2.iter + 1 }
            st2
            (log ++ [{ iter := self.iter, start := st, passes := st1.weights, lrate := r.1,
                       finish := st2, snapshot := snap }])
    else .ok (self, st, log)

/-- Embedding of `Solver::train(iter_begin)` for the parameter: `current_step = 0`, then the
loop. Returns the solver, the parameter, and the records of the rounds. -/
def Solver.trainParam {V C : Type} (M : HostCompute C) (A : Compute V C)
    (cfg : ParamConfig C) (grad : Nat → Int → List V → Nat → V) (self : Solver C)
    (iter_begin : Int) (st : ParamTrain V) :
    Outcome (Solver C × ParamTrain V × List (TrainRecord V C)) :=
  Solver.trainParamLoop M A cfg grad iter_begin (self.max_iter - iter_begin + 1).toNat
    { self with current_step := 0, iter := iter_begin } st []

/-- The gradients of element `j` from the replicas, in the order of the replicas. -/
def replicaGradients {V : Type} (grad : Nat → Int → List V → Nat → V) (iter : Int)
    (passes : List (List V)) (j : Nat) : List V :=
  (List.range passes.length).map fun n => grad n iter (passes.getD n []) j

/-- Integer arithmetic as `ComputeT` on the host; `pow` is the power with a natural exponent,
`exp` the power of two (the fixed policy uses none of them). -/
def intHost : HostCompute Int :=
  { ofInt := fun n => n, add := fun a b => a + b, sub := fun a b => a - b,
    mul := fun a b => a * b, div := fun a b => Int.tdiv a b, neg := fun a => -a,
    pow := fun a b => a ^ b.toNat, exp := fun a => 2 ^ a.toNat }

/-- One replica of a parameter with one element: decay 0, momentum 0, rate multiplier 1, so
that the history after a round is the rate times the gradient of the round; a snapshot in
every round but the first. -/
def exampleParamConfig : ParamConfig Int :=
  { weight_numel := 1, weight_decay := 0, weight_decay_mult := 1, momentum := 0,
    weight_lr_mult := 1, snapshot_iter := 1 }

/-- The gradient passes of the example: in iteration `iter` the gradient is `iter + 1`. -/
def exampleGrad (_n : Nat) (iter : Int) (_w : List Int) (_j : Nat) : Int := iter + 1

/-- The solver of the example: the fixed policy with rate 1, iterations 0, 1 and 2. -/
def exampleSolver : Solver Int :=
  { base_lr := 1, lr_policy := .LR_fixed, lr_gamma := 0, lr_power := 0, max_iter := 2 }

/-- The parameter of the example: the weight 10, the history 0 as `Solver::Malloc` leaves it,
and one gradient slot. -/
def exampleParam : ParamTrain Int := { weights := [[10]], region := [0, 0] }

/-- What `bsa2b(N, a, b)` leaves in the block `b`: the first `N` elements are `b[idx] - a[idx]`,
the others are as before. -/
def bsa2bResult {V C : Type} (A : Compute V C) (N : Nat) (a b : List V) : List V :=
  List.zipWith
    (fun bv av => A.GPUCompute2StorageT
      (A.sub (A.GPUStorage2ComputeT bv) (A.GPUStorage2ComputeT av)))
    (b.take N) (a.take N) ++ b.drop N

/-- The gradient slot that replica `n` leaves after its passes with the weights `w`. -/
def gradSlot {V : Type} (N : Nat) (grad : Nat → Int → List V → Nat → V) (iter : Int)
    (n : Nat) (w : List V) : List V :=
  (List.range N).map (grad n iter w)

/-- The sizes of a parameter of `N` elements in training: there is a replica, every replica's
block has `N` elements, the region has the history and one gradient slot for every replica,
and the counts fit `size_t` and `int`. -/
def ParamTrain.sized {V : Type} (N : Nat) (st : ParamTrain V) : Prop :=
  0 < st.weights.length ∧ (∀ w ∈ st.weights, w.length = N) ∧
  st.region.length = (st.weights.length + 1) * N ∧
  (st.weights.length + 1) * N < 2 ^ 64 ∧ (st.weights.length : Int) < INT_MAX

/-- What a record says about its round: the weights of the gradient passes are the weights at
the start minus the history at the start; the round ends with the weights of the passes; the
snapshot, if one is written, holds them too; and the history at the end follows the rule of
the optimizer from the history at the start, the weights of the passes and the gradients of
the passes. -/
def TrainRecord.round {V C : Type} (M : HostCompute C) (A : Compute V C)
    (cfg : ParamConfig C) (grad : Nat → Int → List V → Nat → V) (iter_begin : Int)
    (r : TrainRecord V C) : Prop :=
  r.passes = r.start.weights.map (bsa2bResult A cfg.weight_numel r.start.region) ∧
  r.finish.weights = r.passes ∧
  r.snapshot = (if r.iter ≠ iter_begin ∧ Int.tmod r.iter cfg.snapshot_iter = 0
                then r.passes[0]? else none) ∧
  r.finish.region.length = r.start.region.length ∧
  ∀ j, j < cfg.weight_numel → ∀ w1 x h, r.passes[0]? = some w1 → w1[j]? = some x →
    r.start.region[j]? = some h →
    r.finish.region[j]? = some (sgdl2Rule A (M.mul cfg.weight_decay cfg.weight_decay_mult)
      cfg.momentum (M.mul r.lrate cfg.weight_lr_mult) x h
      (replicaGradients grad r.iter r.passes j))

/-- The records `rs` are those of consecutive rounds from iteration `iter` and the state `st`
to the state `st1`, and every record satisfies `P`. -/
def trainChain {V C : Type} (P : TrainRecord V C → Prop) :
    Int → ParamTrain V → List (TrainRecord V C) → ParamTrain V → Prop
  | _, st, [], st1 => st1 = st
  | iter, st, r :: rs, st1 =>
    r.iter = iter ∧ r.start = st ∧ P r ∧ trainChain P (iter + 1) r.finish rs st1

/-! # Theorems -/

/-! ## Bytes -/

theorem length_toBytes (w v : Nat) : (toBytes w v).length = w := by
  induction w generalizing v with
  | zero => rfl
  | succ w ih => simp [toBytes, ih]

theorem fromBytes_toBytes (w v : Nat) (h : v < 256 ^ w) : fromBytes (toBytes w v) = v := by
  induction w generalizing v with
  | zero => simp at h; subst h; rfl
  | succ w ih =>
    have h2 : v / 256 < 256 ^ w := by
      rw [Nat.div_lt_iff_lt_mul (by norm_num)]
      rw [pow_succ] at h; exact h
    simp only [toBytes, fromBytes, ih _ h2]
    omega

theorem length_int2bytes (x : Int) : (int2bytes x).length = 4 := length_toBytes _ _

theorem toInt32_of_lt (n : Nat) (h : n < 2 ^ 31) : toInt32 n = (n : Int) := by
  have h1 : n % 2 ^ 32 = n := Nat.mod_eq_of_lt (by omega)
  unfold toInt32
  rw [h1, if_pos h]

theorem bytes2int_int2bytes (x : Int) (h1 : INT_MIN ≤ x) (h2 : x ≤ INT_MAX) :
    bytes2int (int2bytes x) = x := by
  simp only [INT_MIN, INT_MAX] at h1 h2
  have hnn : 0 ≤ x % (2 ^ 32 : Int) := Int.emod_nonneg _ (by norm_num)
  have hlt : x % (2 ^ 32 : Int) < 2 ^ 32 := Int.emod_lt_of_pos _ (by norm_num)
  have hb : (x % (2 ^ 32 : Int)).toNat < 256 ^ 4 := by
    have : ((x % (2 ^ 32 : Int)).toNat : Int) < 2 ^ 32 := by rw [Int.toNat_of_nonneg hnn]; exact hlt
    norm_num; omega
  unfold bytes2int int2bytes
  rw [fromBytes_toBytes _ _ hb]
  unfold toInt32
  have hm : (x % (2 ^ 32 : Int)).toNat % 2 ^ 32 = (x % (2 ^ 32 : Int)).toNat :=
    Nat.mod_eq_of_lt (by norm_num at hb ⊢; omega)
  rw [hm]
  have hc : (((x % (2 ^ 32 : Int)).toNat : Nat) : Int) = x % (2 ^ 32 : Int) := Int.toNat_of_nonneg hnn
  split
  · rename_i hlt2
    rw [hc]
    have : ((x % (2 ^ 32 : Int)).toNat : Int) < 2 ^ 31 := by exact_mod_cast hlt2
    rw [hc] at this
    omega
  · rename_i hge
    rw [hc]
    have : ¬ ((x % (2 ^ 32 : Int)).toNat : Int) < 2 ^ 31 := by exact_mod_cast hge
    rw [hc] at this
    omega

theorem bytes2int_int2bytes_nat (n : Nat) (h : n < 2 ^ 31) :
    bytes2int (int2bytes (n : Int)) = (n : Int) := by
  apply bytes2int_int2bytes <;> simp only [INT_MIN, INT_MAX] <;> omega

/-! ## `fread` -/

theorem fread_exact (size count : Nat) (pre rest : List Nat) (e : Bool)
    (h : pre.length = size * count) :
    fread size count { bytes := pre ++ rest, eof := e }
      = { buf := pre, read_cnt := count, fp := { bytes := rest, eof := e } } := by
  unfold fread
  have hle : size * count ≤ (pre ++ rest).length := by simp [h]
  simp only [hle, if_true]
  rw [← h]
  simp

theorem splitItems_flatMap {α : Type} (w : Nat) (f : α → List Nat) (xs : List α)
    (rest : List Nat) (hf : ∀ x, (f x).length = w) :
    splitItems w xs.length (xs.flatMap f ++ rest) = xs.map f := by
  induction xs with
  | nil => rfl
  | cons x xs ih =>
    simp only [List.length_cons, splitItems, List.flatMap_cons, List.append_assoc, List.map_cons]
    rw [List.take_left' (hf x), List.drop_left' (hf x), ih]

theorem length_flatMap_const {α : Type} (w : Nat) (f : α → List Nat) (xs : List α)
    (hf : ∀ x, (f x).length = w) : (xs.flatMap f).length = w * xs.length := by
  induction xs with
  | nil => simp
  | cons x xs ih => simp [List.flatMap_cons, hf, ih, Nat.mul_succ]; omega

/-! ## Reading back a record -/

theorem length_resize {α : Type} (xs : List α) (n : Nat) (fill : α) :
    (resize xs n fill).length = n := by
  simp [resize]

theorem overwrite_full {α : Type} (dst src : List α) (h : dst.length = src.length) :
    overwrite dst src = src := by
  simp [overwrite, ← h]

theorem fread_guarded (sz n : Nat) (pre rest : List Nat) (e : Bool) (h : pre.length = sz * n) :
    (if ((n : Int) > 0) then fread sz ((n : Int).toNat) { bytes := pre ++ rest, eof := e }
      else { buf := [], read_cnt := ((n : Int).toNat), fp := { bytes := pre ++ rest, eof := e } })
      = { buf := pre, read_cnt := n, fp := { bytes := rest, eof := e } } := by
  rcases Nat.eq_zero_or_pos n with h0 | hpos
  · subst h0
    have hp : pre = [] := List.eq_nil_of_length_eq_zero (by simpa using h)
    subst hp
    simp
  · have : ((n : Int) > 0) := by exact_mod_cast hpos
    rw [if_pos this, Int.toNat_natCast, fread_exact _ _ _ _ _ h]

theorem fread_guarded_nat (sz n : Nat) (pre rest : List Nat) (e : Bool) (h : pre.length = sz * n) :
    (if 0 < n then fread sz n { bytes := pre ++ rest, eof := e }
      else { buf := [], read_cnt := n, fp := { bytes := pre ++ rest, eof := e } })
      = { buf := pre, read_cnt := n, fp := { bytes := rest, eof := e } } := by
  have := fread_guarded sz n pre rest e h
  simpa using this

theorem int2bytes_natCast (n : Nat) (h : n < 2 ^ 31) : int2bytes (n : Int) = toBytes 4 n := by
  unfold int2bytes
  congr 1
  have : ((n : Int) % (2 ^ 32 : Int)) = (n : Int) := Int.emod_eq_of_lt (by omega) (by omega)
  rw [this, Int.toNat_natCast]

theorem map_bytes2int_int2bytes (dims : List Int) (h : ∀ d ∈ dims, INT_MIN ≤ d ∧ d ≤ INT_MAX) :
    (dims.map int2bytes).map bytes2int = dims := by
  induction dims with
  | nil => rfl
  | cons d ds ih =>
    simp only [List.map_cons]
    rw [bytes2int_int2bytes d (h d (by simp)).1 (h d (by simp)).2,
      ih (fun x hx => h x (by simp [hx]))]

theorem map_fromBytes_toBytes (w : Nat) (data : List Nat) (h : ∀ v ∈ data, v < 256 ^ w) :
    (data.map (toBytes w)).map fromBytes = data := by
  induction data with
  | nil => rfl
  | cons d ds ih =>
    simp only [List.map_cons]
    rw [fromBytes_toBytes w d (h d (by simp)), ih (fun x hx => h x (by simp [hx]))]

theorem Malloc_one (dim : List Int) : Tensor.Malloc dim 1 = .ok (numel dim) := by
  simp [Tensor.Malloc]

/-- The same-kind branch of `read` on the tail of a record gives back name, shape and
elements, and leaves the stream right behind the record. -/
theorem readBody_record (T : Kind) (self : Tensor) (name : List Nat) (dims : List Int)
    (data rest : List Nat) (e : Bool)
    (hname : name.length < 2 ^ 31) (hdims : dims.length < 2 ^ 31)
    (hrange : ∀ d ∈ dims, INT_MIN ≤ d ∧ d ≤ INT_MAX)
    (hlen : data.length = numel dims) (hval : ∀ v ∈ data, v < 256 ^ sizeofT T) :
    Tensor.readBody T self
      { bytes := toBytes 4 name.length ++ (name ++ (toBytes 4 dims.length ++
          (dims.flatMap int2bytes ++ (data.flatMap (toBytes (sizeofT T)) ++ rest)))), eof := e } 1
      = .ok ({ dim := dims, CPUmem := some data, name := name }, { bytes := rest, eof := e }) := by
  unfold Tensor.readBody
  have e3 := fread_exact 4 1 (toBytes 4 name.length) (name ++ (toBytes 4 dims.length ++
          (dims.flatMap int2bytes ++ (data.flatMap (toBytes (sizeofT T)) ++ rest)))) e
          (by simp [length_toBytes])
  have b3 : bytes2int (toBytes 4 name.length) = (name.length : Int) := by
    rw [← int2bytes_natCast _ hname, bytes2int_int2bytes_nat _ hname]
  have e4 := fread_guarded_nat 1 name.length name (toBytes 4 dims.length ++
          (dims.flatMap int2bytes ++ (data.flatMap (toBytes (sizeofT T)) ++ rest))) e (by simp)
  have e5 := fread_exact 4 1 (toBytes 4 dims.length)
          (dims.flatMap int2bytes ++ (data.flatMap (toBytes (sizeofT T)) ++ rest)) e
          (by simp [length_toBytes])
  have b5 : bytes2int (toBytes 4 dims.length) = (dims.length : Int) := by
    rw [← int2bytes_natCast _ hdims, bytes2int_int2bytes_nat _ hdims]
  have e6 := fread_guarded_nat 4 dims.length (dims.flatMap int2bytes)
          (data.flatMap (toBytes (sizeofT T)) ++ rest) e
          (length_flatMap_const 4 _ _ length_int2bytes)
  have s6 : splitItems 4 dims.length (dims.flatMap int2bytes) = dims.map int2bytes := by
    have := splitItems_flatMap 4 int2bytes dims [] length_int2bytes
    simpa using this
  have e7 := fread_exact (sizeofT T) (numel dims) (data.flatMap (toBytes (sizeofT T))) rest e
          (by rw [length_flatMap_const _ _ _ (length_toBytes _), hlen])
  have s7 : splitItems (sizeofT T) (numel dims) (data.flatMap (toBytes (sizeofT T)))
      = data.map (toBytes (sizeofT T)) := by
    have := splitItems_flatMap (sizeofT T) (toBytes (sizeofT T)) data [] (length_toBytes _)
    rw [hlen] at this
    simpa using this
  have o4 : overwrite (resize self.name name.length 0) name = name :=
    overwrite_full _ _ (length_resize _ _ _)
  have o6 : overwrite ((resize self.dim dims.length 0).flatMap int2bytes)
      (dims.flatMap int2bytes) = dims.flatMap int2bytes :=
    overwrite_full _ _ (by
      rw [length_flatMap_const 4 _ _ length_int2bytes,
        length_flatMap_const 4 _ _ length_int2bytes, length_resize])
  have n3 : ¬ ((name.length : Int) < 0) := by omega
  have n5 : ¬ ((dims.length : Int) < 0) := by omega
  simp [e3, b3, e4, o4, e5, b5, e6, o6, s6,
    map_bytes2int_int2bytes dims hrange, Malloc_one, e7, s7,
    map_fromBytes_toBytes _ data hval, n3, n5]

theorem toBytes_typeID (T : Kind) : toBytes 1 (typeID T) = [typeID T] := by
  cases T <;> rfl

theorem fromBytes_sizeofT (T : Kind) : fromBytes (toBytes 4 (sizeofT T)) = sizeofT T := by
  cases T <;> rfl

theorem fromBytes_single (b : Nat) : fromBytes [b] = b := by
  simp [fromBytes]

/-- What `Tensor::write` appends to the stream: the record of the tensor. -/
theorem write_eq_recordLayout (T : Kind) (t : Tensor) (fp : List Nat) (h : t.WF T) :
    Tensor.write T t fp = .ok (fp ++ recordLayout (typeID T) (sizeofT T) t.name t.dim
      (t.values.flatMap (toBytes (sizeofT T)))) := by
  obtain ⟨hname, hdims, _, hmem⟩ := h
  cases hm : t.CPUmem with
  | none => rw [hm] at hmem; exact hmem.elim
  | some m =>
    rw [hm] at hmem
    have hl : ¬ m.length < t.numel := Nat.not_lt.mpr hmem.1
    have i1 : toInt32 t.name.length = (t.name.length : Int) := toInt32_of_lt _ hname
    have i2 : toInt32 t.dim.length = (t.dim.length : Int) := toInt32_of_lt _ hdims
    have hv : t.values = m.take t.numel := by simp [Tensor.values, hm]
    unfold Tensor.write Tensor.writeData Tensor.writeHeader recordLayout
    simp only [i1, i2, int2bytes_natCast _ hname, int2bytes_natCast _ hdims, Int.toNat_natCast,
      List.take_length, toBytes_typeID, hm, hv]
    by_cases hn : t.name.length = 0
    · have hn2 : t.name = [] := List.eq_nil_of_length_eq_zero hn
      by_cases hd : t.dim.length = 0
      · have hd2 : t.dim = [] := List.eq_nil_of_length_eq_zero hd
        by_cases hz : t.numel = 0 <;> simp [hn2, hd2, hz, hl, Nat.pos_of_ne_zero]
      · by_cases hz : t.numel = 0 <;> simp [hn2, hz, hl, Nat.pos_of_ne_zero, hd]
    · by_cases hd : t.dim.length = 0
      · have hd2 : t.dim = [] := List.eq_nil_of_length_eq_zero hd
        by_cases hz : t.numel = 0 <;> simp [hd2, hz, hl, Nat.pos_of_ne_zero, hn]
      · by_cases hz : t.numel = 0 <;> simp [hz, hl, Nat.pos_of_ne_zero, hn, hd]

/-- Reading a record with the kind it was written with gives back name, shape and elements
and leaves the stream right behind the record, whatever the nested constructor is. -/
theorem readFrom_record (ctor : Kind → FILE → Outcome (Tensor × FILE)) (cv : Casts) (T : Kind)
    (self : Tensor) (name : List Nat) (dims : List Int) (data rest : List Nat) (e : Bool)
    (hname : name.length < 2 ^ 31) (hdims : dims.length < 2 ^ 31)
    (hrange : ∀ d ∈ dims, INT_MIN ≤ d ∧ d ≤ INT_MAX)
    (hlen : data.length = numel dims) (hval : ∀ v ∈ data, v < 256 ^ sizeofT T) :
    Tensor.readFrom ctor cv T self
      { bytes := recordLayout (typeID T) (sizeofT T) name dims
          (data.flatMap (toBytes (sizeofT T))) ++ rest, eof := e } 1
      = .ok ({ dim := dims, CPUmem := some data, name := name }, { bytes := rest, eof := e }) := by
  unfold Tensor.readFrom recordLayout
  simp only [List.append_assoc]
  have e1 := fread_exact 1 1 [typeID T] (toBytes 4 (sizeofT T) ++ (toBytes 4 name.length ++ (name ++
    (toBytes 4 dims.length ++ (dims.flatMap int2bytes ++
      (data.flatMap (toBytes (sizeofT T)) ++ rest)))))) e rfl
  have e2 := fread_exact 4 1 (toBytes 4 (sizeofT T)) (toBytes 4 name.length ++ (name ++
    (toBytes 4 dims.length ++ (dims.flatMap int2bytes ++
      (data.flatMap (toBytes (sizeofT T)) ++ rest))))) e (by simp [length_toBytes])
  simp only [e1, e2, fromBytes_single, fromBytes_sizeofT, ne_eq, not_true_eq_false, or_self,
    if_false]
  exact readBody_record T _ name dims data rest e hname hdims hrange hlen hval

theorem values_length (T : Kind) (t : Tensor) (h : t.WF T) : t.values.length = numel t.dim := by
  obtain ⟨_, _, _, hmem⟩ := h
  cases hm : t.CPUmem with
  | none => rw [hm] at hmem; exact hmem.elim
  | some m =>
    rw [hm] at hmem
    simp only [Tensor.values, hm, List.length_take]
    exact Nat.min_eq_left hmem.1

theorem values_lt (T : Kind) (t : Tensor) (h : t.WF T) : ∀ v ∈ t.values, v < 256 ^ sizeofT T := by
  obtain ⟨_, _, _, hmem⟩ := h
  cases hm : t.CPUmem with
  | none => rw [hm] at hmem; exact hmem.elim
  | some m =>
    rw [hm] at hmem
    intro v hv
    simp only [Tensor.values, hm] at hv
    exact hmem.2 v (List.mem_of_mem_take hv)

/-- Reading the record of a well-formed tensor, followed by anything. -/
theorem read_write_append (cv : Casts) (T : Kind) (t self : Tensor) (rest : List Nat) (e : Bool)
    (h : t.WF T) :
    Tensor.read cv T self
      { bytes := recordLayout (typeID T) (sizeofT T) t.name t.dim
          (t.values.flatMap (toBytes (sizeofT T))) ++ rest, eof := e } 1
      = .ok ({ dim := t.dim, CPUmem := some t.values, name := t.name },
            { bytes := rest, eof := e }) :=
  readFrom_record _ cv T self t.name t.dim t.values rest e h.1 h.2.1 h.2.2.1
    (values_length T t h) (values_lt T t h)

/-- **C1.** Round trip of one tensor: for every element kind `T` and every well-formed
`Tensor<T>` (any name, any dimensions, any element values), `Tensor::write` succeeds, and
`Tensor::read` with the same kind on the bytes it produced returns normally with the same
name, the same dimension list and the same `numel(dim)` element values, having consumed the
whole record. -/
theorem Tensor.write_read_roundtrip (cv : Casts) (T : Kind) (t self : Tensor) (h : t.WF T) :
    ∃ bytes, Tensor.write T t [] = .ok bytes ∧
      Tensor.read cv T self { bytes := bytes, eof := false } 1
        = .ok ({ dim := t.dim, CPUmem := some t.values, name := t.name },
              { bytes := [], eof := false }) := by
  refine ⟨_, write_eq_recordLayout T t [] h, ?_⟩
  have := read_write_append cv T t self [] false h
  simpa using this

theorem exampleTensor_WF : exampleTensor.WF .float := by
  refine ⟨by decide, by decide, by decide, ?_⟩
  show exampleTensor.numel ≤ 2 ∧ ∀ v ∈ [5, 70000], v < 256 ^ sizeofT .float
  exact ⟨by decide, by decide⟩

/-- Witness of **C1** at `exampleTensor`. -/
theorem Tensor.write_read_roundtrip_witness :
    exampleTensor.WF .float ∧
    ∃ bytes, Tensor.write .float exampleTensor [] = .ok bytes ∧
      Tensor.read exampleCasts .float {} { bytes := bytes, eof := false } 1
        = .ok ({ dim := exampleTensor.dim, CPUmem := some exampleTensor.values,
                 name := exampleTensor.name }, { bytes := [], eof := false }) :=
  ⟨exampleTensor_WF,
    Tensor.write_read_roundtrip exampleCasts .float exampleTensor {} exampleTensor_WF⟩

/-! ## Record layout and `readHeader` -/

theorem length_recordLayout (tag width : Nat) (name : List Nat) (dims : List Int)
    (payload : List Nat) :
    (recordLayout tag width name dims payload).length
      = 13 + name.length + 4 * dims.length + payload.length := by
  simp only [recordLayout, List.length_append, List.length_cons, List.length_nil, length_toBytes,
    length_flatMap_const 4 _ dims length_int2bytes]
  omega

/-- On a record of kind `T`, `readHeader` returns the header length, sets name and shape, and
leaves the stream at the payload. -/
theorem readHeader_record (T : Kind) (self : Tensor) (name : List Nat) (dims : List Int)
    (rest : List Nat) (e : Bool)
    (hname : name.length < 2 ^ 31) (hdims : dims.length < 2 ^ 31)
    (hrange : ∀ d ∈ dims, INT_MIN ≤ d ∧ d ≤ INT_MAX) :
    Tensor.readHeader T self
      { bytes := recordLayout (typeID T) (sizeofT T) name dims rest, eof := e }
      = .ok (13 + name.length + 4 * dims.length, { self with name := name, dim := dims },
            { bytes := rest, eof := e }) := by
  unfold Tensor.readHeader recordLayout
  have e1 := fread_exact 1 1 [typeID T] (toBytes 4 (sizeofT T) ++ (toBytes 4 name.length ++
    (name ++ (toBytes 4 dims.length ++ (dims.flatMap int2bytes ++ rest))))) e rfl
  have e2 := fread_exact 4 1 (toBytes 4 (sizeofT T)) (toBytes 4 name.length ++ (name ++
    (toBytes 4 dims.length ++ (dims.flatMap int2bytes ++ rest)))) e (by simp [length_toBytes])
  have e3 := fread_exact 4 1 (toBytes 4 name.length) (name ++ (toBytes 4 dims.length ++
          (dims.flatMap int2bytes ++ rest))) e (by simp [length_toBytes])
  have b3 : bytes2int (toBytes 4 name.length) = (name.length : Int) := by
    rw [← int2bytes_natCast _ hname, bytes2int_int2bytes_nat _ hname]
  have e4 := fread_guarded_nat 1 name.length name (toBytes 4 dims.length ++
          (dims.flatMap int2bytes ++ rest)) e (by simp)
  have e5 := fread_exact 4 1 (toBytes 4 dims.length) (dims.flatMap int2bytes ++ rest) e
          (by simp [length_toBytes])
  have b5 : bytes2int (toBytes 4 dims.length) = (dims.length : Int) := by
    rw [← int2bytes_natCast _ hdims, bytes2int_int2bytes_nat _ hdims]
  have e6 := fread_guarded_nat 4 dims.length (dims.flatMap int2bytes) rest e
          (length_flatMap_const 4 _ _ length_int2bytes)
  have s6 : splitItems 4 dims.length (dims.flatMap int2bytes) = dims.map int2bytes := by
    have := splitItems_flatMap 4 int2bytes dims [] length_int2bytes
    simpa using this
  have o4 : overwrite (resize self.name name.length 0) name = name :=
    overwrite_full _ _ (length_resize _ _ _)
  have o6 : overwrite (resize self.dim dims.length 0) dims = dims :=
    overwrite_full _ _ (length_resize _ _ _)
  have n3 : ¬ ((name.length : Int) < 0) := by omega
  have n5 : ¬ ((dims.length : Int) < 0) := by omega
  have hb : (1 + 4 + 4 + name.length * 1 + 4 + dims.length * 4) % 2 ^ 64
      = 13 + name.length + 4 * dims.length := by
    rw [Nat.mod_eq_of_lt (by omega)]; omega
  have e1c := e1
  simp only [List.singleton_append] at e1c
  simp [e1c, e2, e3, b3, e4, o4, e5, b5, e6, s6, map_bytes2int_int2bytes dims hrange, o6,
    n3, n5, fromBytes_single, fromBytes_sizeofT]
  omega

/-- **C3.** Layout of a record. `Tensor::write` appends, in this order, the 1-byte kind tag
`typeID(T)`, the 4-byte width `sizeof(T)`, the 4-byte name length, the name bytes, the 4-byte
dimension count, 4 bytes per dimension, and `numel x width` payload bytes; the record is
`13 + |name| + 4*ndims + width*numel` bytes long; and `Tensor::readHeader` on such a record
returns exactly the header length `13 + |name| + 4*ndims`, leaving the stream at the first
payload byte. -/
theorem Tensor.write_record_layout (T : Kind) (t : Tensor) (fp : List Nat) (h : t.WF T) :
    Tensor.write T t fp = .ok (fp ++ recordLayout (typeID T) (sizeofT T) t.name t.dim
        (t.values.flatMap (toBytes (sizeofT T))))
    ∧ (t.values.flatMap (toBytes (sizeofT T))).length = sizeofT T * marvin.numel t.dim
    ∧ (recordLayout (typeID T) (sizeofT T) t.name t.dim
        (t.values.flatMap (toBytes (sizeofT T)))).length
        = 13 + t.name.length + 4 * t.dim.length + sizeofT T * marvin.numel t.dim
    ∧ ∀ (self : Tensor) (rest : List Nat) (e : Bool),
        Tensor.readHeader T self
          { bytes := recordLayout (typeID T) (sizeofT T) t.name t.dim
              (t.values.flatMap (toBytes (sizeofT T))) ++ rest, eof := e }
          = .ok (13 + t.name.length + 4 * t.dim.length,
                { self with name := t.name, dim := t.dim },
                { bytes := t.values.flatMap (toBytes (sizeofT T)) ++ rest, eof := e }) := by
  have hp : (t.values.flatMap (toBytes (sizeofT T))).length = sizeofT T * marvin.numel t.dim := by
    rw [length_flatMap_const _ _ _ (length_toBytes _), values_length T t h]
  refine ⟨write_eq_recordLayout T t fp h, hp, ?_, ?_⟩
  · rw [length_recordLayout, hp]
  · intro self rest e
    have := readHeader_record T self t.name t.dim
      (t.values.flatMap (toBytes (sizeofT T)) ++ rest) e h.1 h.2.1 h.2.2.1
    simpa [recordLayout] using this

/-- Witness of **C3** at `exampleTensor`. -/
theorem Tensor.write_record_layout_witness :
    exampleTensor.WF .float ∧
    Tensor.write .float exampleTensor []
      = .ok [1, 4, 0, 0, 0, 2, 0, 0, 0, 97, 98, 2, 0, 0, 0, 2, 0, 0, 0, 1, 0, 0, 0,
             5, 0, 0, 0, 112, 17, 1, 0] := by
  refine ⟨exampleTensor_WF, ?_⟩
  have h := (Tensor.write_record_layout .float exampleTensor [] exampleTensor_WF).1
  rw [h]
  decide

/-! ## Streams of records -/

theorem writeTensorsLoop_eq (T : Kind) (ts : List Tensor) (fp : List Nat)
    (h : ∀ t ∈ ts, t.WF T) :
    writeTensorsLoop T ts fp = .ok (fp ++ ts.flatMap (Tensor.record T)) := by
  induction ts generalizing fp with
  | nil => simp [writeTensorsLoop]
  | cons t ts ih =>
    simp only [writeTensorsLoop, write_eq_recordLayout T t fp (h t (by simp)), Outcome.bind]
    rw [ih _ (fun x hx => h x (by simp [hx]))]
    simp [Tensor.record]

theorem ofFILE_empty (cv : Casts) (T : Kind) :
    Tensor.ofFILE cv T { bytes := [], eof := false } = .ok ({}, { bytes := [], eof := true }) := by
  simp [Tensor.ofFILE, Tensor.read, Tensor.readFrom, fread]

theorem ofFILE_record (cv : Casts) (T : Kind) (t : Tensor) (rest : List Nat) (h : t.WF T) :
    Tensor.ofFILE cv T { bytes := Tensor.record T t ++ rest, eof := false }
      = .ok (t.exact, { bytes := rest, eof := false }) :=
  read_write_append cv T t {} rest false h

/-- The loop of `readTensors` on a stream of records: either it runs into the end of the
stream and has appended the empty placeholder, or it stops after the last record because
`max_count` is reached. -/
theorem readTensorsLoop_records (cv : Casts) (T : Kind) (max_count : Nat) (ts : List Tensor)
    (h : ∀ t ∈ ts, t.WF T) (hmax : max_count ≤ SIZE_MAX) :
    ∀ (fuel : Nat) (acc : List Tensor) (count : Nat),
      ts.length + 2 ≤ fuel → count + ts.length ≤ max_count →
      (readTensorsLoop cv T max_count fuel { bytes := ts.flatMap (Tensor.record T), eof := false }
          acc count
          = .ok (acc ++ ts.map Tensor.exact ++ [{ dim := [], CPUmem := none, name := [] }]))
      ∨ (ts ≠ [] ∧ count + ts.length = max_count ∧
          readTensorsLoop cv T max_count fuel
            { bytes := ts.flatMap (Tensor.record T), eof := false } acc count
            = .ok (acc ++ ts.map Tensor.exact)) := by
  induction ts with
  | nil =>
    intro fuel acc count hf _
    left
    obtain ⟨f, rfl⟩ : ∃ f, fuel = f + 2 := ⟨fuel - 2, by simp at hf; omega⟩
    simp [readTensorsLoop, ofFILE_empty]
  | cons t ts ih =>
    intro fuel acc count hf hc
    obtain ⟨f, rfl⟩ : ∃ f, fuel = f + 1 := ⟨fuel - 1, by simp at hf; omega⟩
    have hw : t.WF T := h t (by simp)
    simp only [SIZE_MAX] at hmax
    simp only [List.length_cons] at hf hc
    have hmod : (count + 1) % 2 ^ 64 = count + 1 := Nat.mod_eq_of_lt (by omega)
    simp only [List.flatMap_cons, readTensorsLoop, ofFILE_record cv T t _ hw, hmod]
    by_cases hge : count + 1 ≥ max_count
    · have hts : ts = [] := List.eq_nil_of_length_eq_zero (by omega)
      subst hts
      right
      refine ⟨by simp, by simp; omega, ?_⟩
      simp [hge]
    · have := ih (fun x hx => h x (by simp [hx])) f (acc ++ [t.exact]) (count + 1)
        (by omega) (by omega)
      simp only [hge, if_false, Bool.false_eq_true]
      rcases this with h1 | ⟨h2, h3, h4⟩
      · left
        rw [h1]; simp
      · right
        refine ⟨by simp, by simp; omega, ?_⟩
        rw [h4]; simp

theorem length_record_pos (T : Kind) (t : Tensor) : 1 ≤ (Tensor.record T t).length := by
  simp [Tensor.record, length_recordLayout]
  omega

theorem length_le_flatMap_record (T : Kind) (ts : List Tensor) :
    ts.length ≤ (ts.flatMap (Tensor.record T)).length := by
  induction ts with
  | nil => simp
  | cons t ts ih =>
    have := length_record_pos T t
    simp only [List.flatMap_cons, List.length_append, List.length_cons]
    omega

theorem readTensorsLoop_fuel_mono (cv : Casts) (T : Kind) (max_count : Nat) :
    ∀ (fuel : Nat) (fp : FILE) (acc : List Tensor) (count : Nat) (r : List Tensor),
      readTensorsLoop cv T max_count fuel fp acc count = .ok r →
      ∀ k, readTensorsLoop cv T max_count (fuel + k) fp acc count = .ok r := by
  intro fuel
  induction fuel with
  | zero => intro fp acc count r h; simp [readTensorsLoop] at h
  | succ f ih =>
    intro fp acc count r h k
    have hk : f + 1 + k = (f + k) + 1 := by omega
    rw [hk]
    simp only [readTensorsLoop] at h ⊢
    by_cases he : fp.eof = true
    · simpa [he] using h
    · simp only [he, if_false, Bool.false_eq_true] at h ⊢
      cases hr : Tensor.ofFILE cv T fp with
      | fatal => rw [hr] at h; simp at h
      | undefined => rw [hr] at h; simp at h
      | ok p =>
        obtain ⟨t, fp1⟩ := p
        rw [hr] at h
        simp only at h ⊢
        by_cases hge : (count + 1) % 2 ^ 64 ≥ max_count
        · rw [if_pos hge] at h ⊢
          exact h
        · rw [if_neg hge] at h ⊢
          exact ih _ _ _ _ h k

/-- **C2.** Round trip of a stream: for every list `ts` of well-formed tensors of one kind
(not longer than `max_count`, which is `SIZE_MAX` by default), `writeTensors` produces a file
on which `readTensors` returns the list of the same length whose `i`-th tensor has the name,
shape and values of `ts[i]`. When `max_count` is not reached, the loop ends on the failed
header read after the last record, which leaves an empty placeholder tensor (null `CPUmem`)
at the end of the vector; that placeholder is removed from the result. In particular the
empty file yields the empty list. -/
theorem readTensors_writeTensors (cv : Casts) (T : Kind) (ts : List Tensor) (max_count : Nat)
    (h : ∀ t ∈ ts, t.WF T) (hlen : ts.length ≤ max_count) (hmax : max_count ≤ SIZE_MAX) :
    ∃ file, writeTensors T ts = .ok file ∧
      readTensors cv T file max_count
        = .ok (ts.map (fun t => { dim := t.dim, CPUmem := some t.values, name := t.name })) ∧
      (ts.length < max_count →
        readTensorsLoop cv T max_count (file.length + 2) { bytes := file, eof := false } [] 0
          = .ok (ts.map (fun t => { dim := t.dim, CPUmem := some t.values, name := t.name })
                  ++ [{ dim := [], CPUmem := none, name := [] }])) ∧
      readTensors cv T [] max_count = .ok [] := by
  have hw := writeTensorsLoop_eq T ts [] h
  simp only [List.nil_append] at hw
  have hmap : ts.map (fun t => ({ dim := t.dim, CPUmem := some t.values, name := t.name } : Tensor))
      = ts.map Tensor.exact := rfl
  have hloop := readTensorsLoop_records cv T max_count ts h hmax (ts.length + 2) [] 0
    (le_refl _) (by omega)
  have hk : (ts.flatMap (Tensor.record T)).length + 2
      = (ts.length + 2) + ((ts.flatMap (Tensor.record T)).length - ts.length) := by
    have := length_le_flatMap_record T ts
    omega
  have hempty : readTensors cv T [] max_count = .ok [] := by
    have h0 := readTensorsLoop_records cv T max_count [] (by simp) hmax 2 [] 0
      (le_refl _) (by simp)
    rcases h0 with h1 | ⟨h2, _⟩
    · simp only [List.flatMap_nil, List.map_nil, List.append_nil, List.nil_append] at h1
      simp only [readTensors, List.length_nil, Nat.zero_add, h1]
      simp
    · exact absurd rfl h2
  refine ⟨_, hw, ?_, ?_, hempty⟩
  · rw [hmap]
    rcases hloop with h1 | ⟨h2, _, h4⟩
    · have := readTensorsLoop_fuel_mono cv T max_count _ _ _ _ _ h1
        ((ts.flatMap (Tensor.record T)).length - ts.length)
      rw [← hk] at this
      simp only [readTensors, this, List.nil_append]
      simp
    · have := readTensorsLoop_fuel_mono cv T max_count _ _ _ _ _ h4
        ((ts.flatMap (Tensor.record T)).length - ts.length)
      rw [← hk] at this
      simp only [readTensors, this, List.nil_append]
      obtain ⟨l, a, hla⟩ : ∃ l a, ts = l ++ [a] := by
        rcases List.eq_nil_or_concat ts with hn | ⟨l, a, hc⟩
        · exact absurd hn h2
        · exact ⟨l, a, by simpa using hc⟩
      subst hla
      simp [Tensor.exact]
  · intro hlt
    rw [hmap]
    rcases hloop with h1 | ⟨_, h3, _⟩
    · have := readTensorsLoop_fuel_mono cv T max_count _ _ _ _ _ h1
        ((ts.flatMap (Tensor.record T)).length - ts.length)
      rw [← hk] at this
      simpa using this
    · omega

/-- Witness of **C2**: a stream of two records. -/
theorem readTensors_writeTensors_witness :
    (∀ t ∈ [exampleTensor, exampleTensor], t.WF .float) ∧
    readTensors exampleCasts .float
      ([1, 4, 0, 0, 0, 2, 0, 0, 0, 97, 98, 2, 0, 0, 0, 2, 0, 0, 0, 1, 0, 0, 0, 5, 0, 0, 0,
        112, 17, 1, 0] ++
       [1, 4, 0, 0, 0, 2, 0, 0, 0, 97, 98, 2, 0, 0, 0, 2, 0, 0, 0, 1, 0, 0, 0, 5, 0, 0, 0,
        112, 17, 1, 0]) SIZE_MAX
      = .ok [exampleTensor, exampleTensor] := by
  have hwf : ∀ t ∈ [exampleTensor, exampleTensor], t.WF .float := by
    intro t ht
    simp only [List.mem_cons, List.mem_singleton, List.not_mem_nil, or_false, or_self] at ht
    rw [ht]; exact exampleTensor_WF
  obtain ⟨file, hfile, hread, _⟩ :=
    readTensors_writeTensors exampleCasts .float [exampleTensor, exampleTensor] SIZE_MAX hwf
      (by decide) (le_refl _)
  refine ⟨hwf, ?_⟩
  have hf : writeTensors .float [exampleTensor, exampleTensor]
      = .ok ([1, 4, 0, 0, 0, 2, 0, 0, 0, 97, 98, 2, 0, 0, 0, 2, 0, 0, 0, 1, 0, 0, 0, 5, 0, 0, 0,
        112, 17, 1, 0] ++
       [1, 4, 0, 0, 0, 2, 0, 0, 0, 97, 98, 2, 0, 0, 0, 2, 0, 0, 0, 1, 0, 0, 0, 5, 0, 0, 0,
        112, 17, 1, 0]) := by decide
  rw [hf] at hfile
  injection hfile with hfile
  rw [hfile, hread]
  rfl

/-! ## Truncated records -/

theorem fread_guarded_mixed (sz n : Nat) (pre rest : List Nat) (e : Bool)
    (h : pre.length = sz * n) :
    (if ((n : Int) > 0) then fread sz n { bytes := pre ++ rest, eof := e }
      else { buf := [], read_cnt := n, fp := { bytes := pre ++ rest, eof := e } })
      = { buf := pre, read_cnt := n, fp := { bytes := rest, eof := e } } := by
  have := fread_guarded sz n pre rest e h
  simpa only [Int.toNat_natCast] using this

/-- A conversion branch on the record of a well-formed `Tensor<K>`: the elements are converted
one by one. -/
theorem convertFrom_record (cv : Casts) (K : Kind) (conv : Nat → Nat) (t : Tensor)
    (rest : List Nat) (e : Bool) (h : t.WF K) :
    Tensor.convertFrom (Tensor.nested cv) K conv
      { bytes := Tensor.record K t ++ rest, eof := e } 1
      = .ok ({ dim := t.dim, CPUmem := some (t.values.map conv), name := t.name },
            { bytes := rest, eof := false }) := by
  have hr := readFrom_record (fun _ _ => .undefined) cv K {} t.name t.dim t.values rest false
    h.1 h.2.1 h.2.2.1 (values_length K t h) (values_lt K t h)
  have hl := values_length K t h
  unfold Tensor.convertFrom Tensor.nested Tensor.record
  simp only [hr, Malloc_one]
  by_cases hz : numel t.dim = 0
  · have hv : t.values = [] := List.eq_nil_of_length_eq_zero (by rw [hl, hz])
    simp [hz, hv]
  · simp [hz, hl]

/-- The five conversions that `read` performs: a stored `float` into `half` or `double`, a
stored `half` into `float`, a stored `double` into `float` or `half`. -/
theorem Tensor.read_converts (cv : Casts) (t self : Tensor) (rest : List Nat) (e : Bool) :
    (t.WF .float →
      Tensor.read cv .half self { bytes := Tensor.record .float t ++ rest, eof := e } 1
        = .ok ({ dim := t.dim, CPUmem := some (t.values.map cpu_float2half), name := t.name },
              { bytes := rest, eof := false })) ∧
    (t.WF .half →
      Tensor.read cv .float self { bytes := Tensor.record .half t ++ rest, eof := e } 1
        = .ok ({ dim := t.dim, CPUmem := some (t.values.map cpu_half2float), name := t.name },
              { bytes := rest, eof := false })) ∧
    (t.WF .float →
      Tensor.read cv .double self { bytes := Tensor.record .float t ++ rest, eof := e } 1
        = .ok ({ dim := t.dim, CPUmem := some (t.values.map cv.f2d), name := t.name },
              { bytes := rest, eof := false })) ∧
    (t.WF .double →
      Tensor.read cv .float self { bytes := Tensor.record .double t ++ rest, eof := e } 1
        = .ok ({ dim := t.dim, CPUmem := some (t.values.map cv.d2f), name := t.name },
              { bytes := rest, eof := false })) ∧
    (t.WF .double →
      Tensor.read cv .half self { bytes := Tensor.record .double t ++ rest, eof := e } 1
        = .ok ({ dim := t.dim,
                 CPUmem := some (t.values.map (fun d => cpu_float2half (cv.d2f d))),
                 name := t.name },
              { bytes := rest, eof := false })) := by
  have key : ∀ (T K : Kind) (conv : Nat → Nat), t.WF K →
      Tensor.convertFrom (Tensor.nested cv) K conv
        { bytes := Tensor.record K t ++ rest, eof := e } 1
      = .ok ({ dim := t.dim, CPUmem := some (t.values.map conv), name := t.name },
            { bytes := rest, eof := false }) := fun _ K conv h => convertFrom_record cv K conv t rest e h
  have hd : ∀ (T K : Kind),
      (fread 1 1 { bytes := Tensor.record K t ++ rest, eof := e }).read_cnt = 1 ∧
      fromBytes (fread 1 1 { bytes := Tensor.record K t ++ rest, eof := e }).buf = typeID K ∧
      (fread 4 1 (fread 1 1 { bytes := Tensor.record K t ++ rest, eof := e }).fp).read_cnt = 1 ∧
      fromBytes (fread 4 1 (fread 1 1 { bytes := Tensor.record K t ++ rest, eof := e }).fp).buf
        = sizeofT K := by
    intro _ K
    have e1 := fread_exact 1 1 [typeID K] (toBytes 4 (sizeofT K) ++ (toBytes 4 t.name.length ++
      (t.name ++ (toBytes 4 t.dim.length ++ (t.dim.flatMap int2bytes ++
        (t.values.flatMap (toBytes (sizeofT K)) ++ rest)))))) e rfl
    have e2 := fread_exact 4 1 (toBytes 4 (sizeofT K)) (toBytes 4 t.name.length ++
      (t.name ++ (toBytes 4 t.dim.length ++ (t.dim.flatMap int2bytes ++
        (t.values.flatMap (toBytes (sizeofT K)) ++ rest))))) e (by simp [length_toBytes])
    simp only [Tensor.record, recordLayout, List.append_assoc, e1, e2, fromBytes_single,
      fromBytes_sizeofT, and_self]
  refine ⟨?_, ?_, ?_, ?_, ?_⟩
  · intro h
    obtain ⟨a, b, c, d⟩ := hd .half .float
    unfold Tensor.read Tensor.readFrom
    simp only [a, b, c, d, typeID, sizeofT]
    simpa using key .half .float cpu_float2half h
  · intro h
    obtain ⟨a, b, c, d⟩ := hd .float .half
    unfold Tensor.read Tensor.readFrom
    simp only [a, b, c, d, typeID, sizeofT]
    simpa using key .float .half cpu_half2float h
  · intro h
    obtain ⟨a, b, c, d⟩ := hd .double .float
    unfold Tensor.read Tensor.readFrom
    simp only [a, b, c, d, typeID, sizeofT]
    simpa using key .double .float cv.f2d h
  · intro h
    obtain ⟨a, b, c, d⟩ := hd .float .double
    unfold Tensor.read Tensor.readFrom
    simp only [a, b, c, d, typeID, sizeofT]
    simpa using key .float .double cv.d2f h
  · intro h
    obtain ⟨a, b, c, d⟩ := hd .half .double
    unfold Tensor.read Tensor.readFrom
    simp only [a, b, c, d, typeID, sizeofT]
    simpa using key .half .double (fun d => cpu_float2half (cv.d2f d)) h

/-- **C5, the failing case.** A stored `half` record read into a `Tensor<double>`: no branch
of `read` applies (the sixth branch repeats the condition of the second one, `float` from
`half`, although its body converts to `double`), so the process terminates, whatever the
record holds and whatever `batch_size` is. -/
theorem Tensor.read_half_into_double_fatal (cv : Casts) (self : Tensor) (name : List Nat)
    (dims : List Int) (payload rest : List Nat) (e : Bool) (bs : Int) :
    Tensor.read cv .double self
      { bytes := recordLayout (typeID .half) (sizeofT .half) name dims payload ++ rest,
        eof := e } bs = .fatal := by
  have e1 := fread_exact 1 1 [typeID .half] (toBytes 4 (sizeofT .half) ++
    (toBytes 4 name.length ++ (name ++ (toBytes 4 dims.length ++ (dims.flatMap int2bytes ++
      (payload ++ rest)))))) e rfl
  have e2 := fread_exact 4 1 (toBytes 4 (sizeofT .half)) (toBytes 4 name.length ++
    (name ++ (toBytes 4 dims.length ++ (dims.flatMap int2bytes ++ (payload ++ rest))))) e
    (by simp [length_toBytes])
  unfold Tensor.read Tensor.readFrom recordLayout
  simp only [List.append_assoc, e1, e2, fromBytes_single, fromBytes_sizeofT]
  simp [typeID, sizeofT]

/-! ## The nested constructor call of `read` -/

/-- When the stream stands at a record tagged with the kind of the tensor, `read` never
reaches a conversion branch, so the nested constructor does not matter. -/
theorem readFrom_ctor_indep (c1 c2 : Kind → FILE → Outcome (Tensor × FILE)) (cv : Casts)
    (K : Kind) (self : Tensor) (fp : FILE) (bs : Int)
    (hK : fromBytes (fread 1 1 fp).buf = typeID K) :
    Tensor.readFrom c1 cv K self fp bs = Tensor.readFrom c2 cv K self fp bs := by
  unfold Tensor.readFrom
  simp only [hK]
  generalize fread 1 1 fp = r1
  by_cases a1 : r1.read_cnt ≠ 1
  · simp only [if_pos a1]
  simp only [if_neg a1]
  generalize fread 4 1 r1.fp = r2
  by_cases a2 : r2.read_cnt ≠ 1
  · simp only [if_pos a2]
  simp only [if_neg a2]
  by_cases hs : sizeofT K = fromBytes r2.buf
  · simp [hs]
  · simp [hs]

theorem fread_buf_eof (size count : Nat) (b : List Nat) (e1 e2 : Bool) :
    (fread size count { bytes := b, eof := e1 }).buf
      = (fread size count { bytes := b, eof := e2 }).buf := by
  unfold fread
  split <;> rfl

theorem convertFrom_ctor_indep (c1 c2 : Kind → FILE → Outcome (Tensor × FILE)) (K : Kind)
    (conv : Nat → Nat) (fp : FILE) (bs : Int)
    (h : c1 K { bytes := fp.bytes, eof := false } = c2 K { bytes := fp.bytes, eof := false }) :
    Tensor.convertFrom c1 K conv fp bs = Tensor.convertFrom c2 K conv fp bs := by
  unfold Tensor.convertFrom
  rw [h]

theorem readFrom_congr (c1 c2 : Kind → FILE → Outcome (Tensor × FILE)) (cv : Casts)
    (T : Kind) (self : Tensor) (fp : FILE) (bs : Int)
    (key : ∀ (K : Kind) (conv : Nat → Nat), fromBytes (fread 1 1 fp).buf = typeID K →
      Tensor.convertFrom c1 K conv fp bs = Tensor.convertFrom c2 K conv fp bs) :
    Tensor.readFrom c1 cv T self fp bs = Tensor.readFrom c2 cv T self fp bs := by
  unfold Tensor.readFrom
  simp only
  generalize fread 1 1 fp = r1 at key ⊢
  by_cases a1 : r1.read_cnt ≠ 1
  · simp only [if_pos a1]
  simp only [if_neg a1]
  generalize fread 4 1 r1.fp = r2
  by_cases a2 : r2.read_cnt ≠ 1
  · simp only [if_pos a2]
  simp only [if_neg a2]
  generalize Tensor.readBody T { dim := self.dim, CPUmem := none, name := self.name } r2.fp bs
    = body
  by_cases hm : typeID T ≠ fromBytes r1.buf ∨ sizeofT T ≠ fromBytes r2.buf
  · simp only [if_pos hm]
    by_cases h0 : typeID T = fromBytes r1.buf ∧ sizeofT T ≠ fromBytes r2.buf
    · simp only [if_pos h0]
    simp only [if_neg h0]
    by_cases h1 : typeID T = typeID .half ∧ fromBytes r1.buf = typeID .float
    · simp only [if_pos h1]; exact key _ _ h1.2
    simp only [if_neg h1]
    by_cases h2 : typeID T = typeID .float ∧ fromBytes r1.buf = typeID .half
    · simp only [if_pos h2]; exact key _ _ h2.2
    simp only [if_neg h2]
    by_cases h3 : typeID T = typeID .double ∧ fromBytes r1.buf = typeID .float
    · simp only [if_pos h3]; exact key _ _ h3.2
    simp only [if_neg h3]
    by_cases h4 : typeID T = typeID .float ∧ fromBytes r1.buf = typeID .double
    · simp only [if_pos h4]; exact key _ _ h4.2
    simp only [if_neg h4]
    by_cases h5 : typeID T = typeID .half ∧ fromBytes r1.buf = typeID .double
    · simp only [if_pos h5]; exact key _ _ h5.2
    simp only [if_neg h5]
  · simp only [if_neg hm]

/-- The equation that defines `Tensor::read` in the source: in the conversion branches the
nested constructor `Tensor<K>(fp)` is `read` itself, on a fresh tensor with `batch_size = 1`. -/
theorem Tensor.read_unfold (cv : Casts) (T : Kind) (self : Tensor) (fp : FILE) (bs : Int) :
    Tensor.read cv T self fp bs
      = Tensor.readFrom (fun K f => Tensor.read cv K {} f 1) cv T self fp bs := by
  apply readFrom_congr
  intro K conv hK
  apply convertFrom_ctor_indep
  show Tensor.readFrom _ cv K {} _ 1 = Tensor.readFrom _ cv K {} _ 1
  apply readFrom_ctor_indep
  rw [fread_buf_eof 1 1 fp.bytes false fp.eof]
  exact hK

/-! ## `Response::Malloc` -/

theorem same_dim_iff (a b : List Int) : same_dim a b = true ↔ a = b := by
  induction a generalizing b with
  | nil => cases b <;> simp [same_dim]
  | cons x xs ih =>
    cases b with
    | nil => simp [same_dim]
    | cons y ys =>
      by_cases hxy : x = y
      · simp [same_dim, hxy, ih]
      · simp [same_dim, hxy]

theorem same_dim_eq_false_iff (a b : List Int) : same_dim a b = false ↔ a ≠ b := by
  constructor
  · intro h heq
    have := (same_dim_iff a b).2 heq
    rw [h] at this
    cases this
  · intro hne
    cases h : same_dim a b with
    | false => rfl
    | true => exact absurd ((same_dim_iff a b).1 h) hne

theorem Response.Malloc_again {V : Type} (dev : Device V) (self : Response V)
    (dim_ : List Int) (h0 : self.dataGPU ≠ none) (h1 : dim_ = self.dim) :
    Response.Malloc dev self dim_ = .ok (0, self) := by
  cases hd : self.dataGPU with
  | none => exact absurd hd h0
  | some buf =>
    have : ¬ (same_dim self.dim dim_ = false) := by
      rw [same_dim_eq_false_iff]; simp [h1]
    simp [Response.Malloc, hd, this]

/-- **C6.** `Response::Malloc(shape)` is idempotent. On a not yet allocated Edge (with a
shape the library calls accept) it stores the shape, allocates the activation block, and
returns `numel(shape) * sizeofStorageT` bytes, or twice that, with a gradient block as well,
when `need_diff` is set; the byte counts are `size_t` values. On an already allocated Edge a
call with an equal shape returns 0 and changes nothing, and a call with a different shape
(different rank or any differing dimension) is fatal. Hence a second call with the shape of
the first always returns 0 and leaves the Edge as the first call left it. -/
theorem Response.Malloc_idempotent {V : Type} (dev : Device V) (self : Response V)
    (dim_ : List Int) :
    (self.dataGPU = none → Response.allocatable dev dim_ → self.need_diff = false →
      Response.Malloc dev self dim_
        = .ok ((numel dim_ * sizeofStorageT) % 2 ^ 64,
              { self with dim := dim_, stride := strideOf dim_,
                          dataGPU := some (dev.fresh (numel dim_)) }))
    ∧ (self.dataGPU = none → Response.allocatable dev dim_ → self.need_diff = true →
      Response.Malloc dev self dim_
        = .ok ((2 * ((numel dim_ * sizeofStorageT) % 2 ^ 64)) % 2 ^ 64,
              { self with dim := dim_, stride := strideOf dim_,
                          dataGPU := some (dev.fresh (numel dim_)),
                          diffGPU := some (dev.fresh (numel dim_)) }))
    ∧ (self.dataGPU ≠ none → dim_ = self.dim → Response.Malloc dev self dim_ = .ok (0, self))
    ∧ (self.dataGPU ≠ none → dim_ ≠ self.dim → Response.Malloc dev self dim_ = .fatal)
    ∧ (∀ bytes r, Response.Malloc dev self dim_ = .ok (bytes, r) →
        Response.Malloc dev r dim_ = .ok (0, r)) := by
  have hsame : same_dim dim_ dim_ = false ↔ False := by
    rw [same_dim_eq_false_iff]; simp
  refine ⟨?_, ?_, ?_, ?_, ?_⟩
  · rintro h0 ⟨h1, h2, h3, h4⟩ h5
    unfold Response.Malloc
    rw [h0]
    simp only [if_neg h1, if_neg (not_not.mpr h2), h3, h4, h5, Bool.true_eq_false, if_false,
      Bool.false_eq_true]
  · rintro h0 ⟨h1, h2, h3, h4⟩ h5
    unfold Response.Malloc
    rw [h0]
    simp only [if_neg h1, if_neg (not_not.mpr h2), h3, h4, h5, Bool.true_eq_false, if_false,
      if_true, two_mul]
  · exact Response.Malloc_again dev self dim_
  · intro h0 h1
    cases hd : self.dataGPU with
    | none => exact absurd hd h0
    | some buf =>
      have : same_dim self.dim dim_ = false := by
        rw [same_dim_eq_false_iff]; exact fun h => h1 h.symm
      simp [Response.Malloc, hd, this]
  · intro bytes r h
    unfold Response.Malloc at h
    cases hd : self.dataGPU with
    | some buf =>
      rw [hd] at h
      simp only at h
      split_ifs at h with hs
      injection h with h
      injection h with hb hr
      subst hr
      simp [Response.Malloc, hd, hs]
    | none =>
      rw [hd] at h
      simp only at h
      split_ifs at h
      all_goals
        injection h with h
        injection h with hb hr
        subst hr
        simp [Response.Malloc, hsame]

theorem exampleDevice_allocatable : Response.allocatable exampleDevice [2, 3, 4, 4] := by
  refine ⟨by decide, by decide, rfl, rfl⟩

/-- Witness of **C6**: a response that needs a gradient, allocated with shape `[2, 3, 4, 4]`
(96 elements of 2 bytes, twice). -/
theorem Response.Malloc_idempotent_witness :
    exampleResponse.dataGPU = none ∧ Response.allocatable exampleDevice [2, 3, 4, 4] ∧
    exampleResponse.need_diff = true ∧
    Response.Malloc exampleDevice exampleResponse [2, 3, 4, 4]
      = .ok (384,
          { exampleResponse with
            dim := [2, 3, 4, 4], stride := strideOf [2, 3, 4, 4],
            dataGPU := some (exampleDevice.fresh (numel [2, 3, 4, 4])),
            diffGPU := some (exampleDevice.fresh (numel [2, 3, 4, 4])) }) :=
  ⟨rfl, exampleDevice_allocatable, rfl,
    (Response.Malloc_idempotent exampleDevice exampleResponse [2, 3, 4, 4]).2.1 rfl
      exampleDevice_allocatable rfl⟩

/-! ## The loops of `Net::forward` and `Net::backward` -/

theorem foldl_forwardStep_fatal {L V : Type} (m : Methods L V) (idx : List Nat) :
    idx.foldl (Net.forwardStep m) .fatal = .fatal := by
  induction idx with
  | nil => rfl
  | cons i idx ih => simpa [Net.forwardStep, Outcome.bind] using ih

theorem foldl_forwardStep_undefined {L V : Type} (m : Methods L V) (idx : List Nat) :
    idx.foldl (Net.forwardStep m) .undefined = .undefined := by
  induction idx with
  | nil => rfl
  | cons i idx ih => simpa [Net.forwardStep, Outcome.bind] using ih

/-- Whether the layer at index `l` of `net` is scheduled. -/
theorem activeLayers_eq {L V : Type} (m : Methods L V) (net : Net L V) :
    Net.activeLayers m net = (List.range net.layers.length).filter (fun l =>
      match net.layers[l]? with
      | none => false
      | some layer => decide (m.phase layer = net.phase ∨ m.phase layer = .TrainingTesting)) :=
  rfl

/-- The record of calls of a scheduling loop over distinct indices: exactly the indices in
the list whose layer is scheduled, in the order of the list. -/
theorem forward_loop_calls {L V : Type} (m : Methods L V) (net0 : Net L V) (idx : List Nat)
    (hnd : idx.Nodup) :
    ∀ (net : Net L V) (calls : List Nat), net.phase = net0.phase →
      (∀ i ∈ idx, net.layers[i]? = net0.layers[i]?) →
      ∀ netF callsF, idx.foldl (Net.forwardStep m) (.ok (net, calls)) = .ok (netF, callsF) →
      callsF = calls ++ idx.filter (fun l =>
        match net0.layers[l]? with
        | none => false
        | some layer =>
          decide (m.phase layer = net0.phase ∨ m.phase layer = .TrainingTesting)) := by
  induction idx with
  | nil =>
    intro net calls _ _ netF callsF h
    simp only [List.foldl_nil] at h
    injection h with h
    injection h with h1 h2
    simp [h2]
  | cons i idx ih =>
    intro net calls hph hl netF callsF h
    have hnd2 : idx.Nodup := (List.nodup_cons.mp hnd).2
    have hni : i ∉ idx := (List.nodup_cons.mp hnd).1
    have hli : net.layers[i]? = net0.layers[i]? := hl i (by simp)
    simp only [List.foldl_cons] at h
    cases hlay : net0.layers[i]? with
    | none =>
      rw [hlay] at hli
      have hs : Net.forwardStep m (.ok (net, calls)) i = .undefined := by
        simp [Net.forwardStep, Outcome.bind, hli]
      rw [hs, foldl_forwardStep_undefined] at h
      exact absurd h (by simp)
    | some layer =>
      rw [hlay] at hli
      by_cases hact : m.phase layer = net0.phase ∨ m.phase layer = .TrainingTesting
      · cases hcall : m.forward layer net0.phase net.responses with
        | fatal =>
          have hs : Net.forwardStep m (.ok (net, calls)) i = .fatal := by
            simp [Net.forwardStep, Outcome.bind, hli, hph, hact, hcall]
          rw [hs, foldl_forwardStep_fatal] at h
          exact absurd h (by simp)
        | undefined =>
          have hs : Net.forwardStep m (.ok (net, calls)) i = .undefined := by
            simp [Net.forwardStep, Outcome.bind, hli, hph, hact, hcall]
          rw [hs, foldl_forwardStep_undefined] at h
          exact absurd h (by simp)
        | ok r =>
          have hs : Net.forwardStep m (.ok (net, calls)) i
              = .ok ({ net with layers := net.layers.set i r.1, responses := r.2 },
                     calls ++ [i]) := by
            simp [Net.forwardStep, Outcome.bind, hli, hph, hact, hcall]
          rw [hs] at h
          have := ih hnd2 { net with layers := net.layers.set i r.1, responses := r.2 }
            (calls ++ [i]) hph (fun j hj => by
            have hji : i ≠ j := fun e => hni (e ▸ hj)
            simp only [List.getElem?_set_ne hji]
            exact hl j (by simp [hj])) netF callsF h
          rw [this]
          simp [List.filter_cons, hlay, hact]
      · have hs : Net.forwardStep m (.ok (net, calls)) i = .ok (net, calls) := by
          simp [Net.forwardStep, Outcome.bind, hli, hph, hact]
        rw [hs] at h
        have := ih hnd2 _ _ hph (fun j hj => hl j (by simp [hj])) netF callsF h
        rw [this]
        simp [List.filter_cons, hlay, hact]

/-- A scheduling loop over valid indices whose layer calls all return does return. -/
theorem forward_loop_returns {L V : Type} (m : Methods L V)
    (hf : ∀ layer ph rs, ∃ r, m.forward layer ph rs = .ok r) (idx : List Nat) :
    ∀ (net : Net L V) (calls : List Nat), (∀ i ∈ idx, i < net.layers.length) →
      ∃ netF callsF, idx.foldl (Net.forwardStep m) (.ok (net, calls)) = .ok (netF, callsF) := by
  induction idx with
  | nil => intro net calls _; exact ⟨net, calls, rfl⟩
  | cons i idx ih =>
    intro net calls hi
    have hlt : i < net.layers.length := hi i (by simp)
    have hget : net.layers[i]? = some net.layers[i] := List.getElem?_eq_getElem hlt
    simp only [List.foldl_cons]
    by_cases hact : m.phase net.layers[i] = net.phase ∨ m.phase net.layers[i] = .TrainingTesting
    · obtain ⟨r, hr⟩ := hf net.layers[i] net.phase net.responses
      have hs : Net.forwardStep m (.ok (net, calls)) i
          = .ok ({ net with layers := net.layers.set i r.1, responses := r.2 },
                 calls ++ [i]) := by
        simp [Net.forwardStep, Outcome.bind, hget, hact, hr]
      rw [hs]
      exact ih _ _ (fun j hj => by simpa using hi j (by simp [hj]))
    · have hs : Net.forwardStep m (.ok (net, calls)) i = .ok (net, calls) := by
        simp [Net.forwardStep, Outcome.bind, hget, hact]
      rw [hs]
      exact ih _ _ (fun j hj => hi j (by simp [hj]))

theorem backwardStep_eq_forwardStep {L V : Type} (m : Methods L V) :
    Net.backwardStep m = Net.forwardStep { m with forward := m.backward } := rfl

theorem activeLayers_clearDiffs {L V : Type} (dev : Device V) (m : Methods L V)
    (net : Net L V) : Net.activeLayers m (Net.clearDiffs dev net) = Net.activeLayers m net := rfl

theorem filter_reverse_range {n : Nat} (p : Nat → Bool) :
    (List.range n).reverse.filter p = ((List.range n).filter p).reverse := by
  rw [List.filter_reverse]

/-- **C8.** Scheduling. `Net::forward` calls `forward` on exactly the layers whose phase tag
equals the current phase of the net or is `TrainingTesting`, in construction order, and
`Net::backward` calls `backward` on exactly the same layers in exactly the reverse order;
the layers tagged for the other phase are never called. This holds for the record of calls of
every run that returns, and the run does return when every layer call returns. -/
theorem Net.forward_backward_schedule {L V : Type} (dev : Device V) (m : Methods L V)
    (net : Net L V) :
    (∀ netF calls, Net.forward m net = .ok (netF, calls) → calls = Net.activeLayers m net)
    ∧ (∀ netB calls, Net.backward dev m net = .ok (netB, calls) →
        calls = (Net.activeLayers m net).reverse)
    ∧ ((∀ layer ph rs, ∃ r, m.forward layer ph rs = .ok r) →
        ∃ netF, Net.forward m net = .ok (netF, Net.activeLayers m net))
    ∧ ((∀ layer ph rs, ∃ r, m.backward layer ph rs = .ok r) →
        ∃ netB, Net.backward dev m net = .ok (netB, (Net.activeLayers m net).reverse)) := by
  have hF : ∀ netF calls, Net.forward m net = .ok (netF, calls) →
      calls = Net.activeLayers m net := by
    intro netF calls h
    have := forward_loop_calls m net (List.range net.layers.length) (List.nodup_range _) net []
      rfl (fun _ _ => rfl) netF calls h
    simpa [activeLayers_eq] using this
  have hB : ∀ netB calls, Net.backward dev m net = .ok (netB, calls) →
      calls = (Net.activeLayers m net).reverse := by
    intro netB calls h
    unfold Net.backward Net.backwardLayers at h
    rw [backwardStep_eq_forwardStep] at h
    have := forward_loop_calls { m with forward := m.backward } (Net.clearDiffs dev net)
      (List.range (Net.clearDiffs dev net).layers.length).reverse
      (List.nodup_reverse.mpr (List.nodup_range _)) (Net.clearDiffs dev net) []
      rfl (fun _ _ => rfl) netB calls h
    rw [this, List.nil_append, filter_reverse_range]
    rfl
  refine ⟨hF, hB, ?_, ?_⟩
  · intro hf
    obtain ⟨netF, callsF, h⟩ := forward_loop_returns m hf (List.range net.layers.length) net []
      (fun i hi => List.mem_range.mp hi)
    exact ⟨netF, by rw [← hF netF callsF h]; exact h⟩
  · intro hb
    obtain ⟨netB, callsB, h⟩ := forward_loop_returns { m with forward := m.backward } hb
      (List.range (Net.clearDiffs dev net).layers.length).reverse (Net.clearDiffs dev net) []
      (fun i hi => List.mem_range.mp (List.mem_reverse.mp hi))
    have h2 : Net.backward dev m net = .ok (netB, callsB) := h
    exact ⟨netB, by rw [← hB netB callsB h2]; exact h2⟩

/-- Witness of **C8**: in a training net with a training layer, a testing layer and a layer
for both phases, `forward` runs layers 0 and 2, `backward` runs layers 2 and 0. -/
theorem Net.forward_backward_schedule_witness :
    (∀ layer ph rs, ∃ r, tagMethods.forward layer ph rs = .ok r) ∧
    (∀ layer ph rs, ∃ r, tagMethods.backward layer ph rs = .ok r) ∧
    (∃ netF, Net.forward tagMethods tagNet = .ok (netF, [0, 2])) ∧
    (∃ netB, Net.backward exampleDevice tagMethods tagNet = .ok (netB, [2, 0])) :=
  ⟨fun layer _ rs => ⟨(layer, rs), rfl⟩, fun layer _ rs => ⟨(layer, rs), rfl⟩,
    (Net.forward_backward_schedule exampleDevice tagMethods tagNet).2.2.1
      (fun layer _ rs => ⟨(layer, rs), rfl⟩),
    (Net.forward_backward_schedule exampleDevice tagMethods tagNet).2.2.2
      (fun layer _ rs => ⟨(layer, rs), rfl⟩)⟩

/-! ## `Net::backward` clears the gradients first -/

theorem cudaMemset0_full {V : Type} (dev : Device V) (buf : List V) (n : Nat)
    (h : buf.length = n) : cudaMemset0 dev buf n = List.replicate n dev.zero := by
  simp [cudaMemset0, h, List.drop_eq_nil_of_le (Nat.le_of_eq h)]

theorem clearDiff_sameUpToDiff {V : Type} (dev : Device V) (r1 r2 : Response V)
    (h : r1.sameUpToDiff r2)
    (h1 : ∀ buf, r1.diffGPU = some buf → buf.length = numel r1.dim)
    (h2 : ∀ buf, r2.diffGPU = some buf → buf.length = numel r2.dim) :
    Response.clearDiff dev r1 = Response.clearDiff dev r2 := by
  obtain ⟨n1, d1, g1, nd1, dim1, s1⟩ := r1
  obtain ⟨n2, d2, g2, nd2, dim2, s2⟩ := r2
  obtain ⟨hn, hd, hnd, hdim, hs, hlen⟩ := h
  simp only at hn hd hnd hdim hs hlen h1 h2
  subst hn hd hnd hdim hs
  cases g1 with
  | none =>
    cases g2 with
    | none => rfl
    | some b2 => simp at hlen
  | some b1 =>
    cases g2 with
    | none => simp at hlen
    | some b2 =>
      simp only [Response.clearDiff]
      rw [cudaMemset0_full dev b1 _ (h1 b1 rfl), cudaMemset0_full dev b2 _ (h2 b2 rfl)]

theorem map_clearDiff_eq {V : Type} (dev : Device V) (rs1 rs2 : List (Response V))
    (h : List.Forall₂ Response.sameUpToDiff rs1 rs2)
    (h1 : ∀ r ∈ rs1, ∀ buf, r.diffGPU = some buf → buf.length = numel r.dim)
    (h2 : ∀ r ∈ rs2, ∀ buf, r.diffGPU = some buf → buf.length = numel r.dim) :
    rs1.map (Response.clearDiff dev) = rs2.map (Response.clearDiff dev) := by
  induction h with
  | nil => rfl
  | cons hab _ ih =>
    simp only [List.map_cons]
    rw [clearDiff_sameUpToDiff dev _ _ hab (h1 _ (by simp)) (h2 _ (by simp)),
      ih (fun r hr => h1 r (by simp [hr])) (fun r hr => h2 r (by simp [hr]))]

/-- **C10.** `Net::backward` first clears the gradient block of every Edge of the net that has
one, whatever layers touch it, and only then runs the layers' `backward`; after the clearing
every gradient block is all zero, so the result of `Net::backward` (the Edge gradients
included) does not depend on the gradient values before the call. -/
theorem Net.backward_clears_first {L V : Type} (dev : Device V) (m : Methods L V)
    (net : Net L V) :
    Net.backward dev m net = Net.backwardLayers m (Net.clearDiffs dev net)
    ∧ (Net.clearDiffs dev net).responses.length = net.responses.length
    ∧ (net.diffSized → ∀ r ∈ (Net.clearDiffs dev net).responses, ∀ buf,
        r.diffGPU = some buf → buf = List.replicate (numel r.dim) dev.zero)
    ∧ (∀ net2 : Net L V, net2.phase = net.phase → net2.layers = net.layers →
        List.Forall₂ Response.sameUpToDiff net.responses net2.responses →
        net.diffSized → net2.diffSized →
        Net.backward dev m net = Net.backward dev m net2) := by
  refine ⟨rfl, by simp [Net.clearDiffs], ?_, ?_⟩
  · intro hs r hr buf hbuf
    simp only [Net.clearDiffs, List.mem_map] at hr
    obtain ⟨r0, hr0, rfl⟩ := hr
    unfold Response.clearDiff at hbuf ⊢
    cases hd : r0.diffGPU with
    | none => rw [hd] at hbuf; simp [hd] at hbuf
    | some b =>
      rw [hd] at hbuf
      simp only [Option.some.injEq] at hbuf
      rw [← hbuf]
      exact cudaMemset0_full dev b _ (hs r0 hr0 b hd)
  · intro net2 hph hl hrs hs1 hs2
    have : Net.clearDiffs dev net = Net.clearDiffs dev net2 := by
      obtain ⟨p1, l1, rs1⟩ := net
      obtain ⟨p2, l2, rs2⟩ := net2
      simp only at hph hl hrs
      subst hph hl
      simp only [Net.clearDiffs]
      rw [map_clearDiff_eq dev rs1 rs2 hrs hs1 hs2]
    unfold Net.backward
    rw [this]

theorem gradNet_diffSized : gradNet.diffSized ∧ gradNet2.diffSized := by
  constructor <;>
  · intro r hr buf hb
    simp only [gradNet, gradNet2, List.mem_cons, List.mem_singleton, List.not_mem_nil,
      or_false] at hr
    rcases hr with rfl | rfl
    · simp only [Option.some.injEq] at hb
      rw [← hb]; rfl
    · simp at hb

theorem gradNet_sameUpToDiff :
    List.Forall₂ Response.sameUpToDiff gradNet.responses gradNet2.responses := by
  refine List.Forall₂.cons ?_ (List.Forall₂.cons ?_ List.Forall₂.nil)
  · exact ⟨rfl, rfl, rfl, rfl, rfl, rfl⟩
  · exact ⟨rfl, rfl, rfl, rfl, rfl, rfl⟩

/-- Witness of **C10**: two nets that differ only in the gradient values `[5, 7]` and `[9, 9]`
of one Edge give the same `Net::backward`. -/
theorem Net.backward_clears_first_witness :
    gradNet.diffSized ∧ gradNet2.diffSized ∧
    List.Forall₂ Response.sameUpToDiff gradNet.responses gradNet2.responses ∧
    Net.backward exampleDevice tagMethods gradNet
      = Net.backward exampleDevice tagMethods gradNet2 :=
  ⟨gradNet_diffSized.1, gradNet_diffSized.2, gradNet_sameUpToDiff,
    (Net.backward_clears_first exampleDevice tagMethods gradNet).2.2.2 gradNet2 rfl rfl
      gradNet_sameUpToDiff gradNet_diffSized.1 gradNet_diffSized.2⟩

/-! ## The partition of kernel work -/

theorem CUDA_GET_BLOCKS_eq (N : Nat) (h1 : 1 ≤ N) (h2 : N ≤ 2 ^ 31) :
    CUDA_GET_BLOCKS N = ((min 2880 ((N + 511) / 512) : Nat) : Int) ∧
    1 ≤ min 2880 ((N + 511) / 512) := by
  have hq : (N + 512 - 1) % 2 ^ 64 / 512 = (N + 511) / 512 := by omega
  have hlt : (N + 511) / 512 < 2 ^ 31 := by omega
  unfold CUDA_GET_BLOCKS MAX_NUM_BLOCKS CUDA_NUM_THREADS toInt32
  rw [hq, if_pos (by omega)]
  constructor
  · rw [Nat.mod_eq_of_lt (by omega)]
    omega
  · omega

theorem CUDA_GET_LOOPS_eq (N : Nat) (h1 : 1 ≤ N) (h2 : N ≤ 2 ^ 31) :
    CUDA_GET_LOOPS N
      = .ok ((N + 512 * min 2880 ((N + 511) / 512) - 1) / (512 * min 2880 ((N + 511) / 512))) := by
  obtain ⟨hB, hpos⟩ := CUDA_GET_BLOCKS_eq N h1 h2
  unfold CUDA_GET_LOOPS
  rw [hB]
  have hprod : ((min 2880 ((N + 511) / 512) : Nat) : Int) * ((CUDA_NUM_THREADS : Nat) : Int)
      = ((512 * min 2880 ((N + 511) / 512) : Nat) : Int) := by
    unfold CUDA_NUM_THREADS; push_cast; ring
  rw [hprod]
  have hres : intResult ((512 * min 2880 ((N + 511) / 512) : Nat) : Int)
      = .ok ((512 * min 2880 ((N + 511) / 512) : Nat) : Int) := by
    unfold intResult INT_MIN INT_MAX
    rw [if_pos (by omega)]
  rw [hres]
  simp only [Outcome.bind]
  have hT : toSizeT ((512 * min 2880 ((N + 511) / 512) : Nat) : Int)
      = 512 * min 2880 ((N + 511) / 512) := by
    unfold toSizeT; omega
  rw [hT, if_neg (by omega), Nat.mod_eq_of_lt (by omega)]

theorem threadIndices_eq (L N t : Nat) (ht : L * t + L < 2 ^ 64) (hL : 0 < L) :
    threadIndices L N t = List.range' (L * t) (min N (L * t + L) - L * t) := by
  have ht1 : t < 2 ^ 64 := by
    have : t ≤ L * t := Nat.le_mul_of_pos_left t hL
    omega
  unfold threadIndices
  simp only [Nat.mod_eq_of_lt ht1, Nat.mod_eq_of_lt (show L * t < 2 ^ 64 by omega),
    Nat.mod_eq_of_lt ht]
  split_ifs with h
  · have : min N (L * t + L) - L * t = 0 := by omega
    rw [this]; rfl
  · rfl

/-- The indices of the threads `0, ..., k - 1`, in this order, are `0, ..., min(N, L*k) - 1`. -/
theorem flatMap_threadIndices (L N : Nat) (hL : 0 < L) :
    ∀ k, L * k + L < 2 ^ 64 →
      (List.range k).flatMap (threadIndices L N) = List.range (min N (L * k)) := by
  intro k
  induction k with
  | zero => intro _; simp
  | succ k ih =>
    intro hk
    have hk1 : L * k + L < 2 ^ 64 := by
      have : L * (k + 1) = L * k + L := by ring
      omega
    rw [List.range_succ, List.flatMap_append, ih hk1]
    simp only [List.flatMap_cons, List.flatMap_nil, List.append_nil]
    rw [threadIndices_eq L N k hk1 hL, List.range_eq_range', List.range_eq_range']
    have hmul : L * (k + 1) = L * k + L := by ring
    rw [hmul]
    by_cases hc : N ≤ L * k
    · have h0 : min N (L * k + L) - L * k = 0 := by omega
      rw [h0, Nat.min_eq_left hc, Nat.min_eq_left (by omega)]
      simp
    · have hm : min N (L * k) = L * k := by omega
      rw [hm]
      have := List.range'_append 0 (L * k) (min N (L * k + L) - L * k) 1
      simp only [Nat.zero_add, Nat.one_mul] at this
      rw [this]
      congr 1
      omega

theorem mem_threadIndices (L N t idx : Nat) (ht : L * t + L < 2 ^ 64) (hL : 0 < L) :
    idx ∈ threadIndices L N t ↔ L * t ≤ idx ∧ idx < min N (L * t + L) := by
  rw [threadIndices_eq L N t ht hL, List.mem_range'_1]
  omega
theorem foldl_threads {α β γ : Type} (f : β → α → β) (g : γ → List α) (l : List γ) (b : β) :
    l.foldl (fun st t => (g t).foldl f st) b = (l.flatMap g).foldl f b := by
  induction l generalizing b with
  | nil => rfl
  | cons a l ih => simp only [List.foldl_cons, List.flatMap_cons, List.foldl_append, ih]

theorem foldl_set_range {V : Type} (value : V) :
    ∀ (n : Nat) (dst : List V), n ≤ dst.length →
      (List.range n).foldl
        (fun (st : Outcome (List V)) idx => st.bind fun dst =>
          if idx < dst.length then .ok (dst.set idx value) else .undefined)
        (.ok dst) = .ok (List.replicate n value ++ dst.drop n) := by
  intro n
  induction n with
  | zero => intro dst _; simp
  | succ n ih =>
    intro dst hn
    rw [List.range_succ, List.foldl_append, ih dst (by omega)]
    simp only [List.foldl_cons, List.foldl_nil, Outcome.bind]
    rw [if_pos (by simp; omega)]
    congr 1
    apply List.ext_getElem
    · simp; omega
    · intro i h1 h2
      simp only [List.getElem_set, List.getElem_append, List.length_replicate,
        List.getElem_replicate, List.getElem_drop]
      by_cases hi : i < n
      · simp [hi, show n ≠ i by omega, show i < n + 1 by omega]
      · by_cases hi2 : i = n
        · subst hi2; simp
        · simp only [hi, show ¬ i < n + 1 by omega, show n ≠ i by omega, dite_false, if_false]
          congr 1
          omega

theorem CUDA_bounds (N : Nat) (h1 : 1 ≤ N) (h2 : N ≤ 2 ^ 31) :
    let T := 512 * min 2880 ((N + 511) / 512)
    let L := (N + T - 1) / T
    0 < T ∧ 0 < L ∧ N ≤ L * T ∧ L * T + L < 2 ^ 64 := by
  intro T L
  have hT : 0 < T := by show 0 < 512 * min 2880 ((N + 511) / 512); omega
  have hT2 : T ≤ 1474560 := by show 512 * min 2880 ((N + 511) / 512) ≤ 1474560; omega
  have hdm := Nat.div_add_mod (N + T - 1) T
  have hmod := Nat.mod_lt (N + T - 1) hT
  have hL : 0 < L := Nat.div_pos (by omega) hT
  have hcov : N ≤ L * T := by
    have : T * L = L * T := Nat.mul_comm T L
    show N ≤ L * T
    have h3 : T * ((N + T - 1) / T) + (N + T - 1) % T = N + T - 1 := hdm
    have h4 : T * L = T * ((N + T - 1) / T) := rfl
    omega
  have hLle : L ≤ N := by
    have : (N + T - 1) / T ≤ (N + T - 1) / 1 := Nat.div_le_div_left (by omega) (by omega)
    have h5 : (N + T - 1) / T ≤ N := by
      rw [Nat.div_le_iff_le_mul_add_pred hT]
      have : N ≤ T * N := Nat.le_mul_of_pos_left N hT
      omega
    exact h5
  refine ⟨hT, hL, hcov, ?_⟩
  have h6 : L * T ≤ 2 ^ 31 * 1474560 := Nat.mul_le_mul (by omega) hT2
  omega


theorem keepsAllocated_refl {V : Type} (rs : List (Response V)) : keepsAllocated rs rs :=
  ⟨rfl, fun _ r h _ => ⟨r, h, rfl⟩⟩

theorem keepsAllocated_trans {V : Type} (a b c : List (Response V))
    (h1 : keepsAllocated a b) (h2 : keepsAllocated b c) : keepsAllocated a c := by
  refine ⟨h1.1.trans h2.1, fun i r hr ha => ?_⟩
  obtain ⟨r1, hr1, hb1⟩ := h1.2 i r hr ha
  have ha1 : r1.dataGPU.isSome = true := by
    have : r1.buffers.dataGPU = r.buffers.dataGPU := by rw [hb1]
    simp only [Response.buffers] at this
    rw [this]; exact ha
  obtain ⟨r2, hr2, hb2⟩ := h2.2 i r1 hr1 ha1
  exact ⟨r2, hr2, hb2.trans hb1⟩

theorem buffers_dim {V : Type} (a b : Response V) (h : a.buffers = b.buffers) :
    a.dim = b.dim ∧ a.dataGPU = b.dataGPU := by
  have h1 : a.buffers.dim = b.buffers.dim := by rw [h]
  have h2 : a.buffers.dataGPU = b.buffers.dataGPU := by rw [h]
  exact ⟨h1, h2⟩

theorem map_buffers_set {V : Type} (t : List (Response V)) (oi : Nat) (r r1 : Response V)
    (h : t[oi]? = some r) (hb : r1.buffers = r.buffers) :
    (t.set oi r1).map Response.buffers = t.map Response.buffers := by
  apply List.ext_getElem?
  intro i
  simp only [List.getElem?_map]
  by_cases hi : oi = i
  · subst hi
    have hlt : oi < t.length := (List.getElem?_eq_some_iff.mp h).1
    rw [List.getElem?_set_self hlt, h]
    simp [hb]
  · rw [List.getElem?_set_ne hi]

theorem keepsAllocated_of_map_buffers {V : Type} (rs t t1 : List (Response V))
    (h : keepsAllocated rs t) (hm : t1.map Response.buffers = t.map Response.buffers) :
    keepsAllocated rs t1 := by
  have hlen : t1.length = t.length := by
    have := congrArg List.length hm
    simpa using this
  refine ⟨h.1.trans hlen.symm, fun i r hr ha => ?_⟩
  obtain ⟨r1, hr1, hb1⟩ := h.2 i r hr ha
  have hi : (t1.map Response.buffers)[i]? = (t.map Response.buffers)[i]? := by rw [hm]
  simp only [List.getElem?_map, hr1, Option.map_some'] at hi
  cases h1 : t1[i]? with
  | none => rw [h1] at hi; simp at hi
  | some r2 =>
    rw [h1] at hi
    simp only [Option.map_some', Option.some.injEq] at hi
    exact ⟨r2, rfl, hi.trans hb1⟩

/-- What `Response::Malloc` leaves behind when it returns: an allocated response with the
requested shape, which is not empty; an allocated response is returned as it is. -/
theorem Response.Malloc_post {V : Type} (dev : Device V) (self : Response V) (dim_ : List Int)
    (bytes : Nat) (r : Response V)
    (hinv : self.dataGPU.isSome = true ↔ self.dim ≠ [])
    (h : Response.Malloc dev self dim_ = .ok (bytes, r)) :
    r.dataGPU.isSome = true ∧ r.dim = dim_ ∧ dim_ ≠ [] ∧ r.name = self.name ∧ bytes < 2 ^ 64 ∧
    (self.dataGPU.isSome = true → r = self ∧ bytes = 0) := by
  unfold Response.Malloc at h
  cases hd : self.dataGPU with
  | some buf =>
    rw [hd] at h
    simp only at h
    split_ifs at h with hs
    injection h with h
    injection h with hb hr
    subst hr
    have hsame : self.dim = dim_ := by
      by_contra hne
      exact hs ((same_dim_eq_false_iff _ _).2 hne)
    have hne : self.dim ≠ [] := hinv.1 (by simp [hd])
    exact ⟨by simp [hd], hsame, hsame ▸ hne, rfl, by omega, fun _ => ⟨rfl, hb.symm⟩⟩
  | none =>
    rw [hd] at h
    simp only at h
    split_ifs at h with h1 h2 h3 h4 h5
    all_goals
      injection h with h
      injection h with hb hr
      subst hr
      refine ⟨rfl, rfl, h1, rfl, ?_, fun hc => by simp [hd] at hc⟩
      rw [← hb]
      exact Nat.mod_lt _ (by norm_num)

theorem getElem?_lt {α : Type} (l : List α) (i : Nat) (a : α) (h : l[i]? = some a) :
    i < l.length := (List.getElem?_eq_some_iff.mp h).1

/-- What one `outMalloc` leaves behind when it returns. -/
theorem outMalloc_post {V : Type} (dev : Device V) (rs : List (Response V)) (oi : Nat)
    (nd : Bool) (s : List Int) (q : Nat) (rs1 : List (Response V))
    (hinv : shapedWhenAllocated rs) (h : outMalloc dev rs oi nd s = .ok (q, rs1)) :
    s ≠ [] ∧ q < 2 ^ 64 ∧ shapedWhenAllocated rs1 ∧ keepsAllocated rs rs1 ∧
    ∃ r1, rs1[oi]? = some r1 ∧ r1.dataGPU.isSome = true ∧ r1.dim = s := by
  unfold outMalloc at h
  cases hr : rs[oi]? with
  | none => rw [hr] at h; exact absurd h (by simp)
  | some r =>
    rw [hr] at h
    simp only at h
    have hmem : r ∈ rs := List.getElem?_mem hr
    have hlt : oi < rs.length := getElem?_lt _ _ _ hr
    cases hM : Response.Malloc dev { r with need_diff := nd } s with
    | fatal => rw [hM] at h; exact absurd h (by simp [Outcome.bind])
    | undefined => rw [hM] at h; exact absurd h (by simp [Outcome.bind])
    | ok p =>
      obtain ⟨b, r1⟩ := p
      rw [hM] at h
      simp only [Outcome.bind] at h
      injection h with h
      injection h with hq hrs
      subst hq hrs
      obtain ⟨ha, hdim, hne, _, hb, hsame⟩ :=
        Response.Malloc_post dev { r with need_diff := nd } s b r1 (hinv r hmem) hM
      refine ⟨hne, hb, ?_, ⟨by simp, ?_⟩, r1, by rw [List.getElem?_set_self hlt], ha, hdim⟩
      · intro x hx
        rcases List.mem_or_eq_of_mem_set hx with hx1 | hx1
        · exact hinv x hx1
        · subst hx1
          simp [ha, hdim, hne]
      · intro i x hix hax
        by_cases hi : oi = i
        · subst hi
          rw [hr] at hix
          injection hix with hix
          subst hix
          have := (hsame hax).1
          refine ⟨r1, by rw [List.getElem?_set_self hlt], ?_⟩
          rw [this]
          rfl
        · exact ⟨x, by rw [List.getElem?_set_ne hi]; exact hix, rfl⟩

/-- `outMalloc` on an output that is already allocated with the requested shape: no bytes,
and nothing changes but the `need_diff` flag. -/
theorem outMalloc_second {V : Type} (dev : Device V) (t : List (Response V)) (oi : Nat)
    (nd : Bool) (s : List Int) (r : Response V)
    (hr : t[oi]? = some r) (ha : r.dataGPU.isSome = true) (hdim : r.dim = s) :
    ∃ t1, outMalloc dev t oi nd s = .ok (0, t1) ∧
      t1.map Response.buffers = t.map Response.buffers := by
  have hM : Response.Malloc dev { r with need_diff := nd } s
      = .ok (0, { r with need_diff := nd }) :=
    Response.Malloc_again dev { r with need_diff := nd } s
      (by
        intro hc
        have : r.dataGPU = none := hc
        rw [this] at ha
        simp at ha)
      hdim.symm
  refine ⟨t.set oi { r with need_diff := nd }, ?_, map_buffers_set t oi r _ hr rfl⟩
  simp [outMalloc, hr, hM, Outcome.bind]

theorem outLoop_nil {V : Type} (dev : Device V)
    (req : List (Response V) → Nat → Outcome (Nat × Bool × List Int))
    (st : Nat × List (Response V)) : outLoop dev req [] st = .ok st := rfl

theorem outLoop_foldl_fatal {V : Type} (dev : Device V)
    (req : List (Response V) → Nat → Outcome (Nat × Bool × List Int)) (idx : List Nat) :
    idx.foldl (fun st i => st.bind fun p => (req p.2 i).bind fun r =>
      (outMalloc dev p.2 r.1 r.2.1 r.2.2).bind fun q => .ok ((p.1 + q.1) % 2 ^ 64, q.2))
      (.fatal : Outcome (Nat × List (Response V))) = .fatal := by
  induction idx with
  | nil => rfl
  | cons i idx ih => simpa [List.foldl, Outcome.bind] using ih

theorem outLoop_foldl_undefined {V : Type} (dev : Device V)
    (req : List (Response V) → Nat → Outcome (Nat × Bool × List Int)) (idx : List Nat) :
    idx.foldl (fun st i => st.bind fun p => (req p.2 i).bind fun r =>
      (outMalloc dev p.2 r.1 r.2.1 r.2.2).bind fun q => .ok ((p.1 + q.1) % 2 ^ 64, q.2))
      (.undefined : Outcome (Nat × List (Response V))) = .undefined := by
  induction idx with
  | nil => rfl
  | cons i idx ih => simpa [List.foldl, Outcome.bind] using ih

/-- One round of the output loop, then the rest. -/
theorem outLoop_cons {V : Type} (dev : Device V)
    (req : List (Response V) → Nat → Outcome (Nat × Bool × List Int)) (i : Nat)
    (idx : List Nat) (st : Nat × List (Response V)) :
    outLoop dev req (i :: idx) st =
      ((req st.2 i).bind fun r => (outMalloc dev st.2 r.1 r.2.1 r.2.2).bind fun q =>
        .ok ((st.1 + q.1) % 2 ^ 64, q.2)).bind (outLoop dev req idx) := by
  unfold outLoop
  rw [List.foldl_cons]
  simp only [Outcome.bind]
  cases h : (req st.2 i) with
  | fatal => simp only [Outcome.bind]; exact outLoop_foldl_fatal dev req idx
  | undefined => simp only [Outcome.bind]; exact outLoop_foldl_undefined dev req idx
  | ok r =>
    simp only [Outcome.bind]
    cases h2 : outMalloc dev st.2 r.1 r.2.1 r.2.2 with
    | fatal => simp only [Outcome.bind]; exact outLoop_foldl_fatal dev req idx
    | undefined => simp only [Outcome.bind]; exact outLoop_foldl_undefined dev req idx
    | ok q => simp only [Outcome.bind]

/-- The output loop of a layer, first and second time. When the loop returns, the responses
are shaped when allocated and nothing that was allocated has changed; and running the same
loop again, on these responses or on any later state of them, returns the byte count it was
started with and changes nothing but `need_diff` flags. -/
theorem outLoop_second {V : Type} (dev : Device V)
    (req : List (Response V) → Nat → Outcome (Nat × Bool × List Int)) (hst : ReqStable req)
    (idx : List Nat) :
    ∀ (rs : List (Response V)) (b b1 : Nat) (rs1 : List (Response V)),
      shapedWhenAllocated rs → outLoop dev req idx (b, rs) = .ok (b1, rs1) →
      (shapedWhenAllocated rs1 ∧ keepsAllocated rs rs1) ∧
      ∀ (t : List (Response V)) (c : Nat), c < 2 ^ 64 → keepsAllocated rs1 t →
        ∃ t1, outLoop dev req idx (c, t) = .ok (c, t1) ∧
          t1.map Response.buffers = t.map Response.buffers := by
  induction idx with
  | nil =>
    intro rs b b1 rs1 hinv h
    rw [outLoop_nil] at h
    injection h with h
    injection h with hb hrs
    subst hb hrs
    exact ⟨⟨hinv, keepsAllocated_refl _⟩, fun t c _ _ => ⟨t, rfl, rfl⟩⟩
  | cons i idx ih =>
    intro rs b b1 rs1 hinv h
    rw [outLoop_cons] at h
    cases hreq : req rs i with
    | fatal => simp only [hreq, Outcome.bind] at h; exact absurd h (by simp)
    | undefined => simp only [hreq, Outcome.bind] at h; exact absurd h (by simp)
    | ok r =>
      obtain ⟨oi, nd, s⟩ := r
      simp only [hreq, Outcome.bind] at h
      cases hom : outMalloc dev rs oi nd s with
      | fatal => simp only [hom, Outcome.bind] at h; exact absurd h (by simp)
      | undefined => simp only [hom, Outcome.bind] at h; exact absurd h (by simp)
      | ok q =>
        obtain ⟨qb, rsA⟩ := q
        simp only [hom, Outcome.bind] at h
        obtain ⟨hs, _, hinvA, hkA, rA, hrA, haA, hdA⟩ :=
          outMalloc_post dev rs oi nd s qb rsA hinv hom
        obtain ⟨⟨hinv1, hk1⟩, hsec⟩ := ih rsA _ b1 rs1 hinvA h
        refine ⟨⟨hinv1, keepsAllocated_trans _ _ _ hkA hk1⟩, fun t c hc hkt => ?_⟩
        have hrt : keepsAllocated rs t :=
          keepsAllocated_trans _ _ _ (keepsAllocated_trans _ _ _ hkA hk1) hkt
        obtain ⟨nd1, hreqt⟩ := hst rs i oi nd s hinv hreq hs t hrt
        obtain ⟨rT, hrT, hbT⟩ := (keepsAllocated_trans _ _ _ hk1 hkt).2 oi rA hrA haA
        have hTa : rT.dataGPU.isSome = true := by rw [(buffers_dim _ _ hbT).2]; exact haA
        have hTd : rT.dim = s := by rw [(buffers_dim _ _ hbT).1]; exact hdA
        obtain ⟨tA, htA, hmA⟩ := outMalloc_second dev t oi nd1 s rT hrT hTa hTd
        obtain ⟨t1, ht1, hm1⟩ := hsec tA c hc (keepsAllocated_of_map_buffers _ _ _ hkt hmA)
        refine ⟨t1, ?_, hm1.trans hmA⟩
        rw [outLoop_cons]
        simp only [hreqt, htA, Outcome.bind, Nat.add_zero, Nat.mod_eq_of_lt hc]
        exact ht1

theorem keepsAllocated_get {V : Type} (rs t : List (Response V)) (h : keepsAllocated rs t)
    (hinv : shapedWhenAllocated rs) (i : Nat) (r : Response V) (hr : rs[i]? = some r)
    (hd : r.dim ≠ []) : ∃ r1, t[i]? = some r1 ∧ r1.dim = r.dim := by
  have ha : r.dataGPU.isSome = true := (hinv r (List.getElem?_mem hr)).2 hd
  obtain ⟨r1, h1, hb⟩ := h.2 i r hr ha
  exact ⟨r1, h1, (buffers_dim _ _ hb).1⟩

theorem passRequest_stable {V : Type} (self : Layer V) : ReqStable (passRequest self) := by
  intro rs i oi nd s hinv h hs t hk
  unfold passRequest at h ⊢
  cases hi : self.in_[i]? with
  | none => simp only [hi] at h; exact absurd h (by simp)
  | some ii =>
    cases ho : self.out[i]? with
    | none => simp only [hi, ho] at h; exact absurd h (by simp)
    | some oo =>
      simp only [hi, ho] at h ⊢
      cases hr : rs[ii]? with
      | none => simp only [hr] at h; exact absurd h (by simp)
      | some inR =>
        simp only [hr] at h
        injection h with h
        injection h with h1 h2
        injection h2 with h2 h3
        subst h1 h3
        obtain ⟨r1, hr1, hd1⟩ := keepsAllocated_get rs t hk hinv ii inR hr hs
        exact ⟨r1.need_diff, by simp only [hr1, hd1]⟩

theorem MemoryDataLayer.memoryData_outRequest_stable {V : Type} (self : MemoryDataLayer V) :
    ReqStable (MemoryDataLayer.outRequest (V := V) self) := by
  intro rs i oi nd s _ h _ t _
  exact ⟨nd, h⟩

theorem InnerProductLayer.innerProduct_outRequest_stable {V : Type} (self : InnerProductLayer V) :
    ReqStable (InnerProductLayer.outRequest self) := by
  intro rs i oi nd s hinv h hs t hk
  unfold InnerProductLayer.outRequest at h ⊢
  cases hi : self.in_[i]? with
  | none => simp only [hi] at h; exact absurd h (by simp)
  | some ii =>
    cases ho : self.out[i]? with
    | none => simp only [hi, ho] at h; exact absurd h (by simp)
    | some oo =>
      simp only [hi, ho] at h ⊢
      cases hr : rs[ii]? with
      | none => simp only [hr] at h; exact absurd h (by simp)
      | some inR =>
        simp only [hr] at h
        cases hdim : inR.dim with
        | nil => simp only [hdim] at h; exact absurd h (by simp)
        | cons d0 tl =>
          cases tl with
          | nil => simp only [hdim] at h; exact absurd h (by simp)
          | cons d1 rest =>
            simp only [hdim] at h
            injection h with h
            injection h with h1 h2
            injection h2 with h2 h3
            subst h1 h3
            obtain ⟨r1, hr1, hd1⟩ :=
              keepsAllocated_get rs t hk hinv ii inR hr (by rw [hdim]; simp)
            rw [hdim] at hd1
            exact ⟨self.train_me || r1.need_diff, by simp only [hr1, hd1]⟩

theorem ActivationLayer.activation_Malloc_settles {V : Type} (dev : Device V) (self : ActivationLayer V)
    (ph : Phase) (rs : List (Response V)) (b : Nat) (self1 : ActivationLayer V)
    (rs1 : List (Response V)) (hinv : shapedWhenAllocated rs)
    (h : ActivationLayer.Malloc dev self ph rs = .ok (b, self1, rs1)) :
    (shapedWhenAllocated rs1 ∧ keepsAllocated rs rs1) ∧
    MallocSettled (ActivationLayer.Malloc dev) (fun _ => 0) ph self1 rs1 := by
  unfold ActivationLayer.Malloc at h
  split_ifs at h with h1 h2
  cases hl : outLoop dev (passRequest self.toLayer) (List.range self.out.length) (0, rs) with
  | fatal => simp only [hl, Outcome.bind] at h; exact absurd h (by simp)
  | undefined => simp only [hl, Outcome.bind] at h; exact absurd h (by simp)
  | ok p =>
    obtain ⟨pb, prs⟩ := p
    simp only [hl, Outcome.bind] at h
    injection h with h
    injection h with hb h
    injection h with hs hr
    subst hb hs hr
    obtain ⟨hA, hsec⟩ := outLoop_second dev _ (passRequest_stable self.toLayer) _ rs 0 _ _ hinv hl
    refine ⟨hA, fun t hk => ?_⟩
    obtain ⟨t1, ht1, hm1⟩ := hsec t 0 (by norm_num) hk
    refine ⟨t1, ?_, hm1⟩
    unfold ActivationLayer.Malloc
    rw [if_neg h1, if_neg h2, ht1]
    rfl

theorem SoftmaxLayer.softmax_Malloc_settles {V : Type} (dev : Device V) (self : SoftmaxLayer V)
    (ph : Phase) (rs : List (Response V)) (b : Nat) (self1 : SoftmaxLayer V)
    (rs1 : List (Response V)) (hinv : shapedWhenAllocated rs)
    (h : SoftmaxLayer.Malloc dev self ph rs = .ok (b, self1, rs1)) :
    (shapedWhenAllocated rs1 ∧ keepsAllocated rs rs1) ∧
    MallocSettled (SoftmaxLayer.Malloc dev) (fun _ => 0) ph self1 rs1 := by
  unfold SoftmaxLayer.Malloc at h
  split_ifs at h with h1 h2
  cases hl : outLoop dev (passRequest self.toLayer) (List.range self.out.length) (0, rs) with
  | fatal => simp only [hl, Outcome.bind] at h; exact absurd h (by simp)
  | undefined => simp only [hl, Outcome.bind] at h; exact absurd h (by simp)
  | ok p =>
    obtain ⟨pb, prs⟩ := p
    simp only [hl, Outcome.bind] at h
    injection h with h
    injection h with hb h
    injection h with hs hr
    subst hb hs hr
    obtain ⟨hA, hsec⟩ := outLoop_second dev _ (passRequest_stable self.toLayer) _ rs 0 _ _ hinv hl
    refine ⟨hA, fun t hk => ?_⟩
    obtain ⟨t1, ht1, hm1⟩ := hsec t 0 (by norm_num) hk
    refine ⟨t1, ?_, hm1⟩
    unfold SoftmaxLayer.Malloc
    rw [if_neg h1, if_neg h2, ht1]
    rfl

theorem MemoryDataLayer.memoryData_Malloc_settles {V : Type} (dev : Device V) (self : MemoryDataLayer V)
    (ph : Phase) (rs : List (Response V)) (b : Nat) (self1 : MemoryDataLayer V)
    (rs1 : List (Response V)) (hinv : shapedWhenAllocated rs)
    (h : MemoryDataLayer.Malloc dev self ph rs = .ok (b, self1, rs1)) :
    (shapedWhenAllocated rs1 ∧ keepsAllocated rs rs1) ∧
    MallocSettled (MemoryDataLayer.Malloc dev) (fun _ => 0) ph self1 rs1 := by
  unfold MemoryDataLayer.Malloc at h
  split_ifs at h with h1
  · injection h with h
    injection h with hb h
    injection h with hs hr
    subst hb hs hr
    refine ⟨⟨hinv, keepsAllocated_refl _⟩, fun t _ => ⟨t, ?_, rfl⟩⟩
    unfold MemoryDataLayer.Malloc
    rw [if_pos h1]
  · cases hl : outLoop dev (MemoryDataLayer.outRequest self) [0, 1] (0, rs) with
    | fatal => simp only [hl, Outcome.bind] at h; exact absurd h (by simp)
    | undefined => simp only [hl, Outcome.bind] at h; exact absurd h (by simp)
    | ok p =>
      obtain ⟨pb, prs⟩ := p
      simp only [hl, Outcome.bind] at h
      injection h with h
      injection h with hb h
      injection h with hs hr
      subst hb hs hr
      obtain ⟨hA, hsec⟩ :=
        outLoop_second dev _ (MemoryDataLayer.memoryData_outRequest_stable self) _ rs 0 _ _ hinv hl
      refine ⟨hA, fun t hk => ?_⟩
      obtain ⟨t1, ht1, hm1⟩ := hsec t 0 (by norm_num) hk
      refine ⟨t1, ?_, hm1⟩
      unfold MemoryDataLayer.Malloc
      rw [if_neg h1, ht1]
      rfl

theorem InnerProductLayer.innerProduct_ownBytes_lt {V : Type} (self : InnerProductLayer V) :
    self.ownBytes < 2 ^ 64 := by
  unfold InnerProductLayer.ownBytes
  simp only
  split_ifs
  · exact Nat.mod_lt _ (by norm_num)
  · exact Nat.mod_lt _ (by norm_num)
  · exact Nat.mod_lt _ (by norm_num)
  · norm_num

/-- The first part of `InnerProductLayer::Malloc` on a layer that has been through it: the same
sizes are computed from the same input shape, the same blocks are reserved, and the layer
comes out as it went in. -/
theorem InnerProductLayer.MallocOwn_again {V : Type} (dev : Device V)
    (self self1 : InnerProductLayer V) (ph : Phase) (rs : List (Response V))
    (hinv : shapedWhenAllocated rs)
    (h : InnerProductLayer.MallocOwn dev self ph rs = .ok self1) :
    ∀ t, keepsAllocated rs t → InnerProductLayer.MallocOwn dev self1 ph t = .ok self1 := by
  intro t hk
  unfold InnerProductLayer.MallocOwn at h
  split_ifs at h with h1 h2
  cases hi : self.in_[0]? with
  | none => simp only [hi] at h; exact absurd h (by simp)
  | some i0 =>
    simp only [hi] at h
    cases hr : rs[i0]? with
    | none => simp only [hr] at h; exact absurd h (by simp)
    | some in0 =>
      simp only [hr] at h
      cases hd : in0.dim with
      | nil => simp only [hd] at h; exact absurd h (by simp)
      | cons d0 tl =>
        simp only [hd] at h
        by_cases h3 : (numel [self.num_output, toInt32 (sizeofitem (d0 :: tl))] > 0 ∧
            dev.cudaMalloc
              (numel [self.num_output, toInt32 (sizeofitem (d0 :: tl))] * sizeofStorageT
                % 2 ^ 64) = false)
        · rw [if_pos h3] at h; exact absurd h (by simp)
        rw [if_neg h3] at h
        by_cases h4 : (numel [self.num_output] > 0 ∧
            dev.cudaMalloc (numel [self.num_output] * sizeofStorageT % 2 ^ 64) = false)
        · rw [if_pos h4] at h; exact absurd h (by simp)
        rw [if_neg h4] at h
        by_cases h5 : (numel [self.num_output] > 0 ∧
            (d0 * (sizeofStorageT : Int) < INT_MIN ∨ INT_MAX < d0 * (sizeofStorageT : Int)))
        · rw [if_pos h5] at h; exact absurd h (by simp)
        rw [if_neg h5] at h
        by_cases h6 : (numel [self.num_output] > 0 ∧
            dev.cudaMalloc (toSizeT (d0 * (sizeofStorageT : Int))) = false)
        · rw [if_pos h6] at h; exact absurd h (by simp)
        rw [if_neg h6] at h
        injection h with h
        obtain ⟨r1, hr1, hd1⟩ := keepsAllocated_get rs t hk hinv i0 in0 hr (by rw [hd]; simp)
        rw [hd] at hd1
        subst h
        unfold InnerProductLayer.MallocOwn
        simp only [hi, hr1, hd1]
        rw [if_neg h1, if_neg h2, if_neg h3, if_neg h4, if_neg h5, if_neg h6]
        congr 1
        cases hph : decide (ph ≠ Phase.Testing) <;> cases self.train_me <;>
          simp only [Bool.and_false, Bool.and_true, ite_self, ite_eq_left_iff] <;>
          split_ifs <;> rfl

theorem InnerProductLayer.innerProduct_Malloc_settles {V : Type} (dev : Device V)
    (self : InnerProductLayer V) (ph : Phase) (rs : List (Response V)) (b : Nat)
    (self1 : InnerProductLayer V) (rs1 : List (Response V)) (hinv : shapedWhenAllocated rs)
    (h : InnerProductLayer.Malloc dev self ph rs = .ok (b, self1, rs1)) :
    (shapedWhenAllocated rs1 ∧ keepsAllocated rs rs1) ∧
    MallocSettled (InnerProductLayer.Malloc dev) InnerProductLayer.ownBytes ph self1 rs1 := by
  unfold InnerProductLayer.Malloc at h
  cases hown : InnerProductLayer.MallocOwn dev self ph rs with
  | fatal => simp only [hown, Outcome.bind] at h; exact absurd h (by simp)
  | undefined => simp only [hown, Outcome.bind] at h; exact absurd h (by simp)
  | ok s1 =>
    simp only [hown, Outcome.bind] at h
    cases hl : outLoop dev (InnerProductLayer.outRequest s1) (List.range s1.out.length)
        (s1.ownBytes, rs) with
    | fatal => simp only [hl, Outcome.bind] at h; exact absurd h (by simp)
    | undefined => simp only [hl, Outcome.bind] at h; exact absurd h (by simp)
    | ok p =>
      obtain ⟨pb, prs⟩ := p
      simp only [hl, Outcome.bind] at h
      injection h with h
      injection h with hb h
      injection h with hs hr
      subst hb hs hr
      obtain ⟨hA, hsec⟩ :=
        outLoop_second dev _ (InnerProductLayer.innerProduct_outRequest_stable s1) _ rs _ _ _ hinv hl
      refine ⟨hA, fun t hk => ?_⟩
      obtain ⟨t1, ht1, hm1⟩ := hsec t s1.ownBytes (InnerProductLayer.innerProduct_ownBytes_lt s1) hk
      refine ⟨t1, ?_, hm1⟩
      have hagain := InnerProductLayer.MallocOwn_again dev self s1 ph rs hinv hown t
        (keepsAllocated_trans _ _ _ hA.2 hk)
      unfold InnerProductLayer.Malloc
      simp only [hagain, Outcome.bind, ht1]

/-- Every embedded layer class settles after its `Malloc`. -/
theorem AnyLayer.any_Malloc_settles {V : Type} (dev : Device V) (self : AnyLayer V) (ph : Phase)
    (rs : List (Response V)) (b : Nat) (self1 : AnyLayer V) (rs1 : List (Response V))
    (hinv : shapedWhenAllocated rs)
    (h : AnyLayer.Malloc dev self ph rs = .ok (b, self1, rs1)) :
    (shapedWhenAllocated rs1 ∧ keepsAllocated rs rs1) ∧
    MallocSettled (AnyLayer.Malloc dev) AnyLayer.ownBytes ph self1 rs1 := by
  cases self with
  | memoryData l =>
    simp only [AnyLayer.Malloc] at h
    cases hm : MemoryDataLayer.Malloc dev l ph rs with
    | fatal => simp only [hm, Outcome.bind] at h; exact absurd h (by simp)
    | undefined => simp only [hm, Outcome.bind] at h; exact absurd h (by simp)
    | ok p =>
      obtain ⟨pb, pl, prs⟩ := p
      simp only [hm, Outcome.bind] at h
      injection h with h
      injection h with hb h
      injection h with hs hr
      subst hb hs hr
      obtain ⟨hA, hsec⟩ := MemoryDataLayer.memoryData_Malloc_settles dev l ph rs _ _ _ hinv hm
      refine ⟨hA, fun t hk => ?_⟩
      obtain ⟨t1, ht1, hm1⟩ := hsec t hk
      exact ⟨t1, by simp only [AnyLayer.Malloc, ht1, Outcome.bind, AnyLayer.ownBytes], hm1⟩
  | innerProduct l =>
    simp only [AnyLayer.Malloc] at h
    cases hm : InnerProductLayer.Malloc dev l ph rs with
    | fatal => simp only [hm, Outcome.bind] at h; exact absurd h (by simp)
    | undefined => simp only [hm, Outcome.bind] at h; exact absurd h (by simp)
    | ok p =>
      obtain ⟨pb, pl, prs⟩ := p
      simp only [hm, Outcome.bind] at h
      injection h with h
      injection h with hb h
      injection h with hs hr
      subst hb hs hr
      obtain ⟨hA, hsec⟩ := InnerProductLayer.innerProduct_Malloc_settles dev l ph rs _ _ _ hinv hm
      refine ⟨hA, fun t hk => ?_⟩
      obtain ⟨t1, ht1, hm1⟩ := hsec t hk
      exact ⟨t1, by simp only [AnyLayer.Malloc, ht1, Outcome.bind, AnyLayer.ownBytes], hm1⟩
  | activation l =>
    simp only [AnyLayer.Malloc] at h
    cases hm : ActivationLayer.Malloc dev l ph rs with
    | fatal => simp only [hm, Outcome.bind] at h; exact absurd h (by simp)
    | undefined => simp only [hm, Outcome.bind] at h; exact absurd h (by simp)
    | ok p =>
      obtain ⟨pb, pl, prs⟩ := p
      simp only [hm, Outcome.bind] at h
      injection h with h
      injection h with hb h
      injection h with hs hr
      subst hb hs hr
      obtain ⟨hA, hsec⟩ := ActivationLayer.activation_Malloc_settles dev l ph rs _ _ _ hinv hm
      refine ⟨hA, fun t hk => ?_⟩
      obtain ⟨t1, ht1, hm1⟩ := hsec t hk
      exact ⟨t1, by simp only [AnyLayer.Malloc, ht1, Outcome.bind, AnyLayer.ownBytes], hm1⟩
  | softmax l =>
    simp only [AnyLayer.Malloc] at h
    cases hm : SoftmaxLayer.Malloc dev l ph rs with
    | fatal => simp only [hm, Outcome.bind] at h; exact absurd h (by simp)
    | undefined => simp only [hm, Outcome.bind] at h; exact absurd h (by simp)
    | ok p =>
      obtain ⟨pb, pl, prs⟩ := p
      simp only [hm, Outcome.bind] at h
      injection h with h
      injection h with hb h
      injection h with hs hr
      subst hb hs hr
      obtain ⟨hA, hsec⟩ := SoftmaxLayer.softmax_Malloc_settles dev l ph rs _ _ _ hinv hm
      refine ⟨hA, fun t hk => ?_⟩
      obtain ⟨t1, ht1, hm1⟩ := hsec t hk
      exact ⟨t1, by simp only [AnyLayer.Malloc, ht1, Outcome.bind, AnyLayer.ownBytes], hm1⟩

theorem AnyLayer.any_ownBytes_lt {V : Type} (self : AnyLayer V) : self.ownBytes < 2 ^ 64 := by
  cases self with
  | innerProduct l => exact InnerProductLayer.innerProduct_ownBytes_lt l
  | memoryData l => simp [AnyLayer.ownBytes]
  | activation l => simp [AnyLayer.ownBytes]
  | softmax l => simp [AnyLayer.ownBytes]

/-- The loop of `Net::Malloc`, first and second time. -/
theorem Net.MallocLoop_second {V : Type} (dev : Device V) (ph : Phase) :
    ∀ (layers : List (AnyLayer V)) (rs : List (Response V)) (b b1 : Nat)
      (layers1 : List (AnyLayer V)) (rs1 : List (Response V)),
      shapedWhenAllocated rs →
      Net.MallocLoop (AnyLayer.Malloc dev) ph layers rs b = .ok (b1, layers1, rs1) →
      (shapedWhenAllocated rs1 ∧ keepsAllocated rs rs1) ∧
      ∀ (t : List (Response V)) (c : Nat), keepsAllocated rs1 t →
        ∃ t1, Net.MallocLoop (AnyLayer.Malloc dev) ph layers1 t c
            = .ok (layers1.foldl (fun memoryBytes layer =>
                (memoryBytes + layer.ownBytes) % 2 ^ 64) c, layers1, t1) ∧
          t1.map Response.buffers = t.map Response.buffers := by
  intro layers
  induction layers with
  | nil =>
    intro rs b b1 layers1 rs1 hinv h
    simp only [Net.MallocLoop] at h
    injection h with h
    injection h with hb h
    injection h with hl hr
    subst hb hl hr
    exact ⟨⟨hinv, keepsAllocated_refl _⟩, fun t c _ => ⟨t, rfl, rfl⟩⟩
  | cons layer rest ih =>
    intro rs b b1 layers1 rs1 hinv h
    simp only [Net.MallocLoop] at h
    cases hm : AnyLayer.Malloc dev layer ph rs with
    | fatal => simp only [hm, Outcome.bind] at h; exact absurd h (by simp)
    | undefined => simp only [hm, Outcome.bind] at h; exact absurd h (by simp)
    | ok p =>
      obtain ⟨pb, pl, prs⟩ := p
      simp only [hm, Outcome.bind] at h
      cases hrest : Net.MallocLoop (AnyLayer.Malloc dev) ph rest prs ((b + pb) % 2 ^ 64) with
      | fatal => simp only [hrest, Outcome.bind] at h; exact absurd h (by simp)
      | undefined => simp only [hrest, Outcome.bind] at h; exact absurd h (by simp)
      | ok q =>
        obtain ⟨qb, ql, qrs⟩ := q
        simp only [hrest, Outcome.bind] at h
        injection h with h
        injection h with hb h
        injection h with hl hr
        subst hb hl hr
        obtain ⟨⟨hinvA, hkA⟩, hsecA⟩ := AnyLayer.any_Malloc_settles dev layer ph rs _ _ _ hinv hm
        obtain ⟨⟨hinv1, hk1⟩, hsec1⟩ := ih prs _ _ _ _ hinvA hrest
        refine ⟨⟨hinv1, keepsAllocated_trans _ _ _ hkA hk1⟩, fun t c hk => ?_⟩
        obtain ⟨tA, htA, hmA⟩ := hsecA t (keepsAllocated_trans _ _ _ hk1 hk)
        obtain ⟨t1, ht1, hm1⟩ :=
          hsec1 tA ((c + pl.ownBytes) % 2 ^ 64) (keepsAllocated_of_map_buffers _ _ _ hk hmA)
        refine ⟨t1, ?_, hm1.trans hmA⟩
        simp only [Net.MallocLoop, htA, Outcome.bind, ht1, List.foldl_cons]

theorem getElem?_slot {V : Type} (N : Nat) (region : List V) (k i : Nat) (hi : i < N) :
    (slot N region k)[i]? = region[N * k + i]? := by
  unfold slot
  rw [List.getElem?_take_of_lt hi, List.getElem?_drop]

/-- The inner loop of `Kernel_update_SGDL2` when every cell it reads exists. -/
theorem sgdl2_inner_fold {V C : Type} (A : Compute V C) (N idx : Nat) (g : List V) :
    ∀ (ks : List Nat) (xs : List V) (c0 : C),
      ks.map (fun k => g[(N * k + idx) % 2 ^ 64]?) = xs.map some →
      ks.foldl
        (fun (acc : Outcome C) k => acc.bind fun gv =>
          match g[(N * k + idx) % 2 ^ 64]? with
          | some x => .ok (A.add gv (A.GPUStorage2ComputeT x))
          | none => .undefined)
        (.ok c0)
      = .ok (xs.foldl (fun a x => A.add a (A.GPUStorage2ComputeT x)) c0) := by
  intro ks
  induction ks with
  | nil =>
    intro xs c0 h
    cases xs with
    | nil => rfl
    | cons x xs => simp at h
  | cons k ks ih =>
    intro xs c0 h
    cases xs with
    | nil => simp at h
    | cons x xs =>
      simp only [List.map_cons, List.cons.injEq] at h
      simp only [List.foldl_cons, Outcome.bind, h.1]
      exact ih xs _ h.2

/-- The replica gradients of element `i`: cell `i` of the slots `1, ..., n`. -/
theorem slot_cells {V : Type} (N n : Nat) (gs g : List V) (i : Nat) (hi : i < N)
    (hlen : gs.length = (n + 1) * N) (hfit : (n + 1) * N < 2 ^ 64)
    (hframe : ∀ j, N ≤ j → g[j]? = gs[j]?) :
    (List.range' 1 n).map (fun k => g[(N * k + i) % 2 ^ 64]?)
      = ((List.range' 1 n).filterMap fun k => (slot N gs k)[i]?).map some := by
  have key : ∀ k ∈ List.range' 1 n, ∃ x, g[(N * k + i) % 2 ^ 64]? = some x ∧
      (slot N gs k)[i]? = some x := by
    intro k hk
    rw [List.mem_range'_1] at hk
    have h1 : N * k + i < (n + 1) * N := by nlinarith [hk.1, hk.2]
    have h2 : (N * k + i) % 2 ^ 64 = N * k + i := Nat.mod_eq_of_lt (by omega)
    have h3 : N ≤ N * k + i := by nlinarith [hk.1]
    rw [h2, hframe _ h3, getElem?_slot N gs k i hi]
    have h4 : N * k + i < gs.length := by omega
    exact ⟨gs[N * k + i], by rw [List.getElem?_eq_getElem h4], by rw [List.getElem?_eq_getElem h4]⟩
  generalize List.range' 1 n = ks at key
  induction ks with
  | nil => rfl
  | cons k ks ih =>
    obtain ⟨x, hx1, hx2⟩ := key k (List.mem_cons_self _ _)
    simp only [List.map_cons, List.filterMap_cons, hx1, hx2]
    rw [ih (fun k1 hk1 => key k1 (List.mem_cons_of_mem _ hk1))]
/-- The loop of `Kernel_update_SGDL2` over `idx < m`: the cells below `m` hold the new
history, every other cell is as before. -/
theorem update_SGDL2_loop {V C : Type} (A : Compute V C) (N n : Nat) (decay momentum lr : C)
    (ws gs : List V) (hw : N ≤ ws.length) (hlen : gs.length = (n + 1) * N)
    (hfit : (n + 1) * N < 2 ^ 64) :
    ∀ m, m ≤ N →
      ∃ g, (List.range m).foldl
          (fun (st : Outcome (List V)) idx => st.bind fun g =>
            Kernel_update_SGDL2_idx A N (n : Int) decay momentum lr ws g idx)
          (.ok gs) = .ok g
        ∧ g.length = gs.length
        ∧ (∀ i, i < m → ∀ w h, ws[i]? = some w → gs[i]? = some h →
            g[i]? = some (sgdl2Rule A decay momentum lr w h
              ((List.range' 1 n).filterMap fun k => (slot N gs k)[i]?)))
        ∧ (∀ j, m ≤ j → g[j]? = gs[j]?) := by
  intro m
  induction m with
  | zero =>
    intro _
    exact ⟨gs, rfl, rfl, fun i hi => absurd hi (Nat.not_lt_zero _), fun _ _ => rfl⟩
  | succ m ih =>
    intro hm
    obtain ⟨g, hg, hgl, hdone, hframe⟩ := ih (by omega)
    have hmN : m < N := by omega
    have hNle : N ≤ gs.length := by rw [hlen]; nlinarith
    have hmw : m < ws.length := by omega
    have hmg : m < gs.length := by omega
    have hgm : g[m]? = some gs[m] := by
      rw [hframe m (le_refl _), List.getElem?_eq_getElem hmg]
    have hcells := slot_cells N n gs g m hmN hlen hfit
      (fun j hj => hframe j (by omega))
    have hinner := sgdl2_inner_fold A N m g (List.range' 1 n) _
      (A.mul decay (A.GPUStorage2ComputeT ws[m])) hcells
    refine ⟨g.set m (sgdl2Rule A decay momentum lr ws[m] gs[m]
        ((List.range' 1 n).filterMap fun k => (slot N gs k)[m]?)), ?_, ?_, ?_, ?_⟩
    · have hk : Kernel_update_SGDL2_idx A N (n : Int) decay momentum lr ws g m
          = .ok (g.set m (sgdl2Rule A decay momentum lr ws[m] gs[m]
              ((List.range' 1 n).filterMap fun k => (slot N gs k)[m]?))) := by
        unfold Kernel_update_SGDL2_idx
        rw [List.getElem?_eq_getElem hmw, hgm]
        simp only [Int.toNat_ofNat]
        erw [hinner]
        rfl
      rw [List.range_succ, List.foldl_append, hg]
      simp only [List.foldl_cons, List.foldl_nil, Outcome.bind, hk]
    · rw [List.length_set, hgl]
    · intro i hi w h hwi hhi
      by_cases him : i = m
      · subst him
        have hil : i < g.length := by omega
        rw [List.getElem?_set_self hil]
        rw [List.getElem?_eq_getElem hmw] at hwi
        rw [List.getElem?_eq_getElem hmg] at hhi
        injection hwi with hwi
        injection hhi with hhi
        rw [hwi, hhi]
      · rw [List.getElem?_set_ne (fun h => him h.symm)]
        exact hdone i (by omega) w h hwi hhi
    · intro j hj
      rw [List.getElem?_set_ne (by omega)]
      exact hframe j (by omega)
theorem length_cudaMemset0 {V : Type} (dev : Device V) (buf : List V) (n : Nat) :
    (cudaMemset0 dev buf n).length = buf.length := by
  unfold cudaMemset0
  simp only [List.length_append, List.length_replicate, List.length_drop]
  omega

/-- The region that `Solver::Malloc` makes for one parameter. -/
theorem Solver.MallocParam_layout {V : Type} (dev : Device V) (N numel : Nat)
    (hpos : 0 < numel) (hfit : (1 + N) * numel * sizeofStorageT < 2 ^ 64)
    (w : Nat × Option (ParamRegion V)) (h : Solver.MallocParam dev N numel = .ok w) :
    ∃ r, w.2 = some r ∧ r.layout N numel := by
  unfold Solver.MallocParam at h
  rw [if_pos hpos] at h
  simp only at h
  split_ifs at h with hm
  injection h with h
  subst h
  refine ⟨_, rfl, ?_⟩
  have hb : (1 + N) * numel * sizeofStorageT % 2 ^ 64 / sizeofStorageT = (N + 1) * numel := by
    rw [Nat.mod_eq_of_lt hfit, Nat.mul_div_cancel _ (by decide), Nat.add_comm]
  have hd : ∀ n, n < N → (numel * (n + 1)) % 2 ^ 64 = (n + 1) * numel := by
    intro n hn
    have : numel * (n + 1) ≤ (1 + N) * numel * sizeofStorageT := by
      have : sizeofStorageT = 2 := rfl
      rw [this]
      nlinarith
    rw [Nat.mod_eq_of_lt (by omega), Nat.mul_comm]
  have hget : ∀ n d, ((List.range N).map fun n => (numel * (n + 1)) % 2 ^ 64)[n]? = some d →
      n < N ∧ d = (n + 1) * numel := by
    intro n d hnd
    rw [List.getElem?_map] at hnd
    cases hr : (List.range N)[n]? with
    | none => rw [hr] at hnd; simp at hnd
    | some k =>
      rw [hr] at hnd
      have hk := List.getElem?_eq_some_iff.mp hr
      obtain ⟨hlt, hke⟩ := hk
      rw [List.length_range] at hlt
      rw [List.getElem_range] at hke
      subst hke
      simp only [Option.map_some', Option.some.injEq] at hnd
      exact ⟨hlt, by rw [← hnd, hd n hlt]⟩
  have hlen : (cudaMemset0 dev
      (dev.fresh ((1 + N) * numel * sizeofStorageT % 2 ^ 64 / sizeofStorageT)) numel).length
      = (N + 1) * numel := by
    rw [length_cudaMemset0, hb]
    simp [Device.fresh]
  refine ⟨hlen, ?_, by simp, by simp, ?_, ?_, ?_, ?_⟩
  · show _ = _ * sizeofStorageT
    rw [hlen, Nat.mod_eq_of_lt hfit, Nat.add_comm]
  · intro n hn
    constructor
    · show ((List.range N).map fun _ => 0)[n]? = some 0
      rw [List.getElem?_map, List.getElem?_range hn]
      rfl
    · simp only [List.getElem?_map, List.getElem?_range hn, Option.map_some', hd n hn]
  · intro n d hnd
    obtain ⟨hn, rfl⟩ := hget n d hnd
    show _ ∧ _ ≤ (cudaMemset0 dev _ numel).length
    rw [hlen]
    constructor <;> nlinarith
  · intro n1 n2 d1 d2 hne h1 h2
    obtain ⟨_, rfl⟩ := hget n1 d1 h1
    obtain ⟨_, rfl⟩ := hget n2 d2 h2
    rcases Nat.lt_or_gt_of_ne hne with hlt | hgt
    · left; nlinarith
    · right; nlinarith
  · intro x hx
    change x < (cudaMemset0 dev _ numel).length at hx
    rw [hlen] at hx
    by_cases hxn : x < numel
    · exact Or.inl hxn
    · right
      have hq : 1 ≤ x / numel := (Nat.one_le_div_iff hpos).2 (by omega)
      have hq2 : x / numel < N + 1 := (Nat.div_lt_iff_lt_mul hpos).2 hx
      refine ⟨x / numel - 1, (x / numel) * numel, ?_, Nat.div_mul_le_self x numel, ?_⟩
      · simp only [List.getElem?_map, List.getElem?_range (show x / numel - 1 < N by omega),
          Option.map_some', hd _ (show x / numel - 1 < N by omega)]
        congr 2
        omega
      · have := Nat.lt_succ_iff.mpr (Nat.le_refl (x / numel))
        have h2 := Nat.lt_mul_div_succ x hpos
        nlinarith

/-- The loop over the layers in `Solver::Malloc` makes one entry per layer, and for a trainable
layer the entry holds the two regions made by `Solver.MallocParam`. -/
theorem Solver.MallocRegions_get {V : Type} (dev : Device V) (N : Nat) (lens : List Nat) :
    ∀ (layers : List (Layer V)) (l0 mb b : Nat) (regs : List (LayerRegions V)),
      Solver.MallocRegions dev N lens layers l0 mb = .ok (b, regs) →
      regs.length = layers.length ∧
      ∀ (l : Nat) (layer : Layer V), layers[l]? = some layer → layer.train_me = true →
        ∃ (w bb : Nat × Option (ParamRegion V)), Solver.MallocParam dev N layer.weight_numel = .ok w ∧
          Solver.MallocParam dev N layer.bias_numel = .ok bb ∧
          regs[l]? = some ({ weight := w.2, bias := bb.2 } : LayerRegions V) := by
  intro layers
  induction layers with
  | nil =>
    intro l0 mb b regs h
    simp only [Solver.MallocRegions] at h
    injection h with h
    injection h with _ h
    subst h
    exact ⟨rfl, fun l layer hl => by simp at hl⟩
  | cons layer rest ih =>
    intro l0 mb b regs h
    simp only [Solver.MallocRegions] at h
    by_cases ht : layer.train_me = true
    · rw [if_pos ht] at h
      split_ifs at h with hu
      cases hw : Solver.MallocParam dev N layer.weight_numel with
      | fatal => simp only [hw, Outcome.bind] at h; exact absurd h (by simp)
      | undefined => simp only [hw, Outcome.bind] at h; exact absurd h (by simp)
      | ok w =>
        cases hb : Solver.MallocParam dev N layer.bias_numel with
        | fatal => simp only [hw, hb, Outcome.bind] at h; exact absurd h (by simp)
        | undefined => simp only [hw, hb, Outcome.bind] at h; exact absurd h (by simp)
        | ok bb =>
          simp only [hw, hb, Outcome.bind] at h
          cases hr : Solver.MallocRegions dev N lens rest (l0 + 1)
              ((((mb + w.1) % 2 ^ 64) + bb.1) % 2 ^ 64) with
          | fatal => simp only [hr] at h; exact absurd h (by simp)
          | undefined => simp only [hr] at h; exact absurd h (by simp)
          | ok q =>
            simp only [hr] at h
            injection h with h
            injection h with _ h
            subst h
            obtain ⟨hlen, hget⟩ := ih _ _ _ _ hr
            refine ⟨by simp [hlen], fun l layer1 hl ht1 => ?_⟩
            cases l with
            | zero =>
              simp only [List.getElem?_cons_zero, Option.some.injEq] at hl
              subst hl
              exact ⟨w, bb, hw, hb, List.getElem?_cons_zero⟩
            | succ l =>
              simp only [List.getElem?_cons_succ] at hl ⊢
              exact hget l layer1 hl ht1
    · rw [if_neg ht] at h
      cases hr : Solver.MallocRegions dev N lens rest (l0 + 1) mb with
      | fatal => simp only [hr, Outcome.bind] at h; exact absurd h (by simp)
      | undefined => simp only [hr, Outcome.bind] at h; exact absurd h (by simp)
      | ok q =>
        simp only [hr, Outcome.bind] at h
        injection h with h
        injection h with _ h
        subst h
        obtain ⟨hlen, hget⟩ := ih _ _ _ _ hr
        refine ⟨by simp [hlen], fun l layer1 hl ht1 => ?_⟩
        cases l with
        | zero =>
          simp only [List.getElem?_cons_zero, Option.some.injEq] at hl
          subst hl
          exact absurd ht1 ht
        | succ l =>
          simp only [List.getElem?_cons_succ] at hl ⊢
          exact hget l layer1 hl ht1

/-- **C14.** The shared regions. When `Solver::Malloc` returns in a training phase, every
trainable layer of `nets[0]` with a parameter (weight or bias) of `numel > 0` elements has got,
for the `N` replicas, one region of `(N + 1) * numel` elements (the byte count not exceeding
`size_t`), in which every replica's history pointer is offset 0 and replica `n`'s gradient
pointer is offset `(n + 1) * numel`; the history slice and the `N` gradient slices lie inside
the region, are pairwise disjoint and cover it. -/
theorem Solver.Malloc_regions {L V : Type} (dev : Device V)
    (m : L → Phase → List (Response V) → Outcome (Nat × L × List (Response V)))
    (base : L → Layer V) (nets : List (Net L V)) (GPU : List Int) (GPU_solver : Int)
    (nGPUs : Nat) (phase_ : Phase) (total : Nat) (nets1 : List (Net L V))
    (regions : List (LayerRegions V))
    (hph : phase_ = .Training ∨ phase_ = .TrainingTesting)
    (h : Solver.Malloc dev m base nets GPU GPU_solver nGPUs phase_
      = .ok (total, nets1, regions)) :
    ∃ net0, nets1.head? = some net0 ∧ regions.length = net0.layers.length ∧
      ∀ (l : Nat) (layer : L), net0.layers[l]? = some layer → (base layer).train_me = true →
        (0 < (base layer).weight_numel →
          (1 + nets.length) * (base layer).weight_numel * sizeofStorageT < 2 ^ 64 →
          ∃ r, (regions[l]?).bind (fun e => e.weight) = some r ∧
            r.layout nets.length (base layer).weight_numel) ∧
        (0 < (base layer).bias_numel →
          (1 + nets.length) * (base layer).bias_numel * sizeofStorageT < 2 ^ 64 →
          ∃ r, (regions[l]?).bind (fun e => e.bias) = some r ∧
            r.layout nets.length (base layer).bias_numel) := by
  unfold Solver.Malloc at h
  cases hn : Solver.MallocNets m phase_ GPU nets 0 (List.replicate nGPUs 0) with
  | fatal => simp only [hn, Outcome.bind] at h; exact absurd h (by simp)
  | undefined => simp only [hn, Outcome.bind] at h; exact absurd h (by simp)
  | ok p =>
    obtain ⟨mbs, ns⟩ := p
    simp only [hn, Outcome.bind, if_pos hph] at h
    cases ns with
    | nil => simp only at h; exact absurd h (by simp)
    | cons net0 rest =>
      simp only at h
      cases hr : Solver.MallocRegions dev nets.length
          ((net0 :: rest).map fun (net : Net L V) => net.layers.length)
          (net0.layers.map base) 0 0 with
      | fatal => simp only [hr] at h; exact absurd h (by simp)
      | undefined => simp only [hr] at h; exact absurd h (by simp)
      | ok q =>
        obtain ⟨qb, regs⟩ := q
        obtain ⟨hlen, hget⟩ := Solver.MallocRegions_get dev _ _ _ _ _ _ _ hr
        have hres : nets1 = net0 :: rest ∧ regions = regs := by
          simp only [hr] at h
          split_ifs at h <;> simp only [Outcome.ok.injEq, Prod.mk.injEq, reduceCtorEq] at h
          all_goals exact ⟨h.2.1.symm, h.2.2.symm⟩
        obtain ⟨rfl, rfl⟩ := hres
        refine ⟨net0, rfl, by rw [hlen, List.length_map], fun l layer hl ht => ?_⟩
        have hl1 : (net0.layers.map base)[l]? = some (base layer) := by
          rw [List.getElem?_map, hl]; rfl
        obtain ⟨w, bb, hw, hb, hreg⟩ := hget l (base layer) hl1 ht
        constructor
        · intro hpos hfit
          obtain ⟨r, hr1, hr2⟩ := Solver.MallocParam_layout dev _ _ hpos hfit w hw
          exact ⟨r, by rw [hreg]; exact hr1, hr2⟩
        · intro hpos hfit
          obtain ⟨r, hr1, hr2⟩ := Solver.MallocParam_layout dev _ _ hpos hfit bb hb
          exact ⟨r, by rw [hreg]; exact hr1, hr2⟩
/-- Witness of **C14**: two replicas of the net `data -> fc`; the weight of `fc` has 240
elements and gets a region of 720. -/
theorem Solver.Malloc_regions_witness :
    ∃ total nets1 regions,
      Solver.Malloc exampleDevice (AnyLayer.Malloc exampleDevice) AnyLayer.toLayer
        [exampleNet, exampleNet] [0, 1] 0 2 .Training = .ok (total, nets1, regions) ∧
      ∃ r, (regions[1]?).bind (fun e => e.weight) = some r ∧ r.layout 2 240 := by
  have hproj : (Solver.Malloc exampleDevice (AnyLayer.Malloc exampleDevice) AnyLayer.toLayer
      [exampleNet, exampleNet] [0, 1] 0 2 .Training).bind
      (fun r => .ok ((r.2.1.head?.bind fun n => n.layers[1]?).map fun layer =>
        ((AnyLayer.toLayer layer).train_me, (AnyLayer.toLayer layer).weight_numel)))
      = (.ok (some (true, 240)) : Outcome (Option (Bool × Nat))) := by
    decide
  cases h : Solver.Malloc exampleDevice (AnyLayer.Malloc exampleDevice) AnyLayer.toLayer
      [exampleNet, exampleNet] [0, 1] 0 2 .Training with
  | fatal => rw [h] at hproj; exact absurd hproj (by simp [Outcome.bind])
  | undefined => rw [h] at hproj; exact absurd hproj (by simp [Outcome.bind])
  | ok p =>
    obtain ⟨total, nets1, regions⟩ := p
    rw [h] at hproj
    simp only [Outcome.bind, Outcome.ok.injEq] at hproj
    obtain ⟨net0, hhead, _, hall⟩ := Solver.Malloc_regions exampleDevice
      (AnyLayer.Malloc exampleDevice) AnyLayer.toLayer [exampleNet, exampleNet] [0, 1] 0 2
      .Training total nets1 regions (Or.inl rfl) h
    rw [hhead] at hproj
    simp only [Option.some_bind] at hproj
    cases hl : net0.layers[1]? with
    | none => rw [hl] at hproj; simp at hproj
    | some layer =>
      rw [hl] at hproj
      simp only [Option.map_some', Option.some.injEq, Prod.mk.injEq] at hproj
      have := (hall 1 layer hl hproj.1).1 (by rw [hproj.2]; norm_num)
        (by rw [hproj.2]; decide)
      rw [hproj.2] at this
      exact ⟨total, nets1, regions, rfl, this⟩

/-! ## Solver: the learning rate -/

/-- **C17**, divergence. Under the multistep policy the rate is not a function of the global
iteration alone: `Solver::train` sets `current_step = 0` and `learning_rate` advances it by at
most one per iteration, so when training starts at `iter_begin = 25` with the boundaries
`[10, 20]`, the rate used at iteration 25 is `base * gamma ^ 1`, although iteration 25 has
reached two boundaries; only from iteration 26 on is it `base * gamma ^ 2`. -/
theorem Solver.train_multistep_lags {C : Type} (M : HostCompute C) (base gamma power : C) :
    stepsReached [10, 20] 25 = 2 ∧
    Solver.train M
        { base_lr := base, lr_gamma := gamma, lr_power := power, lr_policy := .LR_multistep,
          stepvalue := [10, 20], max_iter := 26 } 25
      = .ok ({ base_lr := base, lr_gamma := gamma, lr_power := power,
               lr_policy := .LR_multistep, stepvalue := [10, 20], max_iter := 26,
               current_step := 2, iter := 27 },
             [(25, M.mul base (M.pow gamma (M.ofInt 1))),
              (26, M.mul base (M.pow gamma (M.ofInt 2)))]) := by
  constructor
  · decide
  · unfold Solver.train
    have h2 : ((26 : Int) - 25 + 1).toNat = 2 := by decide
    simp only [h2]
    simp only [Solver.trainLoop, Solver.learning_rate, Outcome.bind]
    simp [toSizeT, INT_MAX]

theorem stepsReached_nil_of_lt (sv : List Int) (i : Int) (h : ∀ v ∈ sv, i < v) :
    stepsReached sv i = 0 := by
  unfold stepsReached
  rw [List.length_eq_zero, List.filter_eq_nil_iff]
  intro v hv
  simpa using h v hv

/-- In a strictly increasing list the boundaries reached are a prefix. -/
theorem stepsReached_initial (sv : List Int) (i : Int) (hs : sv.Pairwise (fun a b => a < b)) :
    ∀ (k : Nat) (v : Int), sv[k]? = some v → (v ≤ i ↔ k < stepsReached sv i) := by
  induction sv with
  | nil => intro k v h; simp at h
  | cons a rest ih =>
    intro k v h
    rw [List.pairwise_cons] at hs
    by_cases ha : a ≤ i
    · have hR : stepsReached (a :: rest) i = stepsReached rest i + 1 := by
        simp [stepsReached, List.filter_cons, ha]
      cases k with
      | zero =>
        simp only [List.getElem?_cons_zero, Option.some.injEq] at h
        subst h
        rw [hR]
        exact ⟨fun _ => Nat.succ_pos _, fun _ => ha⟩
      | succ k =>
        simp only [List.getElem?_cons_succ] at h
        rw [hR, ih hs.2 k v h]
        omega
    · have hall : ∀ v ∈ a :: rest, i < v := by
        intro v hv
        rcases List.mem_cons.mp hv with h1 | h1
        · subst h1; omega
        · have := hs.1 v h1; omega
      rw [stepsReached_nil_of_lt _ _ hall]
      have hv : v ∈ a :: rest := List.getElem?_mem h
      have := hall v hv
      constructor
      · intro h1; omega
      · intro h1; omega

theorem stepsReached_mono (sv : List Int) (i j : Int) (hij : i ≤ j) :
    stepsReached sv i ≤ stepsReached sv j := by
  induction sv with
  | nil => simp [stepsReached]
  | cons a rest ih =>
    unfold stepsReached at ih ⊢
    simp only [List.filter_cons]
    by_cases h1 : a ≤ i
    · have h2 : a ≤ j := by omega
      simp only [h1, h2, decide_True, if_true, List.length_cons]
      omega
    · by_cases h2 : a ≤ j
      · simp only [h1, h2, decide_True, decide_False, if_true, List.length_cons]
        simp only [Bool.false_eq_true, if_false]
        omega
      · simp only [h1, h2, decide_False, Bool.false_eq_true, if_false]
        exact ih

/-- One more iteration reaches at most one more boundary of a strictly increasing list. -/
theorem stepsReached_succ (sv : List Int) (i : Int) (hs : sv.Pairwise (fun a b => a < b)) :
    stepsReached sv (i + 1) ≤ stepsReached sv i + 1 := by
  induction sv with
  | nil => simp [stepsReached]
  | cons a rest ih =>
    rw [List.pairwise_cons] at hs
    by_cases h1 : a ≤ i
    · have h2 : a ≤ i + 1 := by omega
      have := ih hs.2
      simp only [stepsReached, List.filter_cons, h1, h2, decide_True, if_true,
        List.length_cons] at this ⊢
      omega
    · have hrest : stepsReached rest (i + 1) = 0 :=
        stepsReached_nil_of_lt _ _ (fun v hv => by have := hs.1 v hv; omega)
      have : stepsReached (a :: rest) (i + 1) ≤ 1 := by
        unfold stepsReached at hrest ⊢
        simp only [List.filter_cons]
        split_ifs
        · simp only [List.length_cons, hrest]; omega
        · omega
      omega

/-- One call of `learning_rate` under the multistep policy when `current_step` is the number
of boundaries reached, or one less: it becomes the number of boundaries reached. -/
theorem Solver.learning_rate_multistep {C : Type} (M : HostCompute C) (s : Solver C)
    (c : Nat) (hp : s.lr_policy = .LR_multistep)
    (hs : s.stepvalue.Pairwise (fun a b => a < b)) (hlen : s.stepvalue.length < 2 ^ 64)
    (hc : s.current_step = (c : Int)) (h1 : c ≤ stepsReached s.stepvalue s.iter)
    (h2 : stepsReached s.stepvalue s.iter ≤ c + 1) :
    Solver.learning_rate M s
      = .ok (M.mul s.base_lr
              (M.pow s.lr_gamma (M.ofInt (stepsReached s.stepvalue s.iter : Nat))),
             { s with current_step := (stepsReached s.stepvalue s.iter : Nat) }) := by
  have hRle : stepsReached s.stepvalue s.iter ≤ s.stepvalue.length := by
    unfold stepsReached; exact List.length_filter_le _ _
  have hcs : (if toSizeT s.current_step < s.stepvalue.length then
        match s.stepvalue[s.current_step.toNat]? with
        | some v => if s.iter ≥ v then s.current_step + 1 else s.current_step
        | none => s.current_step
      else s.current_step) = ((stepsReached s.stepvalue s.iter : Nat) : Int) := by
    have ht : toSizeT s.current_step = c ∨ s.stepvalue.length ≤ c := by
      by_cases hcl : c < s.stepvalue.length
      · left
        rw [hc]
        unfold toSizeT
        have : ((c : Int) % (2 ^ 64 : Int)) = (c : Int) :=
          Int.emod_eq_of_lt (by omega) (by omega)
        rw [this]; simp
      · right; omega
    by_cases hcl : c < s.stepvalue.length
    · have htc : toSizeT s.current_step = c := by
        rcases ht with h | h
        · exact h
        · omega
      rw [htc, if_pos hcl, hc, Int.toNat_ofNat, List.getElem?_eq_getElem hcl]
      simp only
      have hpre := stepsReached_initial s.stepvalue s.iter hs c _
        (List.getElem?_eq_getElem hcl)
      by_cases hv : s.stepvalue[c] ≤ s.iter
      · rw [if_pos hv]
        have := hpre.1 hv
        have : stepsReached s.stepvalue s.iter = c + 1 := by omega
        rw [this]; simp
      · rw [if_neg hv]
        have : ¬ c < stepsReached s.stepvalue s.iter := fun h => hv (hpre.2 h)
        have : stepsReached s.stepvalue s.iter = c := by omega
        rw [this]
    · have hR : stepsReached s.stepvalue s.iter = c := by omega
      have : ¬ toSizeT s.current_step < s.stepvalue.length := by
        rw [hc]
        unfold toSizeT
        have h64 : ((c : Int) % (2 ^ 64 : Int)) = (c : Int) :=
          Int.emod_eq_of_lt (by omega) (by omega)
        rw [h64]; simp; omega
      rw [if_neg this, hc, hR]
  simp only [Solver.learning_rate, hp]
  rw [hcs]

/-- The loop of `Solver::train` under the multistep policy, from a state in which
`current_step` is the number of boundaries reached or one less. -/
theorem Solver.trainLoop_multistep {C : Type} (M : HostCompute C) :
    ∀ (fuel : Nat) (s : Solver C) (rates : List (Int × C)) (c : Nat),
      s.lr_policy = .LR_multistep → s.stepvalue.Pairwise (fun a b => a < b) →
      s.stepvalue.length < 2 ^ 64 → s.max_iter < INT_MAX →
      s.current_step = (c : Int) → c ≤ stepsReached s.stepvalue s.iter →
      stepsReached s.stepvalue s.iter ≤ c + 1 →
      (s.max_iter - s.iter + 1).toNat ≤ fuel →
      ∃ s1, Solver.trainLoop M fuel s rates
        = .ok (s1, rates ++ (List.range (s.max_iter - s.iter + 1).toNat).map fun (k : Nat) =>
            (s.iter + (k : Int),
             M.mul s.base_lr
              (M.pow s.lr_gamma
                (M.ofInt (stepsReached s.stepvalue (s.iter + (k : Int)) : Nat))))) := by
  intro fuel
  induction fuel with
  | zero =>
    intro s rates c _ _ _ _ _ _ _ hf
    have : (s.max_iter - s.iter + 1).toNat = 0 := by omega
    exact ⟨s, by simp [Solver.trainLoop, this]⟩
  | succ fuel ih =>
    intro s rates c hp hs hlen hmax hc h1 h2 hf
    by_cases hle : s.iter ≤ s.max_iter
    · have hlr := Solver.learning_rate_multistep M s c hp hs hlen hc h1 h2
      have hnot : ¬ INT_MAX ≤ s.iter := by omega
      obtain ⟨s1, hs1⟩ := ih
        { s with current_step := (stepsReached s.stepvalue s.iter : Nat), iter := s.iter + 1 }
        (rates ++ [(s.iter, M.mul s.base_lr
          (M.pow s.lr_gamma (M.ofInt (stepsReached s.stepvalue s.iter : Nat))))])
        (stepsReached s.stepvalue s.iter) hp hs hlen hmax rfl
        (stepsReached_mono _ _ _ (by show s.iter ≤ s.iter + 1; omega))
        (stepsReached_succ _ _ hs)
        (by show (s.max_iter - (s.iter + 1) + 1).toNat ≤ fuel; omega)
      refine ⟨s1, ?_⟩
      simp only [Solver.trainLoop, if_pos hle, hlr, Outcome.bind, if_neg hnot]
      rw [hs1]
      have hn : (s.max_iter - s.iter + 1).toNat = (s.max_iter - (s.iter + 1) + 1).toNat + 1 := by
        omega
      rw [hn, List.range_succ_eq_map, List.map_cons, List.map_map, List.append_assoc]
      simp only [List.singleton_append, Nat.cast_zero, add_zero, Function.comp_def,
        Nat.cast_succ]
      congr 4
      apply List.map_congr_left
      intro k _
      have : s.iter + 1 + (k : Int) = s.iter + ((k : Int) + 1) := by ring
      rw [this]
    · have : (s.max_iter - s.iter + 1).toNat = 0 := by omega
      exact ⟨s, by simp [Solver.trainLoop, hle, this]⟩

/-- Under the multistep policy, when the boundaries are strictly increasing and at most the
first of them lies at or before `iter_begin`, `Solver::train` runs to the end and uses at every
iteration `iter` the rate `base * gamma ^ k` with `k` the number of boundaries reached. -/
theorem Solver.train_multistep {C : Type} (M : HostCompute C) (s : Solver C) (iter_begin : Int)
    (hp : s.lr_policy = .LR_multistep) (hs : s.stepvalue.Pairwise (fun a b => a < b))
    (hlen : s.stepvalue.length < 2 ^ 64) (hmax : s.max_iter < INT_MAX)
    (hfirst : ∀ v ∈ s.stepvalue.tail, iter_begin < v) :
    ∃ s1, Solver.train M s iter_begin
      = .ok (s1, (List.range (s.max_iter - iter_begin + 1).toNat).map fun (k : Nat) =>
          (iter_begin + (k : Int),
           M.mul s.base_lr
            (M.pow s.lr_gamma
              (M.ofInt (stepsReached s.stepvalue (iter_begin + (k : Int)) : Nat))))) := by
  have h1 : stepsReached s.stepvalue iter_begin ≤ 1 := by
    cases hsv : s.stepvalue with
    | nil => simp [stepsReached]
    | cons a rest =>
      rw [hsv] at hfirst
      have hrest : stepsReached rest iter_begin = 0 := stepsReached_nil_of_lt _ _ hfirst
      unfold stepsReached at hrest ⊢
      simp only [List.filter_cons]
      split_ifs
      · simp only [List.length_cons, hrest]; omega
      · omega
  obtain ⟨s1, hs1⟩ := Solver.trainLoop_multistep M (s.max_iter - iter_begin + 1).toNat
    { s with current_step := 0, iter := iter_begin } [] 0 hp hs hlen hmax rfl
    (Nat.zero_le _) h1 (le_refl _)
  exact ⟨s1, by unfold Solver.train; rw [hs1]; rfl⟩

/-! ## Loading a checkpoint -/

/-- Counterexample to **C18** as stated: the layer `fc` has a weight of shape `[2, 3]`, the
record `fc.weight` has the shape `[3, 2]`: the dimension lists differ, the numbers of elements
do not, and `Layer::setWeights` loads the record. -/
theorem Layer.setWeights_loads_mismatched :
    Layer.setWeights
        { name := "fc", weight_dim := [2, 3], weight_numel := 6,
          weight_dataGPU := some [0, 0, 0, 0, 0, 0] }
        [{ name := stringBytes "fc.weight", dim := [3, 2], CPUmem := some [1, 2, 3, 4, 5, 6] }]
      = .ok { name := "fc", weight_dim := [2, 3], weight_numel := 6,
              weight_dataGPU := some [1, 2, 3, 4, 5, 6] } := by
  decide

theorem stringBytes_append (a b : String) :
    stringBytes (a ++ b) = stringBytes a ++ stringBytes b := by
  simp [stringBytes]

theorem weight_name_ne_bias_name (n : String) :
    stringBytes (n ++ ".weight") ≠ stringBytes (n ++ ".bias") := by
  rw [stringBytes_append, stringBytes_append]
  intro h
  have := List.append_cancel_left h
  revert this
  decide

theorem Tensor.writeGPU_ne_fatal (t : Tensor) (g : List Nat) : t.writeGPU g ≠ .fatal := by
  unfold Tensor.writeGPU
  split_ifs
  · simp
  · cases t.CPUmem with
    | none => simp
    | some m => simp only; split_ifs <;> simp

theorem Layer.setParam_ne_fatal (g : Option (List Nat)) (dim : List Int) (pname : List Nat)
    (t : Tensor) : Layer.setParam g dim pname t ≠ .fatal := by
  unfold Layer.setParam
  cases g with
  | none => simp
  | some g =>
    simp only
    split_ifs
    · have := Tensor.writeGPU_ne_fatal t g
      cases h : t.writeGPU g <;> simp_all [Outcome.bind]
    · simp
    · simp

theorem Layer.setWeightsAt_ne_fatal (self : Layer Nat) (t : Tensor) :
    Layer.setWeightsAt self t ≠ .fatal := by
  unfold Layer.setWeightsAt
  have h1 := Layer.setParam_ne_fatal self.weight_dataGPU self.weight_dim
    (stringBytes (self.name ++ ".weight")) t
  have h2 := Layer.setParam_ne_fatal self.bias_dataGPU self.bias_dim
    (stringBytes (self.name ++ ".bias")) t
  cases hw : Layer.setParam self.weight_dataGPU self.weight_dim
      (stringBytes (self.name ++ ".weight")) t with
  | fatal => exact absurd hw h1
  | undefined => simp [Outcome.bind]
  | ok w =>
    cases hb : Layer.setParam self.bias_dataGPU self.bias_dim
        (stringBytes (self.name ++ ".bias")) t with
    | fatal => exact absurd hb h2
    | undefined => simp [Outcome.bind]
    | ok b => simp [Outcome.bind]

theorem setWeights_foldl_undefined (weights : List Tensor) :
    weights.foldl (fun st t => st.bind fun layer => Layer.setWeightsAt layer t)
      (.undefined : Outcome (Layer Nat)) = .undefined := by
  induction weights with
  | nil => rfl
  | cons t ts ih => simpa [List.foldl, Outcome.bind] using ih

theorem setWeights_foldl_fatal (weights : List Tensor) :
    weights.foldl (fun st t => st.bind fun layer => Layer.setWeightsAt layer t)
      (.fatal : Outcome (Layer Nat)) = .fatal := by
  induction weights with
  | nil => rfl
  | cons t ts ih => simpa [List.foldl, Outcome.bind] using ih

/-- One round of the loop of `Layer::setWeights`, then the rest. -/
theorem Layer.setWeights_cons (self : Layer Nat) (t : Tensor) (ts : List Tensor) :
    Layer.setWeights self (t :: ts)
      = (Layer.setWeightsAt self t).bind fun l1 => Layer.setWeights l1 ts := by
  unfold Layer.setWeights
  rw [List.foldl_cons]
  have h0 : ((Outcome.ok self).bind fun layer => Layer.setWeightsAt layer t)
      = Layer.setWeightsAt self t := rfl
  rw [h0]
  cases h : Layer.setWeightsAt self t with
  | fatal => rw [setWeights_foldl_fatal]; rfl
  | undefined => rw [setWeights_foldl_undefined]; rfl
  | ok l1 => rfl

/-- `Layer::setWeights` never ends in `FatalError`. -/
theorem Layer.setWeights_ne_fatal (weights : List Tensor) :
    ∀ self : Layer Nat, Layer.setWeights self weights ≠ .fatal := by
  induction weights with
  | nil => intro self; simp [Layer.setWeights]
  | cons t ts ih =>
    intro self
    rw [Layer.setWeights_cons]
    cases h : Layer.setWeightsAt self t with
    | fatal => exact absurd h (Layer.setWeightsAt_ne_fatal self t)
    | undefined => simp [Outcome.bind]
    | ok l1 => simp only [Outcome.bind]; exact ih l1

theorem Layer.setParam_other (g : Option (List Nat)) (dim : List Int) (pname : List Nat)
    (t : Tensor) (h : t.name ≠ pname) : Layer.setParam g dim pname t = .ok g := by
  unfold Layer.setParam
  cases g with
  | none => rfl
  | some g => simp only [if_neg h]

theorem Layer.setParam_skip (g : Option (List Nat)) (dim : List Int) (pname : List Nat)
    (t : Tensor) (h : numel dim ≠ numel t.dim) : Layer.setParam g dim pname t = .ok g := by
  unfold Layer.setParam
  cases g with
  | none => rfl
  | some g => simp only [if_neg h]; split_ifs <;> rfl

theorem Layer.setParam_load (g m : List Nat) (dim : List Int) (pname : List Nat) (t : Tensor)
    (hn : t.name = pname) (hm : t.CPUmem = some m) (he : numel dim = numel t.dim)
    (h1 : t.numel ≤ m.length) (h2 : t.numel ≤ g.length) :
    Layer.setParam (some g) dim pname t = .ok (some (m.take t.numel ++ g.drop t.numel)) := by
  unfold Layer.setParam
  simp only [if_pos hn, if_pos he]
  unfold Tensor.writeGPU
  by_cases h0 : t.numel = 0
  · rw [if_pos h0, h0]; simp [Outcome.bind]
  · rw [if_neg h0, hm]
    simp only
    rw [if_neg (by omega)]
    rfl

/-- **C18, amended.** Loading a checkpoint with a mismatched parameter never ends in
`FatalError`. A record named `<layer>.weight` or `<layer>.bias` whose number of elements
differs from that of the layer's parameter is skipped: `Layer::setWeights` leaves the layer as
it is. A record whose dimension list differs from the parameter's shape but has the same
number of elements is not skipped: its elements replace those of the parameter. -/
theorem Layer.setWeights_mismatch (self : Layer Nat) (t : Tensor) :
    (∀ weights, Layer.setWeights self weights ≠ .fatal)
    ∧ (t.name = stringBytes (self.name ++ ".weight") →
        numel self.weight_dim ≠ numel t.dim → Layer.setWeights self [t] = .ok self)
    ∧ (t.name = stringBytes (self.name ++ ".bias") →
        numel self.bias_dim ≠ numel t.dim → Layer.setWeights self [t] = .ok self)
    ∧ (∀ g m, t.name = stringBytes (self.name ++ ".weight") → self.weight_dataGPU = some g →
        t.CPUmem = some m → numel self.weight_dim = numel t.dim →
        t.numel ≤ m.length → t.numel ≤ g.length →
        Layer.setWeights self [t]
          = .ok { self with weight_dataGPU := some (m.take t.numel ++ g.drop t.numel) })
    ∧ (∀ g m, t.name = stringBytes (self.name ++ ".bias") → self.bias_dataGPU = some g →
        t.CPUmem = some m → numel self.bias_dim = numel t.dim →
        t.numel ≤ m.length → t.numel ≤ g.length →
        Layer.setWeights self [t]
          = .ok { self with bias_dataGPU := some (m.take t.numel ++ g.drop t.numel) }) := by
  have hone : Layer.setWeights self [t] = Layer.setWeightsAt self t := by
    rw [Layer.setWeights_cons]
    cases Layer.setWeightsAt self t <;> rfl
  refine ⟨fun ws => Layer.setWeights_ne_fatal ws self, ?_, ?_, ?_, ?_⟩
  · intro hn hne
    have hb : t.name ≠ stringBytes (self.name ++ ".bias") :=
      fun h => weight_name_ne_bias_name self.name (hn.symm.trans h)
    rw [hone]
    unfold Layer.setWeightsAt
    rw [Layer.setParam_skip _ _ _ _ hne, Layer.setParam_other _ _ _ _ hb]
    rfl
  · intro hn hne
    have hw : t.name ≠ stringBytes (self.name ++ ".weight") :=
      fun h => weight_name_ne_bias_name self.name (h.symm.trans hn)
    rw [hone]
    unfold Layer.setWeightsAt
    rw [Layer.setParam_skip _ _ _ _ hne, Layer.setParam_other _ _ _ _ hw]
    rfl
  · intro g m hn hg hm he h1 h2
    have hb : t.name ≠ stringBytes (self.name ++ ".bias") :=
      fun h => weight_name_ne_bias_name self.name (hn.symm.trans h)
    rw [hone]
    unfold Layer.setWeightsAt
    rw [hg, Layer.setParam_load g m _ _ t hn hm he h1 h2, Layer.setParam_other _ _ _ _ hb]
    rfl
  · intro g m hn hg hm he h1 h2
    have hw : t.name ≠ stringBytes (self.name ++ ".weight") :=
      fun h => weight_name_ne_bias_name self.name (h.symm.trans hn)
    rw [hone]
    unfold Layer.setWeightsAt
    rw [hg, Layer.setParam_load g m _ _ t hn hm he h1 h2, Layer.setParam_other _ _ _ _ hw]
    rfl

/-- Witness of **C18, amended**: the weight of `fc` has 6 elements, the record `fc.weight`
has 7; the layer stays as it is. -/
theorem Layer.setWeights_mismatch_witness :
    Layer.setWeights
        { name := "fc", weight_dim := [2, 3], weight_numel := 6,
          weight_dataGPU := some [0, 0, 0, 0, 0, 0] }
        [{ name := stringBytes "fc.weight", dim := [7],
           CPUmem := some [1, 2, 3, 4, 5, 6, 7] }]
      = .ok { name := "fc", weight_dim := [2, 3], weight_numel := 6,
              weight_dataGPU := some [0, 0, 0, 0, 0, 0] } :=
  (Layer.setWeights_mismatch
    { name := "fc", weight_dim := [2, 3], weight_numel := 6,
      weight_dataGPU := some [0, 0, 0, 0, 0, 0] }
    { name := stringBytes "fc.weight", dim := [7],
      CPUmem := some [1, 2, 3, 4, 5, 6, 7] }).2.1 (by decide) (by decide)

/-- What one round of `Layer::setWeights` can change: the two data blocks, each by
`Layer.setParam`. -/
theorem Layer.setWeightsAt_ok (self l1 : Layer Nat) (t : Tensor)
    (h : Layer.setWeightsAt self t = .ok l1) :
    ∃ w b, Layer.setParam self.weight_dataGPU self.weight_dim
          (stringBytes (self.name ++ ".weight")) t = .ok w ∧
      Layer.setParam self.bias_dataGPU self.bias_dim
          (stringBytes (self.name ++ ".bias")) t = .ok b ∧
      l1 = { self with weight_dataGPU := w, bias_dataGPU := b } := by
  unfold Layer.setWeightsAt at h
  cases hw : Layer.setParam self.weight_dataGPU self.weight_dim
      (stringBytes (self.name ++ ".weight")) t with
  | fatal => simp only [hw, Outcome.bind] at h; exact absurd h (by simp)
  | undefined => simp only [hw, Outcome.bind] at h; exact absurd h (by simp)
  | ok w =>
    cases hb : Layer.setParam self.bias_dataGPU self.bias_dim
        (stringBytes (self.name ++ ".bias")) t with
    | fatal => simp only [hw, hb, Outcome.bind] at h; exact absurd h (by simp)
    | undefined => simp only [hw, hb, Outcome.bind] at h; exact absurd h (by simp)
    | ok b =>
      simp only [hw, hb, Outcome.bind] at h
      injection h with h
      exact ⟨w, b, rfl, rfl, h.symm⟩

/-- `Layer.setParam` keeps a block a block of the same length. -/
theorem Layer.setParam_length (g : Option (List Nat)) (dim : List Int) (pname : List Nat)
    (t : Tensor) (w : Option (List Nat)) (h : Layer.setParam g dim pname t = .ok w) :
    g.map List.length = w.map List.length := by
  unfold Layer.setParam at h
  cases g with
  | none => simp only at h; injection h with h; subst h; rfl
  | some g =>
    simp only at h
    split_ifs at h with h1 h2
    · unfold Tensor.writeGPU at h
      split_ifs at h with h3
      · simp only [Outcome.bind] at h; injection h with h; subst h; rfl
      · cases hm : t.CPUmem with
        | none => rw [hm] at h; simp [Outcome.bind] at h
        | some m =>
          rw [hm] at h
          simp only at h
          split_ifs at h with h4
          · simp [Outcome.bind] at h
          · simp only [Outcome.bind] at h
            injection h with h
            subst h
            simp only [Option.map_some', Option.some.injEq, List.length_append,
              List.length_take, List.length_drop]
            omega
    · injection h with h; subst h; rfl
    · injection h with h; subst h; rfl

/-- A round of `Layer::setWeights` returns when the record holds its elements and the blocks
of the layer are as large as its shapes say. -/
theorem Layer.setParam_returns (g : Option (List Nat)) (dim : List Int) (pname : List Nat)
    (t : Tensor) (ht : t.holds) (hg : ∀ g1, g = some g1 → numel dim ≤ g1.length) :
    ∃ w, Layer.setParam g dim pname t = .ok w := by
  obtain ⟨m, hm, hml⟩ := ht
  cases g with
  | none => exact ⟨none, rfl⟩
  | some g1 =>
    by_cases hn : t.name = pname
    · by_cases he : numel dim = numel t.dim
      · have h2 : t.numel ≤ g1.length := by
          have := hg g1 rfl
          unfold Tensor.numel
          omega
        exact ⟨_, Layer.setParam_load g1 m dim pname t hn hm he hml h2⟩
      · exact ⟨_, Layer.setParam_skip _ _ _ _ he⟩
    · exact ⟨_, Layer.setParam_other _ _ _ _ hn⟩

/-- What `Layer::setWeights` can change: nothing but the content of the two data blocks, and
a block for which the list has no record keeps its content. -/
theorem Layer.setWeights_frame (weights : List Tensor) :
    ∀ (self self1 : Layer Nat), Layer.setWeights self weights = .ok self1 →
      self1 = { self with weight_dataGPU := self1.weight_dataGPU,
                          bias_dataGPU := self1.bias_dataGPU } ∧
      self.weight_dataGPU.map List.length = self1.weight_dataGPU.map List.length ∧
      self.bias_dataGPU.map List.length = self1.bias_dataGPU.map List.length ∧
      ((∀ t ∈ weights, t.name ≠ stringBytes (self.name ++ ".weight")) →
        self1.weight_dataGPU = self.weight_dataGPU) ∧
      ((∀ t ∈ weights, t.name ≠ stringBytes (self.name ++ ".bias")) →
        self1.bias_dataGPU = self.bias_dataGPU) := by
  induction weights with
  | nil =>
    intro self self1 h
    simp only [Layer.setWeights, List.foldl_nil] at h
    injection h with h
    subst h
    exact ⟨rfl, rfl, rfl, fun _ => rfl, fun _ => rfl⟩
  | cons t ts ih =>
    intro self self1 h
    rw [Layer.setWeights_cons] at h
    cases h1 : Layer.setWeightsAt self t with
    | fatal => simp only [h1, Outcome.bind] at h; exact absurd h (by simp)
    | undefined => simp only [h1, Outcome.bind] at h; exact absurd h (by simp)
    | ok l1 =>
      simp only [h1, Outcome.bind] at h
      obtain ⟨w, b, hw, hb, hl1⟩ := Layer.setWeightsAt_ok self l1 t h1
      obtain ⟨e1, e2, e3, e4, e5⟩ := ih l1 self1 h
      have hlw := Layer.setParam_length _ _ _ _ _ hw
      have hlb := Layer.setParam_length _ _ _ _ _ hb
      have hname : l1.name = self.name := by rw [hl1]
      have hwd : l1.weight_dataGPU = w := by rw [hl1]
      have hbd : l1.bias_dataGPU = b := by rw [hl1]
      refine ⟨?_, ?_, ?_, ?_, ?_⟩
      · rw [e1, hl1]
      · rw [hlw, ← hwd, e2]
      · rw [hlb, ← hbd, e3]
      · intro hall
        rw [e4 (fun t1 ht1 => by rw [hname]; exact hall t1 (List.mem_cons_of_mem _ ht1)), hwd]
        rw [Layer.setParam_other _ _ _ _ (hall t (List.mem_cons_self _ _))] at hw
        injection hw with hw
        exact hw.symm
      · intro hall
        rw [e5 (fun t1 ht1 => by rw [hname]; exact hall t1 (List.mem_cons_of_mem _ ht1)), hbd]
        rw [Layer.setParam_other _ _ _ _ (hall t (List.mem_cons_self _ _))] at hb
        injection hb with hb
        exact hb.symm

/-- `Layer::setWeights` returns when the records hold their elements and the blocks of the
layer are as large as its shapes say. -/
theorem Layer.setWeights_returns (weights : List Tensor) :
    ∀ self : Layer Nat, (∀ t ∈ weights, t.holds) → self.sized →
      ∃ self1, Layer.setWeights self weights = .ok self1 := by
  induction weights with
  | nil => intro self _ _; exact ⟨self, rfl⟩
  | cons t ts ih =>
    intro self hh hs
    obtain ⟨w, hw⟩ := Layer.setParam_returns self.weight_dataGPU self.weight_dim
      (stringBytes (self.name ++ ".weight")) t (hh t (List.mem_cons_self _ _)) hs.1
    obtain ⟨b, hb⟩ := Layer.setParam_returns self.bias_dataGPU self.bias_dim
      (stringBytes (self.name ++ ".bias")) t (hh t (List.mem_cons_self _ _)) hs.2
    have hlw := Layer.setParam_length _ _ _ _ _ hw
    have hlb := Layer.setParam_length _ _ _ _ _ hb
    have h1 : Layer.setWeightsAt self t
        = .ok { self with weight_dataGPU := w, bias_dataGPU := b } := by
      unfold Layer.setWeightsAt
      rw [hw, hb]
      rfl
    have hs1 : Layer.sized { self with weight_dataGPU := w, bias_dataGPU := b } := by
      constructor
      · intro g hg
        simp only at hg
        rw [hg] at hlw
        cases hsw : self.weight_dataGPU with
        | none => rw [hsw] at hlw; simp at hlw
        | some g0 =>
          rw [hsw] at hlw
          simp only [Option.map_some', Option.some.injEq] at hlw
          have := hs.1 g0 hsw
          show numel self.weight_dim ≤ g.length
          omega
      · intro g hg
        simp only at hg
        rw [hg] at hlb
        cases hsb : self.bias_dataGPU with
        | none => rw [hsb] at hlb; simp at hlb
        | some g0 =>
          rw [hsb] at hlb
          simp only [Option.map_some', Option.some.injEq] at hlb
          have := hs.2 g0 hsb
          show numel self.bias_dim ≤ g.length
          omega
    obtain ⟨self1, hself1⟩ := ih _ (fun t1 ht1 => hh t1 (List.mem_cons_of_mem _ ht1)) hs1
    exact ⟨self1, by rw [Layer.setWeights_cons, h1]; exact hself1⟩

/-- `Net::loadWeights` without the gradients calls `setWeights` on every layer. -/
theorem Net.loadWeightsLoop_get (weights : List Tensor) :
    ∀ (layers layers1 : List (Layer Nat)),
      Net.loadWeightsLoop weights false layers = .ok layers1 →
      layers1.length = layers.length ∧
      ∀ (l : Nat) (layer : Layer Nat), layers[l]? = some layer →
        ∃ layer1, layers1[l]? = some layer1 ∧ Layer.setWeights layer weights = .ok layer1 := by
  intro layers
  induction layers with
  | nil =>
    intro layers1 h
    simp only [Net.loadWeightsLoop] at h
    injection h with h
    subst h
    exact ⟨rfl, fun l layer hl => by simp at hl⟩
  | cons layer rest ih =>
    intro layers1 h
    simp only [Net.loadWeightsLoop] at h
    cases h1 : Layer.setWeights layer weights with
    | fatal => simp only [h1, Outcome.bind] at h; exact absurd h (by simp)
    | undefined => simp only [h1, Outcome.bind] at h; exact absurd h (by simp)
    | ok l1 =>
      simp only [h1, Outcome.bind, Bool.false_eq_true, if_false] at h
      cases h2 : Net.loadWeightsLoop weights false rest with
      | fatal => simp only [h2] at h; exact absurd h (by simp)
      | undefined => simp only [h2] at h; exact absurd h (by simp)
      | ok rest1 =>
        simp only [h2] at h
        injection h with h
        subst h
        obtain ⟨hlen, hget⟩ := ih rest1 h2
        refine ⟨by simp [hlen], fun l layer0 hl => ?_⟩
        cases l with
        | zero =>
          simp only [List.getElem?_cons_zero, Option.some.injEq] at hl
          subst hl
          exact ⟨l1, List.getElem?_cons_zero, h1⟩
        | succ l =>
          simp only [List.getElem?_cons_succ] at hl ⊢
          exact hget l layer0 hl

theorem Net.loadWeightsLoop_returns (weights : List Tensor) :
    ∀ (layers : List (Layer Nat)),
      (∀ layer ∈ layers, ∃ layer1, Layer.setWeights layer weights = .ok layer1) →
      ∃ layers1, Net.loadWeightsLoop weights false layers = .ok layers1 := by
  intro layers
  induction layers with
  | nil => intro _; exact ⟨[], rfl⟩
  | cons layer rest ih =>
    intro h
    obtain ⟨l1, h1⟩ := h layer (List.mem_cons_self _ _)
    obtain ⟨rest1, h2⟩ := ih (fun x hx => h x (List.mem_cons_of_mem _ hx))
    exact ⟨l1 :: rest1, by simp [Net.loadWeightsLoop, h1, h2, Outcome.bind]⟩

theorem Net.loadWeightsLoop_ne_fatal (weights : List Tensor) :
    ∀ (layers : List (Layer Nat)), Net.loadWeightsLoop weights false layers ≠ .fatal := by
  intro layers
  induction layers with
  | nil => simp [Net.loadWeightsLoop]
  | cons layer rest ih =>
    simp only [Net.loadWeightsLoop]
    cases h1 : Layer.setWeights layer weights with
    | fatal => exact absurd h1 (Layer.setWeights_ne_fatal weights layer)
    | undefined => simp [Outcome.bind]
    | ok l1 =>
      simp only [Outcome.bind, Bool.false_eq_true, if_false]
      cases h2 : Net.loadWeightsLoop weights false rest with
      | fatal => exact absurd h2 ih
      | undefined => simp
      | ok rest1 => simp

/-- **C19.** A checkpoint with a missing parameter. `Net::loadWeights` (without the
gradients) never ends in `FatalError`, and it returns when the records hold their elements
and the blocks of the layers are as large as their shapes say. When it returns, a layer for
which the checkpoint has no record named `<layer>.weight` has its weight as before, and
likewise for `<layer>.bias`; and when no record is named after a parameter of any layer, the
net is as before. -/
theorem Net.loadWeights_missing (net : Net (Layer Nat) Nat) (weights : List Tensor) :
    Net.loadWeights net weights false ≠ .fatal
    ∧ ((∀ t ∈ weights, t.holds) → (∀ layer ∈ net.layers, layer.sized) →
        ∃ net1, Net.loadWeights net weights false = .ok net1)
    ∧ (∀ net1, Net.loadWeights net weights false = .ok net1 →
        net1.layers.length = net.layers.length ∧
        ∀ (l : Nat) (layer : Layer Nat), net.layers[l]? = some layer →
          ∃ layer1, net1.layers[l]? = some layer1 ∧
            ((∀ t ∈ weights, t.name ≠ stringBytes (layer.name ++ ".weight")) →
              layer1.weight_dataGPU = layer.weight_dataGPU) ∧
            ((∀ t ∈ weights, t.name ≠ stringBytes (layer.name ++ ".bias")) →
              layer1.bias_dataGPU = layer.bias_dataGPU) ∧
            ((∀ t ∈ weights, t.name ≠ stringBytes (layer.name ++ ".weight") ∧
                t.name ≠ stringBytes (layer.name ++ ".bias")) → layer1 = layer)) := by
  refine ⟨?_, ?_, ?_⟩
  · unfold Net.loadWeights
    cases h : Net.loadWeightsLoop weights false net.layers with
    | fatal => exact absurd h (Net.loadWeightsLoop_ne_fatal weights _)
    | undefined => simp [Outcome.bind]
    | ok ls => simp [Outcome.bind]
  · intro hh hs
    obtain ⟨ls, hls⟩ := Net.loadWeightsLoop_returns weights net.layers
      (fun layer hl => Layer.setWeights_returns weights layer hh (hs layer hl))
    exact ⟨{ net with layers := ls }, by simp [Net.loadWeights, hls, Outcome.bind]⟩
  · intro net1 h
    unfold Net.loadWeights at h
    cases hl : Net.loadWeightsLoop weights false net.layers with
    | fatal => simp only [hl, Outcome.bind] at h; exact absurd h (by simp)
    | undefined => simp only [hl, Outcome.bind] at h; exact absurd h (by simp)
    | ok ls =>
      simp only [hl, Outcome.bind] at h
      injection h with h
      subst h
      obtain ⟨hlen, hget⟩ := Net.loadWeightsLoop_get weights net.layers ls hl
      refine ⟨hlen, fun l layer hlayer => ?_⟩
      obtain ⟨layer1, h1, h2⟩ := hget l layer hlayer
      obtain ⟨e1, _, _, e4, e5⟩ := Layer.setWeights_frame weights layer layer1 h2
      refine ⟨layer1, h1, e4, e5, fun hall => ?_⟩
      rw [e1, e4 (fun t ht => (hall t ht).1), e5 (fun t ht => (hall t ht).2)]

/-- Witness of **C19**: the checkpoint holds only `fc.bias`; the weight of `fc` stays. -/
theorem Net.loadWeights_missing_witness :
    ∃ net1, Net.loadWeights
        { phase := .Testing, responses := [],
          layers := [{ name := "fc", weight_dim := [2], weight_dataGPU := some [5, 6],
                       bias_dim := [1], bias_dataGPU := some [0] }] }
        [{ name := stringBytes "fc.bias", dim := [1], CPUmem := some [9] }] false
      = .ok net1 :=
  (Net.loadWeights_missing
    { phase := .Testing, responses := [],
      layers := [{ name := "fc", weight_dim := [2], weight_dataGPU := some [5, 6],
                   bias_dim := [1], bias_dataGPU := some [0] }] }
    [{ name := stringBytes "fc.bias", dim := [1], CPUmem := some [9] }]).2.1
    (by
      intro t ht
      simp only [List.mem_singleton] at ht
      subst ht
      exact ⟨[9], rfl, by decide⟩)
    (by
      intro layer hl
      simp only [List.mem_singleton] at hl
      subst hl
      constructor
      · intro g hg
        simp only [Option.some.injEq] at hg
        subst hg
        decide
      · intro g hg
        simp only [Option.some.injEq] at hg
        subst hg
        decide)

/-! ## Saving and loading -/

/-- Reading back a stream of records. -/
theorem readTensors_records (cv : Casts) (T : Kind) (ts : List Tensor) (max_count : Nat)
    (h : ∀ t ∈ ts, t.WF T) (hlen : ts.length ≤ max_count) (hmax : max_count ≤ SIZE_MAX) :
    readTensors cv T (ts.flatMap (Tensor.record T)) max_count = .ok (ts.map Tensor.exact) := by
  have hloop := readTensorsLoop_records cv T max_count ts h hmax (ts.length + 2) [] 0
    (le_refl _) (by omega)
  have hk : (ts.flatMap (Tensor.record T)).length + 2
      = (ts.length + 2) + ((ts.flatMap (Tensor.record T)).length - ts.length) := by
    have := length_le_flatMap_record T ts
    omega
  rcases hloop with h1 | ⟨h2, _, h4⟩
  · have := readTensorsLoop_fuel_mono cv T max_count _ _ _ _ _ h1
      ((ts.flatMap (Tensor.record T)).length - ts.length)
    rw [← hk] at this
    simp only [readTensors, this, List.nil_append]
    simp
  · have := readTensorsLoop_fuel_mono cv T max_count _ _ _ _ _ h4
      ((ts.flatMap (Tensor.record T)).length - ts.length)
    rw [← hk] at this
    simp only [readTensors, this, List.nil_append]
    obtain ⟨l, a, hla⟩ : ∃ l a, ts = l ++ [a] := by
      rcases List.eq_nil_or_concat ts with hn | ⟨l, a, hc⟩
      · exact absurd hn h2
      · exact ⟨l, a, by simpa using hc⟩
    subst hla
    simp [Tensor.exact]

theorem savableParam_WF (g : List Nat) (dim : List Int) (pname : List Nat)
    (h : savableParam (some g) dim pname) :
    Tensor.WF StorageT (paramRecord g dim pname) := by
  obtain ⟨h1, h2, h3, h4, h5⟩ := h g rfl
  refine ⟨h3, h4, h5, ?_⟩
  show numel dim ≤ (g.take (numel dim)).length ∧ ∀ v ∈ g.take (numel dim), v < 256 ^ sizeofT StorageT
  refine ⟨?_, fun v hv => h2 v (List.mem_of_mem_take hv)⟩
  rw [List.length_take]
  omega

/-- What `Layer::saveWeights` appends for one parameter: its record. -/
theorem Layer.saveParam_eq (g : Option (List Nat)) (dim : List Int) (pname : List Nat)
    (fp : List Nat) (h : savableParam g dim pname) :
    Layer.saveParam g dim pname fp
      = .ok (fp ++ (match g with
          | some g1 => [paramRecord g1 dim pname]
          | none => []).flatMap (Tensor.record StorageT)) := by
  cases g with
  | none => simp [Layer.saveParam]
  | some g1 =>
    have hwf := savableParam_WF g1 dim pname h
    obtain ⟨h1, _⟩ := h g1 rfl
    unfold Layer.saveParam Tensor.readGPU
    simp only
    rw [if_neg (by show ¬ g1.length < numel dim; omega)]
    simp only [Outcome.bind]
    show Tensor.write StorageT (paramRecord g1 dim pname) fp = _
    rw [write_eq_recordLayout StorageT _ fp hwf]
    simp [Tensor.record]

theorem paramRecords_WF (layer : Layer Nat) (h : layer.savable) :
    ∀ t ∈ layer.paramRecords, t.WF StorageT := by
  intro t ht
  unfold Layer.paramRecords at ht
  rw [List.mem_append] at ht
  rcases ht with ht | ht
  · cases hg : layer.weight_dataGPU with
    | none => rw [hg] at ht; simp at ht
    | some g =>
      rw [hg] at ht
      simp only [List.mem_singleton] at ht
      subst ht
      exact savableParam_WF g _ _ (hg ▸ h.1)
  · cases hg : layer.bias_dataGPU with
    | none => rw [hg] at ht; simp at ht
    | some g =>
      rw [hg] at ht
      simp only [List.mem_singleton] at ht
      subst ht
      exact savableParam_WF g _ _ (hg ▸ h.2)

/-- What `Layer::saveWeights` appends: the records of the layer. -/
theorem Layer.saveWeights_eq (layer : Layer Nat) (fp : List Nat) (h : layer.savable) :
    Layer.saveWeights layer fp
      = .ok (fp ++ layer.paramRecords.flatMap (Tensor.record StorageT)) := by
  unfold Layer.saveWeights
  rw [Layer.saveParam_eq _ _ _ fp h.1]
  simp only [Outcome.bind]
  rw [Layer.saveParam_eq _ _ _ _ h.2]
  simp [Layer.paramRecords, List.append_assoc]

/-- The file `Net::saveWeights` writes: the records of the layers in layer order. -/
theorem Net.saveWeightsLoop_eq :
    ∀ (layers : List (Layer Nat)) (fp : List Nat), (∀ layer ∈ layers, layer.savable) →
      Net.saveWeightsLoop false layers fp
        = .ok (fp ++ (layers.flatMap Layer.paramRecords).flatMap (Tensor.record StorageT)) := by
  intro layers
  induction layers with
  | nil => intro fp _; simp [Net.saveWeightsLoop]
  | cons layer rest ih =>
    intro fp h
    simp only [Net.saveWeightsLoop, Layer.saveWeights_eq layer fp (h layer (by simp)),
      Outcome.bind, Bool.false_eq_true, if_false]
    rw [ih _ (fun x hx => h x (by simp [hx]))]
    simp [List.append_assoc]

theorem stringBytes_injective (a b : String) (h : stringBytes a = stringBytes b) : a = b := by
  unfold stringBytes at h
  have hinj : Function.Injective Char.toNat := by
    intro x y hxy
    apply Char.ext
    apply UInt32.ext
    exact hxy
  have := List.map_injective_iff.mpr hinj h
  exact String.ext this

theorem weight_name_injective (a b : String)
    (h : stringBytes (a ++ ".weight") = stringBytes (b ++ ".weight")) : a = b := by
  rw [stringBytes_append, stringBytes_append] at h
  exact stringBytes_injective a b (List.append_cancel_right h)

theorem bias_name_injective (a b : String)
    (h : stringBytes (a ++ ".bias") = stringBytes (b ++ ".bias")) : a = b := by
  rw [stringBytes_append, stringBytes_append] at h
  exact stringBytes_injective a b (List.append_cancel_right h)

/-- A weight name is never a bias name, whatever the layers. -/
theorem weight_name_ne_bias_name_any (a b : String) :
    stringBytes (a ++ ".weight") ≠ stringBytes (b ++ ".bias") := by
  rw [stringBytes_append, stringBytes_append]
  intro h
  have h1 := congrArg (fun l => l.reverse.head?) h
  simp only [List.reverse_append] at h1
  have hw : (stringBytes ".weight").reverse = 116 :: [104, 103, 105, 101, 119, 46] := by decide
  have hb : (stringBytes ".bias").reverse = 115 :: [97, 105, 98, 46] := by decide
  rw [hw, hb] at h1
  simp at h1

/-- Records that are not named after a parameter of the layer leave it as it is. -/
theorem Layer.setWeights_others (ts : List Tensor) (self : Layer Nat)
    (h : ∀ t ∈ ts, t.name ≠ stringBytes (self.name ++ ".weight") ∧
      t.name ≠ stringBytes (self.name ++ ".bias")) :
    Layer.setWeights self ts = .ok self := by
  induction ts with
  | nil => rfl
  | cons t ts ih =>
    rw [Layer.setWeights_cons]
    have h1 : Layer.setWeightsAt self t = .ok self := by
      unfold Layer.setWeightsAt
      rw [Layer.setParam_other _ _ _ _ (h t (List.mem_cons_self _ _)).1,
        Layer.setParam_other _ _ _ _ (h t (List.mem_cons_self _ _)).2]
      rfl
    rw [h1]
    exact ih (fun t1 ht1 => h t1 (List.mem_cons_of_mem _ ht1))

theorem Layer.setWeights_append (ts1 ts2 : List Tensor) :
    ∀ self : Layer Nat, Layer.setWeights self (ts1 ++ ts2)
      = (Layer.setWeights self ts1).bind fun l1 => Layer.setWeights l1 ts2 := by
  induction ts1 with
  | nil => intro self; rfl
  | cons t ts ih =>
    intro self
    rw [List.cons_append, Layer.setWeights_cons, Layer.setWeights_cons]
    cases h : Layer.setWeightsAt self t with
    | fatal => rfl
    | undefined => rfl
    | ok l1 => simp only [Outcome.bind]; exact ih l1

/-- Loading the record that was made of a block into a block of the same size. -/
theorem Layer.setParam_exact_record (g g2 : List Nat) (dim : List Int) (pname : List Nat)
    (hlen : g.length = numel dim) (hlen2 : g2.length = numel dim) :
    Layer.setParam (some g2) dim pname (Tensor.exact (paramRecord g dim pname))
      = .ok (some g) := by
  have hnum : (Tensor.exact (paramRecord g dim pname)).numel = numel dim := rfl
  have hm : (Tensor.exact (paramRecord g dim pname)).CPUmem = some g := by
    simp only [Tensor.exact, Tensor.values, Tensor.numel, paramRecord]
    rw [List.take_take, Nat.min_self, List.take_of_length_le (by omega)]
  rw [Layer.setParam_load g2 g dim pname _ rfl hm rfl (by rw [hnum]; omega)
    (by rw [hnum]; omega), hnum, List.take_of_length_le (by omega),
    List.drop_of_length_le (by omega), List.append_nil]

/-- Loading the records that were made of a layer into a layer of the same architecture gives
that layer the saved weight and bias. -/
theorem Layer.setWeights_own_records (src dst : Layer Nat) (hs : src.savable)
    (hsh : Layer.sameShape src dst) :
    Layer.setWeights dst (src.paramRecords.map Tensor.exact)
      = .ok (Layer.withParams src dst) := by
  obtain ⟨hname, hwd, hbd, hwl, hbl⟩ := hsh
  have hone : ∀ (self : Layer Nat) (t : Tensor),
      Layer.setWeights self [t] = Layer.setWeightsAt self t := by
    intro self t
    rw [Layer.setWeights_cons]
    cases Layer.setWeightsAt self t <;> rfl
  have hA : Layer.setWeights dst
      ((match src.weight_dataGPU with
        | some g => [paramRecord g src.weight_dim (stringBytes (src.name ++ ".weight"))]
        | none => []).map Tensor.exact)
      = .ok { dst with weight_dataGPU := src.weight_dataGPU } := by
    cases hgw : src.weight_dataGPU with
    | none =>
      have hdw : dst.weight_dataGPU = none := by
        rw [hgw] at hwl
        cases h : dst.weight_dataGPU with
        | none => rfl
        | some x => rw [h] at hwl; simp at hwl
      simp only [List.map_nil, Layer.setWeights, List.foldl_nil]
      conv_rhs => rw [← hdw]
    | some g =>
      obtain ⟨h1, _⟩ := hs.1 g hgw
      cases hsw : dst.weight_dataGPU with
      | none => rw [hgw, hsw] at hwl; simp at hwl
      | some g2 =>
        rw [hgw, hsw] at hwl
        simp only [Option.map_some', Option.some.injEq] at hwl
        simp only [List.map_cons, List.map_nil]
        rw [hone]
        unfold Layer.setWeightsAt
        rw [hsw, ← hwd, ← hname, Layer.setParam_exact_record g g2 _ _ h1 (by omega),
          Layer.setParam_other _ _ _ _
            (show (Tensor.exact (paramRecord g src.weight_dim
              (stringBytes (src.name ++ ".weight")))).name
                ≠ stringBytes (src.name ++ ".bias") from
              weight_name_ne_bias_name_any _ _)]
        rfl
  have hB : ∀ self : Layer Nat, self.name = dst.name → self.bias_dim = dst.bias_dim →
      self.bias_dataGPU = dst.bias_dataGPU →
      Layer.setWeights self
        ((match src.bias_dataGPU with
          | some g => [paramRecord g src.bias_dim (stringBytes (src.name ++ ".bias"))]
          | none => []).map Tensor.exact)
        = .ok { self with bias_dataGPU := src.bias_dataGPU } := by
    intro self hn hd hb
    cases hgb : src.bias_dataGPU with
    | none =>
      have hdb : self.bias_dataGPU = none := by
        rw [hb]
        rw [hgb] at hbl
        cases h : dst.bias_dataGPU with
        | none => rfl
        | some x => rw [h] at hbl; simp at hbl
      simp only [List.map_nil, Layer.setWeights, List.foldl_nil]
      conv_rhs => rw [← hdb]
    | some g =>
      obtain ⟨h1, _⟩ := hs.2 g hgb
      cases hsb : dst.bias_dataGPU with
      | none => rw [hgb, hsb] at hbl; simp at hbl
      | some g2 =>
        rw [hgb, hsb] at hbl
        simp only [Option.map_some', Option.some.injEq] at hbl
        simp only [List.map_cons, List.map_nil]
        rw [hone]
        unfold Layer.setWeightsAt
        rw [hb, hsb, hd, ← hbd, hn, ← hname,
          Layer.setParam_exact_record g g2 _ _ h1 (by omega),
          Layer.setParam_other _ _ _ _
            (show (Tensor.exact (paramRecord g src.bias_dim
              (stringBytes (src.name ++ ".bias")))).name
                ≠ stringBytes (src.name ++ ".weight") from
              fun h => weight_name_ne_bias_name_any _ _ h.symm)]
        rfl
  unfold Layer.paramRecords
  rw [List.map_append, Layer.setWeights_append, hA]
  simp only [Outcome.bind]
  rw [hB { dst with weight_dataGPU := src.weight_dataGPU } rfl rfl rfl]
  rfl

theorem paramRecords_names (a : Layer Nat) (t : Tensor)
    (ht : t ∈ a.paramRecords.map Tensor.exact) :
    t.name = stringBytes (a.name ++ ".weight") ∨ t.name = stringBytes (a.name ++ ".bias") := by
  rw [List.mem_map] at ht
  obtain ⟨t0, ht0, rfl⟩ := ht
  unfold Layer.paramRecords at ht0
  rw [List.mem_append] at ht0
  rcases ht0 with h | h
  · cases hg : a.weight_dataGPU with
    | none => rw [hg] at h; simp at h
    | some g =>
      rw [hg] at h
      simp only [List.mem_singleton] at h
      subst h
      exact Or.inl rfl
  · cases hg : a.bias_dataGPU with
    | none => rw [hg] at h; simp at h
    | some g =>
      rw [hg] at h
      simp only [List.mem_singleton] at h
      subst h
      exact Or.inr rfl

/-- The records of layers with other names leave the layer as it is. -/
theorem Layer.setWeights_other_layers (layers : List (Layer Nat)) (self : Layer Nat)
    (h : ∀ a ∈ layers, a.name ≠ self.name) :
    Layer.setWeights self ((layers.flatMap Layer.paramRecords).map Tensor.exact)
      = .ok self := by
  apply Layer.setWeights_others
  intro t ht
  rw [List.mem_map] at ht
  obtain ⟨t0, ht0, rfl⟩ := ht
  rw [List.mem_flatMap] at ht0
  obtain ⟨a, ha, hta⟩ := ht0
  have hne := h a ha
  rcases paramRecords_names a _ (List.mem_map_of_mem _ hta) with h1 | h1
  · rw [h1]
    exact ⟨fun e => hne (weight_name_injective _ _ e),
      weight_name_ne_bias_name_any _ _⟩
  · rw [h1]
    exact ⟨fun e => weight_name_ne_bias_name_any _ _ e.symm,
      fun e => hne (bias_name_injective _ _ e)⟩

/-- Loading the records of a whole net into a layer of the same architecture as one of its
layers gives that layer the saved weight and bias of this one. -/
theorem Layer.setWeights_net_records :
    ∀ (layers : List (Layer Nat)) (src dst : Layer Nat),
      (layers.map fun a => a.name).Nodup → (∀ a ∈ layers, a.savable) → src ∈ layers →
      Layer.sameShape src dst →
      Layer.setWeights dst ((layers.flatMap Layer.paramRecords).map Tensor.exact)
        = .ok (Layer.withParams src dst) := by
  intro layers
  induction layers with
  | nil => intro src dst _ _ hmem; simp at hmem
  | cons a rest ih =>
    intro src dst hnd hsav hmem hsh
    rw [List.map_cons, List.nodup_cons] at hnd
    rw [List.flatMap_cons, List.map_append, Layer.setWeights_append]
    have hrest : ∀ b ∈ rest, b.name ≠ a.name := by
      intro b hb e
      exact hnd.1 (by rw [← e]; exact List.mem_map_of_mem _ hb)
    rcases List.mem_cons.mp hmem with h1 | h1
    · subst h1
      rw [Layer.setWeights_own_records src dst (hsav src (List.mem_cons_self _ _)) hsh]
      simp only [Outcome.bind]
      apply Layer.setWeights_other_layers
      intro b hb
      show b.name ≠ dst.name
      rw [← hsh.1]
      exact hrest b hb
    · have hne : a.name ≠ dst.name := by
        rw [← hsh.1]
        exact fun e => hrest src h1 e.symm
      have h0 := Layer.setWeights_other_layers [a] dst (by
        intro b hb
        simp only [List.mem_singleton] at hb
        subst hb
        exact hne)
      simp only [List.flatMap_cons, List.flatMap_nil, List.append_nil] at h0
      rw [h0]
      simp only [Outcome.bind]
      exact ih src dst hnd.2 (fun b hb => hsav b (List.mem_cons_of_mem _ hb)) h1 hsh

/-- `Net::loadWeights` on two nets of the same architecture, when every layer takes the
parameters of its counterpart. -/
theorem Net.loadWeightsLoop_forall₂ (weights : List Tensor) (all : List (Layer Nat)) :
    ∀ (srcs dsts : List (Layer Nat)), List.Forall₂ Layer.sameShape srcs dsts →
      (∀ src ∈ srcs, src ∈ all) →
      (∀ src dst, src ∈ all → Layer.sameShape src dst →
        Layer.setWeights dst weights = .ok (Layer.withParams src dst)) →
      Net.loadWeightsLoop weights false dsts = .ok (List.zipWith Layer.withParams srcs dsts) := by
  intro srcs dsts hf
  induction hf with
  | nil => intro _ _; rfl
  | cons hab _ ih =>
    intro hmem hset
    simp only [Net.loadWeightsLoop, hset _ _ (hmem _ (List.mem_cons_self _ _)) hab,
      Outcome.bind, Bool.false_eq_true, if_false,
      ih (fun s hs => hmem s (List.mem_cons_of_mem _ hs)) hset, List.zipWith_cons_cons]

theorem length_paramRecords_le (a : Layer Nat) : a.paramRecords.length ≤ 2 := by
  unfold Layer.paramRecords
  cases a.weight_dataGPU <;> cases a.bias_dataGPU <;> simp

theorem length_flatMap_paramRecords_le (layers : List (Layer Nat)) :
    (layers.flatMap Layer.paramRecords).length ≤ 2 * layers.length := by
  induction layers with
  | nil => simp
  | cons a rest ih =>
    have := length_paramRecords_le a
    simp only [List.flatMap_cons, List.length_append, List.length_cons]
    omega

theorem sameShape_refl (layers : List (Layer Nat)) :
    List.Forall₂ Layer.sameShape layers layers := by
  induction layers with
  | nil => exact List.Forall₂.nil
  | cons a rest ih => exact List.Forall₂.cons ⟨rfl, rfl, rfl, rfl, rfl⟩ ih

theorem zipWith_withParams_self (layers : List (Layer Nat)) :
    List.zipWith Layer.withParams layers layers = layers := by
  induction layers with
  | nil => rfl
  | cons a rest ih => rw [List.zipWith_cons_cons, ih]; rfl

/-- **C20.** Saving and loading. For a net whose layers have pairwise distinct names (and
whose parameter blocks can be written as records), `Net::saveWeights` returns and writes the
records of the layers in layer order: for every layer the record `<layer>.weight` and then
the record `<layer>.bias`, each with the shape and the values of the parameter when the block
is there. Loading that file with `Net::loadWeights` into a net of the same architecture
returns and gives every layer the saved weight and bias, and changes nothing else; loaded
into the net that was saved, it leaves the net as it is. -/
theorem Net.saveWeights_loadWeights (cv : Casts) (net net2 : Net (Layer Nat) Nat)
    (hnames : (net.layers.map fun a => a.name).Nodup)
    (hsav : ∀ a ∈ net.layers, a.savable) (hcount : net.layers.length < 2 ^ 31)
    (hshape : List.Forall₂ Layer.sameShape net.layers net2.layers) :
    ∃ file, Net.saveWeights net false = .ok file
      ∧ file = (net.layers.flatMap Layer.paramRecords).flatMap (Tensor.record StorageT)
      ∧ Net.loadWeightsFile cv net2 file false
          = .ok { net2 with layers := List.zipWith Layer.withParams net.layers net2.layers }
      ∧ Net.loadWeightsFile cv net file false = .ok net := by
  have hsave := Net.saveWeightsLoop_eq net.layers [] hsav
  rw [List.nil_append] at hsave
  have hwf : ∀ t ∈ net.layers.flatMap Layer.paramRecords, t.WF StorageT := by
    intro t ht
    rw [List.mem_flatMap] at ht
    obtain ⟨a, ha, hta⟩ := ht
    exact paramRecords_WF a (hsav a ha) t hta
  have hread := readTensors_records cv StorageT (net.layers.flatMap Layer.paramRecords)
    SIZE_MAX hwf (by
      have := length_flatMap_paramRecords_le net.layers
      have h64 : SIZE_MAX = 2 ^ 64 - 1 := rfl
      rw [h64]
      omega) (le_refl _)
  have hload : ∀ n2 : Net (Layer Nat) Nat, List.Forall₂ Layer.sameShape net.layers n2.layers →
      Net.loadWeightsFile cv n2
          ((net.layers.flatMap Layer.paramRecords).flatMap (Tensor.record StorageT)) false
        = .ok { n2 with layers := List.zipWith Layer.withParams net.layers n2.layers } := by
    intro n2 hf
    unfold Net.loadWeightsFile Net.loadWeights
    rw [hread]
    simp only [Outcome.bind]
    rw [Net.loadWeightsLoop_forall₂ _ net.layers net.layers n2.layers hf (fun _ h => h)
      (fun src dst hsrc hsh =>
        Layer.setWeights_net_records net.layers src dst hnames hsav hsrc hsh)]
  refine ⟨_, hsave, rfl, hload net2 hshape, ?_⟩
  rw [hload net (sameShape_refl _), zipWith_withParams_self]

/-- Witness of **C20**: the net with the one layer `fc`, saved and loaded into a net of the
same architecture whose parameters are zero. -/
theorem Net.saveWeights_loadWeights_witness :
    ∃ file,
      Net.saveWeights
          { phase := .Testing, responses := [],
            layers := [{ name := "fc", weight_dim := [2], weight_dataGPU := some [5, 6],
                         bias_dim := [1], bias_dataGPU := some [7] }] } false
        = .ok file
      ∧ Net.loadWeightsFile exampleCasts
          { phase := .Testing, responses := [],
            layers := [{ name := "fc", weight_dim := [2], weight_dataGPU := some [0, 0],
                         bias_dim := [1], bias_dataGPU := some [0] }] } file false
        = .ok { phase := .Testing, responses := [],
                layers := [{ name := "fc", weight_dim := [2], weight_dataGPU := some [5, 6],
                             bias_dim := [1], bias_dataGPU := some [7] }] } := by
  obtain ⟨file, h1, _, h3, _⟩ := Net.saveWeights_loadWeights exampleCasts
    { phase := .Testing, responses := [],
      layers := [{ name := "fc", weight_dim := [2], weight_dataGPU := some [5, 6],
                   bias_dim := [1], bias_dataGPU := some [7] }] }
    { phase := .Testing, responses := [],
      layers := [{ name := "fc", weight_dim := [2], weight_dataGPU := some [0, 0],
                   bias_dim := [1], bias_dataGPU := some [0] }] }
    (by decide)
    (by
      intro a ha
      simp only [List.mem_singleton] at ha
      subst ha
      constructor
      · intro g hg
        simp only [Option.some.injEq] at hg
        subst hg
        refine ⟨by decide, by decide, by decide, by decide, by decide⟩
      · intro g hg
        simp only [Option.some.injEq] at hg
        subst hg
        refine ⟨by decide, by decide, by decide, by decide, by decide⟩)
    (by decide)
    (List.Forall₂.cons ⟨rfl, rfl, rfl, rfl, rfl⟩ List.Forall₂.nil)
  exact ⟨file, h1, h3⟩

/-! ## Output shapes -/

/-- After the output loop of a layer every output that was asked for has the shape that was
asked for, and the layer would ask for the same again. -/
theorem outLoop_shapes {V : Type} (dev : Device V)
    (req : List (Response V) → Nat → Outcome (Nat × Bool × List Int)) (hst : ReqStable req)
    (idx : List Nat) :
    ∀ (rs : List (Response V)) (b b1 : Nat) (rs1 : List (Response V)),
      shapedWhenAllocated rs → outLoop dev req idx (b, rs) = .ok (b1, rs1) →
      ∀ i ∈ idx, ∃ (oi : Nat) (nd : Bool) (s : List Int) (r : Response V),
        req rs1 i = .ok (oi, nd, s) ∧ rs1[oi]? = some r ∧ r.dim = s := by
  induction idx with
  | nil => intro rs b b1 rs1 _ _ i hi; simp at hi
  | cons i0 idx ih =>
    intro rs b b1 rs1 hinv h i hi
    rw [outLoop_cons] at h
    cases hreq : req rs i0 with
    | fatal => simp only [hreq, Outcome.bind] at h; exact absurd h (by simp)
    | undefined => simp only [hreq, Outcome.bind] at h; exact absurd h (by simp)
    | ok r =>
      obtain ⟨oi, nd, s⟩ := r
      simp only [hreq, Outcome.bind] at h
      cases hom : outMalloc dev rs oi nd s with
      | fatal => simp only [hom, Outcome.bind] at h; exact absurd h (by simp)
      | undefined => simp only [hom, Outcome.bind] at h; exact absurd h (by simp)
      | ok q =>
        obtain ⟨qb, rsA⟩ := q
        simp only [hom, Outcome.bind] at h
        obtain ⟨hs, _, hinvA, hkA, rA, hrA, haA, hdA⟩ :=
          outMalloc_post dev rs oi nd s qb rsA hinv hom
        obtain ⟨⟨_, hk1⟩, _⟩ := outLoop_second dev req hst idx rsA _ b1 rs1 hinvA h
        rcases List.mem_cons.mp hi with h0 | h0
        · subst h0
          obtain ⟨nd1, hreq1⟩ := hst rs i oi nd s hinv hreq hs rs1
            (keepsAllocated_trans _ _ _ hkA hk1)
          obtain ⟨r1, hr1, hb1⟩ := hk1.2 oi rA hrA haA
          exact ⟨oi, nd1, s, r1, hreq1, hr1, by rw [(buffers_dim _ _ hb1).1]; exact hdA⟩
        · exact ih rsA _ b1 rs1 hinvA h i h0

theorem PoolingLayer.outRequest_stable {V : Type} (self : PoolingLayer V) :
    ReqStable (PoolingLayer.outRequest self) := by
  intro rs i oi nd s hinv h hs t hk
  unfold PoolingLayer.outRequest at h ⊢
  cases hi : self.in_[i]? with
  | none => simp only [hi] at h; exact absurd h (by simp)
  | some ii =>
    cases ho : self.out[i]? with
    | none => simp only [hi, ho] at h; exact absurd h (by simp)
    | some oo =>
      simp only [hi, ho] at h ⊢
      cases hr : rs[ii]? with
      | none => simp only [hr] at h; exact absurd h (by simp)
      | some inR =>
        simp only [hr] at h
        cases hd : self.dimOut inR.dim with
        | fatal => simp only [hd, Outcome.bind] at h; exact absurd h (by simp)
        | undefined => simp only [hd, Outcome.bind] at h; exact absurd h (by simp)
        | ok dims =>
          simp only [hd, Outcome.bind] at h
          injection h with h
          injection h with h1 h2
          injection h2 with h2 h3
          subst h1 h3
          have hne : inR.dim ≠ [] := by
            intro he
            rw [he] at hd
            simp [PoolingLayer.dimOut] at hd
          obtain ⟨r1, hr1, hd1⟩ := keepsAllocated_get rs t hk hinv ii inR hr hne
          exact ⟨r1.need_diff, by simp only [hr1, hd1, hd, Outcome.bind]⟩

theorem floor_intCast_div_rat (a b : Int) (hb : 0 < b) : ⌊(a : ℚ) / (b : ℚ)⌋ = a / b := by
  have hb1 : (0 : ℚ) < (b : ℚ) := by exact_mod_cast hb
  rw [Int.floor_eq_iff]
  constructor
  · rw [le_div_iff₀ hb1]
    have : a / b * b ≤ a := Int.ediv_mul_le a (ne_of_gt hb)
    exact_mod_cast this
  · rw [div_lt_iff₀ hb1]
    have : a < (a / b + 1) * b := Int.lt_ediv_add_one_mul_self a hb
    exact_mod_cast this

/-- Counterexample to **C12** as stated, on the chain of the claim: `data -> fc -> pool` with
`fc` of 5 outputs and pooling with window 2 and stride 2. The output of `fc` has the shape
`[10, 5, 1, 1]`; `PoolingLayer::Malloc` gives `pool` the shape `[10, 5, 1, 1]`, because
`(1 + 0 - 2) / 2` is `0` in `int` arithmetic, where `1 + floor((1 + 0 - 2) / 2)` is `0`. -/
theorem PoolingLayer.Malloc_truncates :
    poolChainShapes = .ok [[10, 3, 4, 4], [10, 1, 1, 1], [10, 5, 1, 1], [10, 5, 1, 1]]
    ∧ poolSizeSpec 1 0 2 2 = 0 := by
  constructor
  · decide
  · unfold poolSizeSpec
    rw [floor_intCast_div_rat _ _ (by decide)]
    decide

theorem intResult_ok (x y : Int) (h : intResult x = .ok y) : y = x := by
  unfold intResult at h
  split_ifs at h
  injection h with h
  exact h.symm

/-- The value of the expression of `PoolingLayer::Malloc` for one dimension: the division
truncates; it is the floor when the window is not larger than the padded input. -/
theorem poolSize_ok (x p w s y : Int) (h : poolSize x p w s = .ok y) :
    s ≠ 0 ∧ y = 1 + Int.tdiv (x + 2 * p - w) s ∧
    (0 < s → w ≤ x + 2 * p → y = poolSizeSpec x p w s) := by
  unfold poolSize at h
  cases h1 : intResult (2 * p) with
  | fatal => simp only [h1, Outcome.bind] at h; exact absurd h (by simp)
  | undefined => simp only [h1, Outcome.bind] at h; exact absurd h (by simp)
  | ok p2 =>
    simp only [h1, Outcome.bind] at h
    cases h2 : intResult (x + p2) with
    | fatal => simp only [h2] at h; exact absurd h (by simp)
    | undefined => simp only [h2] at h; exact absurd h (by simp)
    | ok a =>
      simp only [h2] at h
      cases h3 : intResult (a - w) with
      | fatal => simp only [h3] at h; exact absurd h (by simp)
      | undefined => simp only [h3] at h; exact absurd h (by simp)
      | ok b =>
        simp only [h3] at h
        cases h4 : intDiv b s with
        | fatal => simp only [h4] at h; exact absurd h (by simp)
        | undefined => simp only [h4] at h; exact absurd h (by simp)
        | ok q =>
          simp only [h4] at h
          have e1 := intResult_ok _ _ h1
          have e2 := intResult_ok _ _ h2
          have e3 := intResult_ok _ _ h3
          have e5 := intResult_ok _ _ h
          unfold intDiv at h4
          split_ifs at h4 with hz
          injection h4 with h4
          have hs : s ≠ 0 := fun e => hz (Or.inl e)
          have hb : b = x + 2 * p - w := by rw [e3, e2, e1]
          refine ⟨hs, by rw [e5, ← h4, hb], fun hpos hle => ?_⟩
          unfold poolSizeSpec
          rw [floor_intCast_div_rat _ _ hpos, e5, ← h4, hb,
            Int.tdiv_eq_ediv (by omega) (le_of_lt hpos)]

/-- The spatial dimensions that `PoolingLayer::Malloc` computes. -/
theorem poolSpatial_ok :
    ∀ (xs ps ws ss ys : List Int), poolSpatial xs ps ws ss = .ok ys →
      ys.length = xs.length ∧
      ∀ (d : Nat) (x : Int), xs[d]? = some x →
        ∃ p w s, ps[d]? = some p ∧ ws[d]? = some w ∧ ss[d]? = some s ∧ s ≠ 0 ∧
          ys[d]? = some (1 + Int.tdiv (x + 2 * p - w) s) ∧
          (0 < s → w ≤ x + 2 * p → ys[d]? = some (poolSizeSpec x p w s)) := by
  intro xs
  induction xs with
  | nil =>
    intro ps ws ss ys h
    simp only [poolSpatial] at h
    injection h with h
    subst h
    exact ⟨rfl, fun d x hx => by simp at hx⟩
  | cons x0 xs ih =>
    intro ps ws ss ys h
    cases ps with
    | nil => simp [poolSpatial] at h
    | cons p0 ps =>
      cases ws with
      | nil => simp [poolSpatial] at h
      | cons w0 ws =>
        cases ss with
        | nil => simp [poolSpatial] at h
        | cons s0 ss =>
          simp only [poolSpatial] at h
          cases h1 : poolSize x0 p0 w0 s0 with
          | fatal => simp only [h1, Outcome.bind] at h; exact absurd h (by simp)
          | undefined => simp only [h1, Outcome.bind] at h; exact absurd h (by simp)
          | ok y0 =>
            simp only [h1, Outcome.bind] at h
            cases h2 : poolSpatial xs ps ws ss with
            | fatal => simp only [h2] at h; exact absurd h (by simp)
            | undefined => simp only [h2] at h; exact absurd h (by simp)
            | ok ys0 =>
              simp only [h2] at h
              injection h with h
              subst h
              obtain ⟨hl, hget⟩ := ih ps ws ss ys0 h2
              obtain ⟨hs0, hy0, hf0⟩ := poolSize_ok _ _ _ _ _ h1
              refine ⟨by simp [hl], fun d x hx => ?_⟩
              cases d with
              | zero =>
                simp only [List.getElem?_cons_zero, Option.some.injEq] at hx
                subst hx
                exact ⟨p0, w0, s0, List.getElem?_cons_zero, List.getElem?_cons_zero,
                  List.getElem?_cons_zero, hs0, by simp [hy0],
                  fun h3 h4 => by simp [hf0 h3 h4]⟩
              | succ d =>
                simp only [List.getElem?_cons_succ] at hx ⊢
                exact hget d x hx

/-- **C12, amended.** When `PoolingLayer::Malloc` returns, every output Edge has the batch and
channel sizes of its input and, for every spatial dimension `d`, the size
`1 + (in_d + 2*pad_d - window_d) / stride_d` with the division of `int`, which truncates
toward zero; this is `1 + floor((in_d + 2*pad_d - window_d) / stride_d)` whenever the stride
is positive and the window is not larger than the padded input
(`window_d <= in_d + 2*pad_d`), and can be larger otherwise. The output of a linear node has
the shape `(batch, K, 1, ..., 1)` of the same rank as its input, so that pooling after a
linear node follows the floor formula only for windows that fit into `1 + 2*pad_d`. -/
theorem PoolingLayer.Malloc_shapes {V : Type} (dev : Device V) (self self1 : PoolingLayer V)
    (ph : Phase) (rs rs1 : List (Response V)) (b : Nat) (hinv : shapedWhenAllocated rs)
    (h : PoolingLayer.Malloc dev self ph rs = .ok (b, self1, rs1)) :
    (∀ i, i < self.out.length →
      ∃ (ii oi : Nat) (inR outR : Response V) (d0 d1 : Int) (spatial ys : List Int),
        self.in_[i]? = some ii ∧ self.out[i]? = some oi ∧
        rs1[ii]? = some inR ∧ rs1[oi]? = some outR ∧
        inR.dim = d0 :: d1 :: spatial ∧ outR.dim = d0 :: d1 :: ys ∧
        ys.length = spatial.length ∧
        ∀ (d : Nat) (x : Int), spatial[d]? = some x →
          ∃ p w s, self.padding[d]? = some p ∧ self.window[d]? = some w ∧
            self.stride[d]? = some s ∧ s ≠ 0 ∧
            ys[d]? = some (1 + Int.tdiv (x + 2 * p - w) s) ∧
            (0 < s → w ≤ x + 2 * p → ys[d]? = some (poolSizeSpec x p w s)))
    ∧ (∀ (ip : InnerProductLayer V) (t : List (Response V)) (i oi : Nat) (nd : Bool)
        (s : List Int), InnerProductLayer.outRequest ip t i = .ok (oi, nd, s) →
        ∃ (ii : Nat) (inR : Response V), ip.in_[i]? = some ii ∧ t[ii]? = some inR ∧
          s.length = inR.dim.length ∧
          ∃ d0, inR.dim.head? = some d0 ∧
            s = d0 :: ip.num_output :: List.replicate (inR.dim.length - 2) 1) := by
  constructor
  · intro i hi
    unfold PoolingLayer.Malloc at h
    split_ifs at h with h1 h2
    cases hl : outLoop dev (PoolingLayer.outRequest self) (List.range self.out.length)
        (0, rs) with
    | fatal => simp only [hl, Outcome.bind] at h; exact absurd h (by simp)
    | undefined => simp only [hl, Outcome.bind] at h; exact absurd h (by simp)
    | ok p =>
      obtain ⟨pb, prs⟩ := p
      simp only [hl, Outcome.bind] at h
      injection h with h
      injection h with _ h
      injection h with _ hr
      subst hr
      obtain ⟨oi, nd, s, outR, hreq, hout, hdim⟩ :=
        outLoop_shapes dev _ (PoolingLayer.outRequest_stable self) _ rs 0 pb prs hinv hl i
          (List.mem_range.mpr hi)
      unfold PoolingLayer.outRequest at hreq
      cases hii : self.in_[i]? with
      | none => simp only [hii] at hreq; exact absurd hreq (by simp)
      | some ii =>
        cases hoo : self.out[i]? with
        | none => simp only [hii, hoo] at hreq; exact absurd hreq (by simp)
        | some oo =>
          simp only [hii, hoo] at hreq
          cases hin : prs[ii]? with
          | none => simp only [hin] at hreq; exact absurd hreq (by simp)
          | some inR =>
            simp only [hin] at hreq
            cases hd : self.dimOut inR.dim with
            | fatal => simp only [hd, Outcome.bind] at hreq; exact absurd hreq (by simp)
            | undefined => simp only [hd, Outcome.bind] at hreq; exact absurd hreq (by simp)
            | ok dims =>
              simp only [hd, Outcome.bind] at hreq
              injection hreq with hreq
              injection hreq with e1 e2
              injection e2 with e2 e3
              subst e1 e3
              unfold PoolingLayer.dimOut at hd
              cases hdim0 : inR.dim with
              | nil => rw [hdim0] at hd; simp at hd
              | cons d0 tl =>
                cases tl with
                | nil => rw [hdim0] at hd; simp at hd
                | cons d1 spatial =>
                  rw [hdim0] at hd
                  simp only at hd
                  cases hsp : poolSpatial spatial self.padding self.window self.stride with
                  | fatal => simp only [hsp, Outcome.bind] at hd; exact absurd hd (by simp)
                  | undefined =>
                    simp only [hsp, Outcome.bind] at hd; exact absurd hd (by simp)
                  | ok ys =>
                    simp only [hsp, Outcome.bind] at hd
                    injection hd with hd
                    obtain ⟨hlen, hget⟩ := poolSpatial_ok _ _ _ _ _ hsp
                    exact ⟨ii, oo, inR, outR, d0, d1, spatial, ys, rfl, rfl, hin, hout,
                      hdim0, by rw [hdim, ← hd], hlen, hget⟩
  · intro ip t i oi nd s hreq
    unfold InnerProductLayer.outRequest at hreq
    cases hii : ip.in_[i]? with
    | none => simp only [hii] at hreq; exact absurd hreq (by simp)
    | some ii =>
      cases hoo : ip.out[i]? with
      | none => simp only [hii, hoo] at hreq; exact absurd hreq (by simp)
      | some oo =>
        simp only [hii, hoo] at hreq
        cases hin : t[ii]? with
        | none => simp only [hin] at hreq; exact absurd hreq (by simp)
        | some inR =>
          simp only [hin] at hreq
          cases hdim0 : inR.dim with
          | nil => rw [hdim0] at hreq; simp at hreq
          | cons d0 tl =>
            cases tl with
            | nil => rw [hdim0] at hreq; simp at hreq
            | cons d1 rest =>
              rw [hdim0] at hreq
              simp only at hreq
              injection hreq with hreq
              injection hreq with e1 e2
              injection e2 with e2 e3
              subst e3
              exact ⟨ii, inR, rfl, hin, by simp [hdim0], d0, by simp [hdim0],
                by simp [hdim0]⟩

/-- Witness of **C12, amended**: the chain `data -> fc -> pool`. -/
theorem PoolingLayer.Malloc_shapes_witness :
    ∃ (p : Nat × Net (AnyLayer Int) Int) (q : Nat × PoolingLayer Int × List (Response Int))
      (inR outR : Response Int),
      Net.Malloc (AnyLayer.Malloc exampleDevice) poolNet .Training = .ok p ∧
      PoolingLayer.Malloc exampleDevice examplePooling .Training p.2.responses = .ok q ∧
      q.2.2[2]? = some inR ∧ q.2.2[3]? = some outR ∧
      inR.dim.take 2 = outR.dim.take 2 := by
  have hproj : poolChainShapes
      = .ok [[10, 3, 4, 4], [10, 1, 1, 1], [10, 5, 1, 1], [10, 5, 1, 1]] := by decide
  unfold poolChainShapes at hproj
  cases hp : Net.Malloc (AnyLayer.Malloc exampleDevice) poolNet .Training with
  | fatal => simp only [hp, Outcome.bind] at hproj; exact absurd hproj (by simp)
  | undefined => simp only [hp, Outcome.bind] at hproj; exact absurd hproj (by simp)
  | ok p =>
    simp only [hp, Outcome.bind] at hproj
    cases hq : PoolingLayer.Malloc exampleDevice examplePooling .Training p.2.responses with
    | fatal => simp only [hq] at hproj; exact absurd hproj (by simp)
    | undefined => simp only [hq] at hproj; exact absurd hproj (by simp)
    | ok q =>
      obtain ⟨qb, ql, qrs⟩ := q
      have hinv : shapedWhenAllocated p.2.responses := by
        have hinv0 : shapedWhenAllocated poolNet.responses := by
          intro r hr
          simp only [poolNet, exampleNet, List.cons_append, List.nil_append, List.mem_cons,
            List.mem_singleton, List.not_mem_nil, or_false] at hr
          rcases hr with hr | hr | hr | hr <;> subst hr <;> decide
        obtain ⟨pb, pnet⟩ := p
        unfold Net.Malloc at hp
        cases hl : Net.MallocLoop (AnyLayer.Malloc exampleDevice) .Training poolNet.layers
            poolNet.responses 0 with
        | fatal => simp only [hl, Outcome.bind] at hp; exact absurd hp (by simp)
        | undefined => simp only [hl, Outcome.bind] at hp; exact absurd hp (by simp)
        | ok r =>
          simp only [hl, Outcome.bind] at hp
          injection hp with hp
          injection hp with _ hp
          subst hp
          exact (Net.MallocLoop_second exampleDevice .Training _ _ _ _ _ _ hinv0 hl).1.1
      obtain ⟨ii, oi, inR, outR, d0, d1, spatial, ys, h1, h2, h3, h4, h5, h6, _⟩ :=
        (PoolingLayer.Malloc_shapes exampleDevice examplePooling ql .Training
          p.2.responses qrs qb hinv hq).1 0 (by decide)
      have e1 : ii = 2 := by
        have : examplePooling.in_[0]? = some 2 := rfl
        rw [this] at h1
        injection h1 with h1
        exact h1.symm
      have e2 : oi = 3 := by
        have : examplePooling.out[0]? = some 3 := rfl
        rw [this] at h2
        injection h2 with h2
        exact h2.symm
      subst e1 e2
      exact ⟨p, (qb, ql, qrs), inR, outR, rfl, hq, h3, h4, by rw [h5, h6]; rfl⟩

/-! ## Allocation for testing -/

theorem Response.Malloc_noGradient {V : Type} (dev : Device V) (self : Response V)
    (dim_ : List Int) (b : Nat) (r1 : Response V)
    (hn : self.need_diff = false) (hd : self.diffGPU = none)
    (h : Response.Malloc dev self dim_ = .ok (b, r1)) :
    r1.need_diff = false ∧ r1.diffGPU = none := by
  unfold Response.Malloc at h
  cases hdata : self.dataGPU with
  | none =>
    simp only [hdata, hn, Bool.false_eq_true, if_false] at h
    split_ifs at h
    simp only [Outcome.ok.injEq, Prod.mk.injEq] at h
    rw [← h.2]
    exact ⟨rfl, hd⟩
  | some g =>
    simp only [hdata] at h
    split_ifs at h
    simp only [Outcome.ok.injEq, Prod.mk.injEq] at h
    rw [← h.2]
    exact ⟨hn, hd⟩

theorem outMalloc_noGradient {V : Type} (dev : Device V) (rs : List (Response V)) (oi : Nat)
    (dim : List Int) (b : Nat) (rs1 : List (Response V)) (hrs : noGradient rs)
    (h : outMalloc dev rs oi false dim = .ok (b, rs1)) :
    noGradient rs1 ∧ rs1.length = rs.length := by
  unfold outMalloc at h
  cases hr : rs[oi]? with
  | none => simp only [hr] at h; exact absurd h (by simp)
  | some r =>
    simp only [hr] at h
    cases hm : Response.Malloc dev { r with need_diff := false } dim with
    | fatal => simp only [hm, Outcome.bind] at h; exact absurd h (by simp)
    | undefined => simp only [hm, Outcome.bind] at h; exact absurd h (by simp)
    | ok p =>
      simp only [hm, Outcome.bind, Outcome.ok.injEq, Prod.mk.injEq] at h
      have hp := Response.Malloc_noGradient dev { r with need_diff := false } dim p.1 p.2 rfl
        (hrs r (List.getElem?_mem hr)).2 hm
      refine ⟨?_, by rw [← h.2, List.length_set]⟩
      intro x hx
      rw [← h.2] at hx
      rcases List.mem_or_eq_of_mem_set hx with hx1 | hx1
      · exact hrs x hx1
      · rw [hx1]; exact hp

/-- An output loop whose requests never ask for a gradient leaves no response with one, and
keeps the number of responses. -/
theorem outLoop_noGradient {V : Type} (dev : Device V)
    (req : List (Response V) → Nat → Outcome (Nat × Bool × List Int))
    (hreq : ∀ (rs : List (Response V)) (i oi : Nat) (nd : Bool) (s : List Int),
      noGradient rs → req rs i = .ok (oi, nd, s) → nd = false)
    (idx : List Nat) :
    ∀ (rs : List (Response V)) (b b1 : Nat) (rs1 : List (Response V)),
      noGradient rs → outLoop dev req idx (b, rs) = .ok (b1, rs1) →
      noGradient rs1 ∧ rs1.length = rs.length := by
  induction idx with
  | nil =>
    intro rs b b1 rs1 hrs h
    rw [outLoop_nil] at h
    simp only [Outcome.ok.injEq, Prod.mk.injEq] at h
    rw [← h.2]; exact ⟨hrs, rfl⟩
  | cons i0 idx ih =>
    intro rs b b1 rs1 hrs h
    rw [outLoop_cons] at h
    cases hr : req rs i0 with
    | fatal => simp only [hr, Outcome.bind] at h; exact absurd h (by simp)
    | undefined => simp only [hr, Outcome.bind] at h; exact absurd h (by simp)
    | ok r =>
      obtain ⟨oi, nd, s⟩ := r
      simp only [hr, Outcome.bind] at h
      have hnd := hreq rs i0 oi nd s hrs hr
      subst hnd
      cases hom : outMalloc dev rs oi false s with
      | fatal => simp only [hom, Outcome.bind] at h; exact absurd h (by simp)
      | undefined => simp only [hom, Outcome.bind] at h; exact absurd h (by simp)
      | ok q =>
        obtain ⟨qb, rsA⟩ := q
        simp only [hom, Outcome.bind] at h
        obtain ⟨hA, hlenA⟩ := outMalloc_noGradient dev rs oi s qb rsA hrs hom
        obtain ⟨h1, hlen1⟩ := ih rsA _ b1 rs1 hA h
        exact ⟨h1, hlen1.trans hlenA⟩

theorem roundLoop_foldl_fatal {L V : Type}
    (round : L → List (Response V) → Nat → Outcome (Nat × L × List (Response V)))
    (idx : List Nat) :
    idx.foldl (fun st i => st.bind fun p => (round p.2.1 p.2.2 i).bind fun q =>
      .ok ((p.1 + q.1) % 2 ^ 64, q.2.1, q.2.2))
      (.fatal : Outcome (Nat × L × List (Response V))) = .fatal := by
  induction idx with
  | nil => rfl
  | cons i idx ih => simpa [List.foldl, Outcome.bind] using ih

theorem roundLoop_foldl_undefined {L V : Type}
    (round : L → List (Response V) → Nat → Outcome (Nat × L × List (Response V)))
    (idx : List Nat) :
    idx.foldl (fun st i => st.bind fun p => (round p.2.1 p.2.2 i).bind fun q =>
      .ok ((p.1 + q.1) % 2 ^ 64, q.2.1, q.2.2))
      (.undefined : Outcome (Nat × L × List (Response V))) = .undefined := by
  induction idx with
  | nil => rfl
  | cons i idx ih => simpa [List.foldl, Outcome.bind] using ih

/-- One round of a layer's loop, then the rest. -/
theorem roundLoop_cons {L V : Type}
    (round : L → List (Response V) → Nat → Outcome (Nat × L × List (Response V)))
    (i : Nat) (idx : List Nat) (st : Nat × L × List (Response V)) :
    roundLoop round (i :: idx) st =
      ((round st.2.1 st.2.2 i).bind fun q =>
        .ok ((st.1 + q.1) % 2 ^ 64, q.2.1, q.2.2)).bind (roundLoop round idx) := by
  unfold roundLoop
  rw [List.foldl_cons]
  simp only [Outcome.bind]
  cases h : round st.2.1 st.2.2 i with
  | fatal => simp only [Outcome.bind]; exact roundLoop_foldl_fatal round idx
  | undefined => simp only [Outcome.bind]; exact roundLoop_foldl_undefined round idx
  | ok q => simp only [Outcome.bind]

/-- A loop of rounds that each keep a property of the layer, leave no response with a
gradient and keep the number of responses does so as a whole. -/
theorem roundLoop_noGradient {L V : Type}
    (round : L → List (Response V) → Nat → Outcome (Nat × L × List (Response V)))
    (P : L → Prop)
    (hround : ∀ (l : L) (rs : List (Response V)) (i b : Nat) (l1 : L)
      (rs1 : List (Response V)), P l → noGradient rs → round l rs i = .ok (b, l1, rs1) →
      P l1 ∧ noGradient rs1 ∧ rs1.length = rs.length)
    (idx : List Nat) :
    ∀ (l : L) (rs : List (Response V)) (b b1 : Nat) (l1 : L) (rs1 : List (Response V)),
      P l → noGradient rs → roundLoop round idx (b, l, rs) = .ok (b1, l1, rs1) →
      P l1 ∧ noGradient rs1 ∧ rs1.length = rs.length := by
  induction idx with
  | nil =>
    intro l rs b b1 l1 rs1 hl hrs h
    simp only [roundLoop, List.foldl_nil, Outcome.ok.injEq, Prod.mk.injEq] at h
    rw [← h.2.1, ← h.2.2]; exact ⟨hl, hrs, rfl⟩
  | cons i0 idx ih =>
    intro l rs b b1 l1 rs1 hl hrs h
    rw [roundLoop_cons] at h
    cases hr : round l rs i0 with
    | fatal => simp only [hr, Outcome.bind] at h; exact absurd h (by simp)
    | undefined => simp only [hr, Outcome.bind] at h; exact absurd h (by simp)
    | ok q =>
      obtain ⟨qb, lA, rsA⟩ := q
      simp only [hr, Outcome.bind] at h
      obtain ⟨hlA, hrsA, hlenA⟩ := hround l rs i0 qb lA rsA hl hrs hr
      obtain ⟨hl1, hrs1, hlen1⟩ := ih lA rsA _ b1 l1 rs1 hlA hrsA h
      exact ⟨hl1, hrs1, hlen1.trans hlenA⟩

theorem passRequest_noGradient {V : Type} (self : Layer V) (rs : List (Response V))
    (i oi : Nat) (nd : Bool) (s : List Int) (hrs : noGradient rs)
    (h : passRequest self rs i = .ok (oi, nd, s)) : nd = false := by
  unfold passRequest at h
  split at h
  · split at h
    · rename_i inR hin
      simp only [Outcome.ok.injEq, Prod.mk.injEq] at h
      rw [← h.2.1]; exact (hrs _ (List.getElem?_mem hin)).1
    · exact absurd h (by simp)
  · exact absurd h (by simp)

theorem MemoryDataLayer.memoryData_request_noGradient {V : Type} (self : MemoryDataLayer V)
    (rs : List (Response V)) (i oi : Nat) (nd : Bool) (s : List Int)
    (h : MemoryDataLayer.outRequest self rs i = .ok (oi, nd, s)) : nd = false := by
  unfold MemoryDataLayer.outRequest at h
  split at h
  · split at h
    · split_ifs at h
      simp only [Outcome.ok.injEq, Prod.mk.injEq] at h
      exact h.2.1.symm
    · exact absurd h (by simp)
  · split at h
    · simp only [Outcome.ok.injEq, Prod.mk.injEq] at h
      exact h.2.1.symm
    · exact absurd h (by simp)

theorem DiskDataLayer.diskData_request_noGradient {V : Type} (self : DiskDataLayer V)
    (rs : List (Response V)) (i oi : Nat) (nd : Bool) (s : List Int)
    (h : DiskDataLayer.outRequest self rs i = .ok (oi, nd, s)) : nd = false := by
  unfold DiskDataLayer.outRequest at h
  split at h
  · split at h
    · simp only [Outcome.ok.injEq, Prod.mk.injEq] at h
      exact h.2.1.symm
    · exact absurd h (by simp)
  · split at h
    · simp only [Outcome.ok.injEq, Prod.mk.injEq] at h
      exact h.2.1.symm
    · exact absurd h (by simp)

theorem InnerProductLayer.innerProduct_request_noGradient {V : Type}
    (self : InnerProductLayer V) (htrain : self.train_me = false)
    (rs : List (Response V)) (i oi : Nat) (nd : Bool) (s : List Int) (hrs : noGradient rs)
    (h : InnerProductLayer.outRequest self rs i = .ok (oi, nd, s)) : nd = false := by
  unfold InnerProductLayer.outRequest at h
  split at h
  · split at h
    · rename_i inR hin
      split at h
      · simp only [Outcome.ok.injEq, Prod.mk.injEq] at h
        rw [← h.2.1, htrain, (hrs _ (List.getElem?_mem hin)).1]; rfl
      · exact absurd h (by simp)
    · exact absurd h (by simp)
  · exact absurd h (by simp)

theorem PoolingLayer.pooling_request_noGradient {V : Type} (self : PoolingLayer V)
    (rs : List (Response V)) (i oi : Nat) (nd : Bool) (s : List Int) (hrs : noGradient rs)
    (h : PoolingLayer.outRequest self rs i = .ok (oi, nd, s)) : nd = false := by
  unfold PoolingLayer.outRequest at h
  split at h
  · split at h
    · rename_i inR hin
      cases hd : self.dimOut inR.dim with
      | fatal => simp only [hd, Outcome.bind] at h; exact absurd h (by simp)
      | undefined => simp only [hd, Outcome.bind] at h; exact absurd h (by simp)
      | ok dims =>
        simp only [hd, Outcome.bind, Outcome.ok.injEq, Prod.mk.injEq] at h
        rw [← h.2.1]; exact (hrs _ (List.getElem?_mem hin)).1
    · exact absurd h (by simp)
  · exact absurd h (by simp)

theorem ReshapeLayer.reshape_request_noGradient {V : Type} (self : ReshapeLayer V)
    (rs : List (Response V)) (i oi : Nat) (nd : Bool) (s : List Int) (hrs : noGradient rs)
    (h : ReshapeLayer.outRequest self rs i = .ok (oi, nd, s)) : nd = false := by
  unfold ReshapeLayer.outRequest at h
  split at h
  · split at h
    · rename_i inR hin
      cases hd : self.dimOut inR.dim with
      | fatal => simp only [hd, Outcome.bind] at h; exact absurd h (by simp)
      | undefined => simp only [hd, Outcome.bind] at h; exact absurd h (by simp)
      | ok dims =>
        simp only [hd, Outcome.bind, Outcome.ok.injEq, Prod.mk.injEq] at h
        rw [← h.2.1]; exact (hrs _ (List.getElem?_mem hin)).1
    · exact absurd h (by simp)
  · exact absurd h (by simp)

theorem ROILayer.roi_request_noGradient {V : Type} (self : ROILayer V)
    (rs : List (Response V)) (i oi : Nat) (nd : Bool) (s : List Int) (hrs : noGradient rs)
    (h : ROILayer.outRequest self rs i = .ok (oi, nd, s)) : nd = false := by
  unfold ROILayer.outRequest at h
  split at h
  · split at h
    · rename_i inA inB hinA hinB
      split at h
      · split_ifs at h
        simp only [Outcome.ok.injEq, Prod.mk.injEq] at h
        rw [← h.2.1]; exact (hrs _ (List.getElem?_mem hinA)).1
      · exact absurd h (by simp)
    · exact absurd h (by simp)
  · exact absurd h (by simp)

theorem inGroup_mem {V : Type} (in_ : List Nat) (rs : List (Response V)) (j : Nat)
    (ks : List Nat) :
    ∀ ins : List (Response V),
      ks.foldr
        (fun k acc =>
          match in_[j + k]? with
          | none => .undefined
          | some ii =>
            match rs[ii]? with
            | none => .undefined
            | some r => acc.bind fun l => .ok (r :: l))
        (.ok []) = Outcome.ok ins → ∀ r ∈ ins, r ∈ rs := by
  induction ks with
  | nil =>
    intro ins h r hr
    simp only [List.foldr_nil, Outcome.ok.injEq] at h
    rw [← h] at hr; simp at hr
  | cons k ks ih =>
    intro ins h r hr
    rw [List.foldr_cons] at h
    split at h
    · exact absurd h (by simp)
    · split at h
      · exact absurd h (by simp)
      · rename_i ii _ r0 hr0
        cases hacc : ks.foldr
            (fun k acc =>
              match in_[j + k]? with
              | none => .undefined
              | some ii =>
                match rs[ii]? with
                | none => .undefined
                | some r => acc.bind fun l => .ok (r :: l))
            (Outcome.ok ([] : List (Response V))) with
        | fatal => rw [hacc] at h; exact absurd h (by simp [Outcome.bind])
        | undefined => rw [hacc] at h; exact absurd h (by simp [Outcome.bind])
        | ok l =>
          rw [hacc] at h
          simp only [Outcome.bind, Outcome.ok.injEq] at h
          rw [← h] at hr
          rcases List.mem_cons.mp hr with h1 | h1
          · rw [h1]; exact List.getElem?_mem hr0
          · exact ih l hacc r h1

theorem inGroup_noGradient {V : Type} (in_ : List Nat) (rs : List (Response V))
    (in_group j : Nat) (ins : List (Response V)) (hrs : noGradient rs)
    (h : inGroup in_ rs in_group j = .ok ins) : ins.any (fun r => r.need_diff) = false := by
  unfold inGroup at h
  have hmem := inGroup_mem in_ rs (j * in_group) (List.range in_group) ins h
  rw [List.any_eq_false]
  intro r hr
  rw [(hrs r (hmem r hr)).1]
  simp

theorem noGradient_set {V : Type} (rs : List (Response V)) (oi : Nat) (r : Response V)
    (hrs : noGradient rs) (hr : r.need_diff = false ∧ r.diffGPU = none) :
    noGradient (rs.set oi r) := by
  intro x hx
  rcases List.mem_or_eq_of_mem_set hx with hx1 | hx1
  · exact hrs x hx1
  · rw [hx1]; exact hr

theorem ElementWiseLayer.elementWise_request_noGradient {V : Type} (self : ElementWiseLayer V)
    (rs : List (Response V)) (j oj : Nat) (nd : Bool) (s : List Int) (hrs : noGradient rs)
    (h : ElementWiseLayer.outRequest self rs j = .ok (oj, nd, s)) : nd = false := by
  unfold ElementWiseLayer.outRequest at h
  split at h
  · exact absurd h (by simp)
  · rename_i o ho
    split at h
    · exact absurd h (by simp)
    · rename_i outR hout
      have hrs1 : noGradient (rs.set o { outR with need_diff := false }) :=
        noGradient_set rs o _ hrs ⟨rfl, (hrs _ (List.getElem?_mem hout)).2⟩
      cases hg : inGroup self.in_ (rs.set o { outR with need_diff := false })
          self.in_group.toNat j with
      | fatal => simp only [hg, Outcome.bind] at h; exact absurd h (by simp)
      | undefined => simp only [hg, Outcome.bind] at h; exact absurd h (by simp)
      | ok ins =>
        have hany := inGroup_noGradient _ _ _ _ ins hrs1 hg
        simp only [hg, Outcome.bind] at h
        split at h
        · exact absurd h (by simp)
        · simp only [Outcome.ok.injEq, Prod.mk.injEq] at h
          rw [← h.2.1]; exact hany

theorem ConcatLayer.concat_request_noGradient {V : Type} (self : ConcatLayer V)
    (rs : List (Response V)) (j oj : Nat) (nd : Bool) (s : List Int) (hrs : noGradient rs)
    (h : ConcatLayer.outRequest self rs j = .ok (oj, nd, s)) : nd = false := by
  unfold ConcatLayer.outRequest at h
  split at h
  · exact absurd h (by simp)
  · rename_i o ho
    split at h
    · exact absurd h (by simp)
    · rename_i outR hout
      have hrs1 : noGradient (rs.set o { outR with need_diff := false }) :=
        noGradient_set rs o _ hrs ⟨rfl, (hrs _ (List.getElem?_mem hout)).2⟩
      cases hg : inGroup self.in_ (rs.set o { outR with need_diff := false })
          self.in_group.toNat j with
      | fatal => simp only [hg, Outcome.bind] at h; exact absurd h (by simp)
      | undefined => simp only [hg, Outcome.bind] at h; exact absurd h (by simp)
      | ok ins =>
        have hany := inGroup_noGradient _ _ _ _ ins hrs1 hg
        simp only [hg, Outcome.bind] at h
        split at h
        · exact absurd h (by simp)
        · rename_i first others
          split at h
          · rename_i d0 c spatial hdim
            cases hc : concatChannels c (others.map fun r => r.dim) with
            | fatal => simp only [hc, Outcome.bind] at h; exact absurd h (by simp)
            | undefined => simp only [hc, Outcome.bind] at h; exact absurd h (by simp)
            | ok c2 =>
              simp only [hc, Outcome.bind, Outcome.ok.injEq, Prod.mk.injEq] at h
              rw [← h.2.1]; exact hany
          · split_ifs at h
            simp only [Outcome.ok.injEq, Prod.mk.injEq] at h
            rw [← h.2.1]; exact hany

theorem ConvolutionLayer.convolution_request_noGradient {V : Type} (dev : Device V)
    (lib : ConvLibrary) (self : ConvolutionLayer V) (htrain : self.train_me = false)
    (rs : List (Response V)) (i oi : Nat) (nd : Bool) (s : List Int) (hrs : noGradient rs)
    (h : ConvolutionLayer.outRequest dev lib self rs i = .ok (oi, nd, s)) : nd = false := by
  unfold ConvolutionLayer.outRequest at h
  split at h
  · split at h
    · rename_i inR hin
      cases hd : Response.getDesc dev lib inR self.group with
      | fatal => simp only [hd, Outcome.bind] at h; exact absurd h (by simp)
      | undefined => simp only [hd, Outcome.bind] at h; exact absurd h (by simp)
      | ok dimIn =>
        simp only [hd, Outcome.bind] at h
        cases hw : self.weight_dim_group with
        | fatal => simp only [hw] at h; exact absurd h (by simp)
        | undefined => simp only [hw] at h; exact absurd h (by simp)
        | ok filter =>
          simp only [hw] at h
          split at h
          · exact absurd h (by simp)
          · rename_i d0 d1 rest hout
            cases hc : intResult (d1 * self.group) with
            | fatal => simp only [hc] at h; exact absurd h (by simp)
            | undefined => simp only [hc] at h; exact absurd h (by simp)
            | ok c =>
              simp only [hc, Outcome.ok.injEq, Prod.mk.injEq] at h
              rw [← h.2.1, htrain, (hrs _ (List.getElem?_mem hin)).1]; rfl
          · exact absurd h (by simp)
    · exact absurd h (by simp)
  · exact absurd h (by simp)

theorem MemoryDataLayer.memoryData_Malloc_noGradient {V : Type} (dev : Device V)
    (self : MemoryDataLayer V) (ph : Phase) (rs : List (Response V)) (b : Nat)
    (self1 : MemoryDataLayer V) (rs1 : List (Response V))
    (htrain : self.train_me = false) (hrs : noGradient rs)
    (h : MemoryDataLayer.Malloc dev self ph rs = .ok (b, self1, rs1)) :
    self1.train_me = false ∧ noGradient rs1 ∧ rs1.length = rs.length := by
  unfold MemoryDataLayer.Malloc at h
  split_ifs at h
  · simp only [Outcome.ok.injEq, Prod.mk.injEq] at h
    rw [← h.2.1, ← h.2.2]; exact ⟨htrain, hrs, rfl⟩
  · cases hl : outLoop dev (MemoryDataLayer.outRequest self) [0, 1] (0, rs) with
    | fatal => simp only [hl, Outcome.bind] at h; exact absurd h (by simp)
    | undefined => simp only [hl, Outcome.bind] at h; exact absurd h (by simp)
    | ok p =>
      simp only [hl, Outcome.bind, Outcome.ok.injEq, Prod.mk.injEq] at h
      rw [← h.2.1, ← h.2.2]
      exact ⟨htrain, outLoop_noGradient dev _
        (fun rs i oi nd s _ hq => self.memoryData_request_noGradient rs i oi nd s hq)
        _ rs 0 p.1 p.2 hrs hl⟩

theorem DiskDataLayer.diskData_Malloc_noGradient {V : Type} (dev : Device V)
    (self : DiskDataLayer V) (ph : Phase) (rs : List (Response V)) (b : Nat)
    (self1 : DiskDataLayer V) (rs1 : List (Response V))
    (htrain : self.train_me = false) (hrs : noGradient rs)
    (h : DiskDataLayer.Malloc dev self ph rs = .ok (b, self1, rs1)) :
    self1.train_me = false ∧ noGradient rs1 ∧ rs1.length = rs.length := by
  unfold DiskDataLayer.Malloc at h
  split_ifs at h
  · simp only [Outcome.ok.injEq, Prod.mk.injEq] at h
    rw [← h.2.1, ← h.2.2]; exact ⟨htrain, hrs, rfl⟩
  · cases hl : outLoop dev (DiskDataLayer.outRequest self) [0, 1] (0, rs) with
    | fatal => simp only [hl, Outcome.bind] at h; exact absurd h (by simp)
    | undefined => simp only [hl, Outcome.bind] at h; exact absurd h (by simp)
    | ok p =>
      simp only [hl, Outcome.bind] at h
      split_ifs at h
      simp only [Outcome.ok.injEq, Prod.mk.injEq] at h
      rw [← h.2.1, ← h.2.2]
      exact ⟨htrain, outLoop_noGradient dev _
        (fun rs i oi nd s _ hq => self.diskData_request_noGradient rs i oi nd s hq)
        _ rs 0 p.1 p.2 hrs hl⟩

theorem ActivationLayer.activation_Malloc_noGradient {V : Type} (dev : Device V)
    (self : ActivationLayer V) (ph : Phase) (rs : List (Response V)) (b : Nat)
    (self1 : ActivationLayer V) (rs1 : List (Response V))
    (htrain : self.train_me = false) (hrs : noGradient rs)
    (h : ActivationLayer.Malloc dev self ph rs = .ok (b, self1, rs1)) :
    self1.train_me = false ∧ noGradient rs1 ∧ rs1.length = rs.length := by
  unfold ActivationLayer.Malloc at h
  split_ifs at h
  cases hl : outLoop dev (passRequest self.toLayer) (List.range self.out.length) (0, rs) with
  | fatal => simp only [hl, Outcome.bind] at h; exact absurd h (by simp)
  | undefined => simp only [hl, Outcome.bind] at h; exact absurd h (by simp)
  | ok p =>
    simp only [hl, Outcome.bind, Outcome.ok.injEq, Prod.mk.injEq] at h
    rw [← h.2.1, ← h.2.2]
    exact ⟨htrain, outLoop_noGradient dev _ (passRequest_noGradient self.toLayer)
      _ rs 0 p.1 p.2 hrs hl⟩

theorem SoftmaxLayer.softmax_Malloc_noGradient {V : Type} (dev : Device V)
    (self : SoftmaxLayer V) (ph : Phase) (rs : List (Response V)) (b : Nat)
    (self1 : SoftmaxLayer V) (rs1 : List (Response V))
    (htrain : self.train_me = false) (hrs : noGradient rs)
    (h : SoftmaxLayer.Malloc dev self ph rs = .ok (b, self1, rs1)) :
    self1.train_me = false ∧ noGradient rs1 ∧ rs1.length = rs.length := by
  unfold SoftmaxLayer.Malloc at h
  split_ifs at h
  cases hl : outLoop dev (passRequest self.toLayer) (List.range self.out.length) (0, rs) with
  | fatal => simp only [hl, Outcome.bind] at h; exact absurd h (by simp)
  | undefined => simp only [hl, Outcome.bind] at h; exact absurd h (by simp)
  | ok p =>
    simp only [hl, Outcome.bind, Outcome.ok.injEq, Prod.mk.injEq] at h
    rw [← h.2.1, ← h.2.2]
    exact ⟨htrain, outLoop_noGradient dev _ (passRequest_noGradient self.toLayer)
      _ rs 0 p.1 p.2 hrs hl⟩

theorem LRNLayer.lrn_Malloc_noGradient {V : Type} (dev : Device V)
    (self : LRNLayer V) (ph : Phase) (rs : List (Response V)) (b : Nat)
    (self1 : LRNLayer V) (rs1 : List (Response V))
    (htrain : self.train_me = false) (hrs : noGradient rs)
    (h : LRNLayer.Malloc dev self ph rs = .ok (b, self1, rs1)) :
    self1.train_me = false ∧ noGradient rs1 ∧ rs1.length = rs.length := by
  unfold LRNLayer.Malloc at h
  split_ifs at h
  cases hl : outLoop dev (passRequest self.toLayer) (List.range self.out.length) (0, rs) with
  | fatal => simp only [hl, Outcome.bind] at h; exact absurd h (by simp)
  | undefined => simp only [hl, Outcome.bind] at h; exact absurd h (by simp)
  | ok p =>
    simp only [hl, Outcome.bind, Outcome.ok.injEq, Prod.mk.injEq] at h
    rw [← h.2.1, ← h.2.2]
    exact ⟨htrain, outLoop_noGradient dev _ (passRequest_noGradient self.toLayer)
      _ rs 0 p.1 p.2 hrs hl⟩

theorem PoolingLayer.pooling_Malloc_noGradient {V : Type} (dev : Device V)
    (self : PoolingLayer V) (ph : Phase) (rs : List (Response V)) (b : Nat)
    (self1 : PoolingLayer V) (rs1 : List (Response V))
    (htrain : self.train_me = false) (hrs : noGradient rs)
    (h : PoolingLayer.Malloc dev self ph rs = .ok (b, self1, rs1)) :
    self1.train_me = false ∧ noGradient rs1 ∧ rs1.length = rs.length := by
  unfold PoolingLayer.Malloc at h
  split_ifs at h
  cases hl : outLoop dev (PoolingLayer.outRequest self) (List.range self.out.length) (0, rs) with
  | fatal => simp only [hl, Outcome.bind] at h; exact absurd h (by simp)
  | undefined => simp only [hl, Outcome.bind] at h; exact absurd h (by simp)
  | ok p =>
    simp only [hl, Outcome.bind, Outcome.ok.injEq, Prod.mk.injEq] at h
    rw [← h.2.1, ← h.2.2]
    exact ⟨htrain, outLoop_noGradient dev _ self.pooling_request_noGradient
      _ rs 0 p.1 p.2 hrs hl⟩

theorem ReshapeLayer.reshape_Malloc_noGradient {V : Type} (dev : Device V)
    (self : ReshapeLayer V) (ph : Phase) (rs : List (Response V)) (b : Nat)
    (self1 : ReshapeLayer V) (rs1 : List (Response V))
    (htrain : self.train_me = false) (hrs : noGradient rs)
    (h : ReshapeLayer.Malloc dev self ph rs = .ok (b, self1, rs1)) :
    self1.train_me = false ∧ noGradient rs1 ∧ rs1.length = rs.length := by
  unfold ReshapeLayer.Malloc at h
  split_ifs at h
  cases hl : outLoop dev (ReshapeLayer.outRequest self) (List.range self.out.length) (0, rs) with
  | fatal => simp only [hl, Outcome.bind] at h; exact absurd h (by simp)
  | undefined => simp only [hl, Outcome.bind] at h; exact absurd h (by simp)
  | ok p =>
    simp only [hl, Outcome.bind, Outcome.ok.injEq, Prod.mk.injEq] at h
    rw [← h.2.1, ← h.2.2]
    exact ⟨htrain, outLoop_noGradient dev _ self.reshape_request_noGradient
      _ rs 0 p.1 p.2 hrs hl⟩

theorem ROILayer.roi_Malloc_noGradient {V : Type} (dev : Device V)
    (self : ROILayer V) (ph : Phase) (rs : List (Response V)) (b : Nat)
    (self1 : ROILayer V) (rs1 : List (Response V))
    (htrain : self.train_me = false) (hrs : noGradient rs)
    (h : ROILayer.Malloc dev self ph rs = .ok (b, self1, rs1)) :
    self1.train_me = false ∧ noGradient rs1 ∧ rs1.length = rs.length := by
  unfold ROILayer.Malloc at h
  split_ifs at h
  split at h
  · exact absurd h (by simp)
  · split at h
    · exact absurd h (by simp)
    · split_ifs at h
      cases hl : outLoop dev (ROILayer.outRequest self) (List.range self.out.length) (0, rs) with
      | fatal => simp only [hl, Outcome.bind] at h; exact absurd h (by simp)
      | undefined => simp only [hl, Outcome.bind] at h; exact absurd h (by simp)
      | ok p =>
        simp only [hl, Outcome.bind, Outcome.ok.injEq, Prod.mk.injEq] at h
        rw [← h.2.1, ← h.2.2]
        exact ⟨htrain, outLoop_noGradient dev _ self.roi_request_noGradient
          _ rs 0 p.1 p.2 hrs hl⟩

theorem ElementWiseLayer.elementWise_Malloc_noGradient {V : Type} (dev : Device V)
    (self : ElementWiseLayer V) (ph : Phase) (rs : List (Response V)) (b : Nat)
    (self1 : ElementWiseLayer V) (rs1 : List (Response V))
    (htrain : self.train_me = false) (hrs : noGradient rs)
    (h : ElementWiseLayer.Malloc dev self ph rs = .ok (b, self1, rs1)) :
    self1.train_me = false ∧ noGradient rs1 ∧ rs1.length = rs.length := by
  unfold ElementWiseLayer.Malloc at h
  cases hg : groupSize self.in_.length self.out.length with
  | fatal => simp only [hg, Outcome.bind] at h; exact absurd h (by simp)
  | undefined => simp only [hg, Outcome.bind] at h; exact absurd h (by simp)
  | ok g =>
    simp only [hg, Outcome.bind] at h
    cases hl : outLoop dev (ElementWiseLayer.outRequest { self with in_group := g })
        (List.range self.out.length) (0, rs) with
    | fatal => simp only [hl] at h; exact absurd h (by simp)
    | undefined => simp only [hl] at h; exact absurd h (by simp)
    | ok p =>
      simp only [hl, Outcome.ok.injEq, Prod.mk.injEq] at h
      rw [← h.2.1, ← h.2.2]
      exact ⟨htrain, outLoop_noGradient dev _
        (ElementWiseLayer.elementWise_request_noGradient { self with in_group := g })
        _ rs 0 p.1 p.2 hrs hl⟩

theorem ConcatLayer.concat_Malloc_noGradient {V : Type} (dev : Device V)
    (self : ConcatLayer V) (ph : Phase) (rs : List (Response V)) (b : Nat)
    (self1 : ConcatLayer V) (rs1 : List (Response V))
    (htrain : self.train_me = false) (hrs : noGradient rs)
    (h : ConcatLayer.Malloc dev self ph rs = .ok (b, self1, rs1)) :
    self1.train_me = false ∧ noGradient rs1 ∧ rs1.length = rs.length := by
  unfold ConcatLayer.Malloc at h
  cases hg : groupSize self.in_.length self.out.length with
  | fatal => simp only [hg, Outcome.bind] at h; exact absurd h (by simp)
  | undefined => simp only [hg, Outcome.bind] at h; exact absurd h (by simp)
  | ok g =>
    simp only [hg, Outcome.bind] at h
    cases hl : outLoop dev (ConcatLayer.outRequest { self with in_group := g })
        (List.range self.out.length) (0, rs) with
    | fatal => simp only [hl] at h; exact absurd h (by simp)
    | undefined => simp only [hl] at h; exact absurd h (by simp)
    | ok p =>
      simp only [hl, Outcome.ok.injEq, Prod.mk.injEq] at h
      rw [← h.2.1, ← h.2.2]
      exact ⟨htrain, outLoop_noGradient dev _
        (ConcatLayer.concat_request_noGradient { self with in_group := g })
        _ rs 0 p.1 p.2 hrs hl⟩

theorem Outcome.of_ite_fatal {α : Type} {c : Prop} [Decidable c] {x : Outcome α} {y : α}
    (h : (if c then Outcome.fatal else x) = .ok y) : x = .ok y := by
  split_ifs at h; exact h

theorem Outcome.of_ite_undefined {α : Type} {c : Prop} [Decidable c] {x : Outcome α} {y : α}
    (h : (if c then Outcome.undefined else x) = .ok y) : x = .ok y := by
  split_ifs at h; exact h

theorem Outcome.of_bind_ok {α β : Type} {o : Outcome α} {f : α → Outcome β} {y : β}
    (h : o.bind f = .ok y) : ∃ x, o = .ok x ∧ f x = .ok y := by
  cases o with
  | fatal => exact absurd h (by simp [Outcome.bind])
  | undefined => exact absurd h (by simp [Outcome.bind])
  | ok x => exact ⟨x, rfl, h⟩

theorem InnerProductLayer.innerProduct_MallocOwn_Testing {V : Type} (dev : Device V)
    (self self1 : InnerProductLayer V) (rs : List (Response V))
    (h : InnerProductLayer.MallocOwn dev self .Testing rs = .ok self1) :
    self1.train_me = false := by
  unfold InnerProductLayer.MallocOwn at h
  have h := Outcome.of_ite_fatal (Outcome.of_ite_fatal h)
  split at h
  · exact absurd h (by simp)
  · split at h
    · exact absurd h (by simp)
    · split at h
      · exact absurd h (by simp)
      · have h := Outcome.of_ite_fatal (Outcome.of_ite_undefined
          (Outcome.of_ite_fatal (Outcome.of_ite_fatal h)))
        simp only [Outcome.ok.injEq] at h
        rw [← h]
        simp

theorem InnerProductLayer.innerProduct_Malloc_noGradient {V : Type} (dev : Device V)
    (self : InnerProductLayer V) (rs : List (Response V)) (b : Nat)
    (self1 : InnerProductLayer V) (rs1 : List (Response V)) (hrs : noGradient rs)
    (h : InnerProductLayer.Malloc dev self .Testing rs = .ok (b, self1, rs1)) :
    self1.train_me = false ∧ noGradient rs1 ∧ rs1.length = rs.length := by
  unfold InnerProductLayer.Malloc at h
  cases ho : InnerProductLayer.MallocOwn dev self .Testing rs with
  | fatal => simp only [ho, Outcome.bind] at h; exact absurd h (by simp)
  | undefined => simp only [ho, Outcome.bind] at h; exact absurd h (by simp)
  | ok selfA =>
    have htrain := InnerProductLayer.innerProduct_MallocOwn_Testing dev self selfA rs ho
    simp only [ho, Outcome.bind] at h
    cases hl : outLoop dev (InnerProductLayer.outRequest selfA) (List.range selfA.out.length)
        (selfA.ownBytes, rs) with
    | fatal => simp only [hl] at h; exact absurd h (by simp)
    | undefined => simp only [hl] at h; exact absurd h (by simp)
    | ok p =>
      simp only [hl, Outcome.ok.injEq, Prod.mk.injEq] at h
      rw [← h.2.1, ← h.2.2]
      exact ⟨htrain, outLoop_noGradient dev _
        (InnerProductLayer.innerProduct_request_noGradient selfA htrain)
        _ rs _ p.1 p.2 hrs hl⟩

theorem ConvolutionLayer.convolution_MallocOwn_Testing {V : Type} (dev : Device V)
    (lib : ConvLibrary) (self self1 : ConvolutionLayer V) (rs : List (Response V))
    (h : ConvolutionLayer.MallocOwn dev lib self .Testing rs = .ok self1) :
    self1.train_me = false := by
  unfold ConvolutionLayer.MallocOwn at h
  have h := Outcome.of_ite_fatal (Outcome.of_ite_fatal h)
  split at h
  · exact absurd h (by simp)
  · split at h
    · exact absurd h (by simp)
    · split at h
      · obtain ⟨c1, _, h⟩ := Outcome.of_bind_ok h
        obtain ⟨w0g, _, h⟩ := Outcome.of_bind_ok (Outcome.of_ite_fatal h)
        have h := Outcome.of_ite_fatal (Outcome.of_ite_fatal (Outcome.of_ite_fatal
          (Outcome.of_ite_undefined (Outcome.of_ite_undefined
            (Outcome.of_ite_fatal (Outcome.of_ite_fatal h))))))
        simp only [Outcome.ok.injEq] at h
        rw [← h]
        simp
      · exact absurd h (by simp)

theorem ConvolutionLayer.convolution_Malloc_noGradient {V : Type} (dev : Device V)
    (lib : ConvLibrary) (self : ConvolutionLayer V) (rs : List (Response V)) (b : Nat)
    (self1 : ConvolutionLayer V) (rs1 : List (Response V)) (hrs : noGradient rs)
    (h : ConvolutionLayer.Malloc dev lib self .Testing rs = .ok (b, self1, rs1)) :
    self1.train_me = false ∧ noGradient rs1 ∧ rs1.length = rs.length := by
  unfold ConvolutionLayer.Malloc at h
  cases ho : ConvolutionLayer.MallocOwn dev lib self .Testing rs with
  | fatal => simp only [ho, Outcome.bind] at h; exact absurd h (by simp)
  | undefined => simp only [ho, Outcome.bind] at h; exact absurd h (by simp)
  | ok selfA =>
    have htrain := ConvolutionLayer.convolution_MallocOwn_Testing dev lib self selfA rs ho
    simp only [ho, Outcome.bind] at h
    cases hl : outLoop dev (ConvolutionLayer.outRequest dev lib selfA)
        (List.range selfA.out.length) (selfA.ownBytes, rs) with
    | fatal => simp only [hl] at h; exact absurd h (by simp)
    | undefined => simp only [hl] at h; exact absurd h (by simp)
    | ok p =>
      simp only [hl, Outcome.ok.injEq, Prod.mk.injEq] at h
      rw [← h.2.1, ← h.2.2]
      exact ⟨htrain, outLoop_noGradient dev _
        (ConvolutionLayer.convolution_request_noGradient dev lib selfA htrain)
        _ rs _ p.1 p.2 hrs hl⟩

theorem LossLayer.loss_Malloc_noGradient {V : Type} (dev : Device V)
    (self : LossLayer V) (ph : Phase) (rs : List (Response V)) (b : Nat)
    (self1 : LossLayer V) (rs1 : List (Response V))
    (htrain : self.train_me = false) (hrs : noGradient rs)
    (h : LossLayer.Malloc dev self ph rs = .ok (b, self1, rs1)) :
    self1.train_me = false ∧ noGradient rs1 ∧ rs1.length = rs.length := by
  unfold LossLayer.Malloc at h
  split at h
  · exact absurd h (by simp)
  · split at h
    · exact absurd h (by simp)
    · rename_i in0 _
      split at h
      · exact absurd h (by simp)
      · rename_i n _ _
        cases hn : LossLayer.lossNumel { self with numExamples := n } rs in0 with
        | fatal => simp only [hn, Outcome.bind] at h; exact absurd h (by simp)
        | undefined => simp only [hn, Outcome.bind] at h; exact absurd h (by simp)
        | ok stored =>
          simp only [hn, Outcome.bind] at h
          split at h
          · exact absurd h (by simp)
          · split_ifs at h
            · simp only [Outcome.ok.injEq, Prod.mk.injEq] at h
              rw [← h.2.1, ← h.2.2]; exact ⟨htrain, hrs, rfl⟩
            · simp only [Outcome.ok.injEq, Prod.mk.injEq] at h
              rw [← h.2.1, ← h.2.2]; exact ⟨htrain, hrs, rfl⟩

theorem DropoutLayer.dropout_round_noGradient {V : Type} (dev : Device V)
    (self : DropoutLayer V) (rs : List (Response V)) (i b : Nat) (self1 : DropoutLayer V)
    (rs1 : List (Response V)) (htrain : self.train_me = false) (hrs : noGradient rs)
    (h : DropoutLayer.MallocRound dev self rs i = .ok (b, self1, rs1)) :
    self1.train_me = false ∧ noGradient rs1 ∧ rs1.length = rs.length := by
  unfold DropoutLayer.MallocRound at h
  split at h
  · split at h
    · rename_i inR hin
      obtain ⟨bytes, _, h⟩ := Outcome.of_bind_ok h
      obtain ⟨bytes2, _, h⟩ := Outcome.of_bind_ok h
      have h := Outcome.of_ite_fatal (Outcome.of_ite_fatal h)
      rw [(hrs _ (List.getElem?_mem hin)).1] at h
      obtain ⟨q, hq, h⟩ := Outcome.of_bind_ok h
      simp only [Outcome.ok.injEq, Prod.mk.injEq] at h
      rw [← h.2.1, ← h.2.2]
      exact ⟨htrain, outMalloc_noGradient dev rs _ _ q.1 q.2 hrs hq⟩
    · exact absurd h (by simp)
  · exact absurd h (by simp)

theorem DropoutLayer.dropout_Malloc_noGradient {V : Type} (dev : Device V)
    (self : DropoutLayer V) (ph : Phase) (rs : List (Response V)) (b : Nat)
    (self1 : DropoutLayer V) (rs1 : List (Response V))
    (htrain : self.train_me = false) (hrs : noGradient rs)
    (h : DropoutLayer.Malloc dev self ph rs = .ok (b, self1, rs1)) :
    self1.train_me = false ∧ noGradient rs1 ∧ rs1.length = rs.length := by
  unfold DropoutLayer.Malloc at h
  have h := Outcome.of_ite_fatal (Outcome.of_ite_fatal h)
  exact roundLoop_noGradient (DropoutLayer.MallocRound dev) (fun l => l.train_me = false)
    (fun l rs i b l1 rs1 hl hr hq => DropoutLayer.dropout_round_noGradient dev l rs i b l1 rs1
      hl hr hq)
    _ _ rs 0 b self1 rs1 (by exact htrain) hrs h

theorem ROIPoolingLayer.roiPooling_round_noGradient {V : Type} (dev : Device V)
    (self : ROIPoolingLayer V) (rs : List (Response V)) (i b : Nat)
    (self1 : ROIPoolingLayer V) (rs1 : List (Response V))
    (htrain : self.train_me = false) (hrs : noGradient rs)
    (h : ROIPoolingLayer.MallocRound dev self rs i = .ok (b, self1, rs1)) :
    self1.train_me = false ∧ noGradient rs1 ∧ rs1.length = rs.length := by
  unfold ROIPoolingLayer.MallocRound at h
  split at h
  · split at h
    · rename_i inA inB hinA hinB
      have h := Outcome.of_ite_fatal h
      split at h
      · rw [(hrs _ (List.getElem?_mem hinA)).1] at h
        obtain ⟨q, hq, h⟩ := Outcome.of_bind_ok h
        have hq1 := outMalloc_noGradient dev rs _ _ q.1 q.2 hrs hq
        split at h
        · split_ifs at h
          · simp only [Outcome.ok.injEq, Prod.mk.injEq] at h
            rw [← h.2.1, ← h.2.2]; exact ⟨htrain, hq1⟩
          · simp only [Outcome.ok.injEq, Prod.mk.injEq] at h
            rw [← h.2.1, ← h.2.2]; exact ⟨htrain, hq1⟩
        · exact absurd h (by simp)
      · exact absurd h (by simp)
    · exact absurd h (by simp)
  · exact absurd h (by simp)

theorem ROIPoolingLayer.roiPooling_Malloc_noGradient {V : Type} (dev : Device V)
    (self : ROIPoolingLayer V) (ph : Phase) (rs : List (Response V)) (b : Nat)
    (self1 : ROIPoolingLayer V) (rs1 : List (Response V))
    (htrain : self.train_me = false) (hrs : noGradient rs)
    (h : ROIPoolingLayer.Malloc dev self ph rs = .ok (b, self1, rs1)) :
    self1.train_me = false ∧ noGradient rs1 ∧ rs1.length = rs.length := by
  unfold ROIPoolingLayer.Malloc at h
  have h := Outcome.of_ite_fatal (Outcome.of_ite_fatal h)
  split at h
  · exact absurd h (by simp)
  · split at h
    · exact absurd h (by simp)
    · have h := Outcome.of_ite_fatal h
      exact roundLoop_noGradient (ROIPoolingLayer.MallocRound dev)
        (fun l => l.train_me = false)
        (fun l rs i b l1 rs1 hl hr hq =>
          ROIPoolingLayer.roiPooling_round_noGradient dev l rs i b l1 rs1 hl hr hq)
        _ _ rs 0 b self1 rs1 (by exact htrain) hrs h

theorem TensorLayer.tensor_round_noGradient {V : Type} (dev : Device V)
    (self : TensorLayer V) (rs : List (Response V)) (i b : Nat)
    (self1 : TensorLayer V) (rs1 : List (Response V))
    (htrain : self.train_me = false) (hrs : noGradient rs)
    (h : TensorLayer.MallocRound dev self rs i = .ok (b, self1, rs1)) :
    self1.train_me = false ∧ noGradient rs1 ∧ rs1.length = rs.length := by
  unfold TensorLayer.MallocRound at h
  split at h
  · obtain ⟨t, _, h⟩ := Outcome.of_bind_ok h
    obtain ⟨q, hq, h⟩ := Outcome.of_bind_ok h
    have hq1 := outMalloc_noGradient dev rs _ _ q.1 q.2 hrs hq
    split at h
    · exact absurd h (by simp)
    · rename_i outR hout
      split_ifs at h
      · simp only [Outcome.ok.injEq, Prod.mk.injEq] at h
        rw [← h.2.1, ← h.2.2]; exact ⟨htrain, hq1⟩
      · split at h
        · have h := Outcome.of_ite_undefined h
          simp only [Outcome.ok.injEq, Prod.mk.injEq] at h
          rw [← h.2.1, ← h.2.2]
          exact ⟨htrain, noGradient_set _ _ _ hq1.1 (hq1.1 outR (List.getElem?_mem hout)),
            by rw [List.length_set]; exact hq1.2⟩
        · exact absurd h (by simp)
  · exact absurd h (by simp)

theorem TensorLayer.tensor_Malloc_noGradient {V : Type} (dev : Device V)
    (self : TensorLayer V) (ph : Phase) (rs : List (Response V)) (b : Nat)
    (self1 : TensorLayer V) (rs1 : List (Response V))
    (htrain : self.train_me = false) (hrs : noGradient rs)
    (h : TensorLayer.Malloc dev self ph rs = .ok (b, self1, rs1)) :
    self1.train_me = false ∧ noGradient rs1 ∧ rs1.length = rs.length := by
  unfold TensorLayer.Malloc at h
  have h := Outcome.of_ite_fatal (Outcome.of_ite_fatal (Outcome.of_ite_fatal h))
  exact roundLoop_noGradient (TensorLayer.MallocRound dev) (fun l => l.train_me = false)
    (fun l rs i b l1 rs1 hl hr hq => TensorLayer.tensor_round_noGradient dev l rs i b l1 rs1
      hl hr hq)
    _ _ rs 0 b self1 rs1 (by exact htrain) hrs h

/-- The virtual call `layer->Malloc(Testing)` on a layer as its constructor left it, with no
gradient among the responses: the layer is not trainable afterwards, and there is still no
gradient among the responses. -/
theorem NetLayer.any_Malloc_noGradient {V : Type} (dev : Device V) (lib : ConvLibrary)
    (layer : NetLayer V) (rs : List (Response V)) (b : Nat) (layer1 : NetLayer V)
    (rs1 : List (Response V)) (hc : layer.asConstructed = true) (hrs : noGradient rs)
    (h : NetLayer.Malloc dev lib layer .Testing rs = .ok (b, layer1, rs1)) :
    layer1.toLayer.train_me = false ∧ noGradient rs1 ∧ rs1.length = rs.length := by
  cases layer with
  | convolution l =>
    obtain ⟨r, hr, h⟩ := Outcome.of_bind_ok h
    simp only [Outcome.ok.injEq, Prod.mk.injEq] at h
    rw [← h.2.1, ← h.2.2]
    exact ConvolutionLayer.convolution_Malloc_noGradient dev lib l rs r.1 r.2.1 r.2.2 hrs hr
  | innerProduct l =>
    obtain ⟨r, hr, h⟩ := Outcome.of_bind_ok h
    simp only [Outcome.ok.injEq, Prod.mk.injEq] at h
    rw [← h.2.1, ← h.2.2]
    exact InnerProductLayer.innerProduct_Malloc_noGradient dev l rs r.1 r.2.1 r.2.2 hrs hr
  | memoryData l =>
    have ht : l.train_me = false := by simpa [NetLayer.asConstructed, NetLayer.toLayer] using hc
    obtain ⟨r, hr, h⟩ := Outcome.of_bind_ok h
    simp only [Outcome.ok.injEq, Prod.mk.injEq] at h
    rw [← h.2.1, ← h.2.2]
    exact MemoryDataLayer.memoryData_Malloc_noGradient dev l _ rs r.1 r.2.1 r.2.2 ht hrs hr
  | diskData l =>
    have ht : l.train_me = false := by simpa [NetLayer.asConstructed, NetLayer.toLayer] using hc
    obtain ⟨r, hr, h⟩ := Outcome.of_bind_ok h
    simp only [Outcome.ok.injEq, Prod.mk.injEq] at h
    rw [← h.2.1, ← h.2.2]
    exact DiskDataLayer.diskData_Malloc_noGradient dev l _ rs r.1 r.2.1 r.2.2 ht hrs hr
  | elementWise l =>
    have ht : l.train_me = false := by simpa [NetLayer.asConstructed, NetLayer.toLayer] using hc
    obtain ⟨r, hr, h⟩ := Outcome.of_bind_ok h
    simp only [Outcome.ok.injEq, Prod.mk.injEq] at h
    rw [← h.2.1, ← h.2.2]
    exact ElementWiseLayer.elementWise_Malloc_noGradient dev l _ rs r.1 r.2.1 r.2.2 ht hrs hr
  | concat l =>
    have ht : l.train_me = false := by simpa [NetLayer.asConstructed, NetLayer.toLayer] using hc
    obtain ⟨r, hr, h⟩ := Outcome.of_bind_ok h
    simp only [Outcome.ok.injEq, Prod.mk.injEq] at h
    rw [← h.2.1, ← h.2.2]
    exact ConcatLayer.concat_Malloc_noGradient dev l _ rs r.1 r.2.1 r.2.2 ht hrs hr
  | reshape l =>
    have ht : l.train_me = false := by simpa [NetLayer.asConstructed, NetLayer.toLayer] using hc
    obtain ⟨r, hr, h⟩ := Outcome.of_bind_ok h
    simp only [Outcome.ok.injEq, Prod.mk.injEq] at h
    rw [← h.2.1, ← h.2.2]
    exact ReshapeLayer.reshape_Malloc_noGradient dev l _ rs r.1 r.2.1 r.2.2 ht hrs hr
  | pooling l =>
    have ht : l.train_me = false := by simpa [NetLayer.asConstructed, NetLayer.toLayer] using hc
    obtain ⟨r, hr, h⟩ := Outcome.of_bind_ok h
    simp only [Outcome.ok.injEq, Prod.mk.injEq] at h
    rw [← h.2.1, ← h.2.2]
    exact PoolingLayer.pooling_Malloc_noGradient dev l _ rs r.1 r.2.1 r.2.2 ht hrs hr
  | dropout l =>
    have ht : l.train_me = false := by simpa [NetLayer.asConstructed, NetLayer.toLayer] using hc
    obtain ⟨r, hr, h⟩ := Outcome.of_bind_ok h
    simp only [Outcome.ok.injEq, Prod.mk.injEq] at h
    rw [← h.2.1, ← h.2.2]
    exact DropoutLayer.dropout_Malloc_noGradient dev l _ rs r.1 r.2.1 r.2.2 ht hrs hr
  | activation l =>
    have ht : l.train_me = false := by simpa [NetLayer.asConstructed, NetLayer.toLayer] using hc
    obtain ⟨r, hr, h⟩ := Outcome.of_bind_ok h
    simp only [Outcome.ok.injEq, Prod.mk.injEq] at h
    rw [← h.2.1, ← h.2.2]
    exact ActivationLayer.activation_Malloc_noGradient dev l _ rs r.1 r.2.1 r.2.2 ht hrs hr
  | lrn l =>
    have ht : l.train_me = false := by simpa [NetLayer.asConstructed, NetLayer.toLayer] using hc
    obtain ⟨r, hr, h⟩ := Outcome.of_bind_ok h
    simp only [Outcome.ok.injEq, Prod.mk.injEq] at h
    rw [← h.2.1, ← h.2.2]
    exact LRNLayer.lrn_Malloc_noGradient dev l _ rs r.1 r.2.1 r.2.2 ht hrs hr
  | softmax l =>
    have ht : l.train_me = false := by simpa [NetLayer.asConstructed, NetLayer.toLayer] using hc
    obtain ⟨r, hr, h⟩ := Outcome.of_bind_ok h
    simp only [Outcome.ok.injEq, Prod.mk.injEq] at h
    rw [← h.2.1, ← h.2.2]
    exact SoftmaxLayer.softmax_Malloc_noGradient dev l _ rs r.1 r.2.1 r.2.2 ht hrs hr
  | roi l =>
    have ht : l.train_me = false := by simpa [NetLayer.asConstructed, NetLayer.toLayer] using hc
    obtain ⟨r, hr, h⟩ := Outcome.of_bind_ok h
    simp only [Outcome.ok.injEq, Prod.mk.injEq] at h
    rw [← h.2.1, ← h.2.2]
    exact ROILayer.roi_Malloc_noGradient dev l _ rs r.1 r.2.1 r.2.2 ht hrs hr
  | roiPooling l =>
    have ht : l.train_me = false := by simpa [NetLayer.asConstructed, NetLayer.toLayer] using hc
    obtain ⟨r, hr, h⟩ := Outcome.of_bind_ok h
    simp only [Outcome.ok.injEq, Prod.mk.injEq] at h
    rw [← h.2.1, ← h.2.2]
    exact ROIPoolingLayer.roiPooling_Malloc_noGradient dev l _ rs r.1 r.2.1 r.2.2 ht hrs hr
  | tensor l =>
    have ht : l.train_me = false := by simpa [NetLayer.asConstructed, NetLayer.toLayer] using hc
    obtain ⟨r, hr, h⟩ := Outcome.of_bind_ok h
    simp only [Outcome.ok.injEq, Prod.mk.injEq] at h
    rw [← h.2.1, ← h.2.2]
    exact TensorLayer.tensor_Malloc_noGradient dev l _ rs r.1 r.2.1 r.2.2 ht hrs hr
  | loss l =>
    have ht : l.train_me = false := by simpa [NetLayer.asConstructed, NetLayer.toLayer] using hc
    obtain ⟨r, hr, h⟩ := Outcome.of_bind_ok h
    simp only [Outcome.ok.injEq, Prod.mk.injEq] at h
    rw [← h.2.1, ← h.2.2]
    exact LossLayer.loss_Malloc_noGradient dev l _ rs r.1 r.2.1 r.2.2 ht hrs hr

/-- The loop of `Net::Malloc(Testing)` over layers as their constructors left them, started
with no gradient among the responses. -/
theorem Net.MallocLoop_noGradient {V : Type} (dev : Device V) (lib : ConvLibrary) :
    ∀ (layers : List (NetLayer V)) (rs : List (Response V)) (b0 b : Nat)
      (layers1 : List (NetLayer V)) (rs1 : List (Response V)),
      (∀ layer ∈ layers, layer.asConstructed = true) → noGradient rs →
      Net.MallocLoop (NetLayer.Malloc dev lib) .Testing layers rs b0 = .ok (b, layers1, rs1) →
      layers1.length = layers.length ∧ rs1.length = rs.length ∧
      (∀ layer ∈ layers1, layer.toLayer.train_me = false) ∧ noGradient rs1 := by
  intro layers
  induction layers with
  | nil =>
    intro rs b0 b layers1 rs1 _ hrs h
    simp only [Net.MallocLoop, Outcome.ok.injEq, Prod.mk.injEq] at h
    rw [← h.2.1, ← h.2.2]
    exact ⟨rfl, rfl, by simp, hrs⟩
  | cons layer rest ih =>
    intro rs b0 b layers1 rs1 hc hrs h
    rw [Net.MallocLoop] at h
    obtain ⟨r, hr, h⟩ := Outcome.of_bind_ok h
    obtain ⟨q, hq, h⟩ := Outcome.of_bind_ok h
    simp only [Outcome.ok.injEq, Prod.mk.injEq] at h
    obtain ⟨ht, hrsA, hlenA⟩ := NetLayer.any_Malloc_noGradient dev lib layer rs r.1 r.2.1 r.2.2
      (hc layer (List.mem_cons_self _ _)) hrs hr
    obtain ⟨hl1, hlen1, ht1, hrs1⟩ := ih r.2.2 _ q.1 q.2.1 q.2.2
      (fun l hl => hc l (List.mem_cons_of_mem _ hl)) hrsA hq
    rw [← h.2.1, ← h.2.2]
    refine ⟨by simp [hl1], hlen1.trans hlenA, ?_, hrs1⟩
    intro l hl
    rcases List.mem_cons.mp hl with h0 | h0
    · rw [h0]; exact ht
    · exact ht1 l h0

/-- **C11.** A net as `Net::init` builds it from a description (responses without blocks and
with `need_diff` false; `train_me` possibly true on convolution and inner product layers, the
only classes that read it) is allocated with `Net::Malloc(Testing)`. When the call returns,
the net has the same number of layers and responses, `train_me` is false on every layer, and
every response has `need_diff` false and a null `diffGPU`. -/
theorem Net.Malloc_Testing_noGradient {V : Type} (dev : Device V) (lib : ConvLibrary)
    (net : Net (NetLayer V) V) (b : Nat) (net1 : Net (NetLayer V) V)
    (hnet : net.asConstructed = true)
    (h : Net.Malloc (NetLayer.Malloc dev lib) net .Testing = .ok (b, net1)) :
    net1.layers.length = net.layers.length ∧ net1.responses.length = net.responses.length ∧
    (∀ layer ∈ net1.layers, layer.toLayer.train_me = false) ∧
    (∀ r ∈ net1.responses, r.need_diff = false ∧ r.diffGPU = none) := by
  unfold Net.Malloc at h
  obtain ⟨q, hq, h⟩ := Outcome.of_bind_ok h
  simp only [Outcome.ok.injEq, Prod.mk.injEq] at h
  simp only [Net.asConstructed, Bool.and_eq_true, List.all_eq_true] at hnet
  have hrs : noGradient net.responses := by
    intro r hr
    have := hnet.2 r hr
    simp only [Response.asConstructed, Bool.and_eq_true, Bool.not_eq_true', Option.isNone_iff_eq_none]
      at this
    exact ⟨this.2, this.1.2⟩
  have := Net.MallocLoop_noGradient dev lib net.layers net.responses 0 q.1 q.2.1 q.2.2
    hnet.1 hrs hq
  rw [← h.2]
  exact this

/-- The net `testingNet`, in which the convolution and the inner product layer are marked for
training, is allocated for testing: the call returns, and no layer is trainable and no
response has a gradient afterwards. -/
theorem Net.Malloc_Testing_noGradient_witness :
    testingNet.asConstructed = true ∧
    ∃ (b : Nat) (net1 : Net (NetLayer Int) Int),
      Net.Malloc (NetLayer.Malloc exampleDevice exampleLibrary) testingNet .Testing
        = .ok (b, net1) ∧
      net1.layers.length = testingNet.layers.length ∧
      net1.responses.length = testingNet.responses.length ∧
      (∀ layer ∈ net1.layers, layer.toLayer.train_me = false) ∧
      (∀ r ∈ net1.responses, r.need_diff = false ∧ r.diffGPU = none) := by
  have hc : testingNet.asConstructed = true := by decide
  refine ⟨hc, ?_⟩
  have hok : ((Net.Malloc (NetLayer.Malloc exampleDevice exampleLibrary) testingNet
      .Testing).bind fun r => .ok r.1) = Outcome.ok 4414 := by decide
  cases h : Net.Malloc (NetLayer.Malloc exampleDevice exampleLibrary) testingNet .Testing with
  | fatal => rw [h] at hok; exact absurd hok (by simp [Outcome.bind])
  | undefined => rw [h] at hok; exact absurd hok (by simp [Outcome.bind])
  | ok r =>
    exact ⟨r.1, r.2, rfl,
      Net.Malloc_Testing_noGradient exampleDevice exampleLibrary testingNet r.1 r.2 hc h⟩

/-! ## Half precision round trip -/

theorem or_eq_add (i a b : Nat) (hb : b < 2 ^ i) : (a * 2 ^ i) ||| b = a * 2 ^ i + b := by
  rw [Nat.mul_comm]
  exact (Nat.mul_add_lt_is_or hb a).symm

theorem and_mask (x n : Nat) : x &&& (2 ^ n - 1) = x % 2 ^ n :=
  Nat.and_pow_two_sub_one_eq_mod x n

/-- A normal `half` with sign `s`, exponent field `e` and mantissa field `m` becomes the
`float` with the same sign, exponent field `e + 112` and the mantissa shifted by 13 bits. -/
theorem cpu_half2float_normal (s e m : Nat) (hs : s < 2) (he1 : 1 ≤ e) (he : e ≤ 30)
    (hm : m < 1024) :
    cpu_half2float (s * 32768 + e * 1024 + m)
      = s * 2147483648 + (e + 112) * 8388608 + m * 8192 := by
  have hx : (s * 32768 + e * 1024 + m) % 2 ^ 16 = s * 32768 + e * 1024 + m :=
    Nat.mod_eq_of_lt (by omega)
  have hsign : ((s * 32768 + e * 1024 + m) >>> 15) &&& 1 = s := by
    rw [Nat.shiftRight_eq_div_pow, Nat.and_one_is_mod]; omega
  have hexp : ((s * 32768 + e * 1024 + m) >>> 10) &&& 0x1f = e := by
    rw [Nat.shiftRight_eq_div_pow, show (0x1f : Nat) = 2 ^ 5 - 1 from rfl, and_mask]; omega
  have hman : ((s * 32768 + e * 1024 + m) &&& 0x3ff) <<< 13 = m * 8192 := by
    rw [show (0x3ff : Nat) = 2 ^ 10 - 1 from rfl, and_mask, Nat.shiftLeft_eq]; omega
  unfold cpu_half2float
  simp only [hx, hsign, hexp, hman]
  rw [if_neg (by omega), if_neg (by omega)]
  have h1 : s <<< 31 ||| (e + 0x70) <<< 23 = s * 2 ^ 31 + (e + 112) * 2 ^ 23 := by
    rw [Nat.shiftLeft_eq, Nat.shiftLeft_eq]
    exact or_eq_add 31 s _ (by omega)
  have h2 : s * 2 ^ 31 + (e + 112) * 2 ^ 23 = (s * 256 + (e + 112)) * 2 ^ 23 := by ring
  rw [h1, h2, or_eq_add 23 _ _ (by omega)]
  rw [Nat.mod_eq_of_lt (by omega)]
  ring
/-- The `float` with sign `s`, exponent field `e + 112` and a mantissa whose low 13 bits are
zero becomes the `half` with sign `s`, exponent field `e` and the high 10 mantissa bits:
nothing is rounded. -/
theorem cpu_float2half_exact (s e m : Nat) (hs : s < 2) (he1 : 1 ≤ e) (he : e ≤ 30)
    (hm : m < 1024) :
    cpu_float2half (s * 2147483648 + (e + 112) * 8388608 + m * 8192)
      = s * 32768 + e * 1024 + m := by
  have hx : (s * 2147483648 + (e + 112) * 8388608 + m * 8192) % 2 ^ 32
      = s * 2147483648 + (e + 112) * 8388608 + m * 8192 := Nat.mod_eq_of_lt (by omega)
  have hu : (s * 2147483648 + (e + 112) * 8388608 + m * 8192) &&& 0x7fffffff
      = (e + 112) * 8388608 + m * 8192 := by
    rw [show (0x7fffffff : Nat) = 2 ^ 31 - 1 from rfl, and_mask]; omega
  have hsign : ((s * 2147483648 + (e + 112) * 8388608 + m * 8192) >>> 16) &&& 0x8000
      = s * 32768 := by
    rw [Nat.shiftRight_eq_div_pow, show (0x8000 : Nat) = 2 ^ 15 from rfl, Nat.and_two_pow,
      Nat.testBit_to_div_mod]
    have : (s * 2147483648 + (e + 112) * 8388608 + m * 8192) / 2 ^ 16 / 2 ^ 15 % 2 = s := by
      omega
    rw [this]
    rcases (by omega : s = 0 ∨ s = 1) with h | h <;> subst h <;> simp
  have hexp : (((e + 112) * 8388608 + m * 8192) >>> 23) &&& 0xff = e + 112 := by
    rw [Nat.shiftRight_eq_div_pow, show (0xff : Nat) = 2 ^ 8 - 1 from rfl, and_mask]; omega
  have hman : ((e + 112) * 8388608 + m * 8192) &&& 0x7fffff = m * 8192 := by
    rw [show (0x7fffff : Nat) = 2 ^ 23 - 1 from rfl, and_mask]; omega
  have hlsb : (1 <<< 13) % 2 ^ 32 = 8192 := by decide
  have hrem : (m * 8192) &&& (8192 - 1) = 0 := by
    rw [show (8192 - 1 : Nat) = 2 ^ 13 - 1 from rfl, and_mask]; omega
  have hshift : (m * 8192) >>> 13 = m := by
    rw [Nat.shiftRight_eq_div_pow]; omega
  unfold cpu_float2half
  simp only [hx, hu, hsign, hexp, hman]
  rw [if_neg (by omega), if_neg (by omega), if_neg (by omega)]
  simp only [if_pos (show e + 112 > 0x70 by omega), hlsb, hrem, hshift]
  rw [if_neg (by simp)]
  rw [show e + 112 - 0x70 = e by omega, Nat.shiftLeft_eq]
  have h1 : s * 32768 ||| e * 2 ^ 10 = (s * 32 + e) * 2 ^ 10 := by
    rw [show s * 32768 = s * 2 ^ 15 by ring, or_eq_add 15 s _ (by omega)]
    ring
  rw [h1, or_eq_add 10 _ _ (by omega), Nat.mod_eq_of_lt (by omega)]
  ring

theorem checkFrom_spec (p : Nat → Bool) (lo : Nat) :
    ∀ n, checkFrom p lo n = true → ∀ k, lo ≤ k → k < lo + n → p k = true := by
  intro n
  induction n with
  | zero => intro _ k h1 h2; omega
  | succ n ih =>
    intro h k h1 h2
    simp only [checkFrom, Bool.and_eq_true] at h
    by_cases hk : k = lo + n
    · rw [hk]; exact h.1
    · exact ih h.2 k h1 (by omega)

theorem halfRoundTrip_zero_subnormal_pos : checkFrom halfRoundTrip 0 1024 = true := by
  decide!

theorem halfRoundTrip_zero_subnormal_neg : checkFrom halfRoundTrip 32768 1024 = true := by
  decide!

theorem halfRoundTrip_inf_nan_pos : checkFrom halfRoundTrip 31744 1024 = true := by
  decide!

theorem halfRoundTrip_inf_nan_neg : checkFrom halfRoundTrip 64512 1024 = true := by
  decide!

theorem halfRoundTrip_all (h : Nat) (hh : h < 65536) : halfRoundTrip h = true := by
  by_cases h1 : h < 1024
  · exact checkFrom_spec _ _ _ halfRoundTrip_zero_subnormal_pos h (by omega) (by omega)
  by_cases h2 : 31744 ≤ h ∧ h < 32768
  · exact checkFrom_spec _ _ _ halfRoundTrip_inf_nan_pos h (by omega) (by omega)
  by_cases h3 : 32768 ≤ h ∧ h < 33792
  · exact checkFrom_spec _ _ _ halfRoundTrip_zero_subnormal_neg h (by omega) (by omega)
  by_cases h4 : 64512 ≤ h
  · exact checkFrom_spec _ _ _ halfRoundTrip_inf_nan_neg h (by omega) (by omega)
  have hdec : h = (h / 32768) * 32768 + (h / 1024 % 32) * 1024 + h % 1024 := by omega
  have hrt : cpu_float2half (cpu_half2float h) = h := by
    rw [hdec, cpu_half2float_normal _ _ _ (by omega) (by omega) (by omega) (by omega),
      cpu_float2half_exact _ _ _ (by omega) (by omega) (by omega) (by omega)]
  unfold halfRoundTrip
  rw [hrt]
  cases ishnan h <;> simp

/-- **C29.** For every 16-bit pattern `h` that is not a NaN, zeros, subnormals, normals and
infinities of both signs, `cpu_float2half(cpu_half2float(h))` is `h`; and for every NaN
pattern `h` the result is a NaN again. -/
theorem cpu_half2float_roundtrip (h : Nat) (hh : h < 65536) :
    (ishnan h = false → cpu_float2half (cpu_half2float h) = h) ∧
    (ishnan h = true → ishnan (cpu_float2half (cpu_half2float h)) = true) := by
  have hall := halfRoundTrip_all h hh
  unfold halfRoundTrip at hall
  constructor
  · intro hn
    rw [hn] at hall
    simpa using hall
  · intro hn
    rw [hn] at hall
    simpa using hall

/-- Witness of **C29**: the pattern `0x3c00` of the number one, and the NaN pattern `0x7e00`,
which comes back as the NaN `0x7fff`. -/
theorem cpu_half2float_roundtrip_witness :
    cpu_float2half (cpu_half2float 0x3c00) = 0x3c00 ∧
    ishnan 0x7e00 = true ∧ cpu_float2half (cpu_half2float 0x7e00) = 0x7fff ∧
    ishnan (cpu_float2half (cpu_half2float 0x7e00)) = true :=
  ⟨(cpu_half2float_roundtrip 0x3c00 (by decide)).1 (by decide), by decide, by decide,
    (cpu_half2float_roundtrip 0x7e00 (by decide)).2 (by decide)⟩

/-! ## C30: the partition covers every index once -/

/-- **C30.** The partition of the work of a kernel. For `1 <= N <= 2^31`, with
`B = CUDA_GET_BLOCKS(N)` blocks and `L = CUDA_GET_LOOPS(N)` loops (the computation of `L`
divides by `512 * B`, which is not zero), the thread `t` handles the indices
`L*t, ..., min(N, L*t + L) - 1`; for the threads `t = 0, ..., 512*B - 1` these ranges are
pairwise disjoint and cover `0, ..., N - 1`: listed thread by thread they are exactly
`0, 1, ..., N - 1`. So `GPU_set_value` stores the value in each of the first `N` elements and
in nothing else. -/
theorem CUDA_partition (N : Nat) (h1 : 1 ≤ N) (h2 : N ≤ 2 ^ 31) :
    ∃ (B L : Nat), CUDA_GET_BLOCKS N = (B : Int) ∧ CUDA_GET_LOOPS N = .ok L ∧ 0 < B ∧ 0 < L ∧
      (∀ t idx, t < CUDA_NUM_THREADS * B →
        (idx ∈ threadIndices L N t ↔ L * t ≤ idx ∧ idx < min N (L * t + L))) ∧
      (∀ t1 t2 idx, t1 < CUDA_NUM_THREADS * B → t2 < CUDA_NUM_THREADS * B →
        idx ∈ threadIndices L N t1 → idx ∈ threadIndices L N t2 → t1 = t2) ∧
      (∀ idx, idx < N → ∃ t, t < CUDA_NUM_THREADS * B ∧ idx ∈ threadIndices L N t) ∧
      (List.range (CUDA_NUM_THREADS * B)).flatMap (threadIndices L N) = List.range N ∧
      (∀ (V : Type) (dst : List V) (value : V), N ≤ dst.length →
        GPU_set_value true N dst value = .ok (List.replicate N value ++ dst.drop N)) := by
  obtain ⟨hB, hBpos⟩ := CUDA_GET_BLOCKS_eq N h1 h2
  have hLoops := CUDA_GET_LOOPS_eq N h1 h2
  obtain ⟨hT, hL, hcov, hfit⟩ := CUDA_bounds N h1 h2
  generalize hBdef : min 2880 ((N + 511) / 512) = B at hB hBpos hLoops hT hL hcov hfit
  generalize hLdef : (N + 512 * B - 1) / (512 * B) = L at hLoops hL hcov hfit
  have hthread : ∀ t, t < 512 * B → L * t + L < 2 ^ 64 := by
    intro t ht
    have : L * t ≤ L * (512 * B) := Nat.mul_le_mul_left L (by omega)
    omega
  have hflat : (List.range (512 * B)).flatMap (threadIndices L N) = List.range N := by
    rw [flatMap_threadIndices L N hL (512 * B) hfit, Nat.min_eq_left hcov]
  refine ⟨B, L, hB, hLoops, hBpos, hL, ?_, ?_, ?_, hflat, ?_⟩
  · intro t idx ht
    exact mem_threadIndices L N t idx (hthread t ht) hL
  · intro t1 t2 idx ht1 ht2 hm1 hm2
    rw [mem_threadIndices L N t1 idx (hthread t1 ht1) hL] at hm1
    rw [mem_threadIndices L N t2 idx (hthread t2 ht2) hL] at hm2
    have e1 : idx / L = t1 :=
      Nat.div_eq_of_lt_le (by rw [Nat.mul_comm]; exact hm1.1)
        (by rw [Nat.add_mul, Nat.one_mul, Nat.mul_comm]; omega)
    have e2 : idx / L = t2 :=
      Nat.div_eq_of_lt_le (by rw [Nat.mul_comm]; exact hm2.1)
        (by rw [Nat.add_mul, Nat.one_mul, Nat.mul_comm]; omega)
    omega
  · intro idx hidx
    have hlt : idx / L < 512 * B :=
      Nat.div_lt_of_lt_mul (by omega)
    refine ⟨idx / L, hlt, ?_⟩
    rw [mem_threadIndices L N (idx / L) idx (hthread _ hlt) hL]
    have h3 := Nat.div_add_mod idx L
    have h4 := Nat.mod_lt idx hL
    omega
  · intro V dst value hlen
    unfold GPU_set_value
    rw [hLoops, hB]
    simp only [Outcome.bind]
    rw [if_neg (by simp; omega)]
    unfold Kernel_set_value
    rw [foldl_threads, Int.toNat_ofNat, show CUDA_NUM_THREADS * B = 512 * B from rfl, hflat]
    exact foldl_set_range value N dst hlen

/-- Witness of **C30**: `N = 1000` elements, 2 blocks, 1 loop. -/
theorem CUDA_partition_witness :
    ∃ (B L : Nat), CUDA_GET_BLOCKS 1000 = (B : Int) ∧ CUDA_GET_LOOPS 1000 = .ok L ∧ 0 < B ∧
      0 < L ∧
      (∀ t idx, t < CUDA_NUM_THREADS * B →
        (idx ∈ threadIndices L 1000 t ↔ L * t ≤ idx ∧ idx < min 1000 (L * t + L))) ∧
      (∀ t1 t2 idx, t1 < CUDA_NUM_THREADS * B → t2 < CUDA_NUM_THREADS * B →
        idx ∈ threadIndices L 1000 t1 → idx ∈ threadIndices L 1000 t2 → t1 = t2) ∧
      (∀ idx, idx < 1000 → ∃ t, t < CUDA_NUM_THREADS * B ∧ idx ∈ threadIndices L 1000 t) ∧
      (List.range (CUDA_NUM_THREADS * B)).flatMap (threadIndices L 1000) = List.range 1000 ∧
      (∀ (V : Type) (dst : List V) (value : V), 1000 ≤ dst.length →
        GPU_set_value true 1000 dst value = .ok (List.replicate 1000 value ++ dst.drop 1000)) :=
  CUDA_partition 1000 (by decide) (by decide)

/-! ## Reshape with a remaining dimension -/

theorem numel_pair (a b : Int) : numel [a, b] = (toSizeT a * toSizeT b) % 2 ^ 64 := by
  simp [numel]

/-- With the shape `[0, -1]` (keep the batch size, flatten the rest) `ReshapeLayer::Malloc`
computes the shape `[batch, 0]` whatever the input is: `numel` of `[batch, -1]` is
`2^64 - batch` in `size_t`, so the quotient `remain` is zero. -/
theorem ReshapeLayer.dimOut_flatten {V : Type} (self : ReshapeLayer V) (a : Int)
    (rest : List Int) (hshape : self.shape = [0, -1]) (ha : 0 < a) (ha2 : a ≤ INT_MAX)
    (hn : numel (a :: rest) + a.toNat < 2 ^ 64) :
    self.dimOut (a :: rest) = .ok [a, 0] := by
  have hnum : numel [a, -1] = 2 ^ 64 - a.toNat := by
    rw [numel_pair]
    unfold toSizeT
    unfold INT_MAX at ha2
    have h1 : (a % (2 ^ 64 : Int)).toNat = a.toNat := by omega
    have h2 : ((-1 : Int) % (2 ^ 64 : Int)).toNat = 2 ^ 64 - 1 := by decide
    rw [h1, h2]
    have h3 : a.toNat * (2 ^ 64 - 1) = (a.toNat - 1) * 2 ^ 64 + (2 ^ 64 - a.toNat) := by
      have : 1 ≤ a.toNat := by omega
      obtain ⟨k, hk⟩ : ∃ k, a.toNat = k + 1 := ⟨a.toNat - 1, by omega⟩
      rw [hk]
      simp only [Nat.add_sub_cancel]
      have : k + 1 ≤ 2 ^ 64 := by omega
      zify [this]
      ring
    rw [h3, Nat.mul_comm, Nat.mul_add_mod, Nat.mod_eq_of_lt (by omega)]
  unfold ReshapeLayer.dimOut
  rw [hshape]
  rw [if_neg (by
    rintro ⟨d, hd, h0, hlen⟩
    simp only [List.length_cons, List.length_nil] at hd
    rcases (by omega : d = 0 ∨ d = 1) with h | h
    · subst h; simp at hlen
    · subst h; simp at h0)]
  have hdim : ((List.range ([0, -1] : List Int).length).map fun d =>
      if ([0, -1] : List Int).getD d 0 = 0 then (a :: rest).getD d 0
      else ([0, -1] : List Int).getD d 0) = [a, -1] := by
    simp [List.range_succ]
  simp only [hdim, hnum]
  rw [if_neg (by unfold INT_MAX at ha2; omega)]
  have hq : numel (a :: rest) / (2 ^ 64 - a.toNat) = 0 :=
    Nat.div_eq_of_lt (by omega)
  rw [hq]
  have h0 : toInt32 0 = 0 := by decide
  rw [h0, if_pos (by decide), if_neg (by decide)]
  have hne : a ≠ -1 := by omega
  simp [hne]

/-- **C26**, divergence. The input has the shape `[10, 3, 4, 4]` (480 elements) and the shape
specification is `[0, -1]`: the product of the resolved entries, 10, divides 480, and the
`-1` entry should become 48. `ReshapeLayer::Malloc` asks for an output of shape `[10, 0]`,
which has no elements: `numel` of `[10, -1]` is computed in `size_t`, where `-1` is
`2^64 - 1`, so `remain = 480 / (2^64 - 10) = 0`. -/
theorem ReshapeLayer.Malloc_remain_zero :
    ReshapeLayer.dimOut ({ name := "flat", shape := [0, -1] } : ReshapeLayer Int) [10, 3, 4, 4]
      = .ok [10, 0]
    ∧ ReshapeLayer.outRequest
        ({ name := "flat", in_ := [0], out := [1], shape := [0, -1] } : ReshapeLayer Int)
        [{ name := "data", dim := [10, 3, 4, 4], dataGPU := some (List.replicate 480 0) },
         { name := "flat" }] 0
      = .ok (1, false, [10, 0])
    ∧ numel [10, 3, 4, 4] = 480 ∧ numel [10, -1] = 2 ^ 64 - 10 ∧ numel [10, 0] = 0
    ∧ 480 / 10 = 48 := by
  refine ⟨by decide, by decide, by decide, by decide, by decide, by decide⟩

/-! ## Dropout masks -/

/-- In exact arithmetic the keep probability times the scale is
`dropout_rate / (1 - dropout_rate)`; for rates below one it is one only for the rate one
half. -/
theorem DropoutLayer.keep_times_scale (rate : ℚ) (h1 : rate < 1) :
    (DropoutLayer.init rate).keepProbability * (DropoutLayer.init rate).scale
      = rate / (1 - rate)
    ∧ (DropoutLayer.init rate).expectedMask = rate / (1 - rate)
    ∧ ((DropoutLayer.init rate).expectedMask = 1 ↔ rate = 1 / 2) := by
  have hne : (1 - rate) ≠ 0 := by linarith
  have e1 : (DropoutLayer.init rate).keepProbability * (DropoutLayer.init rate).scale
      = rate / (1 - rate) := by
    simp only [DropoutLayer.init, DropoutInit.keepProbability]
    field_simp
  have e2 : (DropoutLayer.init rate).expectedMask = rate / (1 - rate) := by
    simp only [DropoutLayer.init, DropoutInit.expectedMask]
    field_simp
  refine ⟨e1, e2, ?_⟩
  rw [e2, div_eq_one_iff_eq hne]
  constructor
  · intro h; linarith
  · intro h; rw [h]; norm_num

/-- **C28**, divergence. With `dropout_rate = 1/4`, `DropoutLayer::init` creates a Bernoulli
distribution with parameter `1/4` and the scale `4/3`; `generateMask` sets an element to the
scale when the draw is `true`, so an element is kept with probability `1/4` (the dropout rate
itself, not `1 - 1/4`), the keep probability times the scale is `1/3`, and the expected value
of a mask element is `1/3` instead of 1. -/
theorem DropoutLayer.generateMask_keeps_with_rate :
    DropoutLayer.init (1 / 4 : ℚ) = { current_mask := true, distribution := 1 / 4, scale := 4 / 3 }
    ∧ DropoutLayer.generateMask (4 / 3 : ℚ) 0 [true, false, false, false] = [4 / 3, 0, 0, 0]
    ∧ (DropoutLayer.init (1 / 4 : ℚ)).keepProbability = 1 / 4
    ∧ (DropoutLayer.init (1 / 4 : ℚ)).keepProbability * (DropoutLayer.init (1 / 4 : ℚ)).scale
        = 1 / 3
    ∧ (DropoutLayer.init (1 / 4 : ℚ)).expectedMask = 1 / 3 := by
  refine ⟨?_, ?_, ?_, ?_, ?_⟩
  · simp only [DropoutLayer.init]; norm_num
  · simp [DropoutLayer.generateMask]
  · simp only [DropoutLayer.init, DropoutInit.keepProbability]
  · simp only [DropoutLayer.init, DropoutInit.keepProbability]; norm_num
  · simp only [DropoutLayer.init, DropoutInit.expectedMask]; norm_num

/-! ## Permuting and shuffling -/

theorem numel_foldl_mul (l : List Int) (a : Nat) :
    l.foldl (fun res d => (res * toSizeT d) % 2 ^ 64) a
      ≡ a * l.foldl (fun res d => (res * toSizeT d) % 2 ^ 64) 1 [MOD 2 ^ 64] := by
  induction l generalizing a with
  | nil => simp [Nat.ModEq]
  | cons x l ih =>
    simp only [List.foldl_cons, Nat.one_mul]
    have h1 := ih ((a * toSizeT x) % 2 ^ 64)
    have h2 := ih (toSizeT x % 2 ^ 64)
    have h3 : (a * toSizeT x) % 2 ^ 64 ≡ a * toSizeT x [MOD 2 ^ 64] := Nat.mod_modEq _ _
    have h4 : toSizeT x % 2 ^ 64 ≡ toSizeT x [MOD 2 ^ 64] := Nat.mod_modEq _ _
    calc _ ≡ (a * toSizeT x) % 2 ^ 64 * _ [MOD 2 ^ 64] := h1
      _ ≡ a * toSizeT x * _ [MOD 2 ^ 64] := Nat.ModEq.mul_right _ h3
      _ ≡ a * (toSizeT x * _) [MOD 2 ^ 64] := by rw [Nat.mul_assoc]
      _ ≡ a * (toSizeT x % 2 ^ 64 * _) [MOD 2 ^ 64] :=
          Nat.ModEq.mul_left _ (Nat.ModEq.mul_right _ h4.symm)
      _ ≡ a * _ [MOD 2 ^ 64] := Nat.ModEq.mul_left _ h2.symm

theorem numel_lt (dim : List Int) (h : dim ≠ []) : numel dim < 2 ^ 64 := by
  unfold numel
  rcases List.eq_nil_or_concat dim with h0 | ⟨l, x, hl⟩
  · exact absurd h0 h
  · rw [hl, List.concat_eq_append, List.foldl_append]
    simp only [List.foldl_cons, List.foldl_nil]
    exact Nat.mod_lt _ (by decide)

theorem numel_cons (d0 : Int) (rest : List Int) :
    numel (d0 :: rest) = (toSizeT d0 * sizeofitem (d0 :: rest)) % 2 ^ 64 := by
  have hlt := numel_lt (d0 :: rest) (by simp)
  have h := numel_foldl_mul rest (toSizeT d0 % 2 ^ 64)
  have h4 : toSizeT d0 % 2 ^ 64 ≡ toSizeT d0 [MOD 2 ^ 64] := Nat.mod_modEq _ _
  have h5 := h.trans (Nat.ModEq.mul_right _ h4)
  unfold Nat.ModEq at h5
  unfold numel at hlt ⊢
  unfold sizeofitem
  simp only [List.foldl_cons, Nat.one_mul, List.drop_one, List.tail_cons] at hlt ⊢
  rw [← h5, Nat.mod_eq_of_lt hlt]

/-- In a list made of chunks of `w` elements, the chunk with number `i` starts at `i * w`. -/
theorem drop_take_flatMap {α β : Type} (w : Nat) (f : α → List β) :
    ∀ (xs : List α) (i : Nat) (x : α), (∀ y ∈ xs, (f y).length = w) → xs[i]? = some x →
      ((xs.flatMap f).drop (i * w)).take w = f x := by
  intro xs
  induction xs with
  | nil => intro i x _ h; simp at h
  | cons y ys ih =>
    intro i x hf h
    cases i with
    | zero =>
      simp only [List.getElem?_cons_zero, Option.some.injEq] at h
      subst h
      simp only [List.flatMap_cons, Nat.zero_mul, List.drop_zero]
      rw [List.take_left' (hf y (List.mem_cons_self _ _))]
    | succ i =>
      simp only [List.getElem?_cons_succ] at h
      simp only [List.flatMap_cons]
      have hy := hf y (List.mem_cons_self _ _)
      rw [show (i + 1) * w = (f y).length + i * w by rw [hy]; ring, List.drop_append]
      exact ih i x (fun z hz => hf z (List.mem_cons_of_mem _ hz)) h
theorem length_flatMap_mem {α β : Type} (w : Nat) (f : α → List β) (xs : List α)
    (hf : ∀ y ∈ xs, (f y).length = w) : (xs.flatMap f).length = w * xs.length := by
  induction xs with
  | nil => simp
  | cons x xs ih =>
    simp only [List.flatMap_cons, List.length_append, List.length_cons,
      hf x (List.mem_cons_self _ _), ih (fun y hy => hf y (List.mem_cons_of_mem _ hy))]
    ring

/-- What `Tensor::permute(v)` leaves when it returns: name and shape are as before, and item
`i` is the old item `v[i]`, for every `i < numofitems()`. -/
theorem Tensor.permute_post (self t1 : Tensor) (v : List Nat) (h : self.permute v = .ok t1) :
    t1.name = self.name ∧ t1.dim = self.dim ∧
    ∃ (d0 : Int) (rest : List Int), self.dim = d0 :: rest ∧
      (∀ mem, t1.CPUmem = some mem → mem.length = toSizeT d0 * sizeofitem self.dim) ∧
      ∀ i, i < toSizeT d0 → ∃ s, v[i]? = some s ∧ t1.item i = self.item s := by
  unfold Tensor.permute at h
  split at h
  · rename_i d0 rest mem hdim hmem
    dsimp only at h
    split_ifs at h with h1 h2
    simp only [Outcome.ok.injEq] at h
    have hname : t1.name = self.name := by rw [← h]
    have hd : t1.dim = self.dim := by rw [← h]
    have hnb : toSizeT d0 * sizeofitem self.dim < 2 ^ 64 := by
      by_cases h0 : toSizeT d0 = 0
      · rw [h0]; simp
      · have := numel_lt self.dim (by rw [hdim]; simp)
        have h3 : ¬ self.numel < toSizeT d0 * sizeofitem self.dim := fun hc => h1 ⟨h0, hc⟩
        unfold Tensor.numel at h3
        omega
    rw [List.all_eq_true] at h2
    have hchunk : ∀ i, i < toSizeT d0 → ∃ s, v[i]? = some s ∧
        ((mem.drop ((v.getD i 0 * sizeofitem self.dim) % 2 ^ 64)).take
          (sizeofitem self.dim)) = self.item s ∧
        ((mem.drop ((v.getD i 0 * sizeofitem self.dim) % 2 ^ 64)).take
          (sizeofitem self.dim)).length = sizeofitem self.dim := by
      intro i hi
      have := h2 i (List.mem_range.mpr hi)
      cases hv : v[i]? with
      | none => simp [hv] at this
      | some s =>
        simp only [hv, decide_eq_true_eq] at this
        refine ⟨s, rfl, ?_, ?_⟩
        · unfold Tensor.item
          rw [hmem]
          simp [List.getD_eq_getElem?_getD, hv]
        · simp only [List.getD_eq_getElem?_getD, hv, Option.getD_some, List.length_take,
            List.length_drop]
          omega
    refine ⟨hname, hd, d0, rest, hdim, ?_, ?_⟩
    · intro m hm
      rw [← h] at hm
      simp only [Option.some.injEq] at hm
      rw [← hm, length_flatMap_mem (sizeofitem self.dim) _ _
        (fun y hy => (hchunk y (List.mem_range.mp hy)).choose_spec.2.2), List.length_range,
        Nat.mul_comm]
    · intro i hi
      obtain ⟨s, hs, hitem, _⟩ := hchunk i hi
      refine ⟨s, hs, ?_⟩
      rw [← hitem]
      unfold Tensor.item
      rw [hd]
      rw [← h]
      simp only [Option.getD_some]
      have hlt : i * sizeofitem self.dim < 2 ^ 64 := by
        have : i * sizeofitem self.dim ≤ toSizeT d0 * sizeofitem self.dim :=
          Nat.mul_le_mul_right _ (by omega)
        omega
      rw [Nat.mod_eq_of_lt hlt]
      exact drop_take_flatMap (sizeofitem self.dim) _ (List.range (toSizeT d0)) i i
        (fun y hy => (hchunk y (List.mem_range.mp hy)).choose_spec.2.2)
        (by rw [List.getElem?_range hi])
  · exact absurd h (by simp)
theorem perm_range_bounds (v : List Nat) (n : Nat) (hv : v.Perm (List.range n)) :
    v.length = n ∧ ∀ i, i < n → ∃ s, v[i]? = some s ∧ s < n := by
  have hlen : v.length = n := by rw [hv.length_eq, List.length_range]
  refine ⟨hlen, fun i hi => ?_⟩
  have hi2 : i < v.length := by omega
  refine ⟨v[i], List.getElem?_eq_getElem hi2, ?_⟩
  have : v[i] ∈ List.range n := hv.subset (List.getElem_mem hi2)
  exact List.mem_range.mp this

/-- `Tensor::permute(v)` returns on a tensor whose block holds its `n` items, when `v` has `n`
entries below `n`; the result holds its `n` items again. -/
theorem Tensor.permute_ok (self : Tensor) (n : Nat) (v : List Nat) (hit : self.itemized n)
    (hv : ∀ i, i < n → ∃ s, v[i]? = some s ∧ s < n) :
    ∃ t1, self.permute v = .ok t1 ∧ t1.itemized n := by
  obtain ⟨d0, rest, mem, hdim, h0, hmax, hn, hmem, hfit, hlen⟩ := hit
  have hsz : toSizeT d0 = n := by
    unfold toSizeT; unfold INT_MAX at hmax; omega
  have hnum : self.numel = n * sizeofitem self.dim := by
    unfold Tensor.numel
    rw [hdim, numel_cons, hsz, ← hdim, Nat.mod_eq_of_lt (by omega)]
  have hcheck : ((List.range (toSizeT d0)).all fun i =>
      match v[i]? with
      | some s => decide ((s * sizeofitem self.dim) % 2 ^ 64 + sizeofitem self.dim ≤ mem.length)
      | none => false) = true := by
    rw [List.all_eq_true]
    intro i hi
    rw [hsz] at hi
    obtain ⟨s, hs, hsn⟩ := hv i (List.mem_range.mp hi)
    simp only [hs, decide_eq_true_eq]
    have h1 : (s + 1) * sizeofitem self.dim ≤ n * sizeofitem self.dim :=
      Nat.mul_le_mul_right _ (by omega)
    have h2 : (s + 1) * sizeofitem self.dim = s * sizeofitem self.dim + sizeofitem self.dim := by
      ring
    rw [Nat.mod_eq_of_lt (by omega)]
    omega
  have hok : ∃ t1, self.permute v = .ok t1 := by
    unfold Tensor.permute
    rw [hdim, hmem]
    dsimp only
    rw [← hdim, if_neg (by rw [hsz, hnum]; omega), if_pos hcheck]
    exact ⟨_, rfl⟩
  obtain ⟨t1, ht1⟩ := hok
  obtain ⟨_, hd, d0', rest', hdim', hlen1, _⟩ := Tensor.permute_post self t1 v ht1
  refine ⟨t1, ht1, ?_⟩
  have hmem1 : ∃ m, t1.CPUmem = some m := by
    unfold Tensor.permute at ht1
    rw [hdim, hmem] at ht1
    dsimp only at ht1
    split_ifs at ht1
    simp only [Outcome.ok.injEq] at ht1
    rw [← ht1]
    exact ⟨_, rfl⟩
  obtain ⟨m, hm⟩ := hmem1
  have hl := hlen1 m hm
  rw [hdim] at hdim'
  simp only [List.cons.injEq] at hdim'
  rw [← hdim'.1, hsz] at hl
  exact ⟨d0, rest, m, by rw [hd, hdim], h0, hmax, hn, hm, by rw [hd, hl],
    by rw [hl]; omega⟩

/-- One `shuffle`: it returns when both tensors hold their `n` items, and it reorders data and
labels by one and the same permutation. -/
theorem MemoryDataLayer.shuffle_ok {R : Type} (S : Shuffler R) (self : MemoryDataHost R)
    (n : Nat) (hd : self.dataCPU.itemized n) (hl : self.labelCPU.itemized n) :
    ∃ (s1 : MemoryDataHost R) (v : List Nat), MemoryDataLayer.shuffle S self = .ok s1 ∧
      v.Perm (List.range n) ∧ s1.dataCPU.itemized n ∧ s1.labelCPU.itemized n ∧
      s1.dataCPU.dim = self.dataCPU.dim ∧ s1.labelCPU.dim = self.labelCPU.dim ∧
      s1.phase = self.phase ∧ s1.batch_size = self.batch_size ∧ s1.counter = self.counter ∧
      s1.epoch = self.epoch ∧
      ∀ i, i < n → ∃ s, v[i]? = some s ∧ s < n ∧ s1.dataCPU.item i = self.dataCPU.item s ∧
        s1.labelCPU.item i = self.labelCPU.item s := by
  have hd' := hd
  have hl' := hl
  obtain ⟨d0, rest, mem, hdim, h0, hmax, hn, hmem, hfit, hlen⟩ := hd'
  obtain ⟨l0, lrest, lmem, hldim, hl0, hlmax, hln, _, _, _⟩ := hl'
  have hsz : toSizeT d0 = n := by
    unfold toSizeT; unfold INT_MAX at hmax; omega
  have hlsz : toSizeT l0 = n := by
    unfold toSizeT; unfold INT_MAX at hlmax; omega
  have hperm : (randperm S n self.rng).1.Perm (List.range n) := S.perm _ _
  obtain ⟨_, hb⟩ := perm_range_bounds _ n hperm
  obtain ⟨t1, ht1, hit1⟩ := Tensor.permute_ok self.dataCPU n _ hd hb
  obtain ⟨t2, ht2, hit2⟩ := Tensor.permute_ok self.labelCPU n _ hl hb
  obtain ⟨_, hd1, d0', rest', hdim', _, hitem1⟩ := Tensor.permute_post _ t1 _ ht1
  obtain ⟨_, hd2, l0', lrest', hldim', _, hitem2⟩ := Tensor.permute_post _ t2 _ ht2
  rw [hdim] at hdim'
  rw [hldim] at hldim'
  simp only [List.cons.injEq] at hdim' hldim'
  refine ⟨{ self with dataCPU := t1, labelCPU := t2, rng := (randperm S n self.rng).2 },
    (randperm S n self.rng).1, ?_, hperm, hit1, hit2, hd1, hd2, rfl, rfl, rfl, rfl, ?_⟩
  · unfold MemoryDataLayer.shuffle
    rw [hdim]
    dsimp only
    rw [hsz, ht1, ht2]
    rfl
  · intro i hi
    obtain ⟨s, hs, hsn⟩ := hb i hi
    obtain ⟨s1, hs1, e1⟩ := hitem1 i (by rw [← hdim'.1, hsz]; exact hi)
    obtain ⟨s2, hs2, e2⟩ := hitem2 i (by rw [← hldim'.1, hlsz]; exact hi)
    rw [hs] at hs1 hs2
    simp only [Option.some.injEq] at hs1 hs2
    subst hs1; subst hs2
    exact ⟨s, hs, hsn, e1, e2⟩

/-- Any number of shuffles: the result pairs data and labels as they were paired at the
start. -/
theorem MemoryDataLayer.shuffles_ok {R : Type} (S : Shuffler R) (self : MemoryDataHost R)
    (n : Nat) (hd : self.dataCPU.itemized n) (hl : self.labelCPU.itemized n) :
    ∀ k, ∃ (s1 : MemoryDataHost R) (σ : List Nat),
      MemoryDataLayer.shuffles S k self = .ok s1 ∧ σ.Perm (List.range n) ∧
      s1.dataCPU.itemized n ∧ s1.labelCPU.itemized n ∧
      ∀ i, i < n → ∃ s, σ[i]? = some s ∧ s < n ∧ s1.dataCPU.item i = self.dataCPU.item s ∧
        s1.labelCPU.item i = self.labelCPU.item s := by
  intro k
  induction k with
  | zero =>
    refine ⟨self, List.range n, rfl, List.Perm.refl _, hd, hl, fun i hi => ?_⟩
    exact ⟨i, List.getElem?_range hi, hi, rfl, rfl⟩
  | succ k ih =>
    obtain ⟨sk, σ, hk, hσ, hdk, hlk, hitems⟩ := ih
    obtain ⟨s1, v, h1, hv, hd1, hl1, _, _, _, _, _, _, hitems1⟩ :=
      MemoryDataLayer.shuffle_ok S sk n hdk hlk
    obtain ⟨hσlen, _⟩ := perm_range_bounds σ n hσ
    refine ⟨s1, v.map (fun j => σ.getD j 0), ?_, ?_, hd1, hl1, ?_⟩
    · simp only [MemoryDataLayer.shuffles, hk, Outcome.bind]
      exact h1
    · have h2 : (v.map fun j => σ.getD j 0).Perm ((List.range n).map fun j => σ.getD j 0) :=
        hv.map _
      have h3 : ((List.range n).map fun j => σ.getD j 0) = σ := by
        apply List.ext_getElem
        · simp [hσlen]
        · intro i hi1 hi2
          simp [List.getD_eq_getElem?_getD, List.getElem?_eq_getElem hi2]
      rw [h3] at h2
      exact h2.trans hσ
    · intro i hi
      obtain ⟨j, hj, hjn, e1, e2⟩ := hitems1 i hi
      obtain ⟨s, hs, hsn, e3, e4⟩ := hitems j hjn
      refine ⟨s, ?_, hsn, e1.trans e3, e2.trans e4⟩
      rw [List.getElem?_map, hj]
      simp [List.getD_eq_getElem?_getD, hs]

/-- **C22.** `Tensor::permute(v)` leaves name and shape as they are and makes item `i` of the
result the item `v[i]` of the original, for every `i < dim[0]`; for a permutation `v` of
`0, ..., n - 1` on a tensor whose block holds its `n` items it returns, and the items of the
result are the items of the original in another order. `MemoryDataLayer::shuffle` applies one
and the same permutation to the data and to the labels, so after any number of shuffles the
label at index `i` is the label that belonged to the data item that is now at index `i`. -/
theorem Tensor.permute_shuffle {R : Type} (S : Shuffler R) :
    (∀ (self t1 : Tensor) (v : List Nat), self.permute v = .ok t1 →
      t1.name = self.name ∧ t1.dim = self.dim ∧
      ∃ (d0 : Int) (rest : List Int), self.dim = d0 :: rest ∧
        ∀ i, i < toSizeT d0 → ∃ s, v[i]? = some s ∧ t1.item i = self.item s)
    ∧ (∀ (self : Tensor) (n : Nat) (v : List Nat), self.itemized n → v.Perm (List.range n) →
        ∃ t1, self.permute v = .ok t1 ∧
          ((List.range n).map t1.item).Perm ((List.range n).map self.item))
    ∧ (∀ (self : MemoryDataHost R) (n k : Nat), self.dataCPU.itemized n →
        self.labelCPU.itemized n →
        ∃ (s1 : MemoryDataHost R) (σ : List Nat),
          MemoryDataLayer.shuffles S k self = .ok s1 ∧ σ.Perm (List.range n) ∧
          ∀ i, i < n → ∃ s, σ[i]? = some s ∧ s < n ∧
            s1.dataCPU.item i = self.dataCPU.item s ∧
            s1.labelCPU.item i = self.labelCPU.item s) := by
  refine ⟨?_, ?_, ?_⟩
  · intro self t1 v h
    obtain ⟨h1, h2, d0, rest, h3, _, h4⟩ := Tensor.permute_post self t1 v h
    exact ⟨h1, h2, d0, rest, h3, h4⟩
  · intro self n v hit hv
    obtain ⟨hvlen, hb⟩ := perm_range_bounds v n hv
    obtain ⟨t1, ht1, _⟩ := Tensor.permute_ok self n v hit hb
    refine ⟨t1, ht1, ?_⟩
    obtain ⟨_, _, d0, rest, hdim, _, hitem⟩ := Tensor.permute_post self t1 v ht1
    obtain ⟨d0', rest', mem, hdim', h0, hmax, hn, _⟩ := hit
    rw [hdim] at hdim'
    simp only [List.cons.injEq] at hdim'
    have hsz : toSizeT d0 = n := by
      rw [hdim'.1]; unfold toSizeT; unfold INT_MAX at hmax; omega
    have h1 : (List.range n).map t1.item = v.map self.item := by
      apply List.ext_getElem
      · simp [hvlen]
      · intro i hi1 hi2
        simp only [List.length_map, List.length_range] at hi1
        obtain ⟨s, hs, e⟩ := hitem i (by omega)
        simp only [List.getElem_map, List.getElem_range]
        rw [e]
        congr 1
        have := List.getElem?_eq_getElem (show i < v.length by omega)
        rw [hs] at this
        exact (Option.some.inj this)
    rw [h1]
    exact hv.map _
  · intro self n k hd hl
    obtain ⟨s1, σ, h1, h2, _, _, h3⟩ := MemoryDataLayer.shuffles_ok S self n hd hl k
    exact ⟨s1, σ, h1, h2, h3⟩

theorem exampleMemoryData_itemized (phase : Phase) :
    (exampleMemoryData phase).dataCPU.itemized 4 ∧ (exampleMemoryData phase).labelCPU.itemized 4 :=
  ⟨⟨4, [2], [10, 11, 20, 21, 30, 31, 40, 41], rfl, by decide, by decide, by decide, rfl,
      by show 4 * sizeofitem [4, 2] ≤ 8; decide, by decide⟩,
   ⟨4, [1], [0, 1, 2, 3], rfl, by decide, by decide, by decide, rfl,
      by show 4 * sizeofitem [4, 1] ≤ 4; decide, by decide⟩⟩

/-- Witness of **C22**: four items with the labels `0, 1, 2, 3`, shuffled three times by a
generator that reverses. -/
theorem Tensor.permute_shuffle_witness :
    ∃ (s1 : MemoryDataHost Unit) (σ : List Nat),
      MemoryDataLayer.shuffles reverseShuffler 3 (exampleMemoryData .Training) = .ok s1 ∧
      σ.Perm (List.range 4) ∧
      ∀ i, i < 4 → ∃ s, σ[i]? = some s ∧ s < 4 ∧
        s1.dataCPU.item i = (exampleMemoryData .Training).dataCPU.item s ∧
        s1.labelCPU.item i = (exampleMemoryData .Training).labelCPU.item s :=
  (Tensor.permute_shuffle reverseShuffler).2.2 (exampleMemoryData .Training) 4 3
    (exampleMemoryData_itemized .Training).1 (exampleMemoryData_itemized .Training).2

/-! ## Serving batches -/

theorem MemoryDataLayer.copyBatch_ok (t : Tensor) (c bs : Int) (mem : List Nat)
    (hmem : t.CPUmem = some mem) (hc : 0 ≤ c) (hb : 0 ≤ bs) (hc2 : c ≤ INT_MAX)
    (hb2 : bs ≤ INT_MAX) (hfit : (c + bs).toNat * sizeofitem t.dim ≤ mem.length)
    (hlen : mem.length * sizeofStorageT < 2 ^ 64) :
    MemoryDataLayer.copyBatch t c bs
      = .ok ((mem.drop (c.toNat * sizeofitem t.dim)).take (bs.toNat * sizeofitem t.dim)) := by
  have hsum : (c + bs).toNat * sizeofitem t.dim
      = c.toNat * sizeofitem t.dim + bs.toNat * sizeofitem t.dim := by
    rw [Int.toNat_add hc hb, Nat.add_mul]
  have h2 : mem.length * 2 < 2 ^ 64 := hlen
  unfold INT_MAX at hc2 hb2
  have hcs : toSizeT c = c.toNat := by unfold toSizeT; omega
  have hbs : toSizeT bs = bs.toNat := by unfold toSizeT; omega
  unfold MemoryDataLayer.copyBatch
  rw [hmem]
  dsimp only
  rw [hcs, hbs, Nat.mod_eq_of_lt (show c.toNat * sizeofitem t.dim < 2 ^ 64 by omega),
    Nat.mod_eq_of_lt (show bs.toNat * sizeofitem t.dim < 2 ^ 64 by omega)]
  have h3 : (bs.toNat * sizeofitem t.dim * sizeofStorageT) % 2 ^ 64 / sizeofStorageT
      = bs.toNat * sizeofitem t.dim := by
    unfold sizeofStorageT
    omega
  rw [h3, if_neg (by omega)]

/-- One `forward` of a layer in the `Testing` phase: it serves the batch that starts at
`counter`, and it increments `epoch` and goes back to the start exactly when this batch
reaches the end of the data. -/
theorem MemoryDataLayer.forward_Testing {R : Type} (S : Shuffler R) (self : MemoryDataHost R)
    (n : Int) (rest : List Int) (dmem lmem : List Nat)
    (hph : self.phase = .Testing) (hdim : self.dataCPU.dim = n :: rest)
    (hdmem : self.dataCPU.CPUmem = some dmem) (hlmem : self.labelCPU.CPUmem = some lmem)
    (hc : 0 ≤ self.counter) (hb : 1 ≤ self.batch_size)
    (hsum : self.counter + self.batch_size ≤ INT_MAX)
    (he : INT_MIN ≤ self.epoch ∧ self.epoch < INT_MAX)
    (hdfit : (self.counter + self.batch_size).toNat * sizeofitem self.dataCPU.dim ≤ dmem.length)
    (hlfit : (self.counter + self.batch_size).toNat * sizeofitem self.labelCPU.dim
      ≤ lmem.length)
    (hdlen : dmem.length * sizeofStorageT < 2 ^ 64)
    (hllen : lmem.length * sizeofStorageT < 2 ^ 64) :
    ∃ (label data : List Nat),
      MemoryDataLayer.forward S self
        = .ok ({ self with
                 epoch := if self.counter + self.batch_size ≥ n then self.epoch + 1
                          else self.epoch,
                 counter := if self.counter + self.batch_size ≥ n then 0
                            else self.counter + self.batch_size },
               self.counter, label, data) := by
  have hI : intResult (self.counter + self.batch_size) = .ok (self.counter + self.batch_size) := by
    unfold intResult; rw [if_pos (by unfold INT_MIN; omega)]
  have hE : intResult (self.epoch + 1) = .ok (self.epoch + 1) := by
    unfold intResult; rw [if_pos (by unfold INT_MIN INT_MAX at *; omega)]
  have hcl := MemoryDataLayer.copyBatch_ok self.labelCPU self.counter self.batch_size lmem hlmem
    hc (by omega) (by omega) (by omega) hlfit hllen
  have hcd := MemoryDataLayer.copyBatch_ok self.dataCPU self.counter self.batch_size dmem hdmem
    hc (by omega) (by omega) (by omega) hdfit hdlen
  unfold MemoryDataLayer.forward
  rw [hdim]
  dsimp only
  rw [hI]
  simp only [Outcome.bind]
  by_cases hwrap : self.counter + self.batch_size ≥ n
  · rw [if_pos hwrap, hE]
    simp only [hph, ne_eq, not_true_eq_false, if_false, hcl, hcd, hI, hdim, if_pos hwrap]
    exact ⟨_, _, rfl⟩
  · rw [if_neg hwrap]
    simp only [hcl, hcd, hI, hdim, if_neg hwrap]
    exact ⟨_, _, rfl⟩
theorem ceil_div_bounds (N b : Nat) (hN : 1 ≤ N) (hb : 1 ≤ b) :
    1 ≤ (N + b - 1) / b ∧ ((N + b - 1) / b - 1) * b < N ∧ N ≤ (N + b - 1) / b * b := by
  have h1 := Nat.div_add_mod (N + b - 1) b
  have h2 := Nat.mod_lt (N + b - 1) (show 0 < b by omega)
  have h3 : 1 ≤ (N + b - 1) / b := Nat.div_pos (by omega) (by omega)
  have h4 : b * ((N + b - 1) / b) = (N + b - 1) / b * b := Nat.mul_comm _ _
  have h5 : ((N + b - 1) / b - 1) * b = (N + b - 1) / b * b - b := by
    rw [Nat.sub_mul, Nat.one_mul]
  refine ⟨h3, ?_, ?_⟩
  · have : b ≤ (N + b - 1) / b * b := Nat.le_mul_of_pos_left b h3
    omega
  · omega

/-- A pass over the data in the `Testing` phase, from the call that serves the batch with
number `j` to the call that serves the last batch. -/
theorem MemoryDataLayer.forwards_Testing {R : Type} (S : Shuffler R) (self : MemoryDataHost R)
    (N b : Nat) (rest : List Int) (dmem lmem : List Nat) (e : Int)
    (hph : self.phase = .Testing) (hdim : self.dataCPU.dim = (N : Int) :: rest)
    (hdmem : self.dataCPU.CPUmem = some dmem) (hlmem : self.labelCPU.CPUmem = some lmem)
    (hN : 1 ≤ N) (hb : 1 ≤ b) (hbs : self.batch_size = (b : Int))
    (hmax : ((N + b : Nat) : Int) ≤ INT_MAX) (he : INT_MIN ≤ e ∧ e < INT_MAX)
    (hdfit : (N + b - 1) / b * b * sizeofitem self.dataCPU.dim ≤ dmem.length)
    (hlfit : (N + b - 1) / b * b * sizeofitem self.labelCPU.dim ≤ lmem.length)
    (hdlen : dmem.length * sizeofStorageT < 2 ^ 64)
    (hllen : lmem.length * sizeofStorageT < 2 ^ 64) :
    ∀ r j, j + r = (N + b - 1) / b → 1 ≤ r →
      MemoryDataLayer.forwards S r { self with counter := ((j * b : Nat) : Int), epoch := e }
        = .ok ({ self with counter := 0, epoch := e + 1 },
               (List.range' j r).map fun i =>
                 (((i * b : Nat) : Int), if i + 1 = (N + b - 1) / b then e + 1 else e)) := by
  obtain ⟨hm1, hlast, hcov⟩ := ceil_div_bounds N b hN hb
  intro r
  induction r with
  | zero => intro j _ h; omega
  | succ r ih =>
    intro j hj _
    have hjb : (j + 1) * b ≤ (N + b - 1) / b * b := Nat.mul_le_mul_right b (by omega)
    have hjb2 : (j + 1) * b = j * b + b := by ring
    have hfitd : (((j * b : Nat) : Int) + (b : Int)).toNat * sizeofitem self.dataCPU.dim
        ≤ dmem.length := by
      have : (((j * b : Nat) : Int) + (b : Int)).toNat = (j + 1) * b := by omega
      rw [this]
      exact le_trans (Nat.mul_le_mul_right _ hjb) hdfit
    have hfitl : (((j * b : Nat) : Int) + (b : Int)).toNat * sizeofitem self.labelCPU.dim
        ≤ lmem.length := by
      have : (((j * b : Nat) : Int) + (b : Int)).toNat = (j + 1) * b := by omega
      rw [this]
      exact le_trans (Nat.mul_le_mul_right _ hjb) hlfit
    have hmb : (N + b - 1) / b * b < N + b := by
      have h1 := Nat.div_mul_le_self (N + b - 1) b
      omega
    obtain ⟨label, data, hstep⟩ := MemoryDataLayer.forward_Testing S
      { self with counter := ((j * b : Nat) : Int), epoch := e } (N : Int) rest dmem lmem
      hph hdim hdmem hlmem (Int.natCast_nonneg _) (by show 1 ≤ self.batch_size; omega)
      (by show ((j * b : Nat) : Int) + self.batch_size ≤ INT_MAX
          unfold INT_MAX at *; omega) he
      (by show (((j * b : Nat) : Int) + self.batch_size).toNat * _ ≤ _
          rw [hbs]; exact hfitd)
      (by show (((j * b : Nat) : Int) + self.batch_size).toNat * _ ≤ _
          rw [hbs]; exact hfitl) hdlen hllen
    dsimp only at hstep
    rw [MemoryDataLayer.forwards, hstep]
    simp only [Outcome.bind]
    by_cases hr : r = 0
    · subst hr
      have hjm : j + 1 = (N + b - 1) / b := by omega
      have hwrap : ((j * b : Nat) : Int) + self.batch_size ≥ (N : Int) := by
        have : N ≤ (j + 1) * b := by rw [hjm]; exact hcov
        omega
      simp only [if_pos hwrap, MemoryDataLayer.forwards, Nat.zero_add, List.range'_one,
        List.map_cons, List.map_nil, if_pos hjm]
    · have hjm : ¬ j + 1 = (N + b - 1) / b := by omega
      have hnowrap : ¬ ((j * b : Nat) : Int) + self.batch_size ≥ (N : Int) := by
        have h1 : (j + 1) * b ≤ ((N + b - 1) / b - 1) * b := Nat.mul_le_mul_right b (by omega)
        omega
      simp only [if_neg hnowrap]
      have hih := ih (j + 1) (by omega) (by omega)
      have hcnt : ((j * b : Nat) : Int) + self.batch_size = (((j + 1) * b : Nat) : Int) := by
        rw [hjb2, hbs]; push_cast; ring
      rw [hcnt, hih]
      simp only [List.range'_succ j, List.map_cons, if_neg hjm]

theorem MemoryDataLayer.shuffle_fields {R : Type} (S : Shuffler R) (self s1 : MemoryDataHost R)
    (h : MemoryDataLayer.shuffle S self = .ok s1) :
    s1.epoch = self.epoch ∧ s1.counter = self.counter ∧ s1.batch_size = self.batch_size ∧
    s1.phase = self.phase := by
  unfold MemoryDataLayer.shuffle at h
  split at h
  · exact absurd h (by simp)
  · dsimp only at h
    obtain ⟨d, _, h⟩ := Outcome.of_bind_ok h
    obtain ⟨l, _, h⟩ := Outcome.of_bind_ok h
    simp only [Outcome.ok.injEq] at h
    rw [← h]
    exact ⟨rfl, rfl, rfl, rfl⟩

/-- One `forward` of a layer that is not in the `Testing` phase, when the batch at `counter`
reaches the end of the data: the call increments `epoch`, and it serves the batch that starts
at 0 (of the reshuffled data), not the batch at `counter`. -/
theorem MemoryDataLayer.forward_reshuffles {R : Type} (S : Shuffler R)
    (self s1 : MemoryDataHost R) (n : Int) (rest : List Int) (start : Int)
    (label data : List Nat) (hph : self.phase ≠ .Testing)
    (hdim : self.dataCPU.dim = n :: rest) (hwrap : self.counter + self.batch_size ≥ n)
    (h : MemoryDataLayer.forward S self = .ok (s1, start, label, data)) :
    start = 0 ∧ s1.epoch = self.epoch + 1 := by
  unfold MemoryDataLayer.forward at h
  rw [hdim] at h
  dsimp only at h
  obtain ⟨next, hnext, h⟩ := Outcome.of_bind_ok h
  have hn : next = self.counter + self.batch_size := intResult_ok _ _ hnext
  rw [if_pos (by rw [hn]; exact hwrap)] at h
  obtain ⟨s, hs, h⟩ := Outcome.of_bind_ok h
  obtain ⟨e, he, hs⟩ := Outcome.of_bind_ok hs
  have he1 : e = self.epoch + 1 := intResult_ok _ _ he
  rw [if_pos hph] at hs
  obtain ⟨s0, hs0, hs⟩ := Outcome.of_bind_ok hs
  obtain ⟨hf1, _, _, _⟩ := MemoryDataLayer.shuffle_fields S _ s0 hs0
  simp only [Outcome.ok.injEq] at hs
  obtain ⟨lab, _, h⟩ := Outcome.of_bind_ok h
  obtain ⟨dat, _, h⟩ := Outcome.of_bind_ok h
  obtain ⟨c, _, h⟩ := Outcome.of_bind_ok h
  split at h
  · exact absurd h (by simp)
  · simp only [Outcome.ok.injEq, Prod.mk.injEq] at h
    rw [← h.1, ← h.2.1, ← hs]
    exact ⟨rfl, by show s0.epoch = _; rw [hf1, he1]⟩

/-- Counterexample to **C23** as stated: four items, batches of two, a layer in the `Training`
phase. The first call serves the items 0 and 1; every later call finds
`counter + batch_size >= 4`, increments `epoch`, reshuffles and serves the items 0 and 1
again. The items at the indices 2 and 3 are not served between two increments of `epoch`. -/
theorem MemoryDataLayer.forward_Training_skips :
    ((MemoryDataLayer.forwards reverseShuffler 3 (exampleMemoryData .Training)).bind fun r =>
        .ok (r.2, r.1.counter, r.1.epoch))
      = .ok ([(0, 0), (0, 1), (0, 2)], 2, 2) := by
  decide

/-- **C23, amended.** In the `Testing` phase, for every number of items `N >= 1` and every
`batch_size >= 1`, a pass of `ceil(N / batch_size)` calls of `forward` from `counter = 0`
serves the batches that start at `0, batch_size, 2 * batch_size, ...`, which cover every item
index `0, ..., N - 1`; `epoch` is incremented exactly once, by the last call of the pass, and
`counter` is 0 again afterwards. In the other phases the call for which
`counter + batch_size >= N` increments `epoch`, reshuffles and serves the batch that starts
at 0 instead of the batch at `counter`, so the items from `counter` on are not served in that
pass. -/
theorem MemoryDataLayer.forward_epoch {R : Type} (S : Shuffler R) (self : MemoryDataHost R)
    (N b : Nat) (rest : List Int) (dmem lmem : List Nat) (e : Int)
    (hdim : self.dataCPU.dim = (N : Int) :: rest)
    (hdmem : self.dataCPU.CPUmem = some dmem) (hlmem : self.labelCPU.CPUmem = some lmem)
    (hN : 1 ≤ N) (hb : 1 ≤ b) (hbs : self.batch_size = (b : Int))
    (hmax : ((N + b : Nat) : Int) ≤ INT_MAX) (he : INT_MIN ≤ e ∧ e < INT_MAX)
    (hdfit : (N + b - 1) / b * b * sizeofitem self.dataCPU.dim ≤ dmem.length)
    (hlfit : (N + b - 1) / b * b * sizeofitem self.labelCPU.dim ≤ lmem.length)
    (hdlen : dmem.length * sizeofStorageT < 2 ^ 64)
    (hllen : lmem.length * sizeofStorageT < 2 ^ 64) :
    (self.phase = .Testing →
      MemoryDataLayer.forwards S ((N + b - 1) / b) { self with counter := 0, epoch := e }
        = .ok ({ self with counter := 0, epoch := e + 1 },
               (List.range ((N + b - 1) / b)).map fun j =>
                 (((j * b : Nat) : Int), if j + 1 = (N + b - 1) / b then e + 1 else e)))
    ∧ (∀ i, i < N → ∃ j, j < (N + b - 1) / b ∧ j * b ≤ i ∧ i < j * b + b)
    ∧ (∀ (s1 : MemoryDataHost R) (start : Int) (label data : List Nat),
        self.phase ≠ .Testing → self.counter + self.batch_size ≥ (N : Int) →
        MemoryDataLayer.forward S self = .ok (s1, start, label, data) →
        start = 0 ∧ s1.epoch = self.epoch + 1) := by
  obtain ⟨hm1, hlast, hcov⟩ := ceil_div_bounds N b hN hb
  refine ⟨?_, ?_, ?_⟩
  · intro hph
    have h := MemoryDataLayer.forwards_Testing S self N b rest dmem lmem e hph hdim hdmem hlmem
      hN hb hbs hmax he hdfit hlfit hdlen hllen ((N + b - 1) / b) 0 (by omega) hm1
    simp only [Nat.zero_mul, Nat.cast_zero] at h
    rw [List.range_eq_range']
    exact h
  · intro i hi
    have h1 := Nat.div_add_mod i b
    have h2 := Nat.mod_lt i (show 0 < b by omega)
    have h3 : b * (i / b) = i / b * b := Nat.mul_comm _ _
    refine ⟨i / b, ?_, by omega, by omega⟩
    apply Nat.div_lt_of_lt_mul
    rw [Nat.mul_comm]
    omega
  · intro s1 start label data hph hwrap h
    exact MemoryDataLayer.forward_reshuffles S self s1 (N : Int) rest start label data hph hdim
      hwrap h

/-- Witness of **C23, amended**: four items in batches of two in the `Testing` phase; the
pass has two calls, the second increments `epoch`. -/
theorem MemoryDataLayer.forward_epoch_witness :
    MemoryDataLayer.forwards reverseShuffler 2 (exampleMemoryData .Testing)
      = .ok ({ exampleMemoryData .Testing with counter := 0, epoch := 1 }, [(0, 0), (2, 1)]) :=
  (MemoryDataLayer.forward_epoch reverseShuffler (exampleMemoryData .Testing) 4 2 [2]
    [10, 11, 20, 21, 30, 31, 40, 41] [0, 1, 2, 3] 0 rfl rfl rfl (by decide) (by decide) rfl
    (by decide) (by decide) (by decide) (by decide) (by decide) (by decide)).1 rfl

/-! ## Building a net from a description -/

theorem mem_firstReferences (names : List String) (m : String) :
    m ∈ firstReferences names ↔ m ∈ names := by
  induction names with
  | nil => simp [firstReferences]
  | cons n rest ih =>
    simp only [firstReferences, List.mem_cons, List.mem_filter, ih, bne_iff_ne, ne_eq]
    by_cases h : m = n
    · simp [h]
    · simp [h]

theorem nodup_firstReferences (names : List String) : (firstReferences names).Nodup := by
  induction names with
  | nil => simp [firstReferences]
  | cons n rest ih =>
    simp only [firstReferences, List.nodup_cons, List.mem_filter, bne_iff_ne, ne_eq,
      not_true_eq_false, and_false, not_false_eq_true, true_and]
    exact ih.filter _

theorem firstReferences_append (xs ys : List String) :
    firstReferences (xs ++ ys)
      = firstReferences xs ++ (firstReferences ys).filter (fun m => decide (m ∉ xs)) := by
  induction xs with
  | nil => simp [firstReferences]
  | cons x xs ih =>
    have hc : (x :: xs) ++ ys = x :: (xs ++ ys) := rfl
    rw [hc]
    simp only [firstReferences]
    rw [ih, List.filter_append, List.filter_filter, List.cons_append]
    congr 2
    apply List.filter_congr
    intro m _
    by_cases h : m = x <;> simp [h]

theorem Net.getResponseFrom_none {V : Type} (name : String) (rs : List (Response V)) (k : Nat) :
    Net.getResponseFrom name rs k = none ↔ name ∉ rs.map (fun r => r.name) := by
  induction rs generalizing k with
  | nil => simp [Net.getResponseFrom]
  | cons r rs ih =>
    simp only [Net.getResponseFrom, List.map_cons, List.mem_cons, not_or]
    by_cases h : r.name = name
    · simp [h]
    · rw [if_neg h, ih]
      constructor
      · intro h2; exact ⟨fun h3 => h h3.symm, h2⟩
      · intro h2; exact h2.2

theorem Net.getResponseFrom_some {V : Type} (name : String) (rs : List (Response V))
    (k j : Nat) (h : Net.getResponseFrom name rs k = some j) :
    ∃ (i : Nat) (r : Response V), j = k + i ∧ rs[i]? = some r ∧ r.name = name := by
  induction rs generalizing k with
  | nil => simp [Net.getResponseFrom] at h
  | cons r rs ih =>
    simp only [Net.getResponseFrom] at h
    by_cases hn : r.name = name
    · rw [if_pos hn] at h
      simp only [Option.some.injEq] at h
      exact ⟨0, r, by omega, List.getElem?_cons_zero, hn⟩
    · rw [if_neg hn] at h
      obtain ⟨i, r1, hj, hr, hname⟩ := ih (k + 1) h
      exact ⟨i + 1, r1, by omega, by simpa using hr, hname⟩

theorem referredNames_append {V : Type} (rs ext : List (Response V)) (refs : List Nat)
    (names : List String) (h : referredNames rs refs = names.map some) :
    referredNames (rs ++ ext) refs = names.map some := by
  rw [← h]
  unfold referredNames
  apply List.map_congr_left
  intro r hr
  have hr1 : ((rs[r]?).map fun response => response.name) ∈ referredNames rs refs :=
    List.mem_map_of_mem _ hr
  rw [h] at hr1
  obtain ⟨n, _, hn⟩ := List.mem_map.mp hr1
  have hlt : r < rs.length := by
    by_contra hc
    rw [List.getElem?_eq_none (by omega)] at hn
    simp at hn
  rw [List.getElem?_append_left hlt]
/-- What the loop over the names of `out` (or `in`) does: the responses of the net are
extended by the names that are new, each once and in the order of their first occurrence, and
the layer's list is extended by one pointer per name, in the order of the names, each to the
response with that name. -/
theorem Net.wire_spec {V : Type} (created : Bool) :
    ∀ (names : List String) (rs : List (Response V)) (refs : List Nat)
      (rs1 : List (Response V)) (refs1 : List Nat),
      Net.wire created names rs refs = .ok (rs1, refs1) →
      rs1.map (fun r => r.name)
        = rs.map (fun r => r.name)
          ++ (firstReferences names).filter (fun m => decide (m ∉ rs.map (fun r => r.name)))
      ∧ (∃ ext, rs1 = rs ++ ext)
      ∧ ∃ js, refs1 = refs ++ js ∧ referredNames rs1 js = names.map some := by
  intro names
  induction names with
  | nil =>
    intro rs refs rs1 refs1 h
    simp only [Net.wire, Outcome.ok.injEq, Prod.mk.injEq] at h
    rw [← h.1, ← h.2]
    exact ⟨by simp [firstReferences], ⟨[], by simp⟩, [], by simp, rfl⟩
  | cons name rest ih =>
    intro rs refs rs1 refs1 h
    rw [Net.wire] at h
    cases hg : Net.getResponse rs name with
    | some r =>
      simp only [hg] at h
      obtain ⟨hnames, ⟨ext, hext⟩, js, hjs, hrefd⟩ := ih rs (refs ++ [r]) rs1 refs1 h
      obtain ⟨i, resp, hi, hresp, hname⟩ := Net.getResponseFrom_some name rs 0 r hg
      have hmem : name ∈ rs.map (fun r => r.name) :=
        List.mem_map.mpr ⟨resp, List.getElem?_mem hresp, hname⟩
      refine ⟨?_, ⟨ext, hext⟩, r :: js, by rw [hjs]; simp, ?_⟩
      · rw [hnames]
        congr 1
        simp only [firstReferences]
        rw [List.filter_cons_of_neg (by simpa using hmem), List.filter_filter]
        apply List.filter_congr
        intro m _
        by_cases hm : m = name
        · subst hm; simp [hmem]
        · simp [hm]
      · simp only [referredNames, List.map_cons] at hrefd ⊢
        rw [hrefd]
        congr 1
        have hr0 : r = i := by omega
        have hlt : i < rs.length := by
          by_contra hc
          rw [List.getElem?_eq_none (by omega)] at hresp
          exact absurd hresp (by simp)
        rw [hext, hr0, List.getElem?_append_left hlt, hresp]
        simp [hname]
    | none =>
      simp only [hg] at h
      by_cases hcr : created = true
      · rw [if_pos hcr] at h
        obtain ⟨hnames, ⟨ext, hext⟩, js, hjs, hrefd⟩ :=
          ih (rs ++ [{ name := name }]) (refs ++ [rs.length]) rs1 refs1 h
        have hnot : name ∉ rs.map (fun r => r.name) :=
          (Net.getResponseFrom_none name rs 0).mp hg
        refine ⟨?_, ⟨{ name := name } :: ext, by rw [hext]; simp⟩, rs.length :: js,
          by rw [hjs]; simp, ?_⟩
        · rw [hnames]
          simp only [List.map_append, List.map_cons, List.map_nil, List.append_assoc,
            List.singleton_append, firstReferences]
          congr 1
          rw [List.filter_cons_of_pos (by simpa using hnot), List.filter_filter]
          congr 1
          apply List.filter_congr
          intro m _
          by_cases hm : m = name <;> simp [hm]
        · simp only [referredNames, List.map_cons] at hrefd ⊢
          rw [hrefd]
          congr 1
          rw [hext, List.append_assoc, List.getElem?_append_right (Nat.le_refl _)]
          simp
      · rw [if_neg hcr] at h
        exact absurd h (by simp)

theorem filter_notMem_firstReferences (prev names : List String) :
    names.filter (fun m => decide (m ∉ firstReferences prev))
      = names.filter (fun m => decide (m ∉ prev)) := by
  apply List.filter_congr
  intro m _
  simp only [mem_firstReferences]

/-- The loop of `Net::init`, from a net that is wired as the part `done` of the description
says. -/
theorem Net.initLoop_spec {V : Type} (ctor : LayerDescription → Outcome (Layer V))
    (created : Bool)
    (hctor : ∀ p layer, ctor p = .ok layer → layer.in_ = [] ∧ layer.out = []) :
    ∀ (todo done : List LayerDescription) (net net1 : Net (Layer V) V),
      net.responses.map (fun r => r.name) = firstReferences (referencedNames done) →
      List.Forall₂ (wiredAs net.responses) done net.layers →
      Net.initLoop ctor created todo net = .ok net1 →
      net1.responses.map (fun r => r.name) = firstReferences (referencedNames (done ++ todo)) ∧
      List.Forall₂ (wiredAs net1.responses) (done ++ todo) net1.layers := by
  intro todo
  induction todo with
  | nil =>
    intro done net net1 hn hw h
    simp only [Net.initLoop, Outcome.ok.injEq] at h
    rw [← h, List.append_nil]
    exact ⟨hn, hw⟩
  | cons p rest ih =>
    intro done net net1 hn hw h
    rw [Net.initLoop] at h
    split_ifs at h with hty
    obtain ⟨pLayer, hp, h⟩ := Outcome.of_bind_ok h
    obtain ⟨o, ho, h⟩ := Outcome.of_bind_ok h
    obtain ⟨i, hi, h⟩ := Outcome.of_bind_ok h
    obtain ⟨hin, hout⟩ := hctor p pLayer hp
    obtain ⟨hnA, ⟨extA, hextA⟩, jsA, hjsA, hrefA⟩ :=
      Net.wire_spec created _ _ _ o.1 o.2 ho
    obtain ⟨hnB, ⟨extB, hextB⟩, jsB, hjsB, hrefB⟩ :=
      Net.wire_spec created _ _ _ i.1 i.2 hi
    rw [hout, List.nil_append] at hjsA
    rw [hin, List.nil_append] at hjsB
    have hdone : done ++ p :: rest = (done ++ [p]) ++ rest := by simp
    rw [hdone]
    apply ih (done ++ [p]) _ net1 _ _ h
    · show i.1.map (fun r => r.name) = _
      have href : referencedNames (done ++ [p])
          = (referencedNames done ++ p.out.getD []) ++ p.in_.getD [] := by
        simp [referencedNames, List.flatMap_append]
      have hA : o.1.map (fun r => r.name)
          = firstReferences (referencedNames done ++ p.out.getD []) := by
        rw [hnA, hn, firstReferences_append, filter_notMem_firstReferences]
      rw [hnB, hA, href, firstReferences_append (referencedNames done ++ p.out.getD []),
        filter_notMem_firstReferences]
    · show List.Forall₂ (wiredAs i.1) (done ++ [p]) (net.layers ++ [_])
      apply List.rel_append
      · apply hw.imp
        intro q layer hq
        rw [hextB, hextA, List.append_assoc]
        exact ⟨referredNames_append _ _ _ _ hq.1, referredNames_append _ _ _ _ hq.2⟩
      · refine List.Forall₂.cons ⟨?_, ?_⟩ List.Forall₂.nil
        · show referredNames i.1 o.2 = _
          rw [hextB, hjsA]
          exact referredNames_append _ _ _ _ hrefA
        · show referredNames i.1 i.2 = _
          rw [hjsB]
          exact hrefB

/-- **C21.** When `Net::init` returns, no two Edges of the net have the same name; the Edges
are, in this order, the names that the description refers to in the lists `out` and `in` of
its layer objects, each name once, at the place of its first reference; so every name that
occurs has exactly one Edge. The net has one layer per layer object, and the lists `out` and
`in` of each layer point to the Edges with the names listed in the description, in the order
in which they are listed. -/
theorem Net.init_edges {V : Type} (ctor : LayerDescription → Outcome (Layer V))
    (handles created : Bool) (phase : Phase) (architecture_obj : List LayerDescription)
    (net : Net (Layer V) V)
    (hctor : ∀ p layer, ctor p = .ok layer → layer.in_ = [] ∧ layer.out = [])
    (h : Net.init ctor handles created phase architecture_obj = .ok net) :
    (net.responses.map fun r => r.name).Nodup ∧
    (net.responses.map fun r => r.name) = firstReferences (referencedNames architecture_obj) ∧
    (∀ name, name ∈ referencedNames architecture_obj →
      ∃ r : Nat, (net.responses[r]?).map (fun (e : Response V) => e.name) = some name ∧
        ∀ r1 : Nat, (net.responses[r1]?).map (fun (e : Response V) => e.name) = some name →
          r1 = r) ∧
    net.layers.length = architecture_obj.length ∧
    ∀ (l : Nat) (p : LayerDescription) (layer : Layer V),
      architecture_obj[l]? = some p → net.layers[l]? = some layer →
      referredNames net.responses layer.out = (p.out.getD []).map some ∧
      referredNames net.responses layer.in_ = (p.in_.getD []).map some := by
  unfold Net.init at h
  split_ifs at h
  obtain ⟨hn, hw⟩ := Net.initLoop_spec ctor created hctor architecture_obj []
    { phase := phase, layers := [], responses := [] } net (by simp [referencedNames, firstReferences])
    List.Forall₂.nil h
  rw [List.nil_append] at hn hw
  have hnodup : (net.responses.map fun r => r.name).Nodup := by
    rw [hn]; exact nodup_firstReferences _
  refine ⟨hnodup, hn, ?_, hw.length_eq.symm, ?_⟩
  · intro name hname
    have hmem : name ∈ net.responses.map fun r => r.name := by
      rw [hn, mem_firstReferences]; exact hname
    obtain ⟨⟨r, hr⟩, hrn⟩ := List.get_of_mem hmem
    have hrlen : r < net.responses.length := by simpa using hr
    have hget : ∀ (k : Nat) (hk : k < (net.responses.map fun r => r.name).length),
        (net.responses[k]?).map (fun (e : Response V) => e.name)
          = some ((net.responses.map fun r => r.name).get ⟨k, hk⟩) := by
      intro k hk
      have hk2 : k < net.responses.length := by simpa using hk
      simp [List.getElem?_eq_getElem hk2]
    refine ⟨r, by rw [hget r hr, hrn], ?_⟩
    intro r1 h1
    have hlt1 : r1 < (net.responses.map fun r => r.name).length := by
      by_contra hc
      simp only [List.length_map, not_lt] at hc
      rw [List.getElem?_eq_none hc] at h1
      simp at h1
    rw [hget r1 hlt1] at h1
    simp only [Option.some.injEq] at h1
    have := (List.Nodup.get_inj_iff hnodup).mp (h1.trans hrn.symm)
    exact Fin.mk.inj this
  · intro l p layer hp hl
    have := List.Forall₂.get hw
    have hlt : l < architecture_obj.length := by
      by_contra hc
      rw [List.getElem?_eq_none (by omega)] at hp
      exact absurd hp (by simp)
    have hlt2 : l < net.layers.length := by rw [← hw.length_eq]; exact hlt
    have hwl := List.Forall₂.get hw hlt hlt2
    rw [List.getElem?_eq_getElem hlt] at hp
    rw [List.getElem?_eq_getElem hlt2] at hl
    simp only [Option.some.injEq] at hp hl
    simp only [List.get_eq_getElem] at hwl
    rw [hp, hl] at hwl
    exact hwl

/-- Witness of **C21**: the description `data -> conv -> relu (in place)` with a loss; the net
has the three Edges `data`, `label`, `conv`. -/
theorem Net.init_edges_witness :
    ∃ net : Net (Layer Int) Int,
      Net.init exampleCtor true true .Training exampleDescription = .ok net ∧
      (net.responses.map fun r => r.name).Nodup ∧
      (net.responses.map fun r => r.name) = firstReferences (referencedNames exampleDescription) ∧
      firstReferences (referencedNames exampleDescription) = ["data", "label", "conv"] ∧
      net.layers.length = exampleDescription.length := by
  have hok : ((Net.init exampleCtor true true .Training exampleDescription).bind fun net =>
      .ok (net.responses.map fun r => r.name)) = Outcome.ok ["data", "label", "conv"] := by
    decide
  cases h : Net.init exampleCtor true true .Training exampleDescription with
  | fatal => rw [h] at hok; exact absurd hok (by simp [Outcome.bind])
  | undefined => rw [h] at hok; exact absurd hok (by simp [Outcome.bind])
  | ok net =>
    have hspec := Net.init_edges exampleCtor true true .Training exampleDescription net
      (fun p layer hp => by
        simp only [exampleCtor, Outcome.ok.injEq] at hp
        rw [← hp]
        exact ⟨rfl, rfl⟩) h
    exact ⟨net, rfl, hspec.1, hspec.2.1, by decide, hspec.2.2.2.1⟩

/-! ## C27: `need_diff` and `diffGPU` of a response with two writers -/

/-- A call of `Response::Malloc` on a response without a data block leaves `diffGPU` allocated
exactly when `need_diff` is set, if `diffGPU` was null before (as the constructor leaves
it). -/
theorem Response.Malloc_first {V : Type} (dev : Device V) (self r1 : Response V)
    (dim_ : List Int) (b : Nat) (hdata : self.dataGPU = none) (hdiff : self.diffGPU = none)
    (h : Response.Malloc dev self dim_ = .ok (b, r1)) :
    r1.dataGPU.isSome = true ∧ r1.need_diff = self.need_diff ∧
    r1.diffGPU.isSome = self.need_diff := by
  unfold Response.Malloc at h
  rw [hdata] at h
  dsimp only at h
  split_ifs at h with h1 h2 h3 h4 h5
  · simp only [Outcome.ok.injEq, Prod.mk.injEq] at h
    rw [← h.2]
    simp [h5]
  · simp only [Outcome.ok.injEq, Prod.mk.injEq] at h
    rw [← h.2]
    simp only [Bool.not_eq_true] at h5
    simp [h5, hdiff]

/-- The statements `out->need_diff = nd; out->Malloc(dim)` on a response that already has its
data block: the blocks stay as they are and the flag becomes `nd`, whatever it was. -/
theorem outMalloc_allocated {V : Type} (dev : Device V) (rs : List (Response V)) (oi : Nat)
    (nd : Bool) (dim : List Int) (r : Response V) (buf : List V)
    (hr : rs[oi]? = some r) (hdata : r.dataGPU = some buf) (hdim : same_dim r.dim dim = true) :
    outMalloc dev rs oi nd dim = .ok (0, rs.set oi { r with need_diff := nd }) := by
  unfold outMalloc
  rw [hr]
  simp only [Response.Malloc, hdata, hdim, Bool.true_eq_false, if_false, Outcome.bind]

/-- **C27.** The invariant "an allocated Edge owns a gradient buffer exactly when its
`need_diff` flag is set" fails when two layers write to the same Edge and set the flag
differently. In the net `data -> convA -> conv`, `data -> convB -> conv`: with `convA` not
trained and `convB` trained, `Net::Malloc` returns and `conv` has `need_diff` set but no
gradient block (`diffGPU` is null); with `convA` trained and `convB` not, `conv` has a gradient
block but `need_diff` is false. With the same flag in both layers the two agree. -/
theorem Net.Malloc_shared_need_diff :
    Net.allocations (sharedEdgeNet false true) .Training
      = .ok [("data", [10, 3, 6, 6], true, false, false),
             ("label", [10, 1, 1, 1], true, false, false),
             ("conv", [10, 4, 4, 4], true, true, false)] ∧
    Net.allocations (sharedEdgeNet true false) .Training
      = .ok [("data", [10, 3, 6, 6], true, false, false),
             ("label", [10, 1, 1, 1], true, false, false),
             ("conv", [10, 4, 4, 4], true, false, true)] ∧
    Net.allocations (sharedEdgeNet true true) .Training
      = .ok [("data", [10, 3, 6, 6], true, false, false),
             ("label", [10, 1, 1, 1], true, false, false),
             ("conv", [10, 4, 4, 4], true, true, true)] ∧
    Net.allocations (sharedEdgeNet false false) .Training
      = .ok [("data", [10, 3, 6, 6], true, false, false),
             ("label", [10, 1, 1, 1], true, false, false),
             ("conv", [10, 4, 4, 4], true, false, false)] := by
  refine ⟨by decide, by decide, by decide, by decide⟩

/-! ## C25: the index recorded by ROI pooling forward and the one tested by backward -/

set_option maxRecDepth 100000 in
/-- **C25.** ROI pooling backward does not add the output gradient to the element that forward
selected unless that element lies in the plane of batch index 0 and channel 0: forward records
the index of the element in the whole input (`in_offset + h * width + w`), backward compares
the recorded index with the index inside one plane (`h * width + w`). Runs of the forward and
then the backward launch, with all gradients of the input zero before:
(1) 2-D, one image with two channels of 2 x 2, one ROI over the whole image pooled to 1 x 1:
forward selects the elements 1 (channel 0) and 6 (channel 1); backward adds the gradient 10 of
the first cell to element 1 and the gradient 20 of the second cell to no element.
(2) 2-D, two images with one channel of 1 x 1 and one ROI on each: the gradient of the cell
of the ROI on image 1 is added to no element.
(3) 3-D, one image with two channels of 1 x 1 x 1: the gradient of the cell of channel 1 is
added to no element. -/
theorem ROIPoolingLayer.backward_argmax_mismatch :
    ROIPoolingLayer.forwardBackward ratPool 1 [1, 1] [1, 2, 2, 2] [1, 5, 1, 1] [1, 2, 1, 1]
      [1, 9, 3, 4, 2, 3, 8, 1] [0, 0, 1, 0, 1] [0, 0] (some [0, 0])
      [0, 0, 0, 0, 0, 0, 0, 0] [10, 20]
      = .ok ([9, 8], some [1, 6], [0, 10, 0, 0, 0, 0, 0, 0]) ∧
    ROIPoolingLayer.forwardBackward ratPool 1 [1, 1] [2, 1, 1, 1] [2, 5, 1, 1] [2, 1, 1, 1]
      [5, 7] [0, 0, 0, 0, 0, 1, 0, 0, 0, 0] [0, 0] (some [0, 0]) [0, 0] [10, 20]
      = .ok ([5, 7], some [0, 1], [10, 0]) ∧
    ROIPoolingLayer.forwardBackward ratPool 1 [1, 1, 1] [1, 2, 1, 1, 1] [1, 7, 1, 1]
      [1, 2, 1, 1, 1] [5, 7] [0, 0, 0, 0, 0, 0, 0] [0, 0] (some [0, 0]) [0, 0] [10, 20]
      = .ok ([5, 7], some [0, 1], [10, 0]) := by
  refine ⟨by decide!, by decide!, by decide!⟩

/-! ## C24: when the update of an iteration is applied -/

theorem bsa2b_eq {V C : Type} (A : Compute V C) (N : Nat) (as bs : List V)
    (ha : N ≤ as.length) (hb : N ≤ bs.length) (hN : 0 < N) :
    bsa2b A N (some as) (some bs) = .ok (some (bsa2bResult A N as bs)) := by
  unfold bsa2b bsa2bResult
  rw [if_neg (by omega)]
  simp only
  rw [if_neg (by omega)]

theorem bsa2bResult_length {V C : Type} (A : Compute V C) (N : Nat) (as bs : List V)
    (ha : N ≤ as.length) : (bsa2bResult A N as bs).length = bs.length := by
  unfold bsa2bResult
  simp only [List.length_append, List.length_zipWith, List.length_take, List.length_drop]
  omega

theorem bsa2bResult_take {V C : Type} (A : Compute V C) (N : Nat) (as as1 bs : List V)
    (h : as1.take N = as.take N) : bsa2bResult A N as1 bs = bsa2bResult A N as bs := by
  unfold bsa2bResult
  rw [h]

theorem bsa2bResult_cells {V C : Type} (A : Compute V C) (N : Nat) (as bs : List V)
    (i : Nat) (hi : i < N) (w h : V) (hw : bs[i]? = some w) (hh : as[i]? = some h) :
    (bsa2bResult A N as bs)[i]? = some (A.GPUCompute2StorageT
      (A.sub (A.GPUStorage2ComputeT w) (A.GPUStorage2ComputeT h))) := by
  have hb : i < bs.length := by
    by_contra hc
    rw [List.getElem?_eq_none (by omega)] at hw
    exact absurd hw (by simp)
  have ha : i < as.length := by
    by_contra hc
    rw [List.getElem?_eq_none (by omega)] at hh
    exact absurd hh (by simp)
  unfold bsa2bResult
  have hl : i < (List.zipWith
      (fun bv av => A.GPUCompute2StorageT
        (A.sub (A.GPUStorage2ComputeT bv) (A.GPUStorage2ComputeT av)))
      (bs.take N) (as.take N)).length := by
    simp only [List.length_zipWith, List.length_take]; omega
  rw [List.getElem?_append_left hl, List.getElem?_zipWith,
    List.getElem?_take_of_lt hi, List.getElem?_take_of_lt hi, hw, hh]

theorem Net.stepTrainParam_eq {V C : Type} (A : Compute V C) (N : Nat)
    (grad : Nat → Int → List V → Nat → V) (iter : Int) (st : ParamTrain V) (n : Nat)
    (w : List V) (hw : st.weights[n]? = some w) (hN : 0 < N) (hwl : N ≤ w.length)
    (hr : N * (n + 1) + N ≤ st.region.length) :
    Net.stepTrainParam A N grad iter st n
      = .ok { weights := st.weights.set n (bsa2bResult A N st.region w),
              region := st.region.take (N * (n + 1))
                ++ gradSlot N grad iter n (bsa2bResult A N st.region w)
                ++ st.region.drop (N * (n + 1) + N) } := by
  have hrl : N ≤ st.region.length := by nlinarith
  unfold Net.stepTrainParam
  rw [hw]
  simp only [Layer.update, if_true, hN, gt_iff_lt, Option.isSome_some, and_self,
    bsa2b_eq A N st.region w hrl hwl hN, Outcome.bind, Nat.lt_irrefl, false_and, if_false]
  rw [if_neg (by omega)]
  rfl

theorem length_flatMap_gradSlot {V : Type} (N : Nat) (grad : Nat → Int → List V → Nat → V)
    (iter : Int) (f : Nat → List V) :
    ∀ k, ((List.range k).flatMap fun n => gradSlot N grad iter n (f n)).length = N * k := by
  intro k
  induction k with
  | zero => simp
  | succ k ih =>
    rw [List.range_succ, List.flatMap_append, List.length_append, ih]
    simp [gradSlot, Nat.mul_succ]

theorem Solver.stepTrainAll_initial {V C : Type} (A : Compute V C) (N : Nat)
    (grad : Nat → Int → List V → Nat → V) (iter : Int) (st : ParamTrain V) (hN : 0 < N)
    (hw : ∀ w ∈ st.weights, N ≤ w.length)
    (hr : st.region.length = (st.weights.length + 1) * N) :
    ∀ k, k ≤ st.weights.length →
      (List.range k).foldl
          (fun (o : Outcome (ParamTrain V)) n =>
            o.bind fun s => Net.stepTrainParam A N grad iter s n) (Outcome.ok st)
        = Outcome.ok (ParamTrain.mk
            ((st.weights.take k).map (bsa2bResult A N st.region) ++ st.weights.drop k)
            (st.region.take N
              ++ ((List.range k).flatMap fun n =>
                    gradSlot N grad iter n (bsa2bResult A N st.region (st.weights.getD n [])))
              ++ st.region.drop (N * (k + 1)))) := by
  intro k
  induction k with
  | zero =>
    intro _
    simp only [List.range_zero, List.foldl_nil, List.take_zero, List.map_nil, List.nil_append,
      List.drop_zero, List.flatMap_nil, List.append_nil, Nat.zero_add, Nat.mul_one,
      List.take_append_drop]
  | succ k ih =>
    intro hk
    have hkm : k < st.weights.length := by omega
    rw [List.range_succ, List.foldl_append, ih (by omega)]
    simp only [List.foldl_cons, List.foldl_nil, Outcome.bind]
    have hwk : st.weights[k]? = some st.weights[k] := List.getElem?_eq_getElem hkm
    have hNr : N ≤ st.region.length := by rw [hr]; nlinarith
    have hlenP : (st.region.take N).length = N := by
      rw [List.length_take]; omega
    have hlenB := length_flatMap_gradSlot N grad iter
      (fun n => bsa2bResult A N st.region (st.weights.getD n [])) k
    have hlenW : ((st.weights.take k).map (bsa2bResult A N st.region)).length = k := by
      rw [List.length_map, List.length_take]; omega
    have hget : ((st.weights.take k).map (bsa2bResult A N st.region)
        ++ st.weights.drop k)[k]? = some st.weights[k] := by
      rw [List.getElem?_append_right (by omega), hlenW, Nat.sub_self, List.getElem?_drop,
        Nat.add_zero, hwk]
    have hkN : N * (k + 1) + N ≤ (st.weights.length + 1) * N := by nlinarith
    have hregion : N * (k + 1) + N ≤ (st.region.take N
        ++ ((List.range k).flatMap fun n =>
              gradSlot N grad iter n (bsa2bResult A N st.region (st.weights.getD n [])))
        ++ st.region.drop (N * (k + 1))).length := by
      rw [List.length_append, List.length_append, hlenP, hlenB, List.length_drop, hr]
      have : N * (k + 1) = N + N * k := by ring
      omega
    rw [Net.stepTrainParam_eq A N grad iter _ k st.weights[k] hget hN
      (hw _ (List.getElem_mem _)) hregion]
    have htake : (st.region.take N
        ++ ((List.range k).flatMap fun n =>
              gradSlot N grad iter n (bsa2bResult A N st.region (st.weights.getD n [])))
        ++ st.region.drop (N * (k + 1))).take N = st.region.take N := by
      rw [List.append_assoc, List.take_left' hlenP]
    have hf := bsa2bResult_take A N st.region _ st.weights[k] htake
    simp only [hf]
    congr 1
    have hgetD : st.weights.getD k [] = st.weights[k] := by
      rw [List.getD_eq_getElem?_getD, hwk]; rfl
    congr 1
    · -- the weights
      have hd : st.weights.drop k = st.weights[k] :: st.weights.drop (k + 1) :=
        List.drop_eq_getElem_cons hkm
      have ht : st.weights.take (k + 1) = st.weights.take k ++ [st.weights[k]] := by
        rw [List.take_succ, hwk]; rfl
      rw [hd, ht, List.map_append, List.map_singleton, List.set_append_right _ _ (by omega),
        hlenW, Nat.sub_self, List.set_cons_zero, List.append_assoc, List.singleton_append]
    · -- the region
      have h1 : (st.region.take N
          ++ ((List.range k).flatMap fun n =>
                gradSlot N grad iter n (bsa2bResult A N st.region (st.weights.getD n [])))
          ++ st.region.drop (N * (k + 1))).take (N * (k + 1))
          = st.region.take N
          ++ ((List.range k).flatMap fun n =>
                gradSlot N grad iter n (bsa2bResult A N st.region (st.weights.getD n []))) := by
        apply List.take_left'
        rw [List.length_append, hlenP, hlenB]; ring
      have h2 : (st.region.take N
          ++ ((List.range k).flatMap fun n =>
                gradSlot N grad iter n (bsa2bResult A N st.region (st.weights.getD n [])))
          ++ st.region.drop (N * (k + 1))).drop (N * (k + 1) + N)
          = st.region.drop (N * (k + 1 + 1)) := by
        have hl : (st.region.take N
          ++ ((List.range k).flatMap fun n =>
                gradSlot N grad iter n
                  (bsa2bResult A N st.region (st.weights.getD n [])))).length
            = N * (k + 1) := by
          rw [List.length_append, hlenP, hlenB]; ring
        rw [← hl, List.drop_append, List.drop_drop, hl]
        congr 1
      rw [h1, h2, List.flatMap_append, List.flatMap_singleton, hgetD]
      simp only [List.append_assoc]

theorem Solver.stepTrainAll_eq {V C : Type} (A : Compute V C) (N : Nat)
    (grad : Nat → Int → List V → Nat → V) (iter : Int) (st : ParamTrain V) (hN : 0 < N)
    (hw : ∀ w ∈ st.weights, N ≤ w.length)
    (hr : st.region.length = (st.weights.length + 1) * N) :
    Solver.stepTrainAll A N grad iter st
      = Outcome.ok (ParamTrain.mk
          (st.weights.map (bsa2bResult A N st.region))
          (st.region.take N
            ++ ((List.range st.weights.length).flatMap fun n =>
                  gradSlot N grad iter n
                    (bsa2bResult A N st.region (st.weights.getD n []))))) := by
  unfold Solver.stepTrainAll
  rw [Solver.stepTrainAll_initial A N grad iter st hN hw hr st.weights.length (le_refl _)]
  have h1 : st.region.drop (N * (st.weights.length + 1)) = [] := by
    apply List.drop_eq_nil_of_le
    rw [hr, Nat.mul_comm]
  rw [h1, List.take_length, List.drop_length, List.append_nil, List.append_nil]

theorem getElem?_flatMap_block {V : Type} (N : Nat) (h : Nat → Nat → V) :
    ∀ (m n i : Nat), n < m → i < N →
      ((List.range m).flatMap fun n => (List.range N).map (h n))[N * n + i]? = some (h n i) := by
  intro m
  induction m with
  | zero => intro n i hn; omega
  | succ m ih =>
    intro n i hn hi
    have hlen : ∀ k, ((List.range k).flatMap fun n => (List.range N).map (h n)).length
        = N * k := by
      intro k
      induction k with
      | zero => simp
      | succ k ihk =>
        rw [List.range_succ, List.flatMap_append, List.length_append, ihk]
        simp [Nat.mul_succ]
    rw [List.range_succ, List.flatMap_append]
    by_cases hnm : n < m
    · rw [List.getElem?_append_left (by rw [hlen]; nlinarith)]
      exact ih n i hnm hi
    · have hnm1 : n = m := by omega
      subst hnm1
      rw [List.getElem?_append_right (by rw [hlen]; omega), hlen, Nat.add_sub_cancel_left,
        List.flatMap_singleton, List.getElem?_map, List.getElem?_range hi]
      rfl

theorem Solver.updateParam_ok {V C : Type} (M : HostCompute C) (A : Compute V C)
    (cfg : ParamConfig C) (lrate : C) (st : ParamTrain V) (w0 : List V)
    (hN : 0 < cfg.weight_numel) (hl : cfg.launched = true) (hw0 : st.weights[0]? = some w0)
    (hwl : cfg.weight_numel ≤ w0.length)
    (hr : st.region.length = (st.weights.length + 1) * cfg.weight_numel)
    (hfit : (st.weights.length + 1) * cfg.weight_numel < 2 ^ 64)
    (hn : (st.weights.length : Int) < INT_MAX) :
    ∃ g, Solver.updateParam M A cfg lrate st = .ok { st with region := g } ∧
      g.length = st.region.length ∧
      ∀ i, i < cfg.weight_numel → ∀ w h, w0[i]? = some w → st.region[i]? = some h →
        g[i]? = some (sgdl2Rule A (M.mul cfg.weight_decay cfg.weight_decay_mult) cfg.momentum
          (M.mul lrate cfg.weight_lr_mult) w h
          ((List.range' 1 st.weights.length).filterMap fun k =>
            (slot cfg.weight_numel st.region k)[i]?)) := by
  obtain ⟨g, hg, hgl, hdone, _⟩ :=
    update_SGDL2_loop A cfg.weight_numel st.weights.length
      (M.mul cfg.weight_decay cfg.weight_decay_mult) cfg.momentum
      (M.mul lrate cfg.weight_lr_mult) w0 st.region hwl hr hfit cfg.weight_numel (le_refl _)
  refine ⟨g, ?_, hgl, hdone⟩
  unfold Solver.updateParam update_SGDL2
  rw [hw0]
  simp only
  rw [if_neg (by omega), if_neg (by omega), hg]
  simp [Outcome.bind, hl]

theorem Solver.learning_rate_frame {C : Type} (M : HostCompute C) (s : Solver C)
    (h : s.lr_policy = .LR_step → 0 < s.lr_stepsize) :
    ∃ r, Solver.learning_rate M s = .ok r ∧ r.2.iter = s.iter ∧ r.2.max_iter = s.max_iter ∧
      r.2.lr_policy = s.lr_policy ∧ r.2.lr_stepsize = s.lr_stepsize := by
  unfold Solver.learning_rate
  cases hp : s.lr_policy with
  | LR_step =>
    have h0 := h hp
    simp only
    rw [if_neg (by omega), if_neg (by omega)]
    exact ⟨_, rfl, rfl, rfl, hp.symm ▸ rfl, rfl⟩
  | LR_fixed => exact ⟨_, rfl, rfl, rfl, hp, rfl⟩
  | LR_exp => exact ⟨_, rfl, rfl, rfl, hp, rfl⟩
  | LR_inv => exact ⟨_, rfl, rfl, rfl, hp, rfl⟩
  | LR_multistep => exact ⟨_, rfl, rfl, rfl, rfl, rfl⟩
  | LR_poly => exact ⟨_, rfl, rfl, rfl, hp, rfl⟩
  | LR_sigmoid => exact ⟨_, rfl, rfl, rfl, hp, rfl⟩
  | LR_cyclical => exact ⟨_, rfl, rfl, rfl, hp, rfl⟩

theorem slot_gradients {V : Type} (N m : Nat) (grad : Nat → Int → List V → Nat → V)
    (iter : Int) (F : Nat → List V) (P : List V) (hP : P.length = N) (j : Nat) (hj : j < N) :
    ((List.range' 1 m).filterMap fun k =>
        (slot N (P ++ (List.range m).flatMap fun n => gradSlot N grad iter n (F n)) k)[j]?)
      = (List.range m).map fun n => grad n iter (F n) j := by
  rw [List.range'_eq_map_range, List.filterMap_map]
  rw [List.filterMap_congr (g := fun n => some (grad n iter (F n) j))]
  · exact congrFun (List.filterMap_eq_map (fun n => grad n iter (F n) j)) (List.range m)
  · intro n hn
    rw [List.mem_range] at hn
    simp only [Function.comp]
    rw [getElem?_slot N _ _ j hj, List.getElem?_append_right (by rw [hP]; nlinarith), hP]
    have : N * (1 + n) + j - N = N * n + j := by
      rw [Nat.mul_add, Nat.mul_one]; omega
    rw [this]
    exact getElem?_flatMap_block N (fun n => grad n iter (F n)) m n j hn hj

theorem Solver.trainParam_round {V C : Type} (M : HostCompute C) (A : Compute V C)
    (cfg : ParamConfig C) (grad : Nat → Int → List V → Nat → V) (iter_begin : Int)
    (s : Solver C) (st : ParamTrain V) (hN : 0 < cfg.weight_numel)
    (hl : cfg.launched = true) (hsnap : 0 < cfg.snapshot_iter)
    (hst : st.sized cfg.weight_numel)
    (hlr : s.lr_policy = .LR_step → 0 < s.lr_stepsize) :
    ∃ st1 r st2 snap,
      Solver.stepTrainAll A cfg.weight_numel grad s.iter st = .ok st1 ∧
      Solver.learning_rate M s = .ok r ∧
      (r.2.iter = s.iter ∧ r.2.max_iter = s.max_iter ∧ r.2.lr_policy = s.lr_policy ∧
        r.2.lr_stepsize = s.lr_stepsize) ∧
      Solver.updateParam M A cfg r.1 st1 = .ok st2 ∧
      Solver.snapshotParam s.iter iter_begin cfg.snapshot_iter st2 = .ok snap ∧
      st2.sized cfg.weight_numel ∧
      TrainRecord.round M A cfg grad iter_begin
        { iter := s.iter, start := st, passes := st1.weights, lrate := r.1, finish := st2,
          snapshot := snap } := by
  obtain ⟨hm, hw, hr, hfit, hn⟩ := hst
  have hNr : cfg.weight_numel ≤ st.region.length := by rw [hr]; nlinarith
  have hstep := Solver.stepTrainAll_eq A cfg.weight_numel grad s.iter st hN
    (fun w hw1 => le_of_eq (hw w hw1).symm) hr
  obtain ⟨r, hr1, hrf⟩ := Solver.learning_rate_frame M s hlr
  have hw0 : st.weights[0]? = some st.weights[0] := List.getElem?_eq_getElem hm
  have hlenP : (st.region.take cfg.weight_numel).length = cfg.weight_numel := by
    rw [List.length_take]; omega
  have hlenX := length_flatMap_gradSlot cfg.weight_numel grad s.iter
    (fun n => bsa2bResult A cfg.weight_numel st.region (st.weights.getD n []))
    st.weights.length
  generalize hst1 : ParamTrain.mk
      (st.weights.map (bsa2bResult A cfg.weight_numel st.region))
      (st.region.take cfg.weight_numel
        ++ ((List.range st.weights.length).flatMap fun n =>
              gradSlot cfg.weight_numel grad s.iter n
                (bsa2bResult A cfg.weight_numel st.region (st.weights.getD n [])))) = st1
    at hstep
  have hW : st1.weights = st.weights.map (bsa2bResult A cfg.weight_numel st.region) := by
    rw [← hst1]
  have hR : st1.region = st.region.take cfg.weight_numel
        ++ ((List.range st.weights.length).flatMap fun n =>
              gradSlot cfg.weight_numel grad s.iter n
                (bsa2bResult A cfg.weight_numel st.region (st.weights.getD n []))) := by
    rw [← hst1]
  have hWl : st1.weights.length = st.weights.length := by rw [hW, List.length_map]
  have hRl : st1.region.length = (st1.weights.length + 1) * cfg.weight_numel := by
    rw [hR, List.length_append, hlenP, hlenX, hWl]; ring
  have hW0 : st1.weights[0]? = some (bsa2bResult A cfg.weight_numel st.region st.weights[0]) := by
    rw [hW, List.getElem?_map, hw0]; rfl
  have hlen0 : (bsa2bResult A cfg.weight_numel st.region st.weights[0]).length
      = cfg.weight_numel := by
    rw [bsa2bResult_length A _ _ _ hNr]
    exact hw _ (List.getElem_mem _)
  obtain ⟨g, hg, hgl, hcells⟩ := Solver.updateParam_ok M A cfg r.1 st1 _ hN hl hW0
    (le_of_eq hlen0.symm) hRl (by rw [hWl]; exact hfit) (by rw [hWl]; exact hn)
  have hsized : ParamTrain.sized cfg.weight_numel { st1 with region := g } := by
    refine ⟨by show 0 < st1.weights.length; omega, ?_, ?_, ?_, ?_⟩
    · intro w hw1
      have hw2 : w ∈ st1.weights := hw1
      rw [hW, List.mem_map] at hw2
      obtain ⟨w3, hw3, hw4⟩ := hw2
      rw [← hw4, bsa2bResult_length A _ _ _ hNr]
      exact hw w3 hw3
    · show g.length = (st1.weights.length + 1) * cfg.weight_numel
      rw [hgl, hRl]
    · show (st1.weights.length + 1) * cfg.weight_numel < 2 ^ 64
      rw [hWl]; exact hfit
    · show (st1.weights.length : Int) < INT_MAX
      rw [hWl]; exact hn
  have hsnapOk : Solver.snapshotParam s.iter iter_begin cfg.snapshot_iter
      { st1 with region := g }
      = .ok (if s.iter ≠ iter_begin ∧ Int.tmod s.iter cfg.snapshot_iter = 0
             then st1.weights[0]? else none) := by
    unfold Solver.snapshotParam
    by_cases h1 : s.iter ≠ iter_begin
    · rw [if_pos h1, if_neg (by omega)]
      by_cases h2 : Int.tmod s.iter cfg.snapshot_iter = 0
      · rw [if_pos h2, if_pos ⟨h1, h2⟩]
        simp only [hW0]
      · rw [if_neg h2, if_neg (fun h => h2 h.2)]
    · rw [if_neg h1, if_neg (fun h => h1 h.1)]
  refine ⟨st1, r, { st1 with region := g }, _, hstep, hr1, hrf, hg, hsnapOk, hsized, ?_⟩
  refine ⟨hW, rfl, rfl, ?_, ?_⟩
  · show g.length = st.region.length
    rw [hgl, hRl, hWl, hr]
  · intro j hj w1 x h hw1 hx hh
    have hw1b : st1.weights[0]? = some w1 := hw1
    rw [hW0] at hw1b
    have hw1c : bsa2bResult A cfg.weight_numel st.region st.weights[0] = w1 :=
      Option.some.inj hw1b
    have hh1 : st1.region[j]? = some h := by
      rw [hR, List.getElem?_append_left (by rw [hlenP]; exact hj),
        List.getElem?_take_of_lt hj]
      exact hh
    have hcell := hcells j hj x h (by rw [hw1c]; exact hx) hh1
    show g[j]? = _
    rw [hcell]
    congr 2
    have hslots := slot_gradients cfg.weight_numel st.weights.length grad s.iter
      (fun n => bsa2bResult A cfg.weight_numel st.region (st.weights.getD n []))
      (st.region.take cfg.weight_numel) hlenP j hj
    rw [hWl, hR, hslots]
    unfold replicaGradients
    show _ = (List.range st1.weights.length).map _
    rw [hWl]
    apply List.map_congr_left
    intro n hn
    rw [List.mem_range] at hn
    have hgn : st.weights[n]? = some st.weights[n] := List.getElem?_eq_getElem hn
    have h1 : st.weights.getD n [] = st.weights[n] := by
      rw [List.getD_eq_getElem?_getD, hgn]; rfl
    have h2 : st1.weights.getD n []
        = bsa2bResult A cfg.weight_numel st.region st.weights[n] := by
      rw [List.getD_eq_getElem?_getD, hW, List.getElem?_map, hgn]; rfl
    simp only [h1, h2]

theorem Solver.trainParamLoop_ok {V C : Type} (M : HostCompute C) (A : Compute V C)
    (cfg : ParamConfig C) (grad : Nat → Int → List V → Nat → V) (iter_begin : Int)
    (hN : 0 < cfg.weight_numel) (hl : cfg.launched = true) (hsnap : 0 < cfg.snapshot_iter) :
    ∀ (fuel : Nat) (s : Solver C) (st : ParamTrain V) (log : List (TrainRecord V C)),
      st.sized cfg.weight_numel → (s.lr_policy = .LR_step → 0 < s.lr_stepsize) →
      s.max_iter < INT_MAX →
      ∃ s1 st1 recs,
        Solver.trainParamLoop M A cfg grad iter_begin fuel s st log
          = .ok (s1, st1, log ++ recs) ∧
        recs.length = min fuel (s.max_iter - s.iter + 1).toNat ∧
        trainChain
          (fun r => r.start.sized cfg.weight_numel ∧
            TrainRecord.round M A cfg grad iter_begin r)
          s.iter st recs st1 := by
  intro fuel
  induction fuel with
  | zero =>
    intro s st log _ _ _
    exact ⟨s, st, [], by simp [Solver.trainParamLoop], by simp, rfl⟩
  | succ fuel ih =>
    intro s st log hst hlr hmax
    by_cases hle : s.iter ≤ s.max_iter
    · obtain ⟨st1, r, st2, snap, h1, h2, hrf, h3, h4, hsized, hround⟩ :=
        Solver.trainParam_round M A cfg grad iter_begin s st hN hl hsnap hst hlr
      obtain ⟨hri, hrm, hrp, hrs⟩ := hrf
      have hnot : ¬ INT_MAX ≤ r.2.iter := by rw [hri]; omega
      obtain ⟨s1, stf, recs, hloop, hlen, hchain⟩ :=
        ih { r.2 with iter := r.2.iter + 1 } st2
          (log ++ [{ iter := s.iter, start := st, passes := st1.weights, lrate := r.1,
                     finish := st2, snapshot := snap }])
          hsized (by show r.2.lr_policy = .LR_step → 0 < r.2.lr_stepsize
                     rw [hrp, hrs]; exact hlr)
          (by show r.2.max_iter < INT_MAX
              rw [hrm]; exact hmax)
      refine ⟨s1, stf,
        { iter := s.iter, start := st, passes := st1.weights, lrate := r.1,
          finish := st2, snapshot := snap } :: recs, ?_, ?_, ?_⟩
      · rw [Solver.trainParamLoop, if_pos hle, h1]
        simp only [Outcome.bind, h2, h3, h4, if_neg hnot]
        rw [hloop, List.append_assoc, List.singleton_append]
      · rw [List.length_cons, hlen]
        show min fuel (r.2.max_iter - (r.2.iter + 1) + 1).toNat + 1 = _
        rw [hrm, hri]
        omega
      · refine ⟨rfl, rfl, ⟨hst, hround⟩, ?_⟩
        have : s.iter + 1 = r.2.iter + 1 := by rw [hri]
        rw [this]
        exact hchain
    · refine ⟨s, st, [], ?_, ?_, rfl⟩
      · rw [Solver.trainParamLoop, if_neg hle, List.append_nil]
      · have : (s.max_iter - s.iter + 1).toNat = 0 := by omega
        rw [this]; simp

theorem trainChain_index {V C : Type} (P : TrainRecord V C → Prop) :
    ∀ (recs : List (TrainRecord V C)) (iter : Int) (st st1 : ParamTrain V),
      trainChain P iter st recs st1 →
      (∀ r, recs[0]? = some r → r.start = st) ∧
      (∀ (i : Nat) r r1, recs[i]? = some r → recs[i + 1]? = some r1 → r1.start = r.finish) ∧
      (∀ r, recs.getLast? = some r → st1 = r.finish) ∧
      (∀ (i : Nat) r, recs[i]? = some r → r.iter = iter + (i : Int) ∧ P r) := by
  intro recs
  induction recs with
  | nil =>
    intro iter st st1 _
    refine ⟨?_, ?_, ?_, ?_⟩
    · intro r h; simp at h
    · intro i r r1 h; simp at h
    · intro r h; simp at h
    · intro i r h; simp at h
  | cons r0 rs ih =>
    intro iter st st1 h
    obtain ⟨hi, hs, hp, hc⟩ := h
    obtain ⟨ih1, ih2, ih3, ih4⟩ := ih (iter + 1) r0.finish st1 hc
    refine ⟨?_, ?_, ?_, ?_⟩
    · intro r h
      simp only [List.getElem?_cons_zero, Option.some.injEq] at h
      rw [← h]; exact hs
    · intro i r r1 h1 h2
      cases i with
      | zero =>
        simp only [List.getElem?_cons_zero, Option.some.injEq] at h1
        rw [← h1]
        exact ih1 r1 (by simpa using h2)
      | succ k =>
        exact ih2 k r r1 (by simpa using h1) (by simpa using h2)
    · intro r h
      cases rs with
      | nil =>
        simp only [List.getLast?_singleton, Option.some.injEq] at h
        rw [← h]
        exact hc
      | cons r1 rs1 =>
        rw [List.getLast?_cons_cons] at h
        exact ih3 r h
    · intro i r h
      cases i with
      | zero =>
        simp only [List.getElem?_cons_zero, Option.some.injEq] at h
        rw [← h]
        exact ⟨by simp [hi], hp⟩
      | succ k =>
        obtain ⟨h1, h2⟩ := ih4 k r (by simpa using h)
        refine ⟨?_, h2⟩
        rw [h1]; push_cast; ring

/-- **C24**, amended. A run of `Solver::train` on a parameter of a trainable layer returns, and
it makes one round for every `iter` from `iter_begin` to `max_iter`. In every round each
replica applies exactly one update to the parameter, and it applies it first, before the
gradient passes of the round: the weights of the passes are the weights at the start of the
round minus the history at the start of the round, which is the history that the round before
computed (in the first round, the history that is in the region when training starts). The
history `hist_i` that round `i` computes from the gradients of its own passes is subtracted at
the start of round `i + 1`: at the end of round `i`, and in the snapshot that round `i` writes,
the parameter has the value it had during the passes of round `i`, and the history of the
last round is not subtracted at all. -/
theorem Solver.train_update_next {V C : Type} (M : HostCompute C) (A : Compute V C)
    (cfg : ParamConfig C) (grad : Nat → Int → List V → Nat → V) (s : Solver C)
    (iter_begin : Int) (st : ParamTrain V) (hN : 0 < cfg.weight_numel)
    (hl : cfg.launched = true) (hsnap : 0 < cfg.snapshot_iter)
    (hst : st.sized cfg.weight_numel)
    (hlr : s.lr_policy = .LR_step → 0 < s.lr_stepsize) (hmax : s.max_iter < INT_MAX) :
    ∃ (s1 : Solver C) (st1 : ParamTrain V) (log : List (TrainRecord V C)),
      Solver.trainParam M A cfg grad s iter_begin st = .ok (s1, st1, log) ∧
      log.length = (s.max_iter - iter_begin + 1).toNat ∧
      (∀ r, log[0]? = some r → r.start = st) ∧
      (∀ (i : Nat) r r1, log[i]? = some r → log[i + 1]? = some r1 → r1.start = r.finish) ∧
      (∀ r, log.getLast? = some r → st1 = r.finish) ∧
      ∀ (i : Nat) r, log[i]? = some r →
        r.iter = iter_begin + (i : Int) ∧
        (∀ (n : Nat) (w : List V), r.start.weights[n]? = some w →
          ∃ w1 : List V, r.passes[n]? = some w1 ∧ w1.length = cfg.weight_numel ∧
            ∀ j, j < cfg.weight_numel → ∀ x h, w[j]? = some x → r.start.region[j]? = some h →
              w1[j]? = some (A.GPUCompute2StorageT
                (A.sub (A.GPUStorage2ComputeT x) (A.GPUStorage2ComputeT h)))) ∧
        r.finish.weights = r.passes ∧
        r.snapshot = (if r.iter ≠ iter_begin ∧ Int.tmod r.iter cfg.snapshot_iter = 0
                      then r.passes[0]? else none) ∧
        ∀ j, j < cfg.weight_numel → ∀ w1 x h, r.passes[0]? = some w1 → w1[j]? = some x →
          r.start.region[j]? = some h →
          r.finish.region[j]? = some (sgdl2Rule A
            (M.mul cfg.weight_decay cfg.weight_decay_mult) cfg.momentum
            (M.mul r.lrate cfg.weight_lr_mult) x h
            (replicaGradients grad r.iter r.passes j)) := by
  obtain ⟨s1, st1, recs, hloop, hlen, hchain⟩ :=
    Solver.trainParamLoop_ok M A cfg grad iter_begin hN hl hsnap
      (s.max_iter - iter_begin + 1).toNat { s with current_step := 0, iter := iter_begin }
      st [] hst hlr hmax
  obtain ⟨c1, c2, c3, c4⟩ := trainChain_index _ recs _ st st1 hchain
  refine ⟨s1, st1, recs, ?_, ?_, c1, c2, c3, ?_⟩
  · unfold Solver.trainParam
    rw [hloop, List.nil_append]
  · rw [hlen]
    exact Nat.min_self _
  · intro i r hr
    obtain ⟨hit, hsz, hp1, hp2, hp3, _, hp5⟩ := c4 i r hr
    obtain ⟨_, hw, hrl, _, _⟩ := hsz
    refine ⟨hit, ?_, hp2, hp3, hp5⟩
    intro n w hnw
    have hNr : cfg.weight_numel ≤ r.start.region.length := by rw [hrl]; nlinarith
    have hwl : w.length = cfg.weight_numel := hw w (List.getElem?_mem hnw)
    refine ⟨bsa2bResult A cfg.weight_numel r.start.region w, ?_, ?_, ?_⟩
    · rw [hp1, List.getElem?_map, hnw]; rfl
    · rw [bsa2bResult_length A _ _ _ hNr, hwl]
    · intro j hj x h hx hh
      exact bsa2bResult_cells A cfg.weight_numel r.start.region w j hj x h hx hh

/-- Witness of **C24**: one replica of a parameter with one element, iterations 0, 1 and 2. -/
theorem Solver.train_update_next_witness :
    ∃ (s1 : Solver Int) (st1 : ParamTrain Int) (log : List (TrainRecord Int Int)),
      Solver.trainParam intHost intCompute exampleParamConfig exampleGrad exampleSolver 0
        exampleParam = .ok (s1, st1, log) ∧
      log.length = 3 ∧
      (∀ r, log[0]? = some r → r.start = exampleParam) ∧
      (∀ (i : Nat) r r1, log[i]? = some r → log[i + 1]? = some r1 → r1.start = r.finish) := by
  obtain ⟨s1, st1, log, h1, h2, h3, h4, _⟩ :=
    Solver.train_update_next intHost intCompute exampleParamConfig exampleGrad exampleSolver 0
      exampleParam (by decide) rfl (by decide)
      ⟨by decide, by intro w hw; simp [exampleParam] at hw; rw [hw]; rfl, by decide,
        by decide, by decide⟩
      (by intro h; exact absurd h (by decide)) (by decide)
  exact ⟨s1, st1, log, h1, h2, h3, h4⟩

/-- **C24**, counterexample. One replica of a parameter with one element, decay 0,
momentum 0 and rate 1, so that the history that a round computes is the gradient of that
round, which is `iter + 1`; the weight is 10 and the history 0 when training starts, and the
iterations are 0, 1 and 2. Round 0 leaves the weight at 10 although its history is 1;
round 1 runs its passes with the weight 9 and ends with the weight 9, which is also what it
writes to the snapshot, although its history is 2; round 2 ends with the weight 7; the
history 3 of round 2 is never subtracted. The claim gives 9, 7 and 4 for the ends of the
rounds. -/
theorem Solver.train_update_lags :
    ((Solver.trainParam intHost intCompute exampleParamConfig exampleGrad exampleSolver 0
        exampleParam).bind fun r => .ok r.2)
      = .ok ({ weights := [[7]], region := [3, 3] },
             [{ iter := 0, start := { weights := [[10]], region := [0, 0] }, passes := [[10]],
                lrate := 1, finish := { weights := [[10]], region := [1, 1] },
                snapshot := none },
              { iter := 1, start := { weights := [[10]], region := [1, 1] }, passes := [[9]],
                lrate := 1, finish := { weights := [[9]], region := [2, 2] },
                snapshot := some [9] },
              { iter := 2, start := { weights := [[9]], region := [2, 2] }, passes := [[7]],
                lrate := 1, finish := { weights := [[7]], region := [3, 3] },
                snapshot := some [7] }]) := by
  decide

end marvin
